import Mathlib

/-!
# extuml: glTF scene synthesis and binary buffer engine

A shallow embedding of the Go packages `pkg/model/extuml`, `pkg/model/gltf`
and `pkg/usecase` (`geometry.go`, `text_geometry.go`, `generate.go`).

Conventions.
* Go `int` values are lengths and table indices here; they are natural numbers
  (no arithmetic in the embedded code can leave the 64-bit range for inputs
  that fit in memory).
* `uint16` and `byte` values are natural numbers, reduced `% 2 ^ 16` and
  `% 256` where the Go code converts or stores them; a `[]byte` and a
  `[]uint16` are lists of natural numbers.
* `float32` and `float64` values are represented by their IEEE-754 bit
  patterns (what `math.Float32bits` and `math.Float64bits` return); the
  arithmetic on them is the round-to-nearest-even arithmetic of section `IEEE`.
* A Go pointer `*int` is an `Option`, a slice is a `List`, a `map[string]T`
  is an association list with unique keys.
* A Go function that mutates the asset through a pointer takes the asset and
  returns the new one.
-/

set_option autoImplicit false
set_option exponentiation.threshold 2000

/-! ## IEEE-754 binary floating point on bit patterns -/

namespace IEEE

/-- Widths of the exponent and fraction fields of a binary interchange format. -/
structure Format where
  ebits : Nat
  mbits : Nat

def binary32 : Format := ⟨8, 23⟩

def binary64 : Format := ⟨11, 52⟩

def Format.bias (f : Format) : Nat := 2 ^ (f.ebits - 1) - 1

/-- Every finite value of the format is `n / 2 ^ scaleExp` for a natural `n`. -/
def Format.scaleExp (f : Format) : Nat := f.bias + f.mbits - 1

/-- Bit pattern of `+Inf`. -/
def Format.infBits (f : Format) : Nat := (2 ^ f.ebits - 1) * 2 ^ f.mbits

def Format.signBit (f : Format) : Nat := 2 ^ (f.ebits + f.mbits)

/-- The bit pattern without its sign bit. -/
def magnitude (f : Format) (x : Nat) : Nat := x % f.signBit

def signOf (f : Format) (x : Nat) : Bool := x / f.signBit % 2 == 1

def isNaN (f : Format) (x : Nat) : Bool := f.infBits < magnitude f x

def isInf (f : Format) (x : Nat) : Bool := magnitude f x == f.infBits

def withSign (f : Format) (s : Bool) (mag : Nat) : Nat := (if s then f.signBit else 0) + mag

def qNaN (f : Format) : Nat := f.infBits + 2 ^ (f.mbits - 1)

/-- Numerator of `|x|` over `2 ^ scaleExp`, for `x` not a NaN (for an infinity
the formula gives a number above every finite numerator). -/
def numer (f : Format) (x : Nat) : Nat :=
  let e := x / 2 ^ f.mbits % 2 ^ f.ebits
  let m := x % 2 ^ f.mbits
  if e = 0 then m else (2 ^ f.mbits + m) * 2 ^ (e - 1)

/-- Number of halving levels a binary search for `⌊log₂ n⌋` needs. -/
def log2Levels : Nat → Nat → Nat → Nat
  | 0, _, j => j
  | fuel + 1, n, j => if n < 2 ^ 2 ^ j then j else log2Levels fuel n (j + 1)

def log2Search : Nat → Nat → Nat → Nat
  | 0, _, acc => acc
  | j + 1, n, acc =>
    if 2 ^ 2 ^ j ≤ n then log2Search j (n / 2 ^ 2 ^ j) (acc + 2 ^ j) else log2Search j n acc

/-- The integer `⌊log₂ n⌋` (0 for `n = 0`), by binary search on the exponent. -/
def ilog2 (n : Nat) : Nat := log2Search (log2Levels n n 0) n 0

/-- The bit pattern of the rational `n / d` (`d > 0`) rounded to nearest,
ties to even, with sign `s`; overflow gives an infinity. -/
def roundRat (f : Format) (s : Bool) (n d : Nat) : Nat :=
  let N := n * 2 ^ f.scaleExp
  let q := ilog2 (N / d) - f.mbits
  let D := d * 2 ^ q
  let k := N / D
  let r := N % D
  let k1 := if D < 2 * r ∨ (2 * r = D ∧ k % 2 = 1) then k + 1 else k
  withSign f s (min f.infBits (q * 2 ^ f.mbits + k1))

def neg (f : Format) (x : Nat) : Nat := withSign f (!signOf f x) (magnitude f x)

def add (f : Format) (x y : Nat) : Nat :=
  if isNaN f x ∨ isNaN f y then qNaN f
  else if isInf f x then
    (if isInf f y ∧ signOf f x ≠ signOf f y then qNaN f else withSign f (signOf f x) f.infBits)
  else if isInf f y then withSign f (signOf f y) f.infBits
  else
    let a := numer f x
    let b := numer f y
    if signOf f x = signOf f y then roundRat f (signOf f x) (a + b) (2 ^ f.scaleExp)
    else if a = b then 0
    else if b < a then roundRat f (signOf f x) (a - b) (2 ^ f.scaleExp)
    else roundRat f (signOf f y) (b - a) (2 ^ f.scaleExp)

def sub (f : Format) (x y : Nat) : Nat := add f x (neg f y)

def mul (f : Format) (x y : Nat) : Nat :=
  let s := signOf f x != signOf f y
  if isNaN f x ∨ isNaN f y then qNaN f
  else if isInf f x ∨ isInf f y then
    (if magnitude f x = 0 ∨ magnitude f y = 0 then qNaN f else withSign f s f.infBits)
  else roundRat f s (numer f x * numer f y) (2 ^ f.scaleExp * 2 ^ f.scaleExp)

def div (f : Format) (x y : Nat) : Nat :=
  let s := signOf f x != signOf f y
  if isNaN f x ∨ isNaN f y then qNaN f
  else if isInf f x then (if isInf f y then qNaN f else withSign f s f.infBits)
  else if isInf f y then withSign f s 0
  else if magnitude f y = 0 then
    (if magnitude f x = 0 then qNaN f else withSign f s f.infBits)
  else roundRat f s (numer f x) (numer f y)

/-- Conversion of a Go `int` to the format (`float64(n)`). -/
def ofInt (f : Format) (i : Int) : Nat := roundRat f (decide (i < 0)) i.natAbs 1

/-- The value of the decimal constant `n / d`, as Go rounds an untyped constant. -/
def ofRat (f : Format) (n d : Nat) : Nat := roundRat f false n d

/-- Conversion between formats (`float32(x)` for a `float64` value `x`). -/
def convert (f g : Format) (x : Nat) : Nat :=
  if isNaN f x then withSign g (signOf f x) (qNaN g)
  else if isInf f x then withSign g (signOf f x) g.infBits
  else roundRat g (signOf f x) (numer f x) (2 ^ f.scaleExp)

/-- The value of a non-NaN pattern as a signed numerator over `2 ^ scaleExp`. -/
def signedNumer (f : Format) (x : Nat) : Int :=
  if signOf f x then -(numer f x : Int) else (numer f x : Int)

def lt (f : Format) (x y : Nat) : Bool :=
  !isNaN f x && !isNaN f y && decide (signedNumer f x < signedNumer f y)

def eq (f : Format) (x y : Nat) : Bool :=
  !isNaN f x && !isNaN f y && decide (signedNumer f x = signedNumer f y)

end IEEE

/-! ## Go values -/

/-- A Go `float32`, as its bit pattern. -/
abbrev float32 := Nat

/-- A Go `float64`, as its bit pattern. -/
abbrev float64 := Nat

/-- The Go value `math.Float32bits(v)`. -/
def Float32bits (v : float32) : Nat := v % 2 ^ 32

/-- A Go `[3]float64`. -/
structure Vec3 where
  x : float64
  y : float64
  z : float64

/-- A Go value of type `any`, as far as the generator builds such values. -/
inductive GoAny where
  | null : GoAny
  | str : String → GoAny
  | int : Int → GoAny
  | bool : Bool → GoAny
  | float : float64 → GoAny
  | floats : List float64 → GoAny
  | map : List (String × GoAny) → GoAny

/-- The map update `m[k] = v` on an association list. -/
def mapSet {α : Type} : List (String × α) → String → α → List (String × α)
  | [], k, v => [(k, v)]
  | (k1, v1) :: m, k, v => if k1 = k then (k, v) :: m else (k1, v1) :: mapSet m k v

/-- The Go call `binary.LittleEndian.PutUint16(b[off:], v)`. -/
def putUint16 (b : List Nat) (off : Nat) (v : Nat) : List Nat :=
  (b.set off (v % 256)).set (off + 1) (v / 256 % 256)

/-- The Go call `binary.LittleEndian.PutUint32(b[off:], v)`. -/
def putUint32 (b : List Nat) (off : Nat) (v : Nat) : List Nat :=
  (((b.set off (v % 256)).set (off + 1) (v / 2 ^ 8 % 256)).set
    (off + 2) (v / 2 ^ 16 % 256)).set (off + 3) (v / 2 ^ 24 % 256)

/-- The Go value `binary.LittleEndian.Uint16(b[off:])`. -/
def getUint16 (b : List Nat) (off : Nat) : Nat :=
  b.getD off 0 + 256 * b.getD (off + 1) 0

/-- The Go value `binary.LittleEndian.Uint32(b[off:])`. -/
def getUint32 (b : List Nat) (off : Nat) : Nat :=
  b.getD off 0 + 2 ^ 8 * b.getD (off + 1) 0 + 2 ^ 16 * b.getD (off + 2) 0
    + 2 ^ 24 * b.getD (off + 3) 0

def base64Alphabet : List Char :=
  "ABCDEFGHIJKLMNOPQRSTUVWXYZabcdefghijklmnopqrstuvwxyz0123456789+/".toList

def base64Char (n : Nat) : Char := base64Alphabet.getD n 'A'

/-- The Go value `base64.StdEncoding.EncodeToString(data)`, as characters. -/
def base64Chars : List Nat → List Char
  | [] => []
  | [a] => [base64Char (a / 4), base64Char (a % 4 * 16), '=', '=']
  | [a, b] =>
    [base64Char (a / 4), base64Char (a % 4 * 16 + b / 16), base64Char (b % 16 * 4), '=']
  | a :: b :: c :: rest =>
    base64Char (a / 4) :: base64Char (a % 4 * 16 + b / 16)
      :: base64Char (b % 16 * 4 + c / 64) :: base64Char (c % 64) :: base64Chars rest

def base64EncodeToString (data : List Nat) : String := String.mk (base64Chars data)

/-- The idiom `off := n; if off%4 != 0 { off += 4 - (off % 4) }`. -/
def align4 (n : Nat) : Nat := if n % 4 ≠ 0 then n + (4 - n % 4) else n

/-! ## `pkg/model/extuml` -/

namespace extuml

structure Attribute where
  Name : String
  Type_ : String

structure Operation where
  Name : String
  ReturnType : String

structure Class where
  ID : String
  Type_ : String
  Name : String
  URL : String
  Attributes : List Attribute
  Operations : List Operation

structure Interface where
  ID : String
  Type_ : String
  Name : String
  URL : String
  Operations : List Operation

structure Enum where
  ID : String
  Type_ : String
  Name : String
  URL : String
  Literals : List String

structure Package where
  ID : String
  Type_ : String
  Name : String
  Children : List String

structure Note where
  ID : String
  Type_ : String
  Text : String
  Anchor : String

structure Meta where
  ID : String
  Title : String
  Author : String

structure Elements where
  Classes : List Class
  Interfaces : List Interface
  Enums : List Enum
  Packages : List Package
  Notes : List Note

structure Document where
  Version : String
  Meta : Option Meta
  Elements : Option Elements

end extuml

/-! ## `pkg/model/gltf` -/

namespace gltf

structure Asset where
  Version : String
  Generator : String
  Extras : GoAny

structure Scene where
  Nodes : List Nat
  Name : String

structure Node where
  Name : String
  Mesh : Option Nat
  Translation : List float64
  Rotation : List float64
  Scale : List float64
  Matrix : List float64
  Children : List Nat
  Extras : GoAny

structure Primitive where
  Attributes : List (String × Nat)
  Indices : Option Nat
  Material : Option Nat
  Mode : Option Nat

structure Mesh where
  Name : String
  Primitives : List Primitive

structure TextureInfo where
  Index : Nat
  TexCoord : Nat

structure PbrMetallicRoughness where
  BaseColorFactor : List float64
  BaseColorTexture : Option TextureInfo
  MetallicFactor : float64
  RoughnessFactor : float64

structure Material where
  Name : String
  PbrMetallicRoughness : Option PbrMetallicRoughness
  EmissiveFactor : List float64
  DoubleSided : Bool

structure Texture where
  Sampler : Option Nat
  Source : Option Nat

structure Image where
  URI : String
  MimeType : String
  Name : String

structure Sampler where
  MagFilter : Nat
  MinFilter : Nat
  WrapS : Nat
  WrapT : Nat

structure Buffer where
  ByteLength : Nat
  URI : String

structure BufferView where
  Buffer : Nat
  ByteOffset : Nat
  ByteLength : Nat
  ByteStride : Option Nat
  Target : Option Nat

structure Accessor where
  BufferView : Option Nat
  ByteOffset : Nat
  ComponentType : Nat
  Count : Nat
  Type_ : String
  Max : List float64
  Min : List float64

structure GLTFAsset where
  Asset : Asset
  Scenes : List Scene
  Scene : Nat
  Nodes : List Node
  Meshes : List Mesh
  Materials : List Material
  Textures : List Texture
  Images : List Image
  Samplers : List Sampler
  Buffers : List Buffer
  BufferViews : List BufferView
  Accessors : List Accessor

end gltf

/-! ## `pkg/usecase/geometry.go` -/

open IEEE in
/-- The `float64` value of the decimal constant `n / d`. -/
def f64 (n d : Nat) : float64 := ofRat binary64 n d

open IEEE in
/-- The conversion `float32(x)` of a `float64` value. -/
def toFloat32 (x : float64) : float32 := convert binary64 binary32 x

def intPtr (i : Nat) : Option Nat := some i

/-- The twelve edges of a box on the corner vertices 0..7. -/
def boxEdgeIndices : List Nat :=
  [0, 1, 1, 2, 2, 3, 3, 0,
   4, 5, 5, 6, 6, 7, 7, 4,
   0, 4, 1, 5, 2, 6, 3, 7]

open IEEE in
/-- The eight corner vertices written by both wireframe builders. -/
def boxCornerVertices (w h d : float32) : List float32 :=
  [neg binary32 w, neg binary32 h, d,
   w, neg binary32 h, d,
   w, neg binary32 h, neg binary32 d,
   neg binary32 w, neg binary32 h, neg binary32 d,
   neg binary32 w, h, d,
   w, h, d,
   w, h, neg binary32 d,
   neg binary32 w, h, neg binary32 d]

open IEEE in
/-- The loop `for _, divHeight := range dividerHeights` of `createWireframeBox`:
the remaining heights, the running `yOffset`, the `dividerVertices` so far. -/
def dividerVerticesLoop (w d : float32) : List float32 → float32 → List float32 → List float32
  | [], _, acc => acc
  | divHeight :: rest, yOffset, acc =>
    let yOffset := sub binary32 yOffset divHeight
    dividerVerticesLoop w d rest yOffset
      (acc ++ [neg binary32 w, yOffset, d,
               w, yOffset, d,
               w, yOffset, neg binary32 d,
               neg binary32 w, yOffset, neg binary32 d])

/-- The loop `for i := 0; i < len(dividerHeights); i++` of `createWireframeBox`:
the iterations left, `i`, the `indices` so far (`uint16` arithmetic wraps). -/
def dividerIndicesLoop : Nat → Nat → List Nat → List Nat
  | 0, _, acc => acc
  | k + 1, i, acc =>
    let offset := (8 + i * 4 % 65536) % 65536
    dividerIndicesLoop k (i + 1)
      (acc ++ [offset, (offset + 1) % 65536,
               (offset + 1) % 65536, (offset + 2) % 65536,
               (offset + 2) % 65536, (offset + 3) % 65536,
               (offset + 3) % 65536, offset])

open IEEE in
def createWireframeBox (width height depth : float32) (compartments : Nat)
    (dividerHeights : List float32) : List float32 × List Nat :=
  let _ := compartments
  let w := div binary32 width (ofRat binary32 2 1)
  let h := div binary32 height (ofRat binary32 2 1)
  let d := div binary32 depth (ofRat binary32 2 1)
  let vertices := boxCornerVertices w h d
  let dividerVertices := dividerVerticesLoop w d dividerHeights h []
  let vertices := vertices ++ dividerVertices
  let indices := dividerIndicesLoop dividerHeights.length 0 boxEdgeIndices
  (vertices, indices)

open IEEE in
def createSimpleWireframeBox (width height depth : float32) : List float32 × List Nat :=
  let w := div binary32 width (ofRat binary32 2 1)
  let h := div binary32 height (ofRat binary32 2 1)
  let d := div binary32 depth (ofRat binary32 2 1)
  (boxCornerVertices w h d, boxEdgeIndices)

/-- The loop `for i, v := range vertices` of `createBufferData`. -/
def writeVertices : List float32 → Nat → List Nat → List Nat
  | [], _, buffer => buffer
  | v :: rest, i, buffer => writeVertices rest (i + 1) (putUint32 buffer (i * 4) (Float32bits v))

/-- The loop `for i, idx := range indices` of `createBufferData`. -/
def writeIndices (indexOffset : Nat) : List Nat → Nat → List Nat → List Nat
  | [], _, buffer => buffer
  | idx :: rest, i, buffer =>
    writeIndices indexOffset rest (i + 1) (putUint16 buffer (indexOffset + i * 2) (idx % 65536))

def createBufferData (vertices : List float32) (indices : List Nat) : List Nat :=
  let vertexBytes := vertices.length * 4
  let indexBytes := indices.length * 2
  let indexOffset := align4 vertexBytes
  let totalSize := indexOffset + indexBytes
  let buffer := List.replicate totalSize 0
  let buffer := writeVertices vertices 0 buffer
  let buffer := writeIndices indexOffset indices 0 buffer
  buffer

def CreateBufferURI (data : List Nat) : String :=
  "data:application/octet-stream;base64," ++ base64EncodeToString data

/-- The mesh literal of the three wireframe generators. -/
def wireframeMesh (name : String) : gltf.Mesh :=
  { Name := name ++ "_wireframe"
    Primitives := [
      { Attributes := [("POSITION", 0)]
        Indices := intPtr 1
        Material := none
        Mode := intPtr 1 }] }

/-- The material literal of the three wireframe generators, for a colour. -/
def wireframeMaterial (name : String) (r g b : float64) : gltf.Material :=
  { Name := name ++ "_material"
    PbrMetallicRoughness := some
      { BaseColorFactor := [r, g, b, f64 1 1]
        BaseColorTexture := none
        MetallicFactor := f64 0 1
        RoughnessFactor := f64 1 1 }
    EmissiveFactor := [r, g, b]
    DoubleSided := true }

def GenerateClassWireframe (cls : extuml.Class) (position : Vec3) :
    gltf.Mesh × gltf.Material × List Nat :=
  let _ := position
  let size := f64 25 10
  let width := size
  let height := size
  let depth := size
  let box := createSimpleWireframeBox (toFloat32 width) (toFloat32 height) (toFloat32 depth)
  let vertices := box.1
  let indices := box.2
  let buffers := createBufferData vertices indices
  (wireframeMesh cls.Name, wireframeMaterial cls.Name (f64 2 10) (f64 6 10) (f64 8 10), buffers)

open IEEE in
def GenerateInterfaceWireframe (iface : extuml.Interface) (position : Vec3) :
    gltf.Mesh × gltf.Material × List Nat :=
  let _ := position
  let width := f64 2 1
  let nameHeight := f64 4 10
  let opHeight := mul binary64 (ofInt binary64 iface.Operations.length) (f64 2 10)
  let opHeight := if eq binary64 opHeight (f64 0 1) then f64 2 10 else opHeight
  let height := add binary64 nameHeight opHeight
  let depth := f64 5 10
  let box :=
    createWireframeBox (toFloat32 width) (toFloat32 height) (toFloat32 depth) 2
      [toFloat32 nameHeight]
  let vertices := box.1
  let indices := box.2
  let buffers := createBufferData vertices indices
  (wireframeMesh iface.Name, wireframeMaterial iface.Name (f64 8 10) (f64 6 10) (f64 2 10),
    buffers)

open IEEE in
def GenerateEnumWireframe (enum : extuml.Enum) (position : Vec3) :
    gltf.Mesh × gltf.Material × List Nat :=
  let _ := position
  let width := f64 15 10
  let nameHeight := f64 3 10
  let litHeight := mul binary64 (ofInt binary64 enum.Literals.length) (f64 15 100)
  let litHeight := if eq binary64 litHeight (f64 0 1) then f64 15 100 else litHeight
  let height := add binary64 nameHeight litHeight
  let depth := f64 4 10
  let box :=
    createWireframeBox (toFloat32 width) (toFloat32 height) (toFloat32 depth) 2
      [toFloat32 nameHeight]
  let vertices := box.1
  let indices := box.2
  let buffers := createBufferData vertices indices
  (wireframeMesh enum.Name, wireframeMaterial enum.Name (f64 6 10) (f64 8 10) (f64 6 10),
    buffers)

/-! ## `pkg/usecase/text_geometry.go` -/

def createTextBufferData (vertices : List float32) (indices : List Nat) : List Nat :=
  let vertexBytes := vertices.length * 4
  let indexBytes := indices.length * 2
  let indexOffset := align4 vertexBytes
  let totalSize := indexOffset + indexBytes
  let buffer := List.replicate totalSize 0
  let buffer := writeVertices vertices 0 buffer
  let buffer := writeIndices indexOffset indices 0 buffer
  buffer

def CreateTextBufferURI (data : List Nat) : String :=
  "data:application/octet-stream;base64," ++ base64EncodeToString data

open IEEE in
def GenerateTextQuad (text : String) (position : Vec3) : gltf.Mesh × List Nat :=
  let _ := position
  let width := ofRat binary32 24 10
  let height := ofRat binary32 24 10
  let w := div binary32 width (ofRat binary32 2 1)
  let h := div binary32 height (ofRat binary32 2 1)
  let c0 := ofRat binary32 0 1
  let c1 := ofRat binary32 1 1
  let vertices : List float32 :=
    [neg binary32 w, neg binary32 h, c0,
     c0, c1,
     w, neg binary32 h, c0,
     c1, c1,
     w, h, c0,
     c1, c0,
     neg binary32 w, h, c0,
     c0, c0]
  let indices : List Nat := [0, 1, 2, 0, 2, 3]
  let buffers := createTextBufferData vertices indices
  let mesh : gltf.Mesh :=
    { Name := "text_" ++ text
      Primitives := [
        { Attributes := [("POSITION", 0), ("TEXCOORD_0", 0)]
          Indices := intPtr 1
          Material := none
          Mode := intPtr 4 }] }
  (mesh, buffers)

/-! ## `pkg/usecase/generate.go` -/

/-- The assignments to `mesh.Primitives[0]` made once the accessors exist
(`Attributes[k] = v` for each pair of `attrs`, then `Indices` and `Material`). -/
def wirePrimitive (mesh : gltf.Mesh) (attrs : List (String × Nat)) (indices material : Nat) :
    gltf.Mesh :=
  match mesh.Primitives with
  | [] => mesh
  | p :: rest =>
    { mesh with
      Primitives :=
        { p with
          Attributes := attrs.foldl (fun m kv => mapSet m kv.1 kv.2) p.Attributes
          Indices := some indices
          Material := some material } :: rest }

/-- State of the search loops of `calculateBufferLayout`. -/
structure LayoutState where
  bestVC : Nat
  bestIC : Nat
  bestVB : Nat
  bestIO : Nat
  bestRatio : float64

open IEEE in
/-- The value `|x - targetRatio|` as the first loop computes it. -/
def ratioDistance (x targetRatio : float64) : float64 :=
  let diff := sub binary64 x targetRatio
  if lt binary64 diff (f64 0 1) then neg binary64 diff else diff

open IEEE in
/-- Body of the first loop of `calculateBufferLayout`, after the `break` test. -/
def layoutWindowBody (len vc : Nat) (s : LayoutState) : LayoutState :=
  let targetRatio := f64 25 10
  let vb := vc * 3 * 4
  let io := align4 vb
  let remaining := len - io
  if remaining % 2 = 0 ∧ 0 < remaining then
    let ic := remaining / 2
    let ratio := div binary64 (ofInt binary64 ic) (ofInt binary64 vc)
    if vc * 2 ≤ ic ∧ ic ≤ vc * 6 then
      let ratioDiff := ratioDistance ratio targetRatio
      let currentBestDiff := ratioDistance s.bestRatio targetRatio
      if s.bestVC = 0 ∨ lt binary64 ratioDiff currentBestDiff = true then
        { bestVC := vc, bestIC := ic, bestVB := vb, bestIO := io, bestRatio := ratio }
      else s
    else s
  else s

/-- The first loop `for vc := 1; vc <= 100; vc++`: iterations left, `vc`, state. -/
def layoutWindowLoop (len : Nat) : Nat → Nat → LayoutState → LayoutState
  | 0, _, s => s
  | k + 1, vc, s =>
    if len ≤ align4 (vc * 3 * 4) then s
    else layoutWindowLoop len k (vc + 1) (layoutWindowBody len vc s)

/-- Body of the second loop of `calculateBufferLayout`, after the `break` test. -/
def layoutFallbackBody (len vc : Nat) (s : LayoutState) : LayoutState :=
  let vb := vc * 3 * 4
  let io := align4 vb
  let remaining := len - io
  if remaining % 2 = 0 ∧ 0 < remaining then
    let ic := remaining / 2
    if 2 ≤ ic ∧ s.bestVC < vc then
      { s with bestVC := vc, bestIC := ic, bestVB := vb, bestIO := io }
    else s
  else s

/-- The second loop `for vc := 1; vc <= 100; vc++`: iterations left, `vc`, state. -/
def layoutFallbackLoop (len : Nat) : Nat → Nat → LayoutState → LayoutState
  | 0, _, s => s
  | k + 1, vc, s =>
    if len ≤ align4 (vc * 3 * 4) then s
    else layoutFallbackLoop len k (vc + 1) (layoutFallbackBody len vc s)

/-- Returns `(vertexCount, indexCount, vertexBytes, indexOffset)`. -/
def calculateBufferLayout (bufferData : List Nat) : Nat × Nat × Nat × Nat :=
  let s : LayoutState :=
    { bestVC := 0, bestIC := 0, bestVB := 0, bestIO := 0, bestRatio := f64 0 1 }
  let s := layoutWindowLoop bufferData.length 100 1 s
  let s := if s.bestVC = 0 then layoutFallbackLoop bufferData.length 100 1 s else s
  (s.bestVC, s.bestIC, s.bestVB, s.bestIO)

open IEEE in
/-- Returns the new asset and the index of the text node. -/
def addTextLabel (text : String) (position : Vec3) (billboard : Bool) (url : String)
    (asset : gltf.GLTFAsset) : gltf.GLTFAsset × Nat :=
  let quad := GenerateTextQuad text position
  let mesh : gltf.Mesh := quad.1
  let bufferData : List Nat := quad.2
  let meshIdx := asset.Meshes.length
  let bufferIdx := asset.Buffers.length
  let asset : gltf.GLTFAsset := { asset with
    Buffers := asset.Buffers ++
      [({ ByteLength := bufferData.length, URI := CreateTextBufferURI bufferData } : gltf.Buffer)] }
  let vertexCount : Nat := 4
  let indexCount : Nat := 6
  let stride : Nat := 5 * 4
  let vertexBytes := vertexCount * stride
  let indexOffset := align4 vertexBytes
  let vertexBufferView := asset.BufferViews.length
  let asset : gltf.GLTFAsset := { asset with
    BufferViews := asset.BufferViews ++
      [({ Buffer := bufferIdx, ByteOffset := 0, ByteLength := vertexBytes,
           ByteStride := intPtr 20, Target := intPtr 34962 } : gltf.BufferView)] }
  let indicesBufferView := asset.BufferViews.length
  let asset : gltf.GLTFAsset := { asset with
    BufferViews := asset.BufferViews ++
      [({ Buffer := bufferIdx, ByteOffset := indexOffset, ByteLength := indexCount * 2,
           ByteStride := none, Target := intPtr 34963 } : gltf.BufferView)] }
  let positionAccessor := asset.Accessors.length
  let w := f64 12 10
  let h := f64 12 10
  let asset : gltf.GLTFAsset := { asset with
    Accessors := asset.Accessors ++
      [({ BufferView := some vertexBufferView, ByteOffset := 0, ComponentType := 5126,
           Count := vertexCount, Type_ := "VEC3",
           Min := [neg binary64 w, neg binary64 h, f64 0 1],
           Max := [w, h, f64 0 1] } : gltf.Accessor)] }
  let uvAccessor := asset.Accessors.length
  let asset : gltf.GLTFAsset := { asset with
    Accessors := asset.Accessors ++
      [({ BufferView := some vertexBufferView, ByteOffset := 12, ComponentType := 5126,
           Count := vertexCount, Type_ := "VEC2", Min := [], Max := [] } : gltf.Accessor)] }
  let indicesAccessor := asset.Accessors.length
  let asset : gltf.GLTFAsset := { asset with
    Accessors := asset.Accessors ++
      [({ BufferView := some indicesBufferView, ByteOffset := 0, ComponentType := 5123,
           Count := indexCount, Type_ := "SCALAR", Min := [], Max := [] } : gltf.Accessor)] }
  let materialIdx := asset.Materials.length
  let materialName := "text_material_" ++ toString materialIdx
  let asset : gltf.GLTFAsset := { asset with
    Materials := asset.Materials ++
      [({ Name := materialName,
           PbrMetallicRoughness := some
             { BaseColorFactor := [f64 1 1, f64 1 1, f64 1 1, f64 1 1],
               BaseColorTexture := none,
               MetallicFactor := f64 0 1,
               RoughnessFactor := f64 1 1 },
           EmissiveFactor := [],
           DoubleSided := true } : gltf.Material)] }
  let mesh : gltf.Mesh := wirePrimitive mesh
    [("POSITION", positionAccessor), ("TEXCOORD_0", uvAccessor)] indicesAccessor materialIdx
  let asset : gltf.GLTFAsset := { asset with Meshes := asset.Meshes ++ [mesh] }
  let nodeIdx := asset.Nodes.length
  let extras : List (String × GoAny) :=
    [("extuml", GoAny.map [("type", GoAny.str "text"), ("text", GoAny.str text)])]
  let extras := if billboard then mapSet extras "billboard" (GoAny.bool true) else extras
  let extras := if url ≠ "" then mapSet extras "url" (GoAny.str url) else extras
  let nodeName := "text_node_" ++ toString nodeIdx
  let asset : gltf.GLTFAsset := { asset with
    Nodes := asset.Nodes ++
      [({ Name := nodeName, Mesh := some meshIdx,
           Translation := [position.x, position.y, position.z],
           Rotation := [], Scale := [], Matrix := [], Children := [],
           Extras := GoAny.map extras } : gltf.Node)] }
  (asset, nodeIdx)

/-- The buffer, buffer views and accessors that the three wireframe `add…ToScene`
functions append for `bufferData`, with the position bounds `min`, `max` of the
element kind; returns the asset and the two accessor indices. -/
def appendWireframeBuffer (bufferData : List Nat) (min max : List float64)
    (asset : gltf.GLTFAsset) : gltf.GLTFAsset × Nat × Nat :=
  let bufferIdx := asset.Buffers.length
  let asset : gltf.GLTFAsset := { asset with
    Buffers := asset.Buffers ++
      [({ ByteLength := bufferData.length, URI := CreateBufferURI bufferData } : gltf.Buffer)] }
  let layout := calculateBufferLayout bufferData
  let vertexCount : Nat := layout.1
  let indexCount : Nat := layout.2.1
  let vertexBytes : Nat := layout.2.2.1
  let indexOffset : Nat := layout.2.2.2
  let positionBufferView := asset.BufferViews.length
  let asset : gltf.GLTFAsset := { asset with
    BufferViews := asset.BufferViews ++
      [({ Buffer := bufferIdx, ByteOffset := 0, ByteLength := vertexBytes,
           ByteStride := none, Target := intPtr 34962 } : gltf.BufferView)] }
  let indicesBufferView := asset.BufferViews.length
  let asset : gltf.GLTFAsset := { asset with
    BufferViews := asset.BufferViews ++
      [({ Buffer := bufferIdx, ByteOffset := indexOffset, ByteLength := indexCount * 2,
           ByteStride := none, Target := intPtr 34963 } : gltf.BufferView)] }
  let positionAccessor := asset.Accessors.length
  let asset : gltf.GLTFAsset := { asset with
    Accessors := asset.Accessors ++
      [({ BufferView := some positionBufferView, ByteOffset := 0, ComponentType := 5126,
           Count := vertexCount, Type_ := "VEC3", Min := min, Max := max } : gltf.Accessor)] }
  let indicesAccessor := asset.Accessors.length
  let asset : gltf.GLTFAsset := { asset with
    Accessors := asset.Accessors ++
      [({ BufferView := some indicesBufferView, ByteOffset := 0, ComponentType := 5123,
           Count := indexCount, Type_ := "SCALAR", Min := [], Max := [] } : gltf.Accessor)] }
  (asset, positionAccessor, indicesAccessor)

/-- The label text of a class, as `addClassToScene` concatenates it. -/
def combinedClassText (cls : extuml.Class) : String :=
  let combinedText := cls.Name
  let combinedText := if cls.URL ≠ "" then combinedText ++ "\n" ++ cls.URL else combinedText
  let combinedText := combinedText ++ "\n---"
  let combinedText :=
    if 0 < cls.Attributes.length then
      cls.Attributes.foldl (fun t attr => t ++ ("\n" ++ attr.Name ++ ": " ++ attr.Type_))
        combinedText
    else combinedText
  let combinedText := combinedText ++ "\n---"
  let combinedText :=
    if 0 < cls.Operations.length then
      cls.Operations.foldl (fun t op => t ++ ("\n" ++ op.Name ++ "(): " ++ op.ReturnType))
        combinedText
    else combinedText
  combinedText

open IEEE in
/-- Returns the new asset and the new value of `*nodeIndex`. -/
def addClassToScene (cls : extuml.Class) (position : Vec3) (asset : gltf.GLTFAsset)
    (nodeIndex : Nat) : gltf.GLTFAsset × Nat :=
  let _ := nodeIndex
  let wireframe := GenerateClassWireframe cls position
  let mesh : gltf.Mesh := wireframe.1
  let material : gltf.Material := wireframe.2.1
  let bufferData : List Nat := wireframe.2.2
  let meshIdx := asset.Meshes.length
  let materialIdx := asset.Materials.length
  let boxHalf := f64 125 100
  let appended :=
    appendWireframeBuffer bufferData
      [neg binary64 boxHalf, neg binary64 boxHalf, neg binary64 boxHalf]
      [boxHalf, boxHalf, boxHalf] asset
  let asset : gltf.GLTFAsset := appended.1
  let positionAccessor : Nat := appended.2.1
  let indicesAccessor : Nat := appended.2.2
  let mesh : gltf.Mesh := wirePrimitive mesh [("POSITION", positionAccessor)] indicesAccessor materialIdx
  let asset : gltf.GLTFAsset := { asset with Meshes := asset.Meshes ++ [mesh] }
  let asset : gltf.GLTFAsset := { asset with Materials := asset.Materials ++ [material] }
  let textZ := f64 0 1
  let combinedText := combinedClassText cls
  let classNodeIdx := asset.Nodes.length
  let asset : gltf.GLTFAsset := { asset with
    Nodes := asset.Nodes ++
      [({ Name := cls.Name, Mesh := some meshIdx,
           Translation := [position.x, position.y, position.z],
           Rotation := [], Scale := [], Matrix := [], Children := [],
           Extras := GoAny.map
             [("extuml", GoAny.map
               [("type", GoAny.str "class"), ("id", GoAny.str cls.ID),
                ("attributes", GoAny.int cls.Attributes.length),
                ("operations", GoAny.int cls.Operations.length)])] } : gltf.Node)] }
  let textWorldPos : Vec3 := ⟨position.x, position.y, add binary64 position.z textZ⟩
  let asset : gltf.GLTFAsset := (addTextLabel combinedText textWorldPos true cls.URL asset).1
  (asset, classNodeIdx + 2)

open IEEE in
def addInterfaceToScene (iface : extuml.Interface) (position : Vec3) (asset : gltf.GLTFAsset)
    (nodeIndex : Nat) : gltf.GLTFAsset × Nat :=
  let wireframe := GenerateInterfaceWireframe iface position
  let mesh : gltf.Mesh := wireframe.1
  let material : gltf.Material := wireframe.2.1
  let bufferData : List Nat := wireframe.2.2
  let meshIdx := asset.Meshes.length
  let materialIdx := asset.Materials.length
  let appended :=
    appendWireframeBuffer bufferData
      [neg binary64 (f64 1 1), neg binary64 (f64 4 10), neg binary64 (f64 25 100)]
      [f64 1 1, f64 4 10, f64 25 100] asset
  let asset : gltf.GLTFAsset := appended.1
  let positionAccessor : Nat := appended.2.1
  let indicesAccessor : Nat := appended.2.2
  let mesh : gltf.Mesh := wirePrimitive mesh [("POSITION", positionAccessor)] indicesAccessor materialIdx
  let asset : gltf.GLTFAsset := { asset with Meshes := asset.Meshes ++ [mesh] }
  let asset : gltf.GLTFAsset := { asset with Materials := asset.Materials ++ [material] }
  let asset : gltf.GLTFAsset := { asset with
    Nodes := asset.Nodes ++
      [({ Name := iface.Name, Mesh := some meshIdx,
           Translation := [position.x, position.y, position.z],
           Rotation := [], Scale := [], Matrix := [], Children := [],
           Extras := GoAny.map
             [("extuml", GoAny.map
               [("type", GoAny.str "interface"), ("id", GoAny.str iface.ID),
                ("operations", GoAny.int iface.Operations.length)])] } : gltf.Node)] }
  (asset, nodeIndex + 1)

open IEEE in
def addEnumToScene (enum : extuml.Enum) (position : Vec3) (asset : gltf.GLTFAsset)
    (nodeIndex : Nat) : gltf.GLTFAsset × Nat :=
  let wireframe := GenerateEnumWireframe enum position
  let mesh : gltf.Mesh := wireframe.1
  let material : gltf.Material := wireframe.2.1
  let bufferData : List Nat := wireframe.2.2
  let meshIdx := asset.Meshes.length
  let materialIdx := asset.Materials.length
  let appended :=
    appendWireframeBuffer bufferData
      [neg binary64 (f64 75 100), neg binary64 (f64 3 10), neg binary64 (f64 2 10)]
      [f64 75 100, f64 3 10, f64 2 10] asset
  let asset : gltf.GLTFAsset := appended.1
  let positionAccessor : Nat := appended.2.1
  let indicesAccessor : Nat := appended.2.2
  let mesh : gltf.Mesh := wirePrimitive mesh [("POSITION", positionAccessor)] indicesAccessor materialIdx
  let asset : gltf.GLTFAsset := { asset with Meshes := asset.Meshes ++ [mesh] }
  let asset : gltf.GLTFAsset := { asset with Materials := asset.Materials ++ [material] }
  let asset : gltf.GLTFAsset := { asset with
    Nodes := asset.Nodes ++
      [({ Name := enum.Name, Mesh := some meshIdx,
           Translation := [position.x, position.y, position.z],
           Rotation := [], Scale := [], Matrix := [], Children := [],
           Extras := GoAny.map
             [("extuml", GoAny.map
               [("type", GoAny.str "enum"), ("id", GoAny.str enum.ID),
                ("literals", GoAny.int enum.Literals.length)])] } : gltf.Node)] }
  (asset, nodeIndex + 1)

open IEEE in
/-- The loop `for i, class := range doc.Elements.Classes` of `generateGeometry`:
the remaining classes, `i`, the asset and `nodeIndex`. -/
def classesLoop (spacing : float64) :
    List extuml.Class → Nat → gltf.GLTFAsset × Nat → gltf.GLTFAsset × Nat
  | [], _, st => st
  | cls :: rest, i, st =>
    let position : Vec3 := ⟨mul binary64 (ofInt binary64 i) spacing, f64 0 1, f64 0 1⟩
    classesLoop spacing rest (i + 1) (addClassToScene cls position st.1 st.2)

open IEEE in
/-- The loop `for i, iface := range doc.Elements.Interfaces` of `generateGeometry`. -/
def interfacesLoop (spacing : float64) :
    List extuml.Interface → Nat → gltf.GLTFAsset × Nat → gltf.GLTFAsset × Nat
  | [], _, st => st
  | iface :: rest, i, st =>
    let position : Vec3 := ⟨mul binary64 (ofInt binary64 i) spacing, spacing, f64 0 1⟩
    interfacesLoop spacing rest (i + 1) (addInterfaceToScene iface position st.1 st.2)

open IEEE in
/-- The loop `for i, enum := range doc.Elements.Enums` of `generateGeometry`. -/
def enumsLoop (spacing : float64) :
    List extuml.Enum → Nat → gltf.GLTFAsset × Nat → gltf.GLTFAsset × Nat
  | [], _, st => st
  | enum :: rest, i, st =>
    let position : Vec3 :=
      ⟨mul binary64 (ofInt binary64 i) spacing, neg binary64 spacing, f64 0 1⟩
    enumsLoop spacing rest (i + 1) (addEnumToScene enum position st.1 st.2)

/-- Returns `none` where the Go code panics: on a nil `doc.Elements`, and on an
asset without scene 0 once nodes exist. -/
def generateGeometry (doc : extuml.Document) (asset : gltf.GLTFAsset) :
    Option gltf.GLTFAsset :=
  match doc.Elements with
  | none => none
  | some elements =>
    let nodeIndex := 0
    let spacing := f64 3 1
    let st := classesLoop spacing elements.Classes 0 (asset, nodeIndex)
    let st := interfacesLoop spacing elements.Interfaces 0 st
    let st := enumsLoop spacing elements.Enums 0 st
    let asset := st.1
    if 0 < asset.Nodes.length then
      match asset.Scenes with
      | [] => none
      | scene :: rest =>
        let nodeIndices := List.range asset.Nodes.length
        some { asset with Scenes := { scene with Nodes := nodeIndices } :: rest }
    else some asset

/-- The asset literal that `Execute` builds before it calls `generateGeometry`;
`generatedAt` is the formatted clock reading. -/
def initialAsset (doc : extuml.Document) (generatedAt : String) : gltf.GLTFAsset :=
  { Asset :=
      { Version := "2.0"
        Generator := "extuml-cli v0.1"
        Extras := GoAny.map
          [("extuml", GoAny.map
            [("version", GoAny.str doc.Version), ("generatedAt", GoAny.str generatedAt)])] }
    Scenes := [{ Nodes := [], Name := "Scene" }]
    Scene := 0
    Nodes := []
    Meshes := []
    Materials := []
    Textures := []
    Images := []
    Samplers := []
    Buffers := []
    BufferViews := []
    Accessors := [] }

/-! ## Definitions used to state the properties -/

/-- Little-endian bytes of a 32-bit word. -/
def le32 (v : Nat) : List Nat := [v % 256, v / 2 ^ 8 % 256, v / 2 ^ 16 % 256, v / 2 ^ 24 % 256]

/-- Little-endian bytes of a 16-bit word. -/
def le16 (v : Nat) : List Nat := [v % 256, v / 256 % 256]

/-- An optional table index that is present and inside a table of `n` entries. -/
def validIndex : Option Nat → Nat → Prop
  | some i, n => i < n
  | none, _ => False

instance (o : Option Nat) (n : Nat) : Decidable (validIndex o n) := by
  cases o
  · exact isFalse (by simp [validIndex])
  · exact inferInstanceAs (Decidable (_ < _))

/-- Every cross-table reference of the asset is a valid index. -/
def NoDanglingReferences (a : gltf.GLTFAsset) : Prop :=
  (∀ acc ∈ a.Accessors, validIndex acc.BufferView a.BufferViews.length) ∧
  (∀ bv ∈ a.BufferViews, bv.Buffer < a.Buffers.length) ∧
  (∀ m ∈ a.Meshes, ∀ p ∈ m.Primitives,
    validIndex p.Indices a.Accessors.length ∧
    (∀ kv ∈ p.Attributes, kv.2 < a.Accessors.length) ∧
    validIndex p.Material a.Materials.length) ∧
  (∀ n ∈ a.Nodes, validIndex n.Mesh a.Meshes.length)

instance (a : gltf.GLTFAsset) : Decidable (NoDanglingReferences a) := by
  unfold NoDanglingReferences
  infer_instance

/-- The asset of `addClassToScene` at its call of `addTextLabel`: the class
box, its material and its node are in, the label is not. -/
def classBoxStage (cls : extuml.Class) (position : Vec3) (asset : gltf.GLTFAsset) :
    gltf.GLTFAsset :=
  let a0 := asset
  let wireframe := GenerateClassWireframe cls position
  let boxHalf := f64 125 100
  let appended :=
    appendWireframeBuffer wireframe.2.2
      [IEEE.neg IEEE.binary64 boxHalf, IEEE.neg IEEE.binary64 boxHalf,
        IEEE.neg IEEE.binary64 boxHalf]
      [boxHalf, boxHalf, boxHalf] asset
  let asset : gltf.GLTFAsset := appended.1
  let mesh : gltf.Mesh :=
    wirePrimitive wireframe.1 [("POSITION", appended.2.1)] appended.2.2 a0.Materials.length
  let asset : gltf.GLTFAsset := { asset with Meshes := asset.Meshes ++ [mesh] }
  let asset : gltf.GLTFAsset := { asset with Materials := asset.Materials ++ [wireframe.2.1] }
  { asset with
    Nodes := asset.Nodes ++
      [({ Name := cls.Name, Mesh := some a0.Meshes.length,
          Translation := [position.x, position.y, position.z],
          Rotation := [], Scale := [], Matrix := [], Children := [],
          Extras := GoAny.map
            [("extuml", GoAny.map
              [("type", GoAny.str "class"), ("id", GoAny.str cls.ID),
               ("attributes", GoAny.int cls.Attributes.length),
               ("operations", GoAny.int cls.Operations.length)])] } : gltf.Node)] }

/-- The buffer that `GenerateInterfaceWireframe` packs for an interface with `n`
operations (the buffer depends on the interface through this count only). -/
def interfaceBuffer (n : Nat) : List Nat :=
  (GenerateInterfaceWireframe ⟨"", "", "", "", List.replicate n ⟨"", ""⟩⟩ ⟨0, 0, 0⟩).2.2

/-- The buffer that `GenerateEnumWireframe` packs for an enum with `n` literals. -/
def enumBuffer (n : Nat) : List Nat :=
  (GenerateEnumWireframe ⟨"", "", "", "", List.replicate n ""⟩ ⟨0, 0, 0⟩).2.2

/-- The `float32` value of the y coordinate of vertex `j` in a packed buffer. -/
def vertexY (buffer : List Nat) (j : Nat) : float32 := getUint32 buffer ((3 * j + 1) * 4)

/-- An interface with three operations. -/
def sampleInterface : extuml.Interface :=
  ⟨"i1", "interface", "Shape", "",
    [⟨"area", "float"⟩, ⟨"perimeter", "float"⟩, ⟨"draw", "void"⟩]⟩

/-- The index count that a buffer of `L` bytes leaves for `vc` vertices of 12
bytes each. -/
def indexCountFor (L vc : Nat) : Nat := (L - 12 * vc) / 2

/-- A vertex count `vc` in 1..100 that leaves a positive even number of bytes
for an index count inside the ratio window `2*vc ≤ ic ≤ 6*vc`. -/
def WindowCandidate (L vc : Nat) : Prop :=
  1 ≤ vc ∧ vc ≤ 100 ∧ 12 * vc < L ∧ (L - 12 * vc) % 2 = 0 ∧
    2 * vc ≤ indexCountFor L vc ∧ indexCountFor L vc ≤ 6 * vc

instance (L vc : Nat) : Decidable (WindowCandidate L vc) := by
  unfold WindowCandidate
  infer_instance

/-- A vertex count `vc` in 1..100 that leaves a positive even number of bytes
for at least two indices. -/
def FallbackCandidate (L vc : Nat) : Prop :=
  1 ≤ vc ∧ vc ≤ 100 ∧ 12 * vc < L ∧ (L - 12 * vc) % 2 = 0 ∧ 2 ≤ indexCountFor L vc

instance (L vc : Nat) : Decidable (FallbackCandidate L vc) := by
  unfold FallbackCandidate
  infer_instance

/-- The exact distance `|ic / vc - 2.5|` of the index-to-vertex ratio that a
buffer of `L` bytes gives for `vc` vertices. -/
def ratioGap (L vc : Nat) : ℚ := |(indexCountFor L vc : ℚ) / (vc : ℚ) - 5 / 2|

/-- State of the second loop of `calculateBufferLayout` before iteration `b`:
nothing found below `b`, or the largest fallback candidate below `b`. -/
def FallbackInv (L b : Nat) (s : LayoutState) : Prop :=
  (s.bestVC = 0 ∧ s.bestIC = 0 ∧ s.bestVB = 0 ∧ s.bestIO = 0 ∧
    ∀ v, 1 ≤ v → v < b → ¬ FallbackCandidate L v) ∨
  (s.bestVC < b ∧ FallbackCandidate L s.bestVC ∧
    s.bestIC = indexCountFor L s.bestVC ∧ s.bestVB = 12 * s.bestVC ∧
    s.bestIO = 12 * s.bestVC ∧
    ∀ v, 1 ≤ v → v < b → FallbackCandidate L v → v ≤ s.bestVC)

/-- The quotient `N / D` rounded to the nearest integer, ties to even. -/
def roundHalfEven (N D : Nat) : Nat :=
  if D < 2 * (N % D) ∨ (2 * (N % D) = D ∧ N / D % 2 = 1) then N / D + 1 else N / D

/-- For `2 ≤ ic / vc < 8`, the `float64` nearest to `ic / vc` in units of
`2 ^ -51`. -/
def ratioSignificand (ic vc : Nat) : Nat :=
  if ic < 4 * vc then roundHalfEven (ic * 2 ^ 51) vc else 2 * roundHalfEven (ic * 2 ^ 50) vc

/-- The distance `|ratio(ic, vc) - 2.5|` that the first loop of
`calculateBufferLayout` computes for a candidate. -/
def candidateDistance (ic vc : Nat) : float64 :=
  ratioDistance (IEEE.div IEEE.binary64 (IEEE.ofInt IEEE.binary64 ic) (IEEE.ofInt IEEE.binary64 vc))
    (f64 25 10)

/-- The natural number `|2 * ic - 5 * vc|`. -/
def gapNumer (ic vc : Nat) : Nat := 2 * ic - 5 * vc + (5 * vc - 2 * ic)

/-- The natural number `|R - 5 * 2 ^ 50|` for `R = ratioSignificand ic vc`. -/
def significandGap (ic vc : Nat) : Nat :=
  ratioSignificand ic vc - 5 * 2 ^ 50 + (5 * 2 ^ 50 - ratioSignificand ic vc)

/-- State of the first loop of `calculateBufferLayout` before iteration `b`:
nothing found below `b`, or the window candidate below `b` that is nearest to
the ratio 2.5, the smallest such vertex count among equally near ones. -/
def WindowInv (L b : Nat) (s : LayoutState) : Prop :=
  (s.bestVC = 0 ∧ ∀ v, 1 ≤ v → v < b → ¬ WindowCandidate L v) ∨
  (s.bestVC < b ∧ WindowCandidate L s.bestVC ∧
    s.bestIC = indexCountFor L s.bestVC ∧ s.bestVB = 12 * s.bestVC ∧
    s.bestIO = 12 * s.bestVC ∧
    s.bestRatio = IEEE.div IEEE.binary64 (IEEE.ofInt IEEE.binary64 s.bestIC)
      (IEEE.ofInt IEEE.binary64 s.bestVC) ∧
    ∀ v, 1 ≤ v → v < b → WindowCandidate L v →
      ratioGap L s.bestVC < ratioGap L v ∨
      (ratioGap L s.bestVC = ratioGap L v ∧ s.bestVC ≤ v))


/-! ## Definitions used to state the properties of geometry and scene -/

/-- The buffer that `GenerateClassWireframe` packs (it depends on no argument). -/
def classBuffer : List Nat :=
  (GenerateClassWireframe ⟨"", "", "", "", [], []⟩ ⟨0, 0, 0⟩).2.2

/-- The buffer that `GenerateTextQuad` packs (it depends on no argument). -/
def textQuadBuffer : List Nat := (GenerateTextQuad "" ⟨0, 0, 0⟩).2

/-- The `float32` word number `j` of a packed buffer. -/
def floatAt (buffer : List Nat) (j : Nat) : float32 := getUint32 buffer (j * 4)

/-- Coordinate `c` (0, 1 or 2) of vertex `j` in a buffer of tightly packed
`VEC3` positions. -/
def vertexCoord (buffer : List Nat) (j c : Nat) : float32 := floatAt buffer (3 * j + c)

/-- The smaller of two `float32` values. -/
def min32 (a b : float32) : float32 := if IEEE.lt IEEE.binary32 b a then b else a

/-- The larger of two `float32` values. -/
def max32 (a b : float32) : float32 := if IEEE.lt IEEE.binary32 a b then b else a

/-- The component-wise minimum of the first `count` vertex positions of a packed
buffer, as `float64` values. -/
def positionMin (buffer : List Nat) (count : Nat) : List float64 :=
  (List.range 3).map (fun c =>
    IEEE.convert IEEE.binary32 IEEE.binary64
      (((List.range count).map (fun j => vertexCoord buffer j c)).foldl min32
        (vertexCoord buffer 0 c)))

/-- The component-wise maximum of the first `count` vertex positions of a packed
buffer, as `float64` values. -/
def positionMax (buffer : List Nat) (count : Nat) : List float64 :=
  (List.range 3).map (fun c =>
    IEEE.convert IEEE.binary32 IEEE.binary64
      (((List.range count).map (fun j => vertexCoord buffer j c)).foldl max32
        (vertexCoord buffer 0 c)))

/-- The x coordinate of vertex `j` of an interleaved text-quad buffer (five
floats per vertex), as a signed numerator over `2 ^ 149`. -/
def quadX (buffer : List Nat) (j : Nat) : Int :=
  IEEE.signedNumer IEEE.binary32 (floatAt buffer (5 * j))

/-- The y coordinate of vertex `j` of an interleaved text-quad buffer. -/
def quadY (buffer : List Nat) (j : Nat) : Int :=
  IEEE.signedNumer IEEE.binary32 (floatAt buffer (5 * j + 1))

/-- Twice the signed area of the triangle `(a, b, c)` of a text-quad buffer in
the XY plane (in units of `2 ^ -298`): positive exactly when the triangle is
counter-clockwise for a viewer on the +Z side. -/
def signedArea2 (buffer : List Nat) (a b c : Nat) : Int :=
  (quadX buffer b - quadX buffer a) * (quadY buffer c - quadY buffer a)
    - (quadX buffer c - quadX buffer a) * (quadY buffer b - quadY buffer a)

/-- The eight indices of the closed ring of line segments over the four vertices
`b, b+1, b+2, b+3`. -/
def dividerRing (b : Nat) : List Nat := [b, b + 1, b + 1, b + 2, b + 2, b + 3, b + 3, b]

/-- The four vertices of a horizontal divider at height `y` (front-left,
front-right, back-right, back-left), three floats each. -/
def dividerQuad (w d y : float32) : List float32 :=
  [IEEE.neg IEEE.binary32 w, y, d,
   w, y, d,
   w, y, IEEE.neg IEEE.binary32 d,
   IEEE.neg IEEE.binary32 w, y, IEEE.neg IEEE.binary32 d]

/-- The lookup `m[k]` in a Go map value (`none` for a missing key or a value
that is no map). -/
def GoAny.get : GoAny → String → Option GoAny
  | GoAny.map m, k => (m.find? (fun kv => kv.1 == k)).map (fun kv => kv.2)
  | _, _ => none

/-- The lines of a class label: the name, the URL when it is non-empty, a
separator, one line per attribute, a separator, one line per operation. -/
def classLabelLines (cls : extuml.Class) : List String :=
  [cls.Name] ++ (if cls.URL ≠ "" then [cls.URL] else []) ++ ["---"] ++
    cls.Attributes.map (fun a => a.Name ++ ": " ++ a.Type_) ++ ["---"] ++
    cls.Operations.map (fun o => o.Name ++ "(): " ++ o.ReturnType)

/-- Number of newline characters of a string. -/
def newlines (s : String) : Nat := s.toList.count '\n'

/-- Number of lines of a text: one more than its newline characters. -/
def lineCount (s : String) : Nat := newlines s + 1

/-- A class with a URL, two attributes and one operation. -/
def sampleClass : extuml.Class :=
  ⟨"c1", "class", "Shape", "https://example.org/shape",
    [⟨"id", "int"⟩, ⟨"name", "string"⟩], [⟨"area", "float"⟩]⟩

/-- The x coordinate of grid column `i`, `float64(i) * spacing` for the spacing
3.0 of `generateGeometry`. -/
def gridX (i : Nat) : float64 :=
  IEEE.mul IEEE.binary64 (IEEE.ofInt IEEE.binary64 i) (f64 3 1)

/-- The value `extras.extuml.type` of a node. -/
def nodeKind (nd : gltf.Node) : Option GoAny :=
  (GoAny.get nd.Extras "extuml").bind (fun e => GoAny.get e "type")

/-- The value `extras.extuml.text` of a node. -/
def nodeText (nd : gltf.Node) : Option GoAny :=
  (GoAny.get nd.Extras "extuml").bind (fun e => GoAny.get e "text")

/-- An enum with three literals. -/
def sampleEnum : extuml.Enum := ⟨"e1", "enum", "Colour", "", ["RED", "GREEN", "BLUE"]⟩

/-- Corner `j` of a list of tightly packed positions. -/
def cornerAt (vertices : List float32) (j : Nat) : float32 × float32 × float32 :=
  (vertices.getD (3 * j) 0, vertices.getD (3 * j + 1) 0, vertices.getD (3 * j + 2) 0)

/-- Number of coordinates in which two points differ, compared as `float32`
values. -/
def coordsDiffering (p q : float32 × float32 × float32) : Nat :=
  (if IEEE.eq IEEE.binary32 p.1 q.1 then 0 else 1)
    + (if IEEE.eq IEEE.binary32 p.2.1 q.2.1 then 0 else 1)
    + (if IEEE.eq IEEE.binary32 p.2.2 q.2.2 then 0 else 1)

/-- Line segment `t` of an index list in line topology. -/
def segmentAt (indices : List Nat) (t : Nat) : Nat × Nat :=
  (indices.getD (2 * t) 0, indices.getD (2 * t + 1) 0)

/-- The value `-x` for `s = true`, `x` otherwise. -/
def signed32 (s : Bool) (x : float32) : float32 := if s then IEEE.neg IEEE.binary32 x else x

/-- The lists are the wireframe of the box with half extents `w`, `h`, `d`:
8 vertices, each a corner `(±w, ±h, ±d)`, pairwise distinct as points; 24
indices, that is 12 segments between vertices, each joining two corners that
differ in exactly one coordinate, no two joining the same pair of corners. -/
def IsBoxWireframe (w h d : float32) (vertices : List float32) (indices : List Nat) : Prop :=
  vertices.length = 3 * 8 ∧ indices.length = 2 * 12 ∧
  (∀ j, j < 8 → ∃ sx sy sz : Bool,
    cornerAt vertices j = (signed32 sx w, signed32 sy h, signed32 sz d)) ∧
  (∀ i, i < 8 → ∀ j, j < 8 → i ≠ j →
    coordsDiffering (cornerAt vertices i) (cornerAt vertices j) ≠ 0) ∧
  (∀ t, t < 12 → (segmentAt indices t).1 < 8 ∧ (segmentAt indices t).2 < 8 ∧
    coordsDiffering (cornerAt vertices (segmentAt indices t).1)
      (cornerAt vertices (segmentAt indices t).2) = 1) ∧
  (∀ s, s < 12 → ∀ t, t < 12 → s ≠ t →
    segmentAt indices s ≠ segmentAt indices t ∧
    segmentAt indices s ≠ ((segmentAt indices t).2, (segmentAt indices t).1))


/-! ## Definitions used to state the wiring of the asset tables -/

/-- Every table of `a` is an unchanged prefix of the same table of `b`. -/
def TablesExtend (a b : gltf.GLTFAsset) : Prop :=
  a.Nodes <+: b.Nodes ∧ a.Meshes <+: b.Meshes ∧ a.Materials <+: b.Materials ∧
  a.Buffers <+: b.Buffers ∧ a.BufferViews <+: b.BufferViews ∧ a.Accessors <+: b.Accessors

/-- The element tables run in lock step: one mesh, one material and one buffer
for every node, two buffer views for every buffer. -/
def LockLengths (a : gltf.GLTFAsset) : Prop :=
  a.Meshes.length = a.Nodes.length ∧ a.Materials.length = a.Nodes.length ∧
  a.Buffers.length = a.Nodes.length ∧ a.BufferViews.length = 2 * a.Nodes.length

/-- Every accessor is a float `VEC3` or `VEC2` (component type 5126) or an
unsigned-short `SCALAR` (component type 5123). -/
def AccessorCodes (a : gltf.GLTFAsset) : Prop :=
  ∀ acc ∈ a.Accessors,
    ((acc.Type_ = "VEC3" ∨ acc.Type_ = "VEC2") ∧ acc.ComponentType = 5126) ∨
    (acc.Type_ = "SCALAR" ∧ acc.ComponentType = 5123)

/-- Element `k` of the asset is wired to its own table entries: node `k` shows
mesh `k`, whose single primitive uses material `k`; buffer `k` holds the packed
bytes `data`; buffer views `2k` and `2k+1` are the vertex and the index region
of buffer `k`, back to back and filling it; every attribute accessor of the
primitive reads buffer view `2k` and its index accessor reads buffer view
`2k+1`; every stored index is below the count of the position accessor; and
the primitive mode and the vertex count are those of the element kind. -/
def Wired (a : gltf.GLTFAsset) (k : Nat) : Prop :=
  ∃ (nd : gltf.Node) (m : gltf.Mesh) (p : gltf.Primitive) (b : gltf.Buffer)
    (v0 v1 : gltf.BufferView) (data : List Nat) (pos idx : Nat)
    (posAcc idxAcc : gltf.Accessor),
    (a.Nodes[k]? = some nd ∧ nd.Mesh = some k ∧
      a.Meshes[k]? = some m ∧ m.Primitives = [p] ∧ p.Material = some k) ∧
    (a.Buffers[k]? = some b ∧ b.ByteLength = data.length ∧ b.URI = CreateBufferURI data ∧
      a.BufferViews[2 * k]? = some v0 ∧ v0.Buffer = k ∧ v0.ByteOffset = 0 ∧
      v0.Target = some 34962 ∧
      a.BufferViews[2 * k + 1]? = some v1 ∧ v1.Buffer = k ∧
      v1.ByteOffset = v0.ByteOffset + v0.ByteLength ∧ v1.Target = some 34963 ∧
      v1.ByteOffset % 4 = 0 ∧ v1.ByteOffset + v1.ByteLength = b.ByteLength) ∧
    (p.Indices = some idx ∧ a.Accessors[idx]? = some idxAcc ∧
      idxAcc.BufferView = some (2 * k + 1) ∧ idxAcc.ByteOffset = 0 ∧
      2 * idxAcc.Count = v1.ByteLength ∧
      (∀ kv ∈ p.Attributes, ∃ acc : gltf.Accessor,
        a.Accessors[kv.2]? = some acc ∧ acc.BufferView = some (2 * k)) ∧
      p.Attributes.lookup "POSITION" = some pos ∧ a.Accessors[pos]? = some posAcc) ∧
    (∀ j, j < idxAcc.Count →
      getUint16 data (v1.ByteOffset + idxAcc.ByteOffset + 2 * j) < posAcc.Count) ∧
    ((nodeKind nd = some (GoAny.str "text") ∧ p.Mode = some 4 ∧ posAcc.Count = 4) ∨
     (nodeKind nd = some (GoAny.str "class") ∧ p.Mode = some 1 ∧ posAcc.Count = 8) ∨
     ((nodeKind nd = some (GoAny.str "interface") ∨ nodeKind nd = some (GoAny.str "enum")) ∧
        p.Mode = some 1 ∧ posAcc.Count = 12))

/-- The wiring invariant of the whole asset. -/
def WiredAll (a : gltf.GLTFAsset) : Prop :=
  LockLengths a ∧ AccessorCodes a ∧ ∀ k, k < a.Nodes.length → Wired a k

/-! ## `pkg/usecase/generate.go`: scene bounds and the asset of `Execute` -/

/-- The running bounds of `calculateSceneBounds`. -/
structure BoundsState where
  minX : float64
  minY : float64
  minZ : float64
  maxX : float64
  maxY : float64
  maxZ : float64

open IEEE in
/-- Body of the loop `for _, node := range asset.Nodes` of
`calculateSceneBounds`. -/
def boundsBody (node : gltf.Node) (s : BoundsState) : BoundsState :=
  match node.Translation with
  | [x, y, z] =>
    let nodeWidth := f64 2 1
    let nodeHeight := f64 2 1
    let nodeDepth := f64 5 10
    let s : BoundsState :=
      if lt binary64 (sub binary64 x nodeWidth) s.minX then
        { s with minX := sub binary64 x nodeWidth } else s
    let s : BoundsState :=
      if lt binary64 s.maxX (add binary64 x nodeWidth) then
        { s with maxX := add binary64 x nodeWidth } else s
    let s : BoundsState :=
      if lt binary64 (sub binary64 y nodeHeight) s.minY then
        { s with minY := sub binary64 y nodeHeight } else s
    let s : BoundsState :=
      if lt binary64 s.maxY (add binary64 y nodeHeight) then
        { s with maxY := add binary64 y nodeHeight } else s
    let s : BoundsState :=
      if lt binary64 (sub binary64 z nodeDepth) s.minZ then
        { s with minZ := sub binary64 z nodeDepth } else s
    let s : BoundsState :=
      if lt binary64 s.maxZ (add binary64 z nodeDepth) then
        { s with maxZ := add binary64 z nodeDepth } else s
    s
  | _ => s

/-- The loop `for _, node := range asset.Nodes` of `calculateSceneBounds`. -/
def boundsLoop : List gltf.Node → BoundsState → BoundsState
  | [], s => s
  | node :: rest, s => boundsLoop rest (boundsBody node s)

open IEEE in
/-- The part of `calculateSceneBounds` after the loop: center, size, camera
distance and the returned map. -/
def boundsResult (s : BoundsState) : GoAny :=
  let centerX := div binary64 (add binary64 s.minX s.maxX) (f64 2 1)
  let centerY := div binary64 (add binary64 s.minY s.maxY) (f64 2 1)
  let centerZ := div binary64 (add binary64 s.minZ s.maxZ) (f64 2 1)
  let sizeX := sub binary64 s.maxX s.minX
  let sizeY := sub binary64 s.maxY s.minY
  let sizeZ := sub binary64 s.maxZ s.minZ
  let maxDimension := sizeX
  let maxDimension := if lt binary64 maxDimension sizeY then sizeY else maxDimension
  let cameraDistance := mul binary64 maxDimension (f64 25 10)
  let cameraDistance := if lt binary64 cameraDistance (f64 3 1) then f64 3 1 else cameraDistance
  GoAny.map
    [("bounds", GoAny.map
      [("min", GoAny.floats [s.minX, s.minY, s.minZ]),
       ("max", GoAny.floats [s.maxX, s.maxY, s.maxZ]),
       ("center", GoAny.floats [centerX, centerY, centerZ]),
       ("size", GoAny.floats [sizeX, sizeY, sizeZ])]),
     ("recommended", GoAny.map
      [("distance", GoAny.float cameraDistance),
       ("target", GoAny.floats [centerX, centerY, centerZ]),
       ("orbit", GoAny.floats [f64 45 1, f64 55 1, cameraDistance])])]

open IEEE in
def calculateSceneBounds (asset : gltf.GLTFAsset) : GoAny :=
  let s : BoundsState :=
    { minX := f64 10000000000 1, minY := f64 10000000000 1, minZ := f64 10000000000 1,
      maxX := neg binary64 (f64 10000000000 1), maxY := neg binary64 (f64 10000000000 1),
      maxZ := neg binary64 (f64 10000000000 1) }
  boundsResult (boundsLoop asset.Nodes s)

/-- The asset that `Execute` builds between loading the document and writing
the output, for the clock reading `generatedAt`; `none` where the Go code would
panic. -/
def executeAsset (doc : extuml.Document) (generatedAt : String) : Option gltf.GLTFAsset :=
  let gltfAsset := initialAsset doc generatedAt
  match doc.Elements with
  | none => some gltfAsset
  | some _ =>
    match generateGeometry doc gltfAsset with
    | none => none
    | some gltfAsset =>
      let bounds := calculateSceneBounds gltfAsset
      let extras : GoAny :=
        match gltfAsset.Asset.Extras with
        | GoAny.null => GoAny.map []
        | e => e
      let extras : GoAny :=
        match extras with
        | GoAny.map extrasMap => GoAny.map (mapSet extrasMap "camera" bounds)
        | e => e
      some { gltfAsset with Asset := { gltfAsset.Asset with Extras := extras } }

/-! ## Definitions used to state the properties of bounds and determinism -/

/-- The asset `a` with the header `h`. -/
def withHeader (a : gltf.GLTFAsset) (h : gltf.Asset) : gltf.GLTFAsset := { a with Asset := h }

/-- The 3-component translations of a node list, in node order; nodes whose
translation does not have exactly 3 components are left out. -/
def translations (nodes : List gltf.Node) : List (float64 × float64 × float64) :=
  nodes.filterMap (fun nd =>
    match nd.Translation with
    | [x, y, z] => some (x, y, z)
    | _ => none)

/-- The value `m` is a minimum of the list: a member that no member is below. -/
def IsMinOf (vals : List float64) (m : float64) : Prop :=
  m ∈ vals ∧ ∀ v ∈ vals, IEEE.lt IEEE.binary64 v m = false

/-- The value `m` is a maximum of the list: a member that is below no member. -/
def IsMaxOf (vals : List float64) (m : float64) : Prop :=
  m ∈ vals ∧ ∀ v ∈ vals, IEEE.lt IEEE.binary64 m v = false

/-- The larger of two `float64` values. -/
def max64 (a b : float64) : float64 := if IEEE.lt IEEE.binary64 a b then b else a

/-- The value `x` has magnitude below 1e9. -/
def Below1e9 (x : float64) : Prop :=
  IEEE.lt IEEE.binary64 x (f64 1000000000 1) = true ∧
  IEEE.lt IEEE.binary64 (IEEE.neg IEEE.binary64 (f64 1000000000 1)) x = true

/-! ## Definitions used to state the camera report -/

/-- The map that `calculateSceneBounds` returns for the bounds `minX .. maxZ`:
center = (min + max) / 2, size = max - min, distance = max(2.5 * max(sizeX,
sizeY), 3.0), target = center, orbit = (45, 55, distance). -/
def boundsReport (minX minY minZ maxX maxY maxZ : float64) : GoAny :=
  GoAny.map
    [("bounds", GoAny.map
      [("min", GoAny.floats [minX, minY, minZ]),
       ("max", GoAny.floats [maxX, maxY, maxZ]),
       ("center", GoAny.floats
          [IEEE.div IEEE.binary64 (IEEE.add IEEE.binary64 minX maxX) (f64 2 1),
           IEEE.div IEEE.binary64 (IEEE.add IEEE.binary64 minY maxY) (f64 2 1),
           IEEE.div IEEE.binary64 (IEEE.add IEEE.binary64 minZ maxZ) (f64 2 1)]),
       ("size", GoAny.floats
          [IEEE.sub IEEE.binary64 maxX minX, IEEE.sub IEEE.binary64 maxY minY,
           IEEE.sub IEEE.binary64 maxZ minZ])]),
     ("recommended", GoAny.map
      [("distance", GoAny.float
          (max64 (IEEE.mul IEEE.binary64
            (max64 (IEEE.sub IEEE.binary64 maxX minX) (IEEE.sub IEEE.binary64 maxY minY))
            (f64 25 10)) (f64 3 1))),
       ("target", GoAny.floats
          [IEEE.div IEEE.binary64 (IEEE.add IEEE.binary64 minX maxX) (f64 2 1),
           IEEE.div IEEE.binary64 (IEEE.add IEEE.binary64 minY maxY) (f64 2 1),
           IEEE.div IEEE.binary64 (IEEE.add IEEE.binary64 minZ maxZ) (f64 2 1)]),
       ("orbit", GoAny.floats
          [f64 45 1, f64 55 1,
           max64 (IEEE.mul IEEE.binary64
            (max64 (IEEE.sub IEEE.binary64 maxX minX) (IEEE.sub IEEE.binary64 maxY minY))
            (f64 25 10)) (f64 3 1)])])]

/-- A node with the translation `t` and nothing else. -/
def nodeAt (t : List float64) : gltf.Node :=
  { Name := "", Mesh := none, Translation := t, Rotation := [], Scale := [], Matrix := [],
    Children := [], Extras := GoAny.null }

/-- An asset of four nodes: at (0, 0, 0), one without a translation, at
(3, -1, 0), and one with a 2-component translation. -/
def sampleBoundsAsset : gltf.GLTFAsset :=
  { initialAsset ⟨"0.1", none, none⟩ "" with
    Nodes := [nodeAt [f64 0 1, f64 0 1, f64 0 1], nodeAt [],
              nodeAt [f64 3 1, IEEE.neg IEEE.binary64 (f64 1 1), f64 0 1],
              nodeAt [f64 7 1, f64 7 1]] }

open IEEE in
/-- The running bounds of `calculateSceneBounds` after the nodes of the first
`k` classes of a diagram of classes only: the start values for `k = 0`, and
min = (-2, -2, -0.5), max = (3(k-1)+2, 2, 0.5) afterwards. -/
def boundsAfter : Nat → BoundsState
  | 0 =>
    { minX := f64 10000000000 1, minY := f64 10000000000 1, minZ := f64 10000000000 1,
      maxX := neg binary64 (f64 10000000000 1), maxY := neg binary64 (f64 10000000000 1),
      maxZ := neg binary64 (f64 10000000000 1) }
  | k + 1 =>
    { minX := neg binary64 (f64 2 1), minY := neg binary64 (f64 2 1),
      minZ := neg binary64 (f64 5 10),
      maxX := ofInt binary64 ((3 * k + 2 : Nat) : Int), maxY := f64 2 1, maxZ := f64 5 10 }

open IEEE in
/-- The camera report of a diagram of `N` classes only: min = (-2, -2, -0.5),
max = (3(N-1)+2, 2, 0.5), center = (3(N-1)/2, 0, 0), size = (3N+1, 4, 1) and
distance 2.5 * (3N+1) = 5(3N+1)/2. -/
def classesReport (N : Nat) : GoAny :=
  GoAny.map
    [("bounds", GoAny.map
      [("min", GoAny.floats
          [neg binary64 (f64 2 1), neg binary64 (f64 2 1), neg binary64 (f64 5 10)]),
       ("max", GoAny.floats
          [ofInt binary64 ((3 * (N - 1) + 2 : Nat) : Int), f64 2 1, f64 5 10]),
       ("center", GoAny.floats [f64 (3 * (N - 1)) 2, f64 0 1, f64 0 1]),
       ("size", GoAny.floats [ofInt binary64 ((3 * N + 1 : Nat) : Int), f64 4 1, f64 1 1])]),
     ("recommended", GoAny.map
      [("distance", GoAny.float (f64 (5 * (3 * N + 1)) 2)),
       ("target", GoAny.floats [f64 (3 * (N - 1)) 2, f64 0 1, f64 0 1]),
       ("orbit", GoAny.floats [f64 45 1, f64 55 1, f64 (5 * (3 * N + 1)) 2])])]

/-- The camera report of a single class: min = (-2, -2, -0.5), max = (2, 2,
0.5), center = (0, 0, 0), distance 10. -/
def singleClassReport : GoAny :=
  GoAny.map
    [("bounds", GoAny.map
      [("min", GoAny.floats
          [IEEE.neg IEEE.binary64 (f64 2 1), IEEE.neg IEEE.binary64 (f64 2 1),
           IEEE.neg IEEE.binary64 (f64 5 10)]),
       ("max", GoAny.floats [f64 2 1, f64 2 1, f64 5 10]),
       ("center", GoAny.floats [f64 0 1, f64 0 1, f64 0 1]),
       ("size", GoAny.floats [f64 4 1, f64 4 1, f64 1 1])]),
     ("recommended", GoAny.map
      [("distance", GoAny.float (f64 10 1)),
       ("target", GoAny.floats [f64 0 1, f64 0 1, f64 0 1]),
       ("orbit", GoAny.floats [f64 45 1, f64 55 1, f64 10 1])])]

/-! ## Go library functions used by the loader

A Go string is held as a Lean string, that is as valid UTF-8 text, and
positions count characters; the separators that the loader searches for are
ASCII, so that slicing at such a position cuts the same text as in Go. -/

/-- The Go function `unicode.IsSpace`. -/
def unicode.IsSpace (r : Char) : Bool :=
  let n := r.toNat
  n == 9 || n == 10 || n == 11 || n == 12 || n == 13 || n == 32 || n == 0x85 || n == 0xA0 ||
  n == 0x1680 || (0x2000 ≤ n && n ≤ 0x200a) || n == 0x2028 || n == 0x2029 || n == 0x202f ||
  n == 0x205f || n == 0x3000

namespace strings

/-- The Go function `strings.TrimSpace`. -/
def TrimSpace (s : String) : String :=
  ⟨(s.data.dropWhile unicode.IsSpace).rdropWhile unicode.IsSpace⟩

/-- The Go function `strings.HasPrefix`. -/
def HasPrefix (s pre : String) : Bool := pre.data.isPrefixOf s.data

/-- The Go function `strings.HasSuffix`. -/
def HasSuffix (s suf : String) : Bool := suf.data.isSuffixOf s.data

/-- The Go function `strings.TrimPrefix`. -/
def TrimPrefix (s pre : String) : String :=
  if HasPrefix s pre then ⟨s.data.drop pre.data.length⟩ else s

/-- The Go function `strings.TrimSuffix`. -/
def TrimSuffix (s suf : String) : String :=
  if HasSuffix s suf then ⟨s.data.take (s.data.length - suf.data.length)⟩ else s

/-- The position of the first occurrence of `sub` in `s`, counted from `i`. -/
def indexFrom (sub : List Char) : List Char → Nat → Option Nat
  | [], i => if sub.isPrefixOf [] then some i else none
  | c :: rest, i => if sub.isPrefixOf (c :: rest) then some i else indexFrom sub rest (i + 1)

/-- The Go function `strings.Index`; `none` stands for the result -1. -/
def Index (s sub : String) : Option Nat := indexFrom sub.data s.data 0

/-- The Go function `strings.Contains`. -/
def Contains (s sub : String) : Bool := (Index s sub).isSome

/-- The Go function `strings.Fields`. -/
def Fields (s : String) : List String :=
  ((s.data.splitOnP unicode.IsSpace).filter (fun w => !w.isEmpty)).map String.mk

end strings

/-- The slice `s[i:]` of a Go string. -/
def sliceFrom (s : String) (i : Nat) : String := ⟨s.data.drop i⟩

/-- The slice `s[:i]` of a Go string. -/
def sliceTo (s : String) (i : Nat) : String := ⟨s.data.take i⟩

/-- The test `len(line) > 0 && (line[0] == '+' || line[0] == '-' || line[0] ==
'#' || line[0] == '~')`. -/
def hasVisibility (line : String) : Bool :=
  match line.data with
  | [] => false
  | c :: _ => c == '+' || c == '-' || c == '#' || c == '~'

/-! ## `pkg/repository/extuml.go` -/

/-- The function `parseClassMember`; the class is passed and returned in place
of the pointer. -/
def parseClassMember (cls : extuml.Class) (line : String) : extuml.Class :=
  let line := strings.TrimSpace line
  if line == "" then cls
  else if strings.HasPrefix line "@url:" then
    { cls with URL := strings.TrimSpace (strings.TrimPrefix line "@url:") }
  else
    let line := if hasVisibility line then strings.TrimSpace (sliceFrom line 1) else line
    if strings.Contains line "(" then
      let opName := line
      let returnType := ""
      let (opName, returnType) :=
        match strings.Index line ":" with
        | some idx => (strings.TrimSpace (sliceTo line idx), strings.TrimSpace (sliceFrom line (idx + 1)))
        | none => (opName, returnType)
      let opName :=
        match strings.Index opName "(" with
        | some idx => sliceTo opName idx
        | none => opName
      { cls with Operations := cls.Operations ++ [{ Name := opName, ReturnType := returnType }] }
    else
      let parts := strings.Fields line
      match parts with
      | attrType :: attrName :: _ =>
        { cls with Attributes := cls.Attributes ++ [{ Name := attrName, Type_ := attrType }] }
      | [name] => { cls with Attributes := cls.Attributes ++ [{ Name := name, Type_ := "" }] }
      | [] => cls

/-- The function `parseInterfaceMember`. -/
def parseInterfaceMember (iface : extuml.Interface) (line : String) : extuml.Interface :=
  let line := strings.TrimSpace line
  if line == "" then iface
  else if strings.HasPrefix line "@url:" then
    { iface with URL := strings.TrimSpace (strings.TrimPrefix line "@url:") }
  else
    let line := if hasVisibility line then strings.TrimSpace (sliceFrom line 1) else line
    let opName := line
    let returnType := ""
    let (opName, returnType) :=
      match strings.Index line ":" with
      | some idx => (strings.TrimSpace (sliceTo line idx), strings.TrimSpace (sliceFrom line (idx + 1)))
      | none => (opName, returnType)
    let opName :=
      match strings.Index opName "(" with
      | some idx => sliceTo opName idx
      | none => opName
    { iface with Operations := iface.Operations ++ [{ Name := opName, ReturnType := returnType }] }

/-- The function `parseEnumLiteral`. -/
def parseEnumLiteral (enum : extuml.Enum) (line : String) : extuml.Enum :=
  let line := strings.TrimSpace line
  if line == "" then enum
  else if strings.HasPrefix line "@url:" then
    { enum with URL := strings.TrimSpace (strings.TrimPrefix line "@url:") }
  else
    let line := strings.TrimSuffix line ","
    { enum with Literals := enum.Literals ++ [line] }

/-- The `bufio.Scanner` of `Load`: the lines it has yet to return, the read
error that it meets after them (if any), and the value of `Err()`. -/
structure Scanner where
  input : List String
  fail : Option String
  err : Option String

/-- The header loop of `Load`: the header found (empty if the input ends
first) and the scanner after the loop. -/
def headerLoop (fail : Option String) : List String → String × Scanner
  | [] => ("", { input := [], fail := fail, err := fail })
  | text :: rest =>
    let line := strings.TrimSpace text
    if line == "" || strings.HasPrefix line "%%" then headerLoop fail rest
    else (line, { input := rest, fail := fail, err := none })

/-- The variables of the body loop of `Load`. -/
structure LoadState where
  Elements : extuml.Elements
  currentClass : Option extuml.Class
  currentInterface : Option extuml.Interface
  currentEnum : Option extuml.Enum

/-- The name that a declaration line carries after its keyword. -/
def declaredName (line keyword : String) : String :=
  let name := strings.TrimSpace (strings.TrimPrefix line keyword)
  let name := strings.TrimSuffix name " \x7b"
  strings.TrimSpace name

/-- Body of the loop `for scanner.Scan()` over the lines after the header. -/
def loadBody (text : String) (s : LoadState) : LoadState :=
  let line := strings.TrimSpace text
  if line == "" || strings.HasPrefix line "%%" then s
  else if strings.HasPrefix line "class " then
    let className := declaredName line "class "
    { s with
      currentClass := some { ID := className, Type_ := "class", Name := className, URL := "",
                             Attributes := [], Operations := [] }
      currentInterface := none
      currentEnum := none }
  else if strings.HasPrefix line "interface " then
    let interfaceName := declaredName line "interface "
    { s with
      currentInterface := some { ID := interfaceName, Type_ := "interface",
                                 Name := interfaceName, URL := "", Operations := [] }
      currentClass := none
      currentEnum := none }
  else if strings.HasPrefix line "enum " then
    let enumName := declaredName line "enum "
    { s with
      currentEnum := some { ID := enumName, Type_ := "enum", Name := enumName, URL := "",
                            Literals := [] }
      currentClass := none
      currentInterface := none }
  else if line == "\x7d" then
    match s.currentClass, s.currentInterface, s.currentEnum with
    | some cls, _, _ =>
      { s with Elements := { s.Elements with Classes := s.Elements.Classes ++ [cls] }
               currentClass := none }
    | none, some iface, _ =>
      { s with Elements := { s.Elements with Interfaces := s.Elements.Interfaces ++ [iface] }
               currentInterface := none }
    | none, none, some enum =>
      { s with Elements := { s.Elements with Enums := s.Elements.Enums ++ [enum] }
               currentEnum := none }
    | none, none, none => s
  else
    match s.currentClass, s.currentInterface, s.currentEnum with
    | some cls, _, _ => { s with currentClass := some (parseClassMember cls line) }
    | none, some iface, _ => { s with currentInterface := some (parseInterfaceMember iface line) }
    | none, none, some enum => { s with currentEnum := some (parseEnumLiteral enum line) }
    | none, none, none => s

/-- The body loop of `Load` over the remaining lines. -/
def loadLoop : List String → LoadState → LoadState
  | [], s => s
  | text :: rest, s => loadLoop rest (loadBody text s)

/-- The function `Load` on the result of `os.Open`: an error, or the lines that
the scanner returns and the read error that ends them (if any). The result is
the document or the error text. -/
def Load (file : Except String (List String × Option String)) : Except String extuml.Document :=
  match file with
  | Except.error err => Except.error ("read extuml: " ++ err)
  | Except.ok (lines, fail) =>
    let (header, scanner) := headerLoop fail lines
    match scanner.err with
    | some err => Except.error ("read extuml: " ++ err)
    | none =>
      if header == "" || !strings.HasPrefix header "extuml" then
        Except.error "E100: DSL header not found (expected 'extuml classDiagram3D')"
      else
        let s := loadLoop scanner.input
          { Elements := { Classes := [], Interfaces := [], Enums := [], Packages := [],
                          Notes := [] }
            currentClass := none, currentInterface := none, currentEnum := none }
        match scanner.fail with
        | some err => Except.error ("read extuml: " ++ err)
        | none => Except.ok { Version := "0.1", Meta := none, Elements := some s.Elements }

/-- The lines of the input of `TestGenerateCommand`. -/
def testInput : List String :=
  ["extuml classDiagram3D", "", "class Test \x7b", "  +string id", "\x7d", "\t"]

/-! ## Definitions used to state what the loader keeps -/

/-! ## Definitions used to state the properties of the loader -/

/-- A line that both loops of `Load` skip: blank after trimming, or a comment
that starts with "%%" after trimming. -/
def isSkipped (text : String) : Bool :=
  strings.TrimSpace text == "" || strings.HasPrefix (strings.TrimSpace text) "%%"

/-- The first line that is not skipped, trimmed. -/
def firstContentLine (lines : List String) : Option String :=
  (lines.find? (fun text => !isSkipped text)).map strings.TrimSpace

/-- The lines after the first line that is not skipped. -/
def bodyLines (lines : List String) : List String :=
  (lines.dropWhile isSkipped).drop 1

/-- The state of the body loop of `Load` before its first line. -/
def loadStart : LoadState :=
  { Elements := { Classes := [], Interfaces := [], Enums := [], Packages := [], Notes := [] }
    currentClass := none, currentInterface := none, currentEnum := none }

/-- The run of the body loop of `Load`: each line read, with the state before
it. -/
def loadTrace : List String → LoadState → List (String × LoadState)
  | [], _ => []
  | text :: rest, s => (text, s) :: loadTrace rest (loadBody text s)

/-- A line equal to "\x7d" after trimming. -/
def isClose (text : String) : Bool := strings.TrimSpace text == "\x7d"

/-- A class, interface or enum declaration line. -/
def isDeclaration (text : String) : Bool :=
  !isSkipped text &&
  (strings.HasPrefix (strings.TrimSpace text) "class " ||
   strings.HasPrefix (strings.TrimSpace text) "interface " ||
   strings.HasPrefix (strings.TrimSpace text) "enum ")

/-- The class that a step of the run closes: the current class, at a closing
line. -/
def closedClass (step : String × LoadState) : Option extuml.Class :=
  if isClose step.1 then step.2.currentClass else none

/-- The interface that a step of the run closes: the current interface, at a
closing line with no current class. -/
def closedInterface (step : String × LoadState) : Option extuml.Interface :=
  if isClose step.1 ∧ step.2.currentClass.isNone then step.2.currentInterface else none

/-- The enum that a step of the run closes: the current enum, at a closing line
with no current class and no current interface. -/
def closedEnum (step : String × LoadState) : Option extuml.Enum :=
  if isClose step.1 ∧ step.2.currentClass.isNone ∧ step.2.currentInterface.isNone then
    step.2.currentEnum
  else none

/-- At most one of the three current elements is set. -/
def OneCurrent (s : LoadState) : Prop :=
  (s.currentClass.isNone ∧ s.currentInterface.isNone) ∨
  (s.currentClass.isNone ∧ s.currentEnum.isNone) ∨
  (s.currentInterface.isNone ∧ s.currentEnum.isNone)

/-- A class without members. -/
def emptyClass (name : String) : extuml.Class :=
  { ID := name, Type_ := "class", Name := name, URL := "", Attributes := [], Operations := [] }

/-- Lines with an unclosed class `A` (ended by the declaration of `B`), a closed
class `B`, an unclosed interface `I`, a closed enum `E` and a class `C` that the
end of input leaves open. -/
def unclosedInput : List String :=
  ["extuml classDiagram3D", "class A \x7b", "+int x", "class B \x7b", "+int y", "\x7d",
   "interface I \x7b", "enum E \x7b", "RED,", "\x7d", "\x7d", "class C \x7b", "+int z"]

/-- The document that `Load` returns for `unclosedInput`: the class `B` and the
enum `E`. -/
def unclosedDocument : extuml.Document :=
  { Version := "0.1", Meta := none,
    Elements := some
      { Classes := [{ ID := "B", Type_ := "class", Name := "B", URL := "",
                      Attributes := [{ Name := "y", Type_ := "int" }], Operations := [] }],
        Interfaces := [],
        Enums := [{ ID := "E", Type_ := "enum", Name := "E", URL := "", Literals := ["RED"] }],
        Packages := [], Notes := [] } }

/-- One of the visibility characters `+`, `-`, `#`, `~`. -/
def isVisibility (c : Char) : Bool := c == '+' || c == '-' || c == '#' || c == '~'

/-! ## Definitions used to state the floors and the divider ring -/

namespace IEEE

/-- The Go comparison `x <= y`. -/
def le (f : Format) (x y : Nat) : Bool :=
  !isNaN f x && !isNaN f y && decide (signedNumer f x ≤ signedNumer f y)

end IEEE

/-- An asset of one node at x = y = 2 + 2^-51 and z = 0.5 + 2^-53. -/
def tightAsset : gltf.GLTFAsset :=
  { initialAsset ⟨"0.1", none, none⟩ "" with
    Nodes := [nodeAt [f64 (2 ^ 52 + 1) (2 ^ 51), f64 (2 ^ 52 + 1) (2 ^ 51),
                      f64 (2 ^ 52 + 1) (2 ^ 53)]] }

/-- An interface with 83,886,084 operations. -/
def bigInterface : extuml.Interface :=
  ⟨"i", "interface", "Big", "", List.replicate 83886084 ⟨"op", ""⟩⟩

/-- An enum with 111,848,112 literals. -/
def bigEnum : extuml.Enum :=
  ⟨"e", "enum", "Big", "", List.replicate 111848112 "L"⟩

/-! ## Buffer packing: layout and decoding -/

/-! ## Buffer packing -/

theorem align4_mul_four (n : Nat) : align4 (n * 4) = n * 4 := by
  unfold align4
  have : n * 4 % 4 = 0 := by omega
  simp [this]

theorem align4_length_mul (vc : Nat) : align4 (vc * 3 * 4) = 12 * vc := by
  unfold align4
  have : vc * 3 * 4 % 4 = 0 := by omega
  simp [this]; omega

theorem putUint32_append (pre rest : List Nat) (a b c d : Nat) (v : Nat) :
    putUint32 (pre ++ a :: b :: c :: d :: rest) pre.length v = pre ++ le32 v ++ rest := by
  unfold putUint32 le32
  simp [List.set_append]

theorem putUint16_append (pre rest : List Nat) (a b : Nat) (v : Nat) :
    putUint16 (pre ++ a :: b :: rest) pre.length v = pre ++ le16 v ++ rest := by
  unfold putUint16 le16
  simp [List.set_append]

theorem writeVertices_append (vs : List Nat) :
    ∀ (pre rest : List Nat) (i : Nat), pre.length = i * 4 →
      writeVertices vs i (pre ++ List.replicate (vs.length * 4) 0 ++ rest)
        = pre ++ vs.flatMap (fun v => le32 (Float32bits v)) ++ rest := by
  induction vs with
  | nil => intro pre rest i _; simp [writeVertices]
  | cons v vs ih =>
    intro pre rest i hi
    have hrep : List.replicate ((v :: vs).length * 4) (0 : Nat)
        = 0 :: 0 :: 0 :: 0 :: List.replicate (vs.length * 4) 0 := by
      have : (v :: vs).length * 4 = 4 + vs.length * 4 := by simp [List.length_cons]; omega
      rw [this, List.replicate_add]; rfl
    rw [writeVertices, hrep, ← hi]
    have := putUint32_append pre (List.replicate (vs.length * 4) 0 ++ rest) 0 0 0 0 (Float32bits v)
    simp only [List.append_assoc, List.cons_append] at this ⊢
    rw [this]
    have h2 := ih (pre ++ le32 (Float32bits v)) rest (i + 1) (by simp [le32, hi]; omega)
    simp only [List.append_assoc] at h2
    rw [h2]
    simp [List.flatMap_cons]

theorem writeIndices_append (off : Nat) (is : List Nat) :
    ∀ (pre rest : List Nat) (i : Nat), pre.length = off + i * 2 →
      writeIndices off is i (pre ++ List.replicate (is.length * 2) 0 ++ rest)
        = pre ++ is.flatMap (fun v => le16 (v % 65536)) ++ rest := by
  induction is with
  | nil => intro pre rest i _; simp [writeIndices]
  | cons v vs ih =>
    intro pre rest i hi
    have hrep : List.replicate ((v :: vs).length * 2) (0 : Nat)
        = 0 :: 0 :: List.replicate (vs.length * 2) 0 := by
      have : (v :: vs).length * 2 = 2 + vs.length * 2 := by simp [List.length_cons]; omega
      rw [this, List.replicate_add]; rfl
    rw [writeIndices, hrep]
    have hi2 : off + i * 2 = pre.length := hi.symm
    rw [hi2]
    have := putUint16_append pre (List.replicate (vs.length * 2) 0 ++ rest) 0 0 (v % 65536)
    simp only [List.append_assoc, List.cons_append] at this ⊢
    rw [this]
    have h2 := ih (pre ++ le16 (v % 65536)) rest (i + 1) (by simp [le16, hi]; omega)
    simp only [List.append_assoc] at h2
    rw [h2]
    simp [List.flatMap_cons]

theorem length_flatMap_le32 (g : Nat → Nat) (vs : List Nat) :
    (vs.flatMap (fun v => le32 (g v))).length = vs.length * 4 := by
  induction vs with
  | nil => simp
  | cons v vs ih =>
    rw [List.flatMap_cons, List.length_append, ih]
    simp [le32]; omega

theorem length_flatMap_le16 (g : Nat → Nat) (vs : List Nat) :
    (vs.flatMap (fun v => le16 (g v))).length = vs.length * 2 := by
  induction vs with
  | nil => simp
  | cons v vs ih =>
    rw [List.flatMap_cons, List.length_append, ih]
    simp [le16]; omega

/-- Closed form of the packed buffer: vertex words, then index words, no padding. -/
theorem createBufferData_eq (vertices : List Nat) (indices : List Nat) :
    createBufferData vertices indices
      = vertices.flatMap (fun v => le32 (Float32bits v))
        ++ indices.flatMap (fun v => le16 (v % 65536)) := by
  unfold createBufferData
  simp only [align4_mul_four]
  rw [List.replicate_add]
  have h1 := writeVertices_append vertices [] (List.replicate (indices.length * 2) 0) 0 (by simp)
  simp only [List.nil_append] at h1
  rw [h1]
  have hlen : (vertices.flatMap (fun v => le32 (Float32bits v))).length
      = vertices.length * 4 + 0 * 2 := by
    rw [length_flatMap_le32]; omega
  have h2 := writeIndices_append (vertices.length * 4) indices
    (vertices.flatMap (fun v => le32 (Float32bits v))) [] 0 hlen
  simp only [List.append_nil] at h2
  exact h2

theorem createBufferData_length (vertices : List Nat) (indices : List Nat) :
    (createBufferData vertices indices).length = vertices.length * 4 + indices.length * 2 := by
  rw [createBufferData_eq, List.length_append, length_flatMap_le32, length_flatMap_le16]

theorem getD_flatMap_le32 (g : Nat → Nat) (vs : List Nat) (rest : List Nat) :
    ∀ (j t : Nat), j < vs.length → t < 4 →
      (vs.flatMap (fun v => le32 (g v)) ++ rest).getD (4 * j + t) 0
        = (le32 (g (vs.getD j 0))).getD t 0 := by
  induction vs with
  | nil => intro j t hj; simp at hj
  | cons v vs ih =>
    intro j t hj ht
    rw [List.flatMap_cons, List.append_assoc]
    cases j with
    | zero =>
      simp only [Nat.mul_zero, Nat.zero_add, List.getD_cons_zero]
      have h4 : (le32 (g v)).length = 4 := rfl
      rw [List.getD_append _ _ _ _ (by omega)]
    | succ j =>
      have h4 : (le32 (g v)).length = 4 := rfl
      rw [List.getD_append_right _ _ _ _ (by omega), h4]
      have : 4 * (j + 1) + t - 4 = 4 * j + t := by omega
      rw [this, ih j t (by simpa using hj) ht]
      simp

theorem getD_flatMap_le16 (g : Nat → Nat) (vs : List Nat) (rest : List Nat) :
    ∀ (j t : Nat), j < vs.length → t < 2 →
      (vs.flatMap (fun v => le16 (g v)) ++ rest).getD (2 * j + t) 0
        = (le16 (g (vs.getD j 0))).getD t 0 := by
  induction vs with
  | nil => intro j t hj; simp at hj
  | cons v vs ih =>
    intro j t hj ht
    rw [List.flatMap_cons, List.append_assoc]
    cases j with
    | zero =>
      simp only [Nat.mul_zero, Nat.zero_add, List.getD_cons_zero]
      have h4 : (le16 (g v)).length = 2 := rfl
      rw [List.getD_append _ _ _ _ (by omega)]
    | succ j =>
      have h4 : (le16 (g v)).length = 2 := rfl
      rw [List.getD_append_right _ _ _ _ (by omega), h4]
      have : 2 * (j + 1) + t - 2 = 2 * j + t := by omega
      rw [this, ih j t (by simpa using hj) ht]
      simp

theorem getUint32_le32 (x : Nat) :
    (le32 x).getD 0 0 + 2 ^ 8 * (le32 x).getD 1 0 + 2 ^ 16 * (le32 x).getD 2 0
      + 2 ^ 24 * (le32 x).getD 3 0 = x % 2 ^ 32 := by
  simp only [le32, List.getD_cons_zero, List.getD_cons_succ]
  omega

theorem getUint16_le16 (x : Nat) :
    (le16 x).getD 0 0 + 256 * (le16 x).getD 1 0 = x % 2 ^ 16 := by
  simp only [le16, List.getD_cons_zero, List.getD_cons_succ]
  omega

theorem getUint32_createBufferData (vertices : List Nat) (indices : List Nat) (j : Nat)
    (hj : j < vertices.length) :
    getUint32 (createBufferData vertices indices) (j * 4) = vertices.getD j 0 % 2 ^ 32 := by
  rw [createBufferData_eq]
  unfold getUint32
  have h0 := getD_flatMap_le32 Float32bits vertices
    (indices.flatMap (fun v => le16 (v % 65536))) j 0 hj (by omega)
  have h1 := getD_flatMap_le32 Float32bits vertices
    (indices.flatMap (fun v => le16 (v % 65536))) j 1 hj (by omega)
  have h2 := getD_flatMap_le32 Float32bits vertices
    (indices.flatMap (fun v => le16 (v % 65536))) j 2 hj (by omega)
  have h3 := getD_flatMap_le32 Float32bits vertices
    (indices.flatMap (fun v => le16 (v % 65536))) j 3 hj (by omega)
  have e : j * 4 = 4 * j + 0 := by omega
  have e1 : j * 4 + 1 = 4 * j + 1 := by omega
  have e2 : j * 4 + 2 = 4 * j + 2 := by omega
  have e3 : j * 4 + 3 = 4 * j + 3 := by omega
  rw [e1, e2, e3, h1, h2, h3]
  rw [e, h0, getUint32_le32]
  simp [Float32bits]

theorem getUint16_createBufferData (vertices : List Nat) (indices : List Nat) (j : Nat)
    (hj : j < indices.length) :
    getUint16 (createBufferData vertices indices) (align4 (vertices.length * 4) + j * 2)
      = indices.getD j 0 % 2 ^ 16 := by
  rw [createBufferData_eq, align4_mul_four]
  unfold getUint16
  have hlen := length_flatMap_le32 Float32bits vertices
  rw [List.getD_append_right _ _ _ _ (by rw [hlen]; omega),
    List.getD_append_right _ _ _ _ (by rw [hlen]; omega), hlen]
  have h0 := getD_flatMap_le16 (fun v => v % 65536) indices [] j 0 hj (by omega)
  have h1 := getD_flatMap_le16 (fun v => v % 65536) indices [] j 1 hj (by omega)
  simp only [List.append_nil] at h0 h1
  have e0 : vertices.length * 4 + j * 2 - vertices.length * 4 = 2 * j + 0 := by omega
  have e1 : vertices.length * 4 + j * 2 + 1 - vertices.length * 4 = 2 * j + 1 := by omega
  rw [e0, e1, h0, h1, getUint16_le16]
  simp


/-! ## Table growth of the scene builders -/

/-! ## Asset tables -/

theorem validIndex_mono {o : Option Nat} {n m : Nat} (h : validIndex o n) (hnm : n ≤ m) :
    validIndex o m := by
  cases o with
  | none => exact h
  | some i => exact Nat.lt_of_lt_of_le h hnm

theorem addTextLabel_Scenes (text : String) (position : Vec3) (billboard : Bool) (url : String)
    (a : gltf.GLTFAsset) :
    (addTextLabel text position billboard url a).1.Scenes = a.Scenes := rfl

theorem addTextLabel_Buffers (text : String) (position : Vec3) (billboard : Bool) (url : String)
    (a : gltf.GLTFAsset) :
    (addTextLabel text position billboard url a).1.Buffers = a.Buffers ++
      [⟨(GenerateTextQuad text position).2.length,
        CreateTextBufferURI (GenerateTextQuad text position).2⟩] := rfl

theorem addTextLabel_BufferViews (text : String) (position : Vec3) (billboard : Bool)
    (url : String) (a : gltf.GLTFAsset) :
    (addTextLabel text position billboard url a).1.BufferViews = a.BufferViews ++
      [⟨a.Buffers.length, 0, 80, some 20, some 34962⟩,
       ⟨a.Buffers.length, 80, 12, none, some 34963⟩] := by
  simp [addTextLabel, align4, intPtr]

theorem addTextLabel_Accessors (text : String) (position : Vec3) (billboard : Bool)
    (url : String) (a : gltf.GLTFAsset) :
    (addTextLabel text position billboard url a).1.Accessors = a.Accessors ++
      [⟨some a.BufferViews.length, 0, 5126, 4, "VEC3",
          [f64 12 10, f64 12 10, f64 0 1],
          [IEEE.neg IEEE.binary64 (f64 12 10), IEEE.neg IEEE.binary64 (f64 12 10), f64 0 1]⟩,
       ⟨some a.BufferViews.length, 12, 5126, 4, "VEC2", [], []⟩,
       ⟨some (a.BufferViews.length + 1), 0, 5123, 6, "SCALAR", [], []⟩] := by
  simp [addTextLabel]

theorem addTextLabel_Materials (text : String) (position : Vec3) (billboard : Bool)
    (url : String) (a : gltf.GLTFAsset) :
    ∃ mat, (addTextLabel text position billboard url a).1.Materials = a.Materials ++ [mat] :=
  ⟨_, rfl⟩

theorem addTextLabel_Meshes (text : String) (position : Vec3) (billboard : Bool)
    (url : String) (a : gltf.GLTFAsset) :
    (addTextLabel text position billboard url a).1.Meshes = a.Meshes ++
      [wirePrimitive (GenerateTextQuad text position).1
        [("POSITION", a.Accessors.length), ("TEXCOORD_0", a.Accessors.length + 1)]
        (a.Accessors.length + 2) a.Materials.length] := by
  simp [addTextLabel]

theorem addTextLabel_Nodes (text : String) (position : Vec3) (billboard : Bool)
    (url : String) (a : gltf.GLTFAsset) :
    ∃ nd, (addTextLabel text position billboard url a).1.Nodes = a.Nodes ++ [nd] ∧
      nd.Mesh = some a.Meshes.length ∧
      nd.Translation = [position.x, position.y, position.z] ∧
      nd.Name = "text_node_" ++ toString a.Nodes.length :=
  ⟨_, rfl, rfl, rfl, rfl⟩

theorem addInterfaceToScene_Scenes (x : extuml.Interface) (position : Vec3) (a : gltf.GLTFAsset) (n : Nat) :
    (addInterfaceToScene x position a n).1.Scenes = a.Scenes := rfl

theorem addInterfaceToScene_Buffers (x : extuml.Interface) (position : Vec3) (a : gltf.GLTFAsset)
    (n : Nat) :
    (addInterfaceToScene x position a n).1.Buffers = a.Buffers ++
      [⟨(GenerateInterfaceWireframe x position).2.2.length,
        CreateBufferURI (GenerateInterfaceWireframe x position).2.2⟩] := rfl

theorem addInterfaceToScene_BufferViews (x : extuml.Interface) (position : Vec3) (a : gltf.GLTFAsset)
    (n : Nat) :
    (addInterfaceToScene x position a n).1.BufferViews = a.BufferViews ++
      [⟨a.Buffers.length, 0,
          (calculateBufferLayout (GenerateInterfaceWireframe x position).2.2).2.2.1,
          none, some 34962⟩,
       ⟨a.Buffers.length,
          (calculateBufferLayout (GenerateInterfaceWireframe x position).2.2).2.2.2,
          (calculateBufferLayout (GenerateInterfaceWireframe x position).2.2).2.1 * 2,
          none, some 34963⟩] := by
  simp [addInterfaceToScene, appendWireframeBuffer, intPtr]

theorem addInterfaceToScene_Accessors (x : extuml.Interface) (position : Vec3) (a : gltf.GLTFAsset)
    (n : Nat) :
    (addInterfaceToScene x position a n).1.Accessors = a.Accessors ++
      [⟨some a.BufferViews.length, 0, 5126,
          (calculateBufferLayout (GenerateInterfaceWireframe x position).2.2).1, "VEC3",
          [f64 1 1, f64 4 10, f64 25 100],
          [IEEE.neg IEEE.binary64 (f64 1 1), IEEE.neg IEEE.binary64 (f64 4 10),
            IEEE.neg IEEE.binary64 (f64 25 100)]⟩,
       ⟨some (a.BufferViews.length + 1), 0, 5123,
          (calculateBufferLayout (GenerateInterfaceWireframe x position).2.2).2.1, "SCALAR",
          [], []⟩] := by
  simp [addInterfaceToScene, appendWireframeBuffer]

theorem addInterfaceToScene_Materials (x : extuml.Interface) (position : Vec3) (a : gltf.GLTFAsset)
    (n : Nat) :
    (addInterfaceToScene x position a n).1.Materials
      = a.Materials ++ [(GenerateInterfaceWireframe x position).2.1] := rfl

theorem addInterfaceToScene_Meshes (x : extuml.Interface) (position : Vec3) (a : gltf.GLTFAsset)
    (n : Nat) :
    (addInterfaceToScene x position a n).1.Meshes = a.Meshes ++
      [wirePrimitive (wireframeMesh x.Name) [("POSITION", a.Accessors.length)]
        (a.Accessors.length + 1) a.Materials.length] := by
  simp [addInterfaceToScene, appendWireframeBuffer, GenerateInterfaceWireframe]

theorem addInterfaceToScene_Nodes (x : extuml.Interface) (position : Vec3) (a : gltf.GLTFAsset)
    (n : Nat) :
    ∃ nd, (addInterfaceToScene x position a n).1.Nodes = a.Nodes ++ [nd] ∧
      nd.Mesh = some a.Meshes.length ∧
      nd.Translation = [position.x, position.y, position.z] ∧
      nd.Name = x.Name :=
  ⟨_, rfl, rfl, rfl, rfl⟩

theorem addEnumToScene_Scenes (x : extuml.Enum) (position : Vec3) (a : gltf.GLTFAsset) (n : Nat) :
    (addEnumToScene x position a n).1.Scenes = a.Scenes := rfl

theorem addEnumToScene_Buffers (x : extuml.Enum) (position : Vec3) (a : gltf.GLTFAsset)
    (n : Nat) :
    (addEnumToScene x position a n).1.Buffers = a.Buffers ++
      [⟨(GenerateEnumWireframe x position).2.2.length,
        CreateBufferURI (GenerateEnumWireframe x position).2.2⟩] := rfl

theorem addEnumToScene_BufferViews (x : extuml.Enum) (position : Vec3) (a : gltf.GLTFAsset)
    (n : Nat) :
    (addEnumToScene x position a n).1.BufferViews = a.BufferViews ++
      [⟨a.Buffers.length, 0,
          (calculateBufferLayout (GenerateEnumWireframe x position).2.2).2.2.1,
          none, some 34962⟩,
       ⟨a.Buffers.length,
          (calculateBufferLayout (GenerateEnumWireframe x position).2.2).2.2.2,
          (calculateBufferLayout (GenerateEnumWireframe x position).2.2).2.1 * 2,
          none, some 34963⟩] := by
  simp [addEnumToScene, appendWireframeBuffer, intPtr]

theorem addEnumToScene_Accessors (x : extuml.Enum) (position : Vec3) (a : gltf.GLTFAsset)
    (n : Nat) :
    (addEnumToScene x position a n).1.Accessors = a.Accessors ++
      [⟨some a.BufferViews.length, 0, 5126,
          (calculateBufferLayout (GenerateEnumWireframe x position).2.2).1, "VEC3",
          [f64 75 100, f64 3 10, f64 2 10],
          [IEEE.neg IEEE.binary64 (f64 75 100), IEEE.neg IEEE.binary64 (f64 3 10),
            IEEE.neg IEEE.binary64 (f64 2 10)]⟩,
       ⟨some (a.BufferViews.length + 1), 0, 5123,
          (calculateBufferLayout (GenerateEnumWireframe x position).2.2).2.1, "SCALAR",
          [], []⟩] := by
  simp [addEnumToScene, appendWireframeBuffer]

theorem addEnumToScene_Materials (x : extuml.Enum) (position : Vec3) (a : gltf.GLTFAsset)
    (n : Nat) :
    (addEnumToScene x position a n).1.Materials
      = a.Materials ++ [(GenerateEnumWireframe x position).2.1] := rfl

theorem addEnumToScene_Meshes (x : extuml.Enum) (position : Vec3) (a : gltf.GLTFAsset)
    (n : Nat) :
    (addEnumToScene x position a n).1.Meshes = a.Meshes ++
      [wirePrimitive (wireframeMesh x.Name) [("POSITION", a.Accessors.length)]
        (a.Accessors.length + 1) a.Materials.length] := by
  simp [addEnumToScene, appendWireframeBuffer, GenerateEnumWireframe]

theorem addEnumToScene_Nodes (x : extuml.Enum) (position : Vec3) (a : gltf.GLTFAsset)
    (n : Nat) :
    ∃ nd, (addEnumToScene x position a n).1.Nodes = a.Nodes ++ [nd] ∧
      nd.Mesh = some a.Meshes.length ∧
      nd.Translation = [position.x, position.y, position.z] ∧
      nd.Name = x.Name :=
  ⟨_, rfl, rfl, rfl, rfl⟩

theorem addClassToScene_eq (x : extuml.Class) (position : Vec3) (a : gltf.GLTFAsset) (n : Nat) :
    addClassToScene x position a n =
      ((addTextLabel (combinedClassText x)
          ⟨position.x, position.y, IEEE.add IEEE.binary64 position.z (f64 0 1)⟩ true x.URL
          (classBoxStage x position a)).1, a.Nodes.length + 2) := rfl

theorem classBoxStage_Scenes (x : extuml.Class) (position : Vec3) (a : gltf.GLTFAsset) :
    (classBoxStage x position a).Scenes = a.Scenes := rfl

theorem classBoxStage_Buffers (x : extuml.Class) (position : Vec3) (a : gltf.GLTFAsset) :
    (classBoxStage x position a).Buffers = a.Buffers ++
      [⟨(GenerateClassWireframe x position).2.2.length,
        CreateBufferURI (GenerateClassWireframe x position).2.2⟩] := rfl

theorem classBoxStage_BufferViews (x : extuml.Class) (position : Vec3) (a : gltf.GLTFAsset) :
    (classBoxStage x position a).BufferViews = a.BufferViews ++
      [⟨a.Buffers.length, 0,
          (calculateBufferLayout (GenerateClassWireframe x position).2.2).2.2.1,
          none, some 34962⟩,
       ⟨a.Buffers.length,
          (calculateBufferLayout (GenerateClassWireframe x position).2.2).2.2.2,
          (calculateBufferLayout (GenerateClassWireframe x position).2.2).2.1 * 2,
          none, some 34963⟩] := by
  simp [classBoxStage, appendWireframeBuffer, intPtr]

theorem classBoxStage_Accessors (x : extuml.Class) (position : Vec3) (a : gltf.GLTFAsset) :
    (classBoxStage x position a).Accessors = a.Accessors ++
      [⟨some a.BufferViews.length, 0, 5126,
          (calculateBufferLayout (GenerateClassWireframe x position).2.2).1, "VEC3",
          [f64 125 100, f64 125 100, f64 125 100],
          [IEEE.neg IEEE.binary64 (f64 125 100), IEEE.neg IEEE.binary64 (f64 125 100),
            IEEE.neg IEEE.binary64 (f64 125 100)]⟩,
       ⟨some (a.BufferViews.length + 1), 0, 5123,
          (calculateBufferLayout (GenerateClassWireframe x position).2.2).2.1, "SCALAR",
          [], []⟩] := by
  simp [classBoxStage, appendWireframeBuffer]

theorem classBoxStage_Materials (x : extuml.Class) (position : Vec3) (a : gltf.GLTFAsset) :
    (classBoxStage x position a).Materials
      = a.Materials ++ [(GenerateClassWireframe x position).2.1] := rfl

theorem classBoxStage_Meshes (x : extuml.Class) (position : Vec3) (a : gltf.GLTFAsset) :
    (classBoxStage x position a).Meshes = a.Meshes ++
      [wirePrimitive (wireframeMesh x.Name) [("POSITION", a.Accessors.length)]
        (a.Accessors.length + 1) a.Materials.length] := by
  simp [classBoxStage, appendWireframeBuffer, GenerateClassWireframe]

theorem classBoxStage_Nodes (x : extuml.Class) (position : Vec3) (a : gltf.GLTFAsset) :
    ∃ nd, (classBoxStage x position a).Nodes = a.Nodes ++ [nd] ∧
      nd.Mesh = some a.Meshes.length ∧
      nd.Translation = [position.x, position.y, position.z] ∧
      nd.Name = x.Name :=
  ⟨_, rfl, rfl, rfl, rfl⟩


/-! ## Node count and reference validity -/

/-! ## Reference validity is kept by every append step -/

theorem wirePrimitive_wireframeMesh (name : String) (k i m : Nat) :
    (wirePrimitive (wireframeMesh name) [("POSITION", k)] i m).Primitives
      = [⟨[("POSITION", k)], some i, some m, some 1⟩] := by
  simp [wirePrimitive, wireframeMesh, mapSet, intPtr]

theorem wirePrimitive_textQuad (text : String) (position : Vec3) (k1 k2 i m : Nat) :
    (wirePrimitive (GenerateTextQuad text position).1
        [("POSITION", k1), ("TEXCOORD_0", k2)] i m).Primitives
      = [⟨[("POSITION", k1), ("TEXCOORD_0", k2)], some i, some m, some 4⟩] := by
  simp [wirePrimitive, GenerateTextQuad, mapSet, intPtr]

theorem NoDanglingReferences_extend {a b : gltf.GLTFAsset}
    {accs : List gltf.Accessor} {bvs : List gltf.BufferView} {bufs : List gltf.Buffer}
    {mats : List gltf.Material} {meshes : List gltf.Mesh} {nodes : List gltf.Node}
    (hAcc : b.Accessors = a.Accessors ++ accs)
    (hBV : b.BufferViews = a.BufferViews ++ bvs)
    (hBuf : b.Buffers = a.Buffers ++ bufs)
    (hMat : b.Materials = a.Materials ++ mats)
    (hMesh : b.Meshes = a.Meshes ++ meshes)
    (hNode : b.Nodes = a.Nodes ++ nodes)
    (h1 : ∀ acc ∈ accs, validIndex acc.BufferView b.BufferViews.length)
    (h2 : ∀ bv ∈ bvs, bv.Buffer < b.Buffers.length)
    (h3 : ∀ m ∈ meshes, ∀ p ∈ m.Primitives,
      validIndex p.Indices b.Accessors.length ∧
      (∀ kv ∈ p.Attributes, kv.2 < b.Accessors.length) ∧
      validIndex p.Material b.Materials.length)
    (h4 : ∀ n ∈ nodes, validIndex n.Mesh b.Meshes.length)
    (h : NoDanglingReferences a) : NoDanglingReferences b := by
  obtain ⟨ha1, ha2, ha3, ha4⟩ := h
  have lAcc : a.Accessors.length ≤ b.Accessors.length := by simp [hAcc]
  have lBV : a.BufferViews.length ≤ b.BufferViews.length := by simp [hBV]
  have lBuf : a.Buffers.length ≤ b.Buffers.length := by simp [hBuf]
  have lMat : a.Materials.length ≤ b.Materials.length := by simp [hMat]
  have lMesh : a.Meshes.length ≤ b.Meshes.length := by simp [hMesh]
  refine ⟨?_, ?_, ?_, ?_⟩
  · intro acc hacc
    rw [hAcc, List.mem_append] at hacc
    rcases hacc with hacc | hacc
    · exact validIndex_mono (ha1 acc hacc) lBV
    · exact h1 acc hacc
  · intro bv hbv
    rw [hBV, List.mem_append] at hbv
    rcases hbv with hbv | hbv
    · exact Nat.lt_of_lt_of_le (ha2 bv hbv) lBuf
    · exact h2 bv hbv
  · intro m hm p hp
    rw [hMesh, List.mem_append] at hm
    rcases hm with hm | hm
    · obtain ⟨q1, q2, q3⟩ := ha3 m hm p hp
      exact ⟨validIndex_mono q1 lAcc, fun kv hkv => Nat.lt_of_lt_of_le (q2 kv hkv) lAcc,
        validIndex_mono q3 lMat⟩
    · exact h3 m hm p hp
  · intro n hn
    rw [hNode, List.mem_append] at hn
    rcases hn with hn | hn
    · exact validIndex_mono (ha4 n hn) lMesh
    · exact h4 n hn

theorem addTextLabel_noDangling (text : String) (position : Vec3) (billboard : Bool)
    (url : String) (a : gltf.GLTFAsset) (h : NoDanglingReferences a) :
    NoDanglingReferences (addTextLabel text position billboard url a).1 := by
  obtain ⟨mat, hMat⟩ := addTextLabel_Materials text position billboard url a
  obtain ⟨nd, hNode, hnd, -, -⟩ := addTextLabel_Nodes text position billboard url a
  refine NoDanglingReferences_extend (addTextLabel_Accessors text position billboard url a)
    (addTextLabel_BufferViews text position billboard url a)
    (addTextLabel_Buffers text position billboard url a) hMat
    (addTextLabel_Meshes text position billboard url a) hNode ?_ ?_ ?_ ?_ h
  · intro acc hacc
    rw [addTextLabel_BufferViews]
    simp only [List.mem_cons, List.mem_singleton, List.not_mem_nil, or_false] at hacc
    rcases hacc with rfl | rfl | rfl <;> simp [validIndex]
  · intro bv hbv
    rw [addTextLabel_Buffers]
    simp only [List.mem_cons, List.mem_singleton, List.not_mem_nil, or_false] at hbv
    rcases hbv with rfl | rfl <;> simp
  · intro m hm p hp
    rw [addTextLabel_Accessors, hMat]
    simp only [List.mem_singleton] at hm
    subst hm
    rw [wirePrimitive_textQuad] at hp
    simp only [List.mem_singleton] at hp
    subst hp
    refine ⟨by simp [validIndex], ?_, by simp [validIndex]⟩
    intro kv hkv
    simp only [List.mem_cons, List.mem_singleton, List.not_mem_nil, or_false] at hkv
    rcases hkv with rfl | rfl <;> simp
  · intro n hn
    rw [addTextLabel_Meshes]
    simp only [List.mem_singleton] at hn
    subst hn
    simp [hnd, validIndex]

theorem addInterfaceToScene_noDangling (x : extuml.Interface) (position : Vec3) (a : gltf.GLTFAsset) (n : Nat)
    (h : NoDanglingReferences a) : NoDanglingReferences (addInterfaceToScene x position a n).1 := by
  obtain ⟨nd, hNode, hnd, -, -⟩ := addInterfaceToScene_Nodes x position a n
  refine NoDanglingReferences_extend (addInterfaceToScene_Accessors x position a n)
    (addInterfaceToScene_BufferViews x position a n) (addInterfaceToScene_Buffers x position a n)
    (addInterfaceToScene_Materials x position a n) (addInterfaceToScene_Meshes x position a n) hNode ?_ ?_ ?_ ?_ h
  · intro acc hacc
    rw [addInterfaceToScene_BufferViews]
    simp only [List.mem_cons, List.mem_singleton, List.not_mem_nil, or_false] at hacc
    rcases hacc with rfl | rfl <;> simp [validIndex]
  · intro bv hbv
    rw [addInterfaceToScene_Buffers]
    simp only [List.mem_cons, List.mem_singleton, List.not_mem_nil, or_false] at hbv
    rcases hbv with rfl | rfl <;> simp
  · intro m hm p hp
    rw [addInterfaceToScene_Accessors, addInterfaceToScene_Materials]
    simp only [List.mem_singleton] at hm
    subst hm
    rw [wirePrimitive_wireframeMesh] at hp
    simp only [List.mem_singleton] at hp
    subst hp
    refine ⟨by simp [validIndex], ?_, by simp [validIndex]⟩
    intro kv hkv
    simp only [List.mem_singleton] at hkv
    subst hkv
    simp
  · intro n1 hn
    rw [addInterfaceToScene_Meshes]
    simp only [List.mem_singleton] at hn
    subst hn
    simp [hnd, validIndex]

theorem addEnumToScene_noDangling (x : extuml.Enum) (position : Vec3) (a : gltf.GLTFAsset) (n : Nat)
    (h : NoDanglingReferences a) : NoDanglingReferences (addEnumToScene x position a n).1 := by
  obtain ⟨nd, hNode, hnd, -, -⟩ := addEnumToScene_Nodes x position a n
  refine NoDanglingReferences_extend (addEnumToScene_Accessors x position a n)
    (addEnumToScene_BufferViews x position a n) (addEnumToScene_Buffers x position a n)
    (addEnumToScene_Materials x position a n) (addEnumToScene_Meshes x position a n) hNode ?_ ?_ ?_ ?_ h
  · intro acc hacc
    rw [addEnumToScene_BufferViews]
    simp only [List.mem_cons, List.mem_singleton, List.not_mem_nil, or_false] at hacc
    rcases hacc with rfl | rfl <;> simp [validIndex]
  · intro bv hbv
    rw [addEnumToScene_Buffers]
    simp only [List.mem_cons, List.mem_singleton, List.not_mem_nil, or_false] at hbv
    rcases hbv with rfl | rfl <;> simp
  · intro m hm p hp
    rw [addEnumToScene_Accessors, addEnumToScene_Materials]
    simp only [List.mem_singleton] at hm
    subst hm
    rw [wirePrimitive_wireframeMesh] at hp
    simp only [List.mem_singleton] at hp
    subst hp
    refine ⟨by simp [validIndex], ?_, by simp [validIndex]⟩
    intro kv hkv
    simp only [List.mem_singleton] at hkv
    subst hkv
    simp
  · intro n1 hn
    rw [addEnumToScene_Meshes]
    simp only [List.mem_singleton] at hn
    subst hn
    simp [hnd, validIndex]

theorem classBoxStage_noDangling (x : extuml.Class) (position : Vec3) (a : gltf.GLTFAsset)
    (h : NoDanglingReferences a) : NoDanglingReferences (classBoxStage x position a) := by
  obtain ⟨nd, hNode, hnd, -, -⟩ := classBoxStage_Nodes x position a
  refine NoDanglingReferences_extend (classBoxStage_Accessors x position a)
    (classBoxStage_BufferViews x position a) (classBoxStage_Buffers x position a)
    (classBoxStage_Materials x position a) (classBoxStage_Meshes x position a) hNode ?_ ?_ ?_ ?_ h
  · intro acc hacc
    rw [classBoxStage_BufferViews]
    simp only [List.mem_cons, List.mem_singleton, List.not_mem_nil, or_false] at hacc
    rcases hacc with rfl | rfl <;> simp [validIndex]
  · intro bv hbv
    rw [classBoxStage_Buffers]
    simp only [List.mem_cons, List.mem_singleton, List.not_mem_nil, or_false] at hbv
    rcases hbv with rfl | rfl <;> simp
  · intro m hm p hp
    rw [classBoxStage_Accessors, classBoxStage_Materials]
    simp only [List.mem_singleton] at hm
    subst hm
    rw [wirePrimitive_wireframeMesh] at hp
    simp only [List.mem_singleton] at hp
    subst hp
    refine ⟨by simp [validIndex], ?_, by simp [validIndex]⟩
    intro kv hkv
    simp only [List.mem_singleton] at hkv
    subst hkv
    simp
  · intro n1 hn
    rw [classBoxStage_Meshes]
    simp only [List.mem_singleton] at hn
    subst hn
    simp [hnd, validIndex]

theorem addClassToScene_Scenes (x : extuml.Class) (position : Vec3) (a : gltf.GLTFAsset)
    (n : Nat) : (addClassToScene x position a n).1.Scenes = a.Scenes := rfl

theorem addClassToScene_noDangling (x : extuml.Class) (position : Vec3) (a : gltf.GLTFAsset)
    (n : Nat) (h : NoDanglingReferences a) :
    NoDanglingReferences (addClassToScene x position a n).1 := by
  rw [addClassToScene_eq]
  exact addTextLabel_noDangling _ _ _ _ _ (classBoxStage_noDangling x position a h)

theorem addClassToScene_length_Nodes (x : extuml.Class) (position : Vec3) (a : gltf.GLTFAsset)
    (n : Nat) : (addClassToScene x position a n).1.Nodes.length = a.Nodes.length + 2 := by
  rw [addClassToScene_eq]
  obtain ⟨tx, h1, -⟩ := addTextLabel_Nodes (combinedClassText x)
    ⟨position.x, position.y, IEEE.add IEEE.binary64 position.z (f64 0 1)⟩ true x.URL
    (classBoxStage x position a)
  obtain ⟨nd, h2, -⟩ := classBoxStage_Nodes x position a
  simp only [h1, h2, List.length_append, List.length_singleton]

theorem addInterfaceToScene_length_Nodes (x : extuml.Interface) (position : Vec3)
    (a : gltf.GLTFAsset) (n : Nat) :
    (addInterfaceToScene x position a n).1.Nodes.length = a.Nodes.length + 1 := by
  obtain ⟨nd, h2, -⟩ := addInterfaceToScene_Nodes x position a n
  simp only [h2, List.length_append, List.length_singleton]

theorem addEnumToScene_length_Nodes (x : extuml.Enum) (position : Vec3)
    (a : gltf.GLTFAsset) (n : Nat) :
    (addEnumToScene x position a n).1.Nodes.length = a.Nodes.length + 1 := by
  obtain ⟨nd, h2, -⟩ := addEnumToScene_Nodes x position a n
  simp only [h2, List.length_append, List.length_singleton]

/-- What the three element loops of `generateGeometry` keep or establish. -/
theorem classesLoop_spec (spacing : float64) (xs : List extuml.Class) :
    ∀ (i : Nat) (st : gltf.GLTFAsset × Nat),
      (classesLoop spacing xs i st).1.Nodes.length = st.1.Nodes.length + 2 * xs.length ∧
      (classesLoop spacing xs i st).1.Scenes = st.1.Scenes ∧
      (NoDanglingReferences st.1 → NoDanglingReferences (classesLoop spacing xs i st).1) := by
  induction xs with
  | nil => intro i st; simp [classesLoop]
  | cons x xs ih =>
    intro i st
    rw [classesLoop]
    obtain ⟨h1, h2, h3⟩ := ih (i + 1)
      (addClassToScene x
        ⟨IEEE.mul IEEE.binary64 (IEEE.ofInt IEEE.binary64 i) spacing, f64 0 1, f64 0 1⟩
        st.1 st.2)
    refine ⟨?_, ?_, ?_⟩
    · rw [h1, addClassToScene_length_Nodes, List.length_cons]; omega
    · rw [h2, addClassToScene_Scenes]
    · intro h; exact h3 (addClassToScene_noDangling _ _ _ _ h)

theorem interfacesLoop_spec (spacing : float64) (xs : List extuml.Interface) :
    ∀ (i : Nat) (st : gltf.GLTFAsset × Nat),
      (interfacesLoop spacing xs i st).1.Nodes.length = st.1.Nodes.length + xs.length ∧
      (interfacesLoop spacing xs i st).1.Scenes = st.1.Scenes ∧
      (NoDanglingReferences st.1 →
        NoDanglingReferences (interfacesLoop spacing xs i st).1) := by
  induction xs with
  | nil => intro i st; simp [interfacesLoop]
  | cons x xs ih =>
    intro i st
    rw [interfacesLoop]
    obtain ⟨h1, h2, h3⟩ := ih (i + 1)
      (addInterfaceToScene x
        ⟨IEEE.mul IEEE.binary64 (IEEE.ofInt IEEE.binary64 i) spacing, spacing, f64 0 1⟩
        st.1 st.2)
    refine ⟨?_, ?_, ?_⟩
    · rw [h1, addInterfaceToScene_length_Nodes, List.length_cons]; omega
    · rw [h2, addInterfaceToScene_Scenes]
    · intro h; exact h3 (addInterfaceToScene_noDangling _ _ _ _ h)

theorem enumsLoop_spec (spacing : float64) (xs : List extuml.Enum) :
    ∀ (i : Nat) (st : gltf.GLTFAsset × Nat),
      (enumsLoop spacing xs i st).1.Nodes.length = st.1.Nodes.length + xs.length ∧
      (enumsLoop spacing xs i st).1.Scenes = st.1.Scenes ∧
      (NoDanglingReferences st.1 → NoDanglingReferences (enumsLoop spacing xs i st).1) := by
  induction xs with
  | nil => intro i st; simp [enumsLoop]
  | cons x xs ih =>
    intro i st
    rw [enumsLoop]
    obtain ⟨h1, h2, h3⟩ := ih (i + 1)
      (addEnumToScene x
        ⟨IEEE.mul IEEE.binary64 (IEEE.ofInt IEEE.binary64 i) spacing,
          IEEE.neg IEEE.binary64 spacing, f64 0 1⟩
        st.1 st.2)
    refine ⟨?_, ?_, ?_⟩
    · rw [h1, addEnumToScene_length_Nodes, List.length_cons]; omega
    · rw [h2, addEnumToScene_Scenes]
    · intro h; exact h3 (addEnumToScene_noDangling _ _ _ _ h)

/-- The asset that `generateGeometry` holds after its three loops. -/
theorem generateGeometry_eq (doc : extuml.Document) (elements : extuml.Elements)
    (asset : gltf.GLTFAsset) (scene : gltf.Scene) (rest : List gltf.Scene)
    (hdoc : doc.Elements = some elements) (hsc : asset.Scenes = scene :: rest) :
    ∃ a : gltf.GLTFAsset,
      a = (enumsLoop (f64 3 1) elements.Enums 0
            (interfacesLoop (f64 3 1) elements.Interfaces 0
              (classesLoop (f64 3 1) elements.Classes 0 (asset, 0)))).1 ∧
      a.Scenes = scene :: rest ∧
      generateGeometry doc asset =
        some (if 0 < a.Nodes.length then
          { a with Scenes := { scene with Nodes := List.range a.Nodes.length } :: rest }
          else a) := by
  refine ⟨_, rfl, ?_, ?_⟩
  · rw [(enumsLoop_spec _ _ _ _).2.1, (interfacesLoop_spec _ _ _ _).2.1,
      (classesLoop_spec _ _ _ _).2.1, hsc]
  · have hs : (enumsLoop (f64 3 1) elements.Enums 0
            (interfacesLoop (f64 3 1) elements.Interfaces 0
              (classesLoop (f64 3 1) elements.Classes 0 (asset, 0)))).1.Scenes = scene :: rest := by
      rw [(enumsLoop_spec _ _ _ _).2.1, (interfacesLoop_spec _ _ _ _).2.1,
        (classesLoop_spec _ _ _ _).2.1, hsc]
    unfold generateGeometry
    rw [hdoc]
    simp only
    by_cases hpos : 0 < (enumsLoop (f64 3 1) elements.Enums 0
            (interfacesLoop (f64 3 1) elements.Interfaces 0
              (classesLoop (f64 3 1) elements.Classes 0 (asset, 0)))).1.Nodes.length
    · rw [if_pos hpos, if_pos hpos, hs]
    · rw [if_neg hpos, if_neg hpos]

theorem initialAsset_noDangling (doc : extuml.Document) (generatedAt : String) :
    NoDanglingReferences (initialAsset doc generatedAt) := by
  simp [NoDanglingReferences, initialAsset]

/-- C1. For a diagram with N classes, M interfaces and K enums, `generateGeometry`
on the empty asset of `Execute` returns an asset with exactly `2N + M + K` nodes
whose scene 0 lists the node indices `0, 1, ..., 2N+M+K-1` in increasing order
(the empty list when there is no element). -/
theorem generateGeometry_node_count (version generatedAt : String) (meta : Option extuml.Meta)
    (elements : extuml.Elements) :
    ∃ a : gltf.GLTFAsset,
      generateGeometry ⟨version, meta, some elements⟩
          (initialAsset ⟨version, meta, some elements⟩ generatedAt) = some a ∧
      a.Nodes.length
        = 2 * elements.Classes.length + elements.Interfaces.length + elements.Enums.length ∧
      a.Scenes.map (fun s => s.Nodes)
        = [List.range (2 * elements.Classes.length + elements.Interfaces.length
            + elements.Enums.length)] := by
  obtain ⟨a, ha, hsc, hgen⟩ := generateGeometry_eq ⟨version, meta, some elements⟩ elements
    (initialAsset ⟨version, meta, some elements⟩ generatedAt) ⟨[], "Scene"⟩ [] rfl rfl
  have hlen : a.Nodes.length
      = 2 * elements.Classes.length + elements.Interfaces.length + elements.Enums.length := by
    rw [ha, (enumsLoop_spec _ _ _ _).1, (interfacesLoop_spec _ _ _ _).1,
      (classesLoop_spec _ _ _ _).1]
    simp [initialAsset]
  by_cases hpos : 0 < a.Nodes.length
  · rw [if_pos hpos] at hgen
    exact ⟨_, hgen, hlen, by simp [hlen]⟩
  · rw [if_neg hpos] at hgen
    refine ⟨_, hgen, hlen, ?_⟩
    have h0 : 2 * elements.Classes.length + elements.Interfaces.length
        + elements.Enums.length = 0 := by omega
    rw [hsc, h0]
    rfl

/-- C2. In the asset that `generateGeometry` builds from the empty asset of
`Execute` no reference dangles: every accessor names a buffer view of the asset,
every buffer view a buffer, every primitive has `indices`, attribute values and a
`material` that are valid accessor and material indices, and every node names a
mesh of the asset. -/
theorem generateGeometry_no_dangling_references (version generatedAt : String)
    (meta : Option extuml.Meta) (elements : extuml.Elements) :
    ∃ a : gltf.GLTFAsset,
      generateGeometry ⟨version, meta, some elements⟩
          (initialAsset ⟨version, meta, some elements⟩ generatedAt) = some a ∧
      NoDanglingReferences a := by
  obtain ⟨a, ha, hsc, hgen⟩ := generateGeometry_eq ⟨version, meta, some elements⟩ elements
    (initialAsset ⟨version, meta, some elements⟩ generatedAt) ⟨[], "Scene"⟩ [] rfl rfl
  have hnd : NoDanglingReferences a := by
    rw [ha]
    exact (enumsLoop_spec _ _ _ _).2.2 ((interfacesLoop_spec _ _ _ _).2.2
      ((classesLoop_spec _ _ _ _).2.2 (initialAsset_noDangling _ _)))
  by_cases hpos : 0 < a.Nodes.length
  · rw [if_pos hpos] at hgen
    exact ⟨_, hgen, hnd⟩
  · rw [if_neg hpos] at hgen
    exact ⟨_, hgen, hnd⟩


/-! ## Packed buffer round trip and generated lengths -/

/-- C3. Buffer packing round trip: reading the buffer returned by
`createBufferData v i` as `len(v)` little-endian 32-bit words from byte 0 and as
`len(i)` little-endian 16-bit words from the index offset gives back exactly the
bit patterns of `v` and the values of `i`. -/
theorem createBufferData_roundtrip (v i : List Nat)
    (hv : ∀ x ∈ v, x < 2 ^ 32) (hi : ∀ x ∈ i, x < 2 ^ 16) :
    (List.range v.length).map (fun j => getUint32 (createBufferData v i) (j * 4)) = v ∧
    (List.range i.length).map
      (fun j => getUint16 (createBufferData v i) (align4 (v.length * 4) + j * 2)) = i := by
  constructor
  · apply List.ext_getElem
    · simp
    · intro n h1 h2
      rw [List.getElem_map, List.getElem_range, getUint32_createBufferData v i n h2,
        List.getD_eq_getElem _ _ h2]
      exact Nat.mod_eq_of_lt (hv _ (List.getElem_mem h2))
  · apply List.ext_getElem
    · simp
    · intro n h1 h2
      rw [List.getElem_map, List.getElem_range, getUint16_createBufferData v i n h2,
        List.getD_eq_getElem _ _ h2]
      exact Nat.mod_eq_of_lt (hi _ (List.getElem_mem h2))

theorem createBufferData_roundtrip_witness :
    (List.range 2).map (fun j => getUint32 (createBufferData [1065353216, 3212836864] [7, 258])
      (j * 4)) = [1065353216, 3212836864] ∧
    (List.range 2).map
      (fun j => getUint16 (createBufferData [1065353216, 3212836864] [7, 258])
        (align4 (2 * 4) + j * 2)) = [7, 258] :=
  createBufferData_roundtrip [1065353216, 3212836864] [7, 258] (by decide) (by decide)

/-- C4. `createBufferData` puts the index region at `index_offset =
round_up_to_4(4 * len(v))`, which is a multiple of 4 and equals `4 * len(v)` (no
padding byte), and the buffer has exactly `index_offset + 2 * len(i)` bytes: the
vertex words fill the bytes before the offset and the index words the bytes
from it on. -/
theorem createBufferData_layout (v i : List Nat) :
    align4 (v.length * 4) % 4 = 0 ∧
    align4 (v.length * 4) = 4 * v.length ∧
    (createBufferData v i).length = align4 (v.length * 4) + 2 * i.length ∧
    (createBufferData v i).take (align4 (v.length * 4))
      = v.flatMap (fun x => le32 (Float32bits x)) ∧
    (createBufferData v i).drop (align4 (v.length * 4))
      = i.flatMap (fun x => le16 (x % 65536)) := by
  have hl := length_flatMap_le32 Float32bits v
  rw [align4_mul_four, createBufferData_length, createBufferData_eq]
  refine ⟨by omega, by omega, by omega, ?_, ?_⟩
  · rw [← hl, List.take_left]
  · rw [← hl, List.drop_left]

/-! ## Sizes of the generated geometry -/

theorem dividerVerticesLoop_length (w d : float32) (hs : List float32) :
    ∀ (y : float32) (acc : List float32),
      (dividerVerticesLoop w d hs y acc).length = acc.length + 12 * hs.length := by
  induction hs with
  | nil => intro y acc; simp [dividerVerticesLoop]
  | cons h hs ih =>
    intro y acc
    rw [dividerVerticesLoop, ih]
    simp only [List.length_append, List.length_cons, List.length_nil]
    omega

theorem dividerIndicesLoop_length (k : Nat) :
    ∀ (i : Nat) (acc : List Nat),
      (dividerIndicesLoop k i acc).length = acc.length + 8 * k := by
  induction k with
  | zero => intro i acc; simp [dividerIndicesLoop]
  | succ k ih =>
    intro i acc
    rw [dividerIndicesLoop, ih]
    simp only [List.length_append, List.length_cons, List.length_nil]
    omega

theorem createWireframeBox_length (width height depth : float32) (compartments : Nat)
    (dividerHeights : List float32) :
    (createWireframeBox width height depth compartments dividerHeights).1.length
      = 3 * (8 + 4 * dividerHeights.length) ∧
    (createWireframeBox width height depth compartments dividerHeights).2.length
      = 24 + 8 * dividerHeights.length := by
  unfold createWireframeBox
  simp only [List.length_append, dividerVerticesLoop_length, dividerIndicesLoop_length]
  simp [boxCornerVertices, boxEdgeIndices]
  omega

theorem createSimpleWireframeBox_length (width height depth : float32) :
    (createSimpleWireframeBox width height depth).1.length = 3 * 8 ∧
    (createSimpleWireframeBox width height depth).2.length = 24 := by
  simp [createSimpleWireframeBox, boxCornerVertices, boxEdgeIndices]

theorem GenerateClassWireframe_length (cls : extuml.Class) (position : Vec3) :
    (GenerateClassWireframe cls position).2.2.length = 144 := by
  unfold GenerateClassWireframe
  simp only [createBufferData_length, createSimpleWireframeBox_length]

theorem GenerateInterfaceWireframe_length (iface : extuml.Interface) (position : Vec3) :
    (GenerateInterfaceWireframe iface position).2.2.length = 208 := by
  unfold GenerateInterfaceWireframe
  simp only [createBufferData_length, createWireframeBox_length, List.length_singleton]

theorem GenerateEnumWireframe_length (enum : extuml.Enum) (position : Vec3) :
    (GenerateEnumWireframe enum position).2.2.length = 208 := by
  unfold GenerateEnumWireframe
  simp only [createBufferData_length, createWireframeBox_length, List.length_singleton]

/-- The layout depends on the buffer through its length only. -/
theorem calculateBufferLayout_congr (b : List Nat) (n : Nat) (h : b.length = n) :
    calculateBufferLayout b = calculateBufferLayout (List.replicate n 0) := by
  unfold calculateBufferLayout
  rw [h, List.length_replicate]

theorem calculateBufferLayout_144 :
    calculateBufferLayout (List.replicate 144 0) = (8, 24, 96, 96) := by decide!

theorem calculateBufferLayout_208 :
    calculateBufferLayout (List.replicate 208 0) = (12, 32, 144, 144) := by decide!

theorem calculateBufferLayout_464 :
    calculateBufferLayout (List.replicate 464 0) = (27, 70, 324, 324) := by decide!


/-! ## Layout recovery on generated buffers -/

theorem addClassToScene_Accessors (x : extuml.Class) (position : Vec3) (a : gltf.GLTFAsset)
    (n : Nat) :
    (addClassToScene x position a n).1.Accessors = a.Accessors ++
      [⟨some a.BufferViews.length, 0, 5126,
          (calculateBufferLayout (GenerateClassWireframe x position).2.2).1, "VEC3",
          [f64 125 100, f64 125 100, f64 125 100],
          [IEEE.neg IEEE.binary64 (f64 125 100), IEEE.neg IEEE.binary64 (f64 125 100),
            IEEE.neg IEEE.binary64 (f64 125 100)]⟩,
       ⟨some (a.BufferViews.length + 1), 0, 5123,
          (calculateBufferLayout (GenerateClassWireframe x position).2.2).2.1, "SCALAR",
          [], []⟩,
       ⟨some (a.BufferViews.length + 2), 0, 5126, 4, "VEC3",
          [f64 12 10, f64 12 10, f64 0 1],
          [IEEE.neg IEEE.binary64 (f64 12 10), IEEE.neg IEEE.binary64 (f64 12 10), f64 0 1]⟩,
       ⟨some (a.BufferViews.length + 2), 12, 5126, 4, "VEC2", [], []⟩,
       ⟨some (a.BufferViews.length + 3), 0, 5123, 6, "SCALAR", [], []⟩] := by
  rw [addClassToScene_eq]
  simp only [addTextLabel_Accessors, classBoxStage_Accessors, classBoxStage_BufferViews,
    List.append_assoc, List.length_append, List.length_cons, List.length_nil]
  simp

/-- C5. On every buffer the pipeline packs, `calculateBufferLayout` returns the
counts that were packed: a class buffer has 144 bytes (8 vertices, 24 indices)
and gives `(8, 24, 96, 96)`; an interface or enum buffer, whatever the number of
operations or literals, has 208 bytes (12 vertices, 32 indices) and gives
`(12, 32, 144, 144)`; so the counts of the position and index accessors
appended to the asset are the true vertex and index counts. -/
theorem calculateBufferLayout_generated_buffers :
    (∀ (cls : extuml.Class) (position : Vec3),
      (GenerateClassWireframe cls position).2.2.length = 144 ∧
      calculateBufferLayout (GenerateClassWireframe cls position).2.2 = (8, 24, 96, 96)) ∧
    (∀ width height depth : float32,
      (createSimpleWireframeBox width height depth).1.length = 3 * 8 ∧
      (createSimpleWireframeBox width height depth).2.length = 24) ∧
    (∀ (iface : extuml.Interface) (position : Vec3),
      (GenerateInterfaceWireframe iface position).2.2.length = 208 ∧
      calculateBufferLayout (GenerateInterfaceWireframe iface position).2.2
        = (12, 32, 144, 144)) ∧
    (∀ (enum : extuml.Enum) (position : Vec3),
      (GenerateEnumWireframe enum position).2.2.length = 208 ∧
      calculateBufferLayout (GenerateEnumWireframe enum position).2.2
        = (12, 32, 144, 144)) ∧
    (∀ (width height depth : float32) (compartments : Nat) (dividerHeight : float32),
      (createWireframeBox width height depth compartments [dividerHeight]).1.length = 3 * 12 ∧
      (createWireframeBox width height depth compartments [dividerHeight]).2.length = 32) ∧
    (∀ (cls : extuml.Class) (position : Vec3) (asset : gltf.GLTFAsset) (nodeIndex : Nat),
      ((addClassToScene cls position asset nodeIndex).1.Accessors.drop
        asset.Accessors.length).map (fun acc => (acc.Type_, acc.Count))
        = [("VEC3", 8), ("SCALAR", 24), ("VEC3", 4), ("VEC2", 4), ("SCALAR", 6)]) ∧
    (∀ (iface : extuml.Interface) (position : Vec3) (asset : gltf.GLTFAsset) (nodeIndex : Nat),
      ((addInterfaceToScene iface position asset nodeIndex).1.Accessors.drop
        asset.Accessors.length).map (fun acc => (acc.Type_, acc.Count))
        = [("VEC3", 12), ("SCALAR", 32)]) ∧
    (∀ (enum : extuml.Enum) (position : Vec3) (asset : gltf.GLTFAsset) (nodeIndex : Nat),
      ((addEnumToScene enum position asset nodeIndex).1.Accessors.drop
        asset.Accessors.length).map (fun acc => (acc.Type_, acc.Count))
        = [("VEC3", 12), ("SCALAR", 32)]) := by
  have hc : ∀ (cls : extuml.Class) (position : Vec3),
      calculateBufferLayout (GenerateClassWireframe cls position).2.2 = (8, 24, 96, 96) :=
    fun cls position => by
      rw [calculateBufferLayout_congr _ 144 (GenerateClassWireframe_length cls position)]
      exact calculateBufferLayout_144
  have hi : ∀ (iface : extuml.Interface) (position : Vec3),
      calculateBufferLayout (GenerateInterfaceWireframe iface position).2.2
        = (12, 32, 144, 144) :=
    fun iface position => by
      rw [calculateBufferLayout_congr _ 208 (GenerateInterfaceWireframe_length iface position)]
      exact calculateBufferLayout_208
  have he : ∀ (enum : extuml.Enum) (position : Vec3),
      calculateBufferLayout (GenerateEnumWireframe enum position).2.2
        = (12, 32, 144, 144) :=
    fun enum position => by
      rw [calculateBufferLayout_congr _ 208 (GenerateEnumWireframe_length enum position)]
      exact calculateBufferLayout_208
  refine ⟨fun cls position => ⟨GenerateClassWireframe_length cls position, hc cls position⟩,
    createSimpleWireframeBox_length,
    fun iface position => ⟨GenerateInterfaceWireframe_length iface position, hi iface position⟩,
    fun enum position => ⟨GenerateEnumWireframe_length enum position, he enum position⟩,
    ?_, ?_, ?_, ?_⟩
  · intro width height depth compartments dividerHeight
    have := createWireframeBox_length width height depth compartments [dividerHeight]
    simpa using this
  · intro cls position asset nodeIndex
    rw [addClassToScene_Accessors, List.drop_left, hc]
    rfl
  · intro iface position asset nodeIndex
    rw [addInterfaceToScene_Accessors, List.drop_left, hi]
    rfl
  · intro enum position asset nodeIndex
    rw [addEnumToScene_Accessors, List.drop_left, he]
    rfl

/-- C9. The Layout Recoverer is not an inverse of the Buffer Packer: a box with
five dividers has 28 vertices and 64 indices, packs into 464 bytes, and
`calculateBufferLayout` returns 27 vertices and 70 indices for that buffer. -/
theorem calculateBufferLayout_not_inverse :
    ∃ (width height depth : float32) (compartments : Nat) (dividerHeights : List float32),
      (createWireframeBox width height depth compartments dividerHeights).1.length = 3 * 28 ∧
      (createWireframeBox width height depth compartments dividerHeights).2.length = 64 ∧
      (createBufferData
        (createWireframeBox width height depth compartments dividerHeights).1
        (createWireframeBox width height depth compartments dividerHeights).2).length = 464 ∧
      calculateBufferLayout (createBufferData
        (createWireframeBox width height depth compartments dividerHeights).1
        (createWireframeBox width height depth compartments dividerHeights).2)
        = (27, 70, 324, 324) ∧
      (calculateBufferLayout (createBufferData
        (createWireframeBox width height depth compartments dividerHeights).1
        (createWireframeBox width height depth compartments dividerHeights).2)).1
        ≠ (createWireframeBox width height depth compartments dividerHeights).1.length / 3 ∧
      (calculateBufferLayout (createBufferData
        (createWireframeBox width height depth compartments dividerHeights).1
        (createWireframeBox width height depth compartments dividerHeights).2)).2.1
        ≠ (createWireframeBox width height depth compartments dividerHeights).2.length := by
  refine ⟨toFloat32 (f64 2 1), toFloat32 (f64 14 10), toFloat32 (f64 5 10), 6,
    List.replicate 5 (toFloat32 (f64 2 10)), ?_⟩
  have hl := createWireframeBox_length (toFloat32 (f64 2 1)) (toFloat32 (f64 14 10))
    (toFloat32 (f64 5 10)) 6 (List.replicate 5 (toFloat32 (f64 2 10)))
  rw [List.length_replicate] at hl
  have hb : (createBufferData
      (createWireframeBox (toFloat32 (f64 2 1)) (toFloat32 (f64 14 10)) (toFloat32 (f64 5 10)) 6
        (List.replicate 5 (toFloat32 (f64 2 10)))).1
      (createWireframeBox (toFloat32 (f64 2 1)) (toFloat32 (f64 14 10)) (toFloat32 (f64 5 10)) 6
        (List.replicate 5 (toFloat32 (f64 2 10)))).2).length = 464 := by
    rw [createBufferData_length, hl.1, hl.2]
  have hr := calculateBufferLayout_congr _ 464 hb
  rw [calculateBufferLayout_464] at hr
  refine ⟨hl.1, hl.2, hb, hr, ?_, ?_⟩
  · rw [hr, hl.1]; decide
  · rw [hr, hl.2]; decide


/-! ## Interface box height -/

section
open IEEE

theorem GenerateInterfaceWireframe_buffer (iface : extuml.Interface) (position : Vec3) :
    (GenerateInterfaceWireframe iface position).2.2 = interfaceBuffer iface.Operations.length := by
  simp [interfaceBuffer, GenerateInterfaceWireframe]

theorem GenerateEnumWireframe_buffer (enum : extuml.Enum) (position : Vec3) :
    (GenerateEnumWireframe enum position).2.2 = enumBuffer enum.Literals.length := by
  simp [enumBuffer, GenerateEnumWireframe]

theorem interfaceBuffer_three_y :
    (List.range 8).map (vertexY (interfaceBuffer 3))
      = [3204448256, 3204448256, 3204448256, 3204448256,
         1056964608, 1056964608, 1056964608, 1056964608] := by decide!

theorem float32_half : ofRat binary32 1 2 = 1056964608 ∧
    neg binary32 (ofRat binary32 1 2) = 3204448256 := by decide!

theorem float32_half_numer : signedNumer binary32 1056964608 = 2 ^ 148 ∧
    signedNumer binary32 3204448256 = -2 ^ 148 := by decide!

theorem interface_height_three :
    toFloat32 (add binary64 (f64 4 10) (mul binary64 (ofInt binary64 3) (f64 2 10)))
      = ofRat binary32 1 1 := by decide!

/-- C10 (as stated, refuted). For an interface with three operations the distance between
the y coordinate of the top corners and that of the bottom corners of the box
built by `GenerateInterfaceWireframe` is not 1.4: ten times the distance is not
fourteen (distances in units of `2 ^ -149`), and the `float32` difference is not
the `float32` 1.4. -/
theorem interface_three_operations_height_not_1_4 :
    10 * (signedNumer binary32
            (vertexY (GenerateInterfaceWireframe sampleInterface ⟨0, 0, 0⟩).2.2 4)
          - signedNumer binary32
            (vertexY (GenerateInterfaceWireframe sampleInterface ⟨0, 0, 0⟩).2.2 0))
        ≠ 14 * 2 ^ 149 ∧
    sub binary32
        (vertexY (GenerateInterfaceWireframe sampleInterface ⟨0, 0, 0⟩).2.2 4)
        (vertexY (GenerateInterfaceWireframe sampleInterface ⟨0, 0, 0⟩).2.2 0)
      ≠ ofRat binary32 14 10 := by
  rw [GenerateInterfaceWireframe_buffer]
  have hlen : sampleInterface.Operations.length = 3 := rfl
  rw [hlen]
  have h := interfaceBuffer_three_y
  have h4 : vertexY (interfaceBuffer 3) 4 = 1056964608 := by
    have := congrArg (fun l => l.getD 4 0) h
    simpa using this
  have h0 : vertexY (interfaceBuffer 3) 0 = 3204448256 := by
    have := congrArg (fun l => l.getD 0 0) h
    simpa using this
  rw [h4, h0, float32_half_numer.1, float32_half_numer.2]
  constructor
  · decide!
  · decide!

/-- C10 (amended). For an interface with exactly three operations the box built
by `GenerateInterfaceWireframe` has its four top corners at y = 0.5 and its four
bottom corners at y = -0.5, so its total height is exactly 1.0: the header 0.4
plus 3 × 0.2 of operation space, as the `float32` the code passes on. -/
theorem interface_three_operations_height (iface : extuml.Interface) (position : Vec3)
    (h : iface.Operations.length = 3) :
    (∀ j ∈ [4, 5, 6, 7],
      vertexY (GenerateInterfaceWireframe iface position).2.2 j = ofRat binary32 1 2) ∧
    (∀ j ∈ [0, 1, 2, 3],
      vertexY (GenerateInterfaceWireframe iface position).2.2 j
        = neg binary32 (ofRat binary32 1 2)) ∧
    signedNumer binary32 (vertexY (GenerateInterfaceWireframe iface position).2.2 4)
      - signedNumer binary32 (vertexY (GenerateInterfaceWireframe iface position).2.2 0)
      = 1 * 2 ^ 149 ∧
    toFloat32 (add binary64 (f64 4 10)
        (mul binary64 (ofInt binary64 iface.Operations.length) (f64 2 10)))
      = ofRat binary32 1 1 := by
  rw [GenerateInterfaceWireframe_buffer, h]
  have hy := interfaceBuffer_three_y
  have hy' : ∀ j, j < 8 → vertexY (interfaceBuffer 3) j
      = [3204448256, 3204448256, 3204448256, 3204448256,
         1056964608, 1056964608, 1056964608, 1056964608].getD j 0 := by
    intro j hj
    rw [← hy]
    simp [List.getD_eq_getElem?_getD, hj]
  refine ⟨?_, ?_, ?_, interface_height_three⟩
  · intro j hj
    rw [float32_half.1]
    simp only [List.mem_cons, List.mem_singleton, List.not_mem_nil, or_false] at hj
    rcases hj with rfl | rfl | rfl | rfl <;> rw [hy' _ (by omega)] <;> rfl
  · intro j hj
    rw [float32_half.2]
    simp only [List.mem_cons, List.mem_singleton, List.not_mem_nil, or_false] at hj
    rcases hj with rfl | rfl | rfl | rfl <;> rw [hy' _ (by omega)] <;> rfl
  · rw [hy' 4 (by omega), hy' 0 (by omega)]
    simp only [List.getD_cons_zero, List.getD_cons_succ]
    rw [float32_half_numer.1, float32_half_numer.2]
    norm_num

theorem interface_three_operations_height_witness :
    (∀ j ∈ [4, 5, 6, 7],
      vertexY (GenerateInterfaceWireframe sampleInterface ⟨0, 0, 0⟩).2.2 j
        = ofRat binary32 1 2) ∧
    (∀ j ∈ [0, 1, 2, 3],
      vertexY (GenerateInterfaceWireframe sampleInterface ⟨0, 0, 0⟩).2.2 j
        = neg binary32 (ofRat binary32 1 2)) :=
  ⟨(interface_three_operations_height sampleInterface ⟨0, 0, 0⟩ rfl).1,
    (interface_three_operations_height sampleInterface ⟨0, 0, 0⟩ rfl).2.1⟩

end


/-! ## Layout recovery: the fallback loop -/

/-! ## The search loops of `calculateBufferLayout` -/

theorem layoutWindowBody_skip (L vc : Nat) (s : LayoutState)
    (h : ¬ ((L - 12 * vc) % 2 = 0 ∧ 0 < L - 12 * vc ∧
      2 * vc ≤ indexCountFor L vc ∧ indexCountFor L vc ≤ 6 * vc)) :
    layoutWindowBody L vc s = s := by
  unfold layoutWindowBody
  simp only [align4_length_mul]
  by_cases h1 : (L - 12 * vc) % 2 = 0 ∧ 0 < L - 12 * vc
  · rw [if_pos h1]
    have h2 : ¬ (vc * 2 ≤ (L - 12 * vc) / 2 ∧ (L - 12 * vc) / 2 ≤ vc * 6) := by
      intro h2
      apply h
      unfold indexCountFor
      exact ⟨h1.1, h1.2, by omega, by omega⟩
    simp only [if_neg h2]
  · rw [if_neg h1]

/-- Without a window candidate the first loop leaves its state as it is. -/
theorem layoutWindowLoop_no_candidate (L : Nat) :
    ∀ (k vc : Nat) (s : LayoutState), 1 ≤ vc → vc + k ≤ 101 →
      (∀ v, ¬ WindowCandidate L v) → layoutWindowLoop L k vc s = s := by
  intro k
  induction k with
  | zero => intro vc s _ _ _; rfl
  | succ k ih =>
    intro vc s h1 h2 hno
    rw [layoutWindowLoop]
    split
    · rfl
    · rw [layoutWindowBody_skip, ih (vc + 1) s (by omega) (by omega) hno]
      intro hc
      apply hno vc
      unfold WindowCandidate
      rename_i hlt
      rw [align4_length_mul] at hlt
      exact ⟨h1, by omega, by omega, hc.1, hc.2.2.1, hc.2.2.2⟩

theorem layoutFallbackBody_inv (L vc : Nat) (s : LayoutState) (h1 : 1 ≤ vc) (h2 : vc ≤ 100)
    (hlt : 12 * vc < L) (hinv : FallbackInv L vc s) :
    FallbackInv L (vc + 1) (layoutFallbackBody L vc s) := by
  unfold layoutFallbackBody
  simp only [align4_length_mul]
  by_cases hc : FallbackCandidate L vc
  · have hc' := hc
    unfold FallbackCandidate indexCountFor at hc'
    have hb : s.bestVC < vc := by
      rcases hinv with h | h
      · omega
      · exact h.1
    rw [if_pos ⟨hc'.2.2.2.1, by omega⟩, if_pos ⟨hc'.2.2.2.2, hb⟩]
    right
    refine ⟨by simp, hc, rfl, by simp; omega, by simp, ?_⟩
    intro v hv1 hv2 _
    simp only
    omega
  · have hkeep : (if (L - 12 * vc) % 2 = 0 ∧ 0 < L - 12 * vc then
          if 2 ≤ (L - 12 * vc) / 2 ∧ s.bestVC < vc then
            ({ s with bestVC := vc, bestIC := (L - 12 * vc) / 2, bestVB := vc * 3 * 4,
                      bestIO := 12 * vc } : LayoutState)
          else s
        else s) = s := by
      by_cases c1 : (L - 12 * vc) % 2 = 0 ∧ 0 < L - 12 * vc
      · rw [if_pos c1]
        have c2 : ¬ (2 ≤ (L - 12 * vc) / 2 ∧ s.bestVC < vc) := by
          intro c2
          apply hc
          unfold FallbackCandidate indexCountFor
          exact ⟨h1, h2, hlt, c1.1, c2.1⟩
        rw [if_neg c2]
      · rw [if_neg c1]
    rw [hkeep]
    rcases hinv with h | h
    · left
      refine ⟨h.1, h.2.1, h.2.2.1, h.2.2.2.1, ?_⟩
      intro v hv1 hv2
      by_cases e : v = vc
      · subst e; exact hc
      · exact h.2.2.2.2 v hv1 (by omega)
    · right
      refine ⟨by omega, h.2.1, h.2.2.1, h.2.2.2.1, h.2.2.2.2.1, ?_⟩
      intro v hv1 hv2 hcv
      by_cases e : v = vc
      · subst e; exact absurd hcv hc
      · exact h.2.2.2.2.2 v hv1 (by omega) hcv

theorem layoutFallbackLoop_inv (L : Nat) :
    ∀ (k vc : Nat) (s : LayoutState), 1 ≤ vc → vc + k ≤ 101 → FallbackInv L vc s →
      FallbackInv L (vc + k) (layoutFallbackLoop L k vc s) := by
  intro k
  induction k with
  | zero => intro vc s _ _ h; exact h
  | succ k ih =>
    intro vc s h1 h2 hinv
    rw [layoutFallbackLoop]
    split
    · rename_i hge
      rw [align4_length_mul] at hge
      have hnone : ∀ v, vc ≤ v → ¬ FallbackCandidate L v := by
        intro v hv hcv
        unfold FallbackCandidate at hcv
        omega
      rcases hinv with h | h
      · left
        refine ⟨h.1, h.2.1, h.2.2.1, h.2.2.2.1, ?_⟩
        intro v hv1 _
        by_cases e : v < vc
        · exact h.2.2.2.2 v hv1 e
        · exact hnone v (by omega)
      · right
        refine ⟨by omega, h.2.1, h.2.2.1, h.2.2.2.1, h.2.2.2.2.1, ?_⟩
        intro v hv1 _ hcv
        by_cases e : v < vc
        · exact h.2.2.2.2.2 v hv1 e hcv
        · exact absurd hcv (hnone v (by omega))
    · rename_i hlt
      rw [align4_length_mul] at hlt
      have := ih (vc + 1) (layoutFallbackBody L vc s) (by omega) (by omega)
        (layoutFallbackBody_inv L vc s h1 (by omega) (by omega) hinv)
      have e : vc + (k + 1) = vc + 1 + k := by omega
      rw [e]
      exact this

theorem calculateBufferLayout_of_no_window (bufferData : List Nat)
    (hno : ∀ vc, ¬ WindowCandidate bufferData.length vc) :
    FallbackInv bufferData.length 101
        (layoutFallbackLoop bufferData.length 100 1 ⟨0, 0, 0, 0, f64 0 1⟩) ∧
    calculateBufferLayout bufferData =
      ((layoutFallbackLoop bufferData.length 100 1 ⟨0, 0, 0, 0, f64 0 1⟩).bestVC,
       (layoutFallbackLoop bufferData.length 100 1 ⟨0, 0, 0, 0, f64 0 1⟩).bestIC,
       (layoutFallbackLoop bufferData.length 100 1 ⟨0, 0, 0, 0, f64 0 1⟩).bestVB,
       LayoutState.bestIO (layoutFallbackLoop bufferData.length 100 1 ⟨0, 0, 0, 0, f64 0 1⟩)) := by
  constructor
  · have := layoutFallbackLoop_inv bufferData.length 100 1 ⟨0, 0, 0, 0, f64 0 1⟩
      (by omega) (by omega)
      (Or.inl ⟨rfl, rfl, rfl, rfl, fun v h1 h2 => by omega⟩)
    exact this
  · unfold calculateBufferLayout
    simp only
    rw [layoutWindowLoop_no_candidate bufferData.length 100 1 _ (by omega) (by omega) hno]
    simp

/-- C7. When no vertex count in 1..100 satisfies the ratio window,
`calculateBufferLayout` returns the largest `vc` in 1..100 with `12*vc < L`,
`L - 12*vc` even and `ic = (L - 12*vc)/2 ≥ 2`, as `(vc, ic, 12*vc, 12*vc)`. -/
theorem calculateBufferLayout_fallback (bufferData : List Nat) (vc : Nat)
    (hno : ∀ v, ¬ WindowCandidate bufferData.length v)
    (hvc : FallbackCandidate bufferData.length vc)
    (hmax : ∀ v, FallbackCandidate bufferData.length v → v ≤ vc) :
    calculateBufferLayout bufferData
      = (vc, indexCountFor bufferData.length vc, 12 * vc, 12 * vc) := by
  obtain ⟨hinv, heq⟩ := calculateBufferLayout_of_no_window bufferData hno
  rw [heq]
  rcases hinv with h | h
  · exact absurd hvc (h.2.2.2.2 vc hvc.1 (by have := hvc.2.1; omega))
  · have e : (layoutFallbackLoop bufferData.length 100 1 ⟨0, 0, 0, 0, f64 0 1⟩).bestVC = vc :=
      Nat.le_antisymm (hmax _ h.2.1)
        (h.2.2.2.2.2 vc hvc.1 (by have := hvc.2.1; omega) hvc)
    rw [h.2.2.1, h.2.2.2.1, h.2.2.2.2.1, e]

theorem calculateBufferLayout_fallback_witness :
    calculateBufferLayout (List.replicate 26 0) = (1, 7, 12, 12) :=
  calculateBufferLayout_fallback (List.replicate 26 0) 1
    (by intro v h; unfold WindowCandidate indexCountFor at h; simp at h; omega)
    (by unfold FallbackCandidate indexCountFor; simp)
    (by intro v h; unfold FallbackCandidate indexCountFor at h; simp at h; omega)

/-- C8 (as stated, refuted). For a buffer of 15 bytes there is neither a window
candidate nor a fallback candidate, and `calculateBufferLayout` returns the
layout `(0, 0, 0, 0)` to its caller: it does not fail. -/
theorem calculateBufferLayout_no_candidate_returns :
    (∀ vc, ¬ WindowCandidate (List.replicate 15 0).length vc) ∧
    (∀ vc, ¬ FallbackCandidate (List.replicate 15 0).length vc) ∧
    calculateBufferLayout (List.replicate 15 0) = (0, 0, 0, 0) := by
  refine ⟨?_, ?_, by decide!⟩
  · intro v h; unfold WindowCandidate indexCountFor at h; simp at h; omega
  · intro v h; unfold FallbackCandidate indexCountFor at h; simp at h; omega

/-- C8 (amended). When a buffer length has neither a window candidate nor a
fallback candidate, `calculateBufferLayout` returns the all-zero layout
`(0, 0, 0, 0)`. -/
theorem calculateBufferLayout_no_candidate (bufferData : List Nat)
    (hno : ∀ vc, ¬ WindowCandidate bufferData.length vc)
    (hnf : ∀ vc, ¬ FallbackCandidate bufferData.length vc) :
    calculateBufferLayout bufferData = (0, 0, 0, 0) := by
  obtain ⟨hinv, heq⟩ := calculateBufferLayout_of_no_window bufferData hno
  rw [heq]
  rcases hinv with h | h
  · rw [h.1, h.2.1, h.2.2.1, h.2.2.2.1]
  · exact absurd h.2.1 (hnf _)

theorem calculateBufferLayout_no_candidate_witness :
    calculateBufferLayout (List.replicate 7 0) = (0, 0, 0, 0) :=
  calculateBufferLayout_no_candidate (List.replicate 7 0)
    (by intro v h; unfold WindowCandidate indexCountFor at h; simp at h; omega)
    (by intro v h; unfold FallbackCandidate indexCountFor at h; simp at h; omega)


/-! ## Rounding: integer logarithm and exact conversions -/

/-! ## The rounding function of the IEEE model -/

namespace IEEE

theorem log2Levels_spec : ∀ (fuel n j : Nat), n < 2 ^ 2 ^ (j + fuel) →
    n < 2 ^ 2 ^ log2Levels fuel n j := by
  intro fuel
  induction fuel with
  | zero => intro n j h; simpa [log2Levels] using h
  | succ fuel ih =>
    intro n j h
    rw [log2Levels]
    split
    · assumption
    · exact ih n (j + 1) (by rwa [Nat.add_assoc, Nat.add_comm 1 fuel])

theorem log2Search_spec : ∀ (j n acc : Nat), 1 ≤ n → n < 2 ^ 2 ^ j →
    ∃ t, log2Search j n acc = acc + t ∧ 2 ^ t ≤ n ∧ n < 2 ^ (t + 1) := by
  intro j
  induction j with
  | zero =>
    intro n acc h1 h2
    refine ⟨0, by simp [log2Search], by simpa using h1, by simpa using h2⟩
  | succ j ih =>
    intro n acc h1 h2
    rw [log2Search]
    have hpos : 0 < 2 ^ 2 ^ j := Nat.pow_pos (by norm_num)
    have hsq : 2 ^ 2 ^ (j + 1) = 2 ^ 2 ^ j * 2 ^ 2 ^ j := by
      rw [pow_succ, pow_mul, pow_two]
    split
    · rename_i hge
      have hq1 : 1 ≤ n / 2 ^ 2 ^ j := (Nat.one_le_div_iff hpos).mpr hge
      have hq2 : n / 2 ^ 2 ^ j < 2 ^ 2 ^ j := by
        rw [Nat.div_lt_iff_lt_mul hpos]
        rwa [hsq] at h2
      obtain ⟨t, e, l, u⟩ := ih (n / 2 ^ 2 ^ j) (acc + 2 ^ j) hq1 hq2
      refine ⟨2 ^ j + t, by rw [e]; omega, ?_, ?_⟩
      · rw [pow_add]
        calc 2 ^ 2 ^ j * 2 ^ t ≤ 2 ^ 2 ^ j * (n / 2 ^ 2 ^ j) := Nat.mul_le_mul_left _ l
          _ ≤ n := Nat.mul_div_le n _
      · have hu : n / 2 ^ 2 ^ j + 1 ≤ 2 ^ (t + 1) := u
        calc n < 2 ^ 2 ^ j * (n / 2 ^ 2 ^ j + 1) := Nat.lt_mul_div_succ n hpos
          _ ≤ 2 ^ 2 ^ j * 2 ^ (t + 1) := Nat.mul_le_mul_left _ hu
          _ = 2 ^ (2 ^ j + t + 1) := by rw [← pow_add]; rfl
    · rename_i hlt
      exact ih n acc h1 (Nat.lt_of_not_le hlt)

/-- `ilog2` is the floor of the binary logarithm. -/
theorem ilog2_spec (n : Nat) (h : 1 ≤ n) : 2 ^ ilog2 n ≤ n ∧ n < 2 ^ (ilog2 n + 1) := by
  unfold ilog2
  have hl : n < 2 ^ 2 ^ log2Levels n n 0 := by
    apply log2Levels_spec
    rw [Nat.zero_add]
    calc n < 2 ^ n := Nat.lt_two_pow n
      _ ≤ 2 ^ 2 ^ n := Nat.pow_le_pow_right (by norm_num) (Nat.lt_two_pow n).le
  obtain ⟨t, e, l, u⟩ := log2Search_spec (log2Levels n n 0) n 0 h hl
  rw [e, Nat.zero_add]
  exact ⟨l, u⟩

theorem ilog2_eq (n t : Nat) (l : 2 ^ t ≤ n) (u : n < 2 ^ (t + 1)) : ilog2 n = t := by
  have h1 : 1 ≤ n := Nat.le_trans (Nat.one_le_two_pow) l
  obtain ⟨l', u'⟩ := ilog2_spec n h1
  have a : ilog2 n < t + 1 :=
    (Nat.pow_lt_pow_iff_right (by norm_num : 1 < 2)).mp (Nat.lt_of_le_of_lt l' u)
  have b : t < ilog2 n + 1 :=
    (Nat.pow_lt_pow_iff_right (by norm_num : 1 < 2)).mp (Nat.lt_of_le_of_lt l u')
  omega

theorem ilog2_eq_log2 (n : Nat) : ilog2 n = Nat.log 2 n := by
  rcases Nat.eq_zero_or_pos n with h | h
  · subst h; simp [ilog2, log2Levels, log2Search]
  · apply ilog2_eq
    · exact Nat.pow_log_le_self 2 (by omega)
    · exact Nat.lt_pow_succ_log_self (by norm_num) n

end IEEE

namespace IEEE

theorem roundRat_eq (f : Format) (s : Bool) (n d : Nat) :
    roundRat f s n d = withSign f s (min f.infBits
      ((ilog2 (n * 2 ^ f.scaleExp / d) - f.mbits) * 2 ^ f.mbits
        + roundHalfEven (n * 2 ^ f.scaleExp)
            (d * 2 ^ (ilog2 (n * 2 ^ f.scaleExp / d) - f.mbits)))) := rfl

theorem roundHalfEven_bounds (N D : Nat) :
    N / D ≤ roundHalfEven N D ∧ roundHalfEven N D ≤ N / D + 1 := by
  unfold roundHalfEven
  split <;> omega

theorem roundHalfEven_of_dvd (N D : Nat) (hD : 0 < D) (h : D ∣ N) :
    roundHalfEven N D = N / D := by
  unfold roundHalfEven
  have : N % D = 0 := Nat.mod_eq_zero_of_dvd h
  rw [this]
  simp
  omega

/-- Facts about a binary64 pattern given by a sign and a magnitude below `2 ^ 63`. -/
theorem withSign_facts (s : Bool) (mag : Nat) (h : mag < 2 ^ 63) :
    magnitude binary64 (withSign binary64 s mag) = mag ∧
    signOf binary64 (withSign binary64 s mag) = s ∧
    numer binary64 (withSign binary64 s mag) = numer binary64 mag := by
  have e1 : binary64.signBit = 2 ^ 63 := rfl
  have e2 : binary64.mbits = 52 := rfl
  have e3 : binary64.ebits = 11 := rfl
  unfold magnitude signOf numer withSign
  rw [e1, e2, e3]
  cases s
  · simp only [Bool.false_eq_true, if_false, Nat.zero_add]
    refine ⟨Nat.mod_eq_of_lt h, ?_, trivial⟩
    have : mag / 2 ^ 63 = 0 := Nat.div_eq_of_lt h
    rw [this]; rfl
  · simp only [if_true]
    have a : (2 ^ 63 + mag) % 2 ^ 63 = mag := by omega
    have b : (2 ^ 63 + mag) / 2 ^ 63 % 2 = 1 := by omega
    have c : (2 ^ 63 + mag) / 2 ^ 52 % 2 ^ 11 = mag / 2 ^ 52 % 2 ^ 11 := by omega
    have d : (2 ^ 63 + mag) % 2 ^ 52 = mag % 2 ^ 52 := by omega
    rw [a, b, c, d]
    exact ⟨rfl, rfl, rfl⟩

theorem numer_normal (q k : Nat) (hk : 2 ^ 52 ≤ k) (hk2 : k ≤ 2 ^ 53) (hq : q + 2 < 2047) :
    numer binary64 (q * 2 ^ 52 + k) = k * 2 ^ q := by
  have e2 : binary64.mbits = 52 := rfl
  have e3 : binary64.ebits = 11 := rfl
  unfold numer
  rw [e2, e3]
  rcases Nat.lt_or_ge k (2 ^ 53) with h | h
  · have a : (q * 2 ^ 52 + k) / 2 ^ 52 % 2 ^ 11 = q + 1 := by omega
    have b : (q * 2 ^ 52 + k) % 2 ^ 52 = k - 2 ^ 52 := by omega
    simp only [a, b]
    have c : 2 ^ 52 + (k - 2 ^ 52) = k := by omega
    rw [if_neg (by omega), c, Nat.add_sub_cancel]
  · have hk3 : k = 2 ^ 53 := Nat.le_antisymm hk2 h
    subst hk3
    have a : (q * 2 ^ 52 + 2 ^ 53) / 2 ^ 52 % 2 ^ 11 = q + 2 := by omega
    have b : (q * 2 ^ 52 + 2 ^ 53) % 2 ^ 52 = 0 := by omega
    simp only [a, b]
    have : q + 2 - 1 = q + 1 := by omega
    rw [if_neg (by omega), this, Nat.add_zero, pow_succ 2 q, pow_succ 2 52]
    ring

/-- Rounding in the normal range without overflow: the pattern, and the range
of its significand. -/
theorem roundRat_normal (s : Bool) (n d t : Nat) (_hd : 0 < d)
    (hl : 2 ^ t ≤ n * 2 ^ 1074 / d) (hu : n * 2 ^ 1074 / d < 2 ^ (t + 1))
    (h52 : 52 ≤ t) (ht : t < 2097) :
    roundRat binary64 s n d
      = withSign binary64 s
          ((t - 52) * 2 ^ 52 + roundHalfEven (n * 2 ^ 1074) (d * 2 ^ (t - 52))) ∧
    2 ^ 52 ≤ roundHalfEven (n * 2 ^ 1074) (d * 2 ^ (t - 52)) ∧
    roundHalfEven (n * 2 ^ 1074) (d * 2 ^ (t - 52)) ≤ 2 ^ 53 := by
  have e1 : binary64.scaleExp = 1074 := rfl
  have e2 : binary64.mbits = 52 := rfl
  have e3 : binary64.infBits = 2047 * 2 ^ 52 := rfl
  have hlog : ilog2 (n * 2 ^ 1074 / d) = t := ilog2_eq _ _ hl hu
  have hq : 0 < 2 ^ (t - 52) := Nat.pow_pos (by norm_num)
  have hpow : 2 ^ 52 * 2 ^ (t - 52) = 2 ^ t := by
    rw [← pow_add]; congr 1; omega
  have hpow' : 2 ^ 53 * 2 ^ (t - 52) = 2 ^ (t + 1) := by
    rw [← pow_add]; congr 1; omega
  have hk : n * 2 ^ 1074 / (d * 2 ^ (t - 52)) = n * 2 ^ 1074 / d / 2 ^ (t - 52) :=
    (Nat.div_div_eq_div_mul _ _ _).symm
  have hk1 : 2 ^ 52 ≤ n * 2 ^ 1074 / (d * 2 ^ (t - 52)) := by
    rw [hk, Nat.le_div_iff_mul_le hq, hpow]; exact hl
  have hk2 : n * 2 ^ 1074 / (d * 2 ^ (t - 52)) < 2 ^ 53 := by
    rw [hk, Nat.div_lt_iff_lt_mul hq, hpow']; exact hu
  obtain ⟨hb1, hb2⟩ := roundHalfEven_bounds (n * 2 ^ 1074) (d * 2 ^ (t - 52))
  have r1 : 2 ^ 52 ≤ roundHalfEven (n * 2 ^ 1074) (d * 2 ^ (t - 52)) := Nat.le_trans hk1 hb1
  have r2 : roundHalfEven (n * 2 ^ 1074) (d * 2 ^ (t - 52)) ≤ 2 ^ 53 :=
    Nat.le_trans hb2 (Nat.succ_le_of_lt hk2)
  refine ⟨?_, r1, r2⟩
  have hmin : (t - 52) * 2 ^ 52 + roundHalfEven (n * 2 ^ 1074) (d * 2 ^ (t - 52))
      ≤ 2047 * 2 ^ 52 := by
    generalize roundHalfEven (n * 2 ^ 1074) (d * 2 ^ (t - 52)) = r at r2
    omega
  rw [roundRat_eq, e1, e2, e3, hlog, Nat.min_eq_right hmin]

end IEEE

namespace IEEE

/-- What a rounding in the normal range returns: a finite non-zero pattern with
the given sign whose value is the rounded significand times the quantum. -/
theorem roundRat_normal_facts (s : Bool) (n d t : Nat) (hd : 0 < d)
    (hl : 2 ^ t ≤ n * 2 ^ 1074 / d) (hu : n * 2 ^ 1074 / d < 2 ^ (t + 1))
    (h52 : 52 ≤ t) (ht : t < 2097) :
    isNaN binary64 (roundRat binary64 s n d) = false ∧
    isInf binary64 (roundRat binary64 s n d) = false ∧
    signOf binary64 (roundRat binary64 s n d) = s ∧
    magnitude binary64 (roundRat binary64 s n d) ≠ 0 ∧
    numer binary64 (roundRat binary64 s n d)
      = roundHalfEven (n * 2 ^ 1074) (d * 2 ^ (t - 52)) * 2 ^ (t - 52) := by
  obtain ⟨e, r1, r2⟩ := roundRat_normal s n d t hd hl hu h52 ht
  rw [e]
  generalize roundHalfEven (n * 2 ^ 1074) (d * 2 ^ (t - 52)) = r at r1 r2 ⊢
  have hmag : (t - 52) * 2 ^ 52 + r < 2 ^ 63 := by omega
  obtain ⟨f1, f2, f3⟩ := withSign_facts s _ hmag
  have e3 : binary64.infBits = 2047 * 2 ^ 52 := rfl
  refine ⟨?_, ?_, f2, ?_, ?_⟩
  · unfold isNaN
    rw [f1, e3]
    simp only [decide_eq_false_iff_not, not_lt]
    omega
  · unfold isInf
    rw [f1, e3]
    simp only [beq_eq_false_iff_ne, ne_eq]
    omega
  · rw [f1]; omega
  · rw [f3, numer_normal _ _ r1 r2 (by omega)]

/-- An exactly representable quotient is returned unchanged. -/
theorem roundRat_exact (s : Bool) (n d t : Nat) (hd : 0 < d)
    (hl : 2 ^ t ≤ n * 2 ^ 1074 / d) (hu : n * 2 ^ 1074 / d < 2 ^ (t + 1))
    (h52 : 52 ≤ t) (ht : t < 2097) (hdvd : d * 2 ^ (t - 52) ∣ n * 2 ^ 1074) :
    isNaN binary64 (roundRat binary64 s n d) = false ∧
    isInf binary64 (roundRat binary64 s n d) = false ∧
    signOf binary64 (roundRat binary64 s n d) = s ∧
    magnitude binary64 (roundRat binary64 s n d) ≠ 0 ∧
    numer binary64 (roundRat binary64 s n d) = n * 2 ^ 1074 / d := by
  obtain ⟨a, b, c, m, e⟩ := roundRat_normal_facts s n d t hd hl hu h52 ht
  refine ⟨a, b, c, m, ?_⟩
  have hq : 0 < 2 ^ (t - 52) := Nat.pow_pos (by norm_num)
  rw [e, roundHalfEven_of_dvd _ _ (Nat.mul_pos hd hq) hdvd]
  obtain ⟨w, hw⟩ := hdvd
  rw [hw, Nat.mul_div_cancel_left _ (Nat.mul_pos hd hq), Nat.mul_assoc,
    Nat.mul_div_cancel_left _ hd, Nat.mul_comm]

/-- The conversion `float64(n)` of an integer `1 ≤ n < 2 ^ 53` is exact. -/
theorem ofInt_exact (n : Nat) (h1 : 1 ≤ n) (h2 : n < 2 ^ 53) :
    isNaN binary64 (ofInt binary64 n) = false ∧
    isInf binary64 (ofInt binary64 n) = false ∧
    signOf binary64 (ofInt binary64 n) = false ∧
    magnitude binary64 (ofInt binary64 n) ≠ 0 ∧
    numer binary64 (ofInt binary64 n) = n * 2 ^ 1074 := by
  have e : ofInt binary64 (n : Int) = roundRat binary64 false n 1 := by
    unfold ofInt
    have : decide ((n : Int) < 0) = false := by simp
    rw [this, Int.natAbs_ofNat]
  rw [e]
  have hpos : 1 ≤ n * 2 ^ 1074 := Nat.mul_pos h1 (Nat.pow_pos (by norm_num))
  obtain ⟨l, u⟩ := ilog2_spec (n * 2 ^ 1074) hpos
  have hC : 2 ^ 1074 ≤ n * 2 ^ 1074 := Nat.le_mul_of_pos_left _ h1
  have hU : n * 2 ^ 1074 < 2 ^ 1127 := by
    have : (2 : Nat) ^ 1127 = 2 ^ 53 * 2 ^ 1074 := by rw [← pow_add]
    rw [this]
    exact Nat.mul_lt_mul_of_pos_right h2 (Nat.pow_pos (by norm_num))
  have t1 : 1074 < ilog2 (n * 2 ^ 1074) + 1 :=
    (Nat.pow_lt_pow_iff_right (by norm_num : 1 < 2)).mp (Nat.lt_of_le_of_lt hC u)
  have t2 : ilog2 (n * 2 ^ 1074) < 1127 :=
    (Nat.pow_lt_pow_iff_right (by norm_num : 1 < 2)).mp (Nat.lt_of_le_of_lt l hU)
  have hd : 1 * 2 ^ (ilog2 (n * 2 ^ 1074) - 52) ∣ n * 2 ^ 1074 := by
    rw [Nat.one_mul]
    exact Dvd.dvd.mul_left (pow_dvd_pow 2 (by omega)) n
  have := roundRat_exact false n 1 (ilog2 (n * 2 ^ 1074)) (by norm_num)
    (by rw [Nat.div_one]; exact l) (by rw [Nat.div_one]; exact u) (by omega) (by omega) hd
  rw [Nat.div_one] at this
  exact this

end IEEE


/-! ## Rounding: quotients and distances -/

namespace IEEE

theorem roundHalfEven_mul_right (a b m : Nat) (hm : 0 < m) :
    roundHalfEven (a * m) (b * m) = roundHalfEven a b := by
  unfold roundHalfEven
  rw [Nat.mul_div_mul_right _ _ hm, Nat.mul_mod_mul_right]
  have h1 : b * m < 2 * (a % b * m) ↔ b < 2 * (a % b) := by
    rw [← Nat.mul_assoc]
    exact Nat.mul_lt_mul_right hm
  have h2 : 2 * (a % b * m) = b * m ↔ 2 * (a % b) = b := by
    rw [← Nat.mul_assoc]
    exact Nat.mul_left_inj (Nat.pos_iff_ne_zero.mp hm)
  simp only [h1, h2]

/-- For every pattern the value depends on the magnitude only, and negation flips
the sign and keeps the magnitude. -/
theorem neg_facts (x : Nat) :
    magnitude binary64 (neg binary64 x) = magnitude binary64 x ∧
    signOf binary64 (neg binary64 x) = !signOf binary64 x ∧
    numer binary64 (neg binary64 x) = numer binary64 x ∧
    isNaN binary64 (neg binary64 x) = isNaN binary64 x ∧
    isInf binary64 (neg binary64 x) = isInf binary64 x := by
  have hm : magnitude binary64 x < 2 ^ 63 :=
    Nat.mod_lt _ (show 0 < binary64.signBit from Nat.two_pow_pos _)
  obtain ⟨f1, f2, f3⟩ := withSign_facts (!signOf binary64 x) _ hm
  have hn : numer binary64 (magnitude binary64 x) = numer binary64 x := by
    have e1 : binary64.signBit = 2 ^ 63 := rfl
    have e2 : binary64.mbits = 52 := rfl
    have e3 : binary64.ebits = 11 := rfl
    unfold numer magnitude
    rw [e1, e2, e3]
    have a : x % 2 ^ 63 / 2 ^ 52 % 2 ^ 11 = x / 2 ^ 52 % 2 ^ 11 := by omega
    have b : x % 2 ^ 63 % 2 ^ 52 = x % 2 ^ 52 := by omega
    rw [a, b]
  unfold neg
  refine ⟨f1, f2, by rw [f3, hn], ?_, ?_⟩
  · unfold isNaN; rw [f1]
  · unfold isInf; rw [f1]

/-- The subtraction results that the ratio distance needs are exact. -/
theorem roundRat_exact_scaled (s : Bool) (m : Nat) (h1 : 1 ≤ m) (h2 : m < 2 ^ 53) :
    isNaN binary64 (roundRat binary64 s (m * 2 ^ 1023) (2 ^ 1074)) = false ∧
    signOf binary64 (roundRat binary64 s (m * 2 ^ 1023) (2 ^ 1074)) = s ∧
    numer binary64 (roundRat binary64 s (m * 2 ^ 1023) (2 ^ 1074)) = m * 2 ^ 1023 := by
  have hC : 0 < 2 ^ 1074 := Nat.two_pow_pos _
  have hdiv : m * 2 ^ 1023 * 2 ^ 1074 / 2 ^ 1074 = m * 2 ^ 1023 := Nat.mul_div_cancel _ hC
  have hpos : 1 ≤ m * 2 ^ 1023 := Nat.mul_pos h1 (Nat.two_pow_pos _)
  obtain ⟨l, u⟩ := ilog2_spec (m * 2 ^ 1023) hpos
  have hL : 2 ^ 1023 ≤ m * 2 ^ 1023 := Nat.le_mul_of_pos_left _ h1
  have hU : m * 2 ^ 1023 < 2 ^ (53 + 1023) := by
    rw [pow_add]
    exact Nat.mul_lt_mul_of_pos_right h2 (Nat.two_pow_pos _)
  have t1 : 1023 < ilog2 (m * 2 ^ 1023) + 1 :=
    (Nat.pow_lt_pow_iff_right (by norm_num : 1 < 2)).mp (Nat.lt_of_le_of_lt hL u)
  have t2 : ilog2 (m * 2 ^ 1023) < 53 + 1023 :=
    (Nat.pow_lt_pow_iff_right (by norm_num : 1 < 2)).mp (Nat.lt_of_le_of_lt l hU)
  have hd : 2 ^ 1074 * 2 ^ (ilog2 (m * 2 ^ 1023) - 52) ∣ m * 2 ^ 1023 * 2 ^ 1074 := by
    rw [Nat.mul_comm (2 ^ 1074)]
    exact Nat.mul_dvd_mul (Dvd.dvd.mul_left (pow_dvd_pow 2 (by omega)) m) (dvd_refl _)
  obtain ⟨a, -, c, -, e⟩ := roundRat_exact s (m * 2 ^ 1023) (2 ^ 1074) (ilog2 (m * 2 ^ 1023)) hC
    (by rw [hdiv]; exact l) (by rw [hdiv]; exact u) (by omega) (by omega) hd
  exact ⟨a, c, by rw [e, hdiv]⟩

theorem scaled_quotient_bounds (ic vc k C : Nat) (hv1 : 1 ≤ vc) (hC : 0 < C)
    (hlo : k * vc ≤ ic) (hhi : ic < 2 * k * vc) :
    k * C ≤ ic * C * C / (vc * C) ∧ ic * C * C / (vc * C) < 2 * (k * C) := by
  rw [Nat.mul_div_mul_right _ _ hC, Nat.le_div_iff_mul_le hv1, Nat.div_lt_iff_lt_mul hv1]
  constructor
  · calc k * C * vc = k * vc * C := by ring
      _ ≤ ic * C := Nat.mul_le_mul_right _ hlo
  · calc ic * C < 2 * k * vc * C := Nat.mul_lt_mul_of_pos_right hhi hC
      _ = 2 * (k * C) * vc := by ring

theorem roundHalfEven_scaled (ic vc C A B : Nat) (h : C = A * B) (hC : 0 < C) (hB : 0 < B) :
    roundHalfEven (ic * C * C) (vc * C * B) = roundHalfEven (ic * A) vc := by
  have e1 : ic * C * C = ic * A * (C * B) := by subst h; ring
  have e2 : vc * C * B = vc * (C * B) := by ring
  rw [e1, e2, roundHalfEven_mul_right _ _ _ (Nat.mul_pos hC hB)]

/-- The quotient `float64(ic) / float64(vc)` for a ratio in `[2, 8)`. -/
theorem div_ratio (ic vc : Nat) (hv1 : 1 ≤ vc) (hv2 : vc ≤ 100) (hlo : 2 * vc ≤ ic)
    (hhi : ic < 8 * vc) :
    isNaN binary64 (div binary64 (ofInt binary64 ic) (ofInt binary64 vc)) = false ∧
    isInf binary64 (div binary64 (ofInt binary64 ic) (ofInt binary64 vc)) = false ∧
    signOf binary64 (div binary64 (ofInt binary64 ic) (ofInt binary64 vc)) = false ∧
    numer binary64 (div binary64 (ofInt binary64 ic) (ofInt binary64 vc))
      = ratioSignificand ic vc * 2 ^ 1023 := by
  have hC : 0 < 2 ^ 1074 := Nat.two_pow_pos 1074
  have p1 : (2 : Nat) ^ 1075 = 2 * 2 ^ 1074 := pow_succ' 2 1074
  have p2 : (2 : Nat) ^ 1076 = 2 * 2 ^ 1075 := pow_succ' 2 1075
  have p3 : (2 : Nat) ^ 1077 = 2 * 2 ^ 1076 := pow_succ' 2 1076
  have p4 : (2 : Nat) ^ 1024 = 2 ^ 1023 * 2 := pow_succ 2 1023
  have q1 : (2 : Nat) ^ 1074 = 2 ^ 51 * 2 ^ 1023 := pow_add 2 51 1023
  have q2 : (2 : Nat) ^ 1074 = 2 ^ 50 * 2 ^ 1024 := pow_add 2 50 1024
  obtain ⟨a1, a2, a3, a4, a5⟩ := ofInt_exact vc hv1 (by omega)
  obtain ⟨b1, b2, b3, -, b5⟩ := ofInt_exact ic (by omega) (by omega)
  have hx : div binary64 (ofInt binary64 ic) (ofInt binary64 vc)
      = roundRat binary64 false (ic * 2 ^ 1074) (vc * 2 ^ 1074) := by
    unfold div
    simp only [a1, a2, a3, b1, b2, b3, a5, b5, a4, Bool.false_eq_true, or_self, if_false,
      bne_self_eq_false]
  rw [hx]
  have hd : 0 < vc * 2 ^ 1074 := Nat.mul_pos hv1 hC
  unfold ratioSignificand
  by_cases hc : ic < 4 * vc
  · rw [if_pos hc]
    obtain ⟨hl, hu⟩ := scaled_quotient_bounds ic vc 2 (2 ^ 1074) hv1 hC hlo (by omega)
    rw [← p1] at hl hu
    rw [← p2] at hu
    obtain ⟨c1, c2, c3, -, c5⟩ := roundRat_normal_facts false (ic * 2 ^ 1074) (vc * 2 ^ 1074)
      1075 hd hl hu (by omega) (by omega)
    refine ⟨c1, c2, c3, ?_⟩
    rw [c5]
    have : roundHalfEven (ic * 2 ^ 1074 * 2 ^ 1074) (vc * 2 ^ 1074 * 2 ^ 1023)
        = roundHalfEven (ic * 2 ^ 51) vc :=
      roundHalfEven_scaled ic vc (2 ^ 1074) (2 ^ 51) (2 ^ 1023) q1 hC (Nat.two_pow_pos 1023)
    exact congrArg (fun r => r * 2 ^ 1023) this
  · rw [if_neg hc]
    obtain ⟨hl, hu⟩ := scaled_quotient_bounds ic vc 4 (2 ^ 1074) hv1 hC (by omega) (by omega)
    have p5 : 4 * 2 ^ 1074 = 2 ^ 1076 := by rw [p2, p1, ← Nat.mul_assoc]
    rw [p5] at hl hu
    rw [← p3] at hu
    obtain ⟨c1, c2, c3, -, c5⟩ := roundRat_normal_facts false (ic * 2 ^ 1074) (vc * 2 ^ 1074)
      1076 hd hl hu (by omega) (by omega)
    refine ⟨c1, c2, c3, ?_⟩
    rw [c5]
    have : roundHalfEven (ic * 2 ^ 1074 * 2 ^ 1074) (vc * 2 ^ 1074 * 2 ^ 1024)
        = roundHalfEven (ic * 2 ^ 50) vc :=
      roundHalfEven_scaled ic vc (2 ^ 1074) (2 ^ 50) (2 ^ 1024) q2 hC (Nat.two_pow_pos 1024)
    have e : roundHalfEven (ic * 2 ^ 1074 * 2 ^ 1074) (vc * 2 ^ 1074 * 2 ^ (1076 - 52))
        * 2 ^ (1076 - 52) = roundHalfEven (ic * 2 ^ 50) vc * 2 ^ 1024 :=
      congrArg (fun r => r * 2 ^ 1024) this
    rw [e, p4, Nat.mul_comm 2 (roundHalfEven (ic * 2 ^ 50) vc), Nat.mul_assoc,
      Nat.mul_comm 2 (2 ^ 1023)]

end IEEE

namespace IEEE

theorem target_facts :
    isNaN binary64 (f64 25 10) = false ∧ isInf binary64 (f64 25 10) = false ∧
    signOf binary64 (f64 25 10) = false ∧
    numer binary64 (f64 25 10) = 5 * 2 ^ 50 * 2 ^ 1023 := by decide!

theorem zero_facts :
    f64 0 1 = 0 ∧ isNaN binary64 0 = false ∧ signOf binary64 0 = false ∧
    numer binary64 0 = 0 := by decide!

/-- The distance `|x - 2.5|` as the first loop computes it, for a finite positive
`x` with significand `R` (in units of `2 ^ -51`) between 2 and 6.5: it is exact. -/
theorem ratioDistance_facts (x R : Nat) (hnan : isNaN binary64 x = false)
    (hinf : isInf binary64 x = false) (hs : signOf binary64 x = false)
    (hn : numer binary64 x = R * 2 ^ 1023) (hR1 : 2 ^ 52 ≤ R) (hR2 : R < 13 * 2 ^ 50) :
    isNaN binary64 (ratioDistance x (f64 25 10)) = false ∧
    signOf binary64 (ratioDistance x (f64 25 10)) = false ∧
    numer binary64 (ratioDistance x (f64 25 10))
      = (R - 5 * 2 ^ 50 + (5 * 2 ^ 50 - R)) * 2 ^ 1023 := by
  obtain ⟨t1, t2, t3, t4⟩ := target_facts
  obtain ⟨z0, z1, z2, z3⟩ := zero_facts
  obtain ⟨-, n2, n3, n4, n5⟩ := neg_facts (f64 25 10)
  rw [t3] at n2
  rw [t4] at n3
  rw [t1] at n4
  rw [t2] at n5
  have hP : 0 < 2 ^ 1023 := Nat.two_pow_pos 1023
  have hadd : add binary64 x (neg binary64 (f64 25 10))
      = if R = 5 * 2 ^ 50 then 0
        else if 5 * 2 ^ 50 < R then
          roundRat binary64 false ((R - 5 * 2 ^ 50) * 2 ^ 1023) (2 ^ 1074)
        else roundRat binary64 true ((5 * 2 ^ 50 - R) * 2 ^ 1023) (2 ^ 1074) := by
    unfold add
    have e0 : binary64.scaleExp = 1074 := rfl
    simp only [hnan, hinf, hs, hn, n2, n3, n4, n5, e0, Bool.false_eq_true, or_self, if_false,
      Bool.not_false, Nat.mul_left_inj (Nat.pos_iff_ne_zero.mp hP), Nat.mul_lt_mul_right hP,
      Nat.sub_mul]
  unfold ratioDistance sub
  rw [hadd, z0]
  by_cases h1 : R = 5 * 2 ^ 50
  · rw [if_pos h1]
    have hlt : lt binary64 0 0 = false := by decide!
    simp only [hlt, Bool.false_eq_true, if_false]
    refine ⟨z1, z2, ?_⟩
    rw [z3, h1]; simp
  · rw [if_neg h1]
    by_cases h2 : 5 * 2 ^ 50 < R
    · rw [if_pos h2]
      obtain ⟨a, b, c⟩ := roundRat_exact_scaled false (R - 5 * 2 ^ 50) (by omega) (by omega)
      have hlt : lt binary64 (roundRat binary64 false ((R - 5 * 2 ^ 50) * 2 ^ 1023) (2 ^ 1074)) 0
          = false := by
        unfold lt signedNumer
        rw [a, b, z1, z2, z3]
        simp
      simp only [hlt, Bool.false_eq_true, if_false]
      refine ⟨a, b, ?_⟩
      rw [c]
      have : 5 * 2 ^ 50 - R = 0 := by omega
      rw [this, Nat.add_zero]
    · rw [if_neg h2]
      obtain ⟨a, b, c⟩ := roundRat_exact_scaled true (5 * 2 ^ 50 - R) (by omega) (by omega)
      have hpos : 0 < (5 * 2 ^ 50 - R) * 2 ^ 1023 := Nat.mul_pos (by omega) hP
      have hlt : lt binary64 (roundRat binary64 true ((5 * 2 ^ 50 - R) * 2 ^ 1023) (2 ^ 1074)) 0
          = true := by
        unfold lt signedNumer
        rw [a, b, z1, z2, z3, c]
        simp only [Bool.not_false, Bool.and_self, Bool.true_and, if_true, Bool.false_eq_true,
          if_false, decide_eq_true_eq]
        have : (0 : Int) < (((5 * 2 ^ 50 - R) * 2 ^ 1023 : Nat) : Int) := by exact_mod_cast hpos
        simpa using this
      simp only [hlt, if_true]
      obtain ⟨-, m2, m3, m4, -⟩ :=
        neg_facts (roundRat binary64 true ((5 * 2 ^ 50 - R) * 2 ^ 1023) (2 ^ 1074))
      refine ⟨by rw [m4, a], by rw [m2, b]; rfl, ?_⟩
      rw [m3, c]
      have : R - 5 * 2 ^ 50 = 0 := by omega
      rw [this, Nat.zero_add]

end IEEE


/-! ## Distance of a candidate ratio from the target -/

section
open IEEE

theorem roundHalfEven_error (a b : Nat) (hb : 0 < b) :
    roundHalfEven a b * b ≤ a + b ∧ a ≤ roundHalfEven a b * b + b := by
  obtain ⟨h1, h2⟩ := roundHalfEven_bounds a b
  have hd := Nat.div_add_mod a b
  have hm := Nat.mod_lt a hb
  have e1 : a / b * b ≤ a := Nat.div_mul_le_self a b
  have e2 : a < (a / b + 1) * b := by
    rw [Nat.add_mul, Nat.one_mul, Nat.mul_comm]; omega
  constructor
  · calc roundHalfEven a b * b ≤ (a / b + 1) * b := Nat.mul_le_mul_right _ h2
      _ = a / b * b + b := by ring
      _ ≤ a + b := by omega
  · calc a ≤ a / b * b + b := by rw [Nat.mul_comm]; omega
      _ ≤ roundHalfEven a b * b + b := by
        have := Nat.mul_le_mul_right b h1
        omega

theorem ratioSignificand_bounds (ic vc : Nat) (hv1 : 1 ≤ vc) (hlo : 2 * vc ≤ ic)
    (hhi : ic ≤ 6 * vc) :
    2 ^ 52 ≤ ratioSignificand ic vc ∧ ratioSignificand ic vc < 13 * 2 ^ 50 ∧
    ratioSignificand ic vc * vc ≤ ic * 2 ^ 51 + 2 * vc ∧
    ic * 2 ^ 51 ≤ ratioSignificand ic vc * vc + 2 * vc := by
  unfold ratioSignificand
  by_cases hc : ic < 4 * vc
  · rw [if_pos hc]
    obtain ⟨b1, b2⟩ := roundHalfEven_bounds (ic * 2 ^ 51) vc
    obtain ⟨e1, e2⟩ := roundHalfEven_error (ic * 2 ^ 51) vc hv1
    have q1 : 2 ^ 52 ≤ ic * 2 ^ 51 / vc := by
      rw [Nat.le_div_iff_mul_le hv1]
      calc 2 ^ 52 * vc = 2 * vc * 2 ^ 51 := by ring
        _ ≤ ic * 2 ^ 51 := Nat.mul_le_mul_right _ hlo
    have q2 : ic * 2 ^ 51 / vc < 2 ^ 53 := by
      rw [Nat.div_lt_iff_lt_mul hv1]
      calc ic * 2 ^ 51 < 4 * vc * 2 ^ 51 := Nat.mul_lt_mul_of_pos_right hc (by norm_num)
        _ = 2 ^ 53 * vc := by ring
    refine ⟨by omega, by omega, by omega, by omega⟩
  · rw [if_neg hc]
    obtain ⟨b1, b2⟩ := roundHalfEven_bounds (ic * 2 ^ 50) vc
    obtain ⟨e1, e2⟩ := roundHalfEven_error (ic * 2 ^ 50) vc hv1
    have q1 : 2 ^ 52 ≤ ic * 2 ^ 50 / vc := by
      rw [Nat.le_div_iff_mul_le hv1]
      calc 2 ^ 52 * vc = 4 * vc * 2 ^ 50 := by ring
        _ ≤ ic * 2 ^ 50 := Nat.mul_le_mul_right _ (by omega)
    have q2 : ic * 2 ^ 50 / vc ≤ 6 * 2 ^ 50 := by
      apply Nat.div_le_of_le_mul
      calc ic * 2 ^ 50 ≤ 6 * vc * 2 ^ 50 := Nat.mul_le_mul_right _ hhi
        _ = vc * (6 * 2 ^ 50) := by ring
    have m : 2 * roundHalfEven (ic * 2 ^ 50) vc * vc
        = 2 * (roundHalfEven (ic * 2 ^ 50) vc * vc) := by ring
    have m2 : ic * 2 ^ 51 = 2 * (ic * 2 ^ 50) := by ring
    refine ⟨by omega, by omega, by rw [m, m2]; omega, by rw [m, m2]; omega⟩

/-- The distance computed for a window candidate: a finite, non-negative
`float64` whose value is `|R - 2.5 * 2 ^ 51| * 2 ^ -51`. -/
theorem candidateDistance_facts (ic vc : Nat) (hv1 : 1 ≤ vc) (hv2 : vc ≤ 100)
    (hlo : 2 * vc ≤ ic) (hhi : ic ≤ 6 * vc) :
    isNaN binary64 (candidateDistance ic vc) = false ∧
    signOf binary64 (candidateDistance ic vc) = false ∧
    numer binary64 (candidateDistance ic vc) = significandGap ic vc * 2 ^ 1023 := by
  obtain ⟨d1, d2, d3, d4⟩ := div_ratio ic vc hv1 hv2 hlo (by omega)
  obtain ⟨r1, r2, -, -⟩ := ratioSignificand_bounds ic vc hv1 hlo hhi
  exact ratioDistance_facts _ _ d1 d2 d3 d4 r1 r2

/-- Comparing two candidate distances compares the significand gaps. -/
theorem lt_candidateDistance (ic vc ic' vc' : Nat) (hv1 : 1 ≤ vc) (hv2 : vc ≤ 100)
    (hlo : 2 * vc ≤ ic) (hhi : ic ≤ 6 * vc) (hv1' : 1 ≤ vc') (hv2' : vc' ≤ 100)
    (hlo' : 2 * vc' ≤ ic') (hhi' : ic' ≤ 6 * vc') :
    lt binary64 (candidateDistance ic vc) (candidateDistance ic' vc') = true
      ↔ significandGap ic vc < significandGap ic' vc' := by
  obtain ⟨a1, a2, a3⟩ := candidateDistance_facts ic vc hv1 hv2 hlo hhi
  obtain ⟨b1, b2, b3⟩ := candidateDistance_facts ic' vc' hv1' hv2' hlo' hhi'
  unfold lt signedNumer
  rw [a1, a2, a3, b1, b2, b3]
  simp only [Bool.not_false, Bool.and_self, Bool.true_and, Bool.false_eq_true, if_false,
    decide_eq_true_eq]
  rw [Nat.cast_lt]
  exact Nat.mul_lt_mul_right (Nat.two_pow_pos 1023)

end


/-! ## Float comparison against exact comparison -/

section
open IEEE

/-- The significand gap times `vc` is within `2 * vc` of `2 ^ 50 * |2 ic - 5 vc|`. -/
theorem significandGap_error (ic vc : Nat) (hv1 : 1 ≤ vc) (hlo : 2 * vc ≤ ic)
    (hhi : ic ≤ 6 * vc) :
    significandGap ic vc * vc ≤ 2 ^ 50 * gapNumer ic vc + 2 * vc ∧
    2 ^ 50 * gapNumer ic vc ≤ significandGap ic vc * vc + 2 * vc := by
  obtain ⟨-, -, e1, e2⟩ := ratioSignificand_bounds ic vc hv1 hlo hhi
  have hr : significandGap ic vc * vc
      = (ratioSignificand ic vc * vc - 5 * 2 ^ 50 * vc)
        + (5 * 2 ^ 50 * vc - ratioSignificand ic vc * vc) := by
    unfold significandGap
    rw [Nat.add_mul, Nat.sub_mul, Nat.sub_mul]
  rw [hr]
  unfold gapNumer
  generalize ratioSignificand ic vc * vc = u at e1 e2 ⊢
  omega

/-- A strictly smaller exact gap gives a strictly smaller computed distance. -/
theorem significandGap_lt (ic vc ic' vc' : Nat) (hv1 : 1 ≤ vc) (hv2 : vc ≤ 100)
    (hlo : 2 * vc ≤ ic) (hhi : ic ≤ 6 * vc) (hv1' : 1 ≤ vc') (hv2' : vc' ≤ 100)
    (hlo' : 2 * vc' ≤ ic') (hhi' : ic' ≤ 6 * vc')
    (h : gapNumer ic vc * vc' < gapNumer ic' vc' * vc) :
    significandGap ic vc < significandGap ic' vc' := by
  obtain ⟨a1, -⟩ := significandGap_error ic vc hv1 hlo hhi
  obtain ⟨-, b2⟩ := significandGap_error ic' vc' hv1' hlo' hhi'
  by_contra hcon
  have hle : significandGap ic' vc' ≤ significandGap ic vc := Nat.le_of_not_lt hcon
  have hP : vc * vc' ≤ 100 * 100 := Nat.mul_le_mul hv2 hv2'
  have h1 := Nat.mul_le_mul_right vc' a1
  have h2 := Nat.mul_le_mul_right vc b2
  have h3 := Nat.mul_le_mul_right (vc * vc') hle
  have h4 : gapNumer ic vc * vc' + 1 ≤ gapNumer ic' vc' * vc := h
  nlinarith [h1, h2, h3, h4, hP]

/-- Rounding to nearest-even is symmetric about an integer: two quotients that
add up to the even integer `2 * c` round to integers that add up to `2 * c`. -/
theorem roundHalfEven_symm (a b a' b' c : Nat) (hb : 0 < b) (hb' : 0 < b')
    (h : a * b' + a' * b = 2 * c * (b * b')) :
    roundHalfEven a b + roundHalfEven a' b' = 2 * c := by
  have ha := Nat.div_add_mod a b
  have ha' := Nat.div_add_mod a' b'
  have hr := Nat.mod_lt a hb
  have hr' := Nat.mod_lt a' hb'
  have hP : 0 < b * b' := Nat.mul_pos hb hb'
  have hX : a % b * b' < b * b' := Nat.mul_lt_mul_of_pos_right hr hb'
  have hY : a' % b' * b < b * b' := by
    rw [Nat.mul_comm b b']; exact Nat.mul_lt_mul_of_pos_right hr' hb
  have hsum : a % b * b' + a' % b' * b + (a / b + a' / b') * (b * b') = 2 * c * (b * b') := by
    rw [← h]
    conv_rhs => rw [← ha, ← ha']
    ring
  have c1 : b < 2 * (a % b) ↔ b * b' < 2 * (a % b * b') := by
    rw [← Nat.mul_assoc]; exact (Nat.mul_lt_mul_right hb').symm
  have c2 : 2 * (a % b) = b ↔ 2 * (a % b * b') = b * b' := by
    rw [← Nat.mul_assoc]; exact (Nat.mul_left_inj (Nat.pos_iff_ne_zero.mp hb')).symm
  have c1' : b' < 2 * (a' % b') ↔ b * b' < 2 * (a' % b' * b) := by
    rw [← Nat.mul_assoc, Nat.mul_comm b b']; exact (Nat.mul_lt_mul_right hb).symm
  have c2' : 2 * (a' % b') = b' ↔ 2 * (a' % b' * b) = b * b' := by
    rw [← Nat.mul_assoc, Nat.mul_comm b b']
    exact (Nat.mul_left_inj (Nat.pos_iff_ne_zero.mp hb)).symm
  unfold roundHalfEven
  simp only [c1, c2, c1', c2']
  generalize a % b * b' = X at hX hsum ⊢
  generalize a' % b' * b = Y at hY hsum ⊢
  generalize a / b = k at hsum ⊢
  generalize a' / b' = k' at hsum ⊢
  generalize b * b' = P at hP hX hY hsum ⊢
  have hk1 : k + k' ≤ 2 * c := by
    apply Nat.le_of_mul_le_mul_right _ hP
    omega
  have hk2 : 2 * c < k + k' + 2 := by
    apply Nat.lt_of_mul_lt_mul_right (a := P)
    have : (k + k' + 2) * P = (k + k') * P + 2 * P := by ring
    omega
  rcases (by omega : k + k' = 2 * c ∨ k + k' + 1 = 2 * c) with hk | hk
  · rw [← hk] at hsum
    have hX0 : X = 0 := by omega
    have hY0 : Y = 0 := by omega
    subst hX0; subst hY0
    have n1 : ¬ (P < 2 * 0 ∨ 2 * 0 = P ∧ k % 2 = 1) := by omega
    have n2 : ¬ (P < 2 * 0 ∨ 2 * 0 = P ∧ k' % 2 = 1) := by omega
    rw [if_neg n1, if_neg n2]
    exact hk
  · have hXY : X + Y = P := by
      have : (k + k' + 1) * P = (k + k') * P + P := by ring
      rw [← hk, this] at hsum
      omega
    split_ifs <;> omega

/-- What a window candidate means for the numbers involved. -/
theorem WindowCandidate_facts (L vc : Nat) (h : WindowCandidate L vc) :
    1 ≤ vc ∧ vc ≤ 100 ∧ 2 * indexCountFor L vc + 12 * vc = L ∧
    2 * vc ≤ indexCountFor L vc ∧ indexCountFor L vc ≤ 6 * vc := by
  unfold WindowCandidate indexCountFor at *
  omega

/-- Two candidates at the same exact distance from 2.5, the later one with the
smaller ratio, lie on opposite sides of 2.5. -/
theorem tie_opposite_sides (ic vc ic' vc' : Nat) (_hv' : 0 < vc') (hcross : ic * vc' < ic' * vc)
    (htie : gapNumer ic vc * vc' = gapNumer ic' vc' * vc) :
    ic * vc' + ic' * vc = 5 * (vc * vc') := by
  have hv : 0 < vc := by
    rcases Nat.eq_zero_or_pos vc with h | h
    · subst h; simp at hcross
    · exact h
  unfold gapNumer at htie
  rcases Nat.lt_or_ge (2 * ic) (5 * vc) with s | s
  · rcases Nat.lt_or_ge (2 * ic') (5 * vc') with s' | s'
    · have g : 2 * ic - 5 * vc + (5 * vc - 2 * ic) = 5 * vc - 2 * ic := by omega
      have g' : 2 * ic' - 5 * vc' + (5 * vc' - 2 * ic') = 5 * vc' - 2 * ic' := by omega
      rw [g, g'] at htie
      have e1 : (5 * vc - 2 * ic) + 2 * ic = 5 * vc := by omega
      have e2 : (5 * vc' - 2 * ic') + 2 * ic' = 5 * vc' := by omega
      generalize 5 * vc - 2 * ic = A at htie e1
      generalize 5 * vc' - 2 * ic' = A' at htie e2
      have m1 : (A + 2 * ic) * vc' = 5 * vc * vc' := by rw [e1]
      have m2 : (A' + 2 * ic') * vc = 5 * vc' * vc := by rw [e2]
      exfalso
      linarith
    · have g : 2 * ic - 5 * vc + (5 * vc - 2 * ic) = 5 * vc - 2 * ic := by omega
      have g' : 2 * ic' - 5 * vc' + (5 * vc' - 2 * ic') = 2 * ic' - 5 * vc' := by omega
      rw [g, g'] at htie
      have e1 : (5 * vc - 2 * ic) + 2 * ic = 5 * vc := by omega
      have e2 : (2 * ic' - 5 * vc') + 5 * vc' = 2 * ic' := by omega
      generalize 5 * vc - 2 * ic = A at htie e1
      generalize 2 * ic' - 5 * vc' = A' at htie e2
      have m1 : (A + 2 * ic) * vc' = 5 * vc * vc' := by rw [e1]
      have m2 : (A' + 5 * vc') * vc = 2 * ic' * vc := by rw [e2]
      linarith
  · rcases Nat.lt_or_ge (2 * ic') (5 * vc') with s' | s'
    · have m1 : 5 * vc * vc' ≤ 2 * ic * vc' := Nat.mul_le_mul_right vc' s
      have m2 : 2 * ic' * vc < 5 * vc' * vc := Nat.mul_lt_mul_of_pos_right s' hv
      exfalso
      linarith
    · have g : 2 * ic - 5 * vc + (5 * vc - 2 * ic) = 2 * ic - 5 * vc := by omega
      have g' : 2 * ic' - 5 * vc' + (5 * vc' - 2 * ic') = 2 * ic' - 5 * vc' := by omega
      rw [g, g'] at htie
      have e1 : (2 * ic - 5 * vc) + 5 * vc = 2 * ic := by omega
      have e2 : (2 * ic' - 5 * vc') + 5 * vc' = 2 * ic' := by omega
      generalize 2 * ic - 5 * vc = A at htie e1
      generalize 2 * ic' - 5 * vc' = A' at htie e2
      have m1 : (A + 5 * vc) * vc' = 2 * ic * vc' := by rw [e1]
      have m2 : (A' + 5 * vc') * vc = 2 * ic' * vc := by rw [e2]
      exfalso
      linarith

/-- Two window candidates of one buffer length at the same exact distance from
2.5 have equal computed distances. -/
theorem significandGap_tie (L vc vc' : Nat) (hw : WindowCandidate L vc)
    (hw' : WindowCandidate L vc') (hlt : vc' < vc)
    (htie : gapNumer (indexCountFor L vc) vc * vc'
      = gapNumer (indexCountFor L vc') vc' * vc) :
    significandGap (indexCountFor L vc) vc = significandGap (indexCountFor L vc') vc' := by
  obtain ⟨hv1, hv2, hL, hlo, hhi⟩ := WindowCandidate_facts L vc hw
  obtain ⟨hv1', hv2', hL', hlo', hhi'⟩ := WindowCandidate_facts L vc' hw'
  generalize indexCountFor L vc = ic at *
  generalize indexCountFor L vc' = ic' at *
  have hcross : ic * vc' < ic' * vc := by
    have h1 : ic * vc' < ic * vc := Nat.mul_lt_mul_of_pos_left hlt (by omega)
    have h2 : ic * vc ≤ ic' * vc := Nat.mul_le_mul_right _ (by omega)
    omega
  have key := tie_opposite_sides ic vc ic' vc' (by omega) hcross htie
  have hi4 : ic < 4 * vc := by
    have h1 : 2 * vc' * vc ≤ ic' * vc := Nat.mul_le_mul_right vc hlo'
    have h2 : ic * vc' ≤ 3 * vc * vc' := by linarith
    have := Nat.le_of_mul_le_mul_right h2 (by omega : 0 < vc')
    omega
  have hi4' : ic' < 4 * vc' := by
    have h1 : 2 * vc * vc' ≤ ic * vc' := Nat.mul_le_mul_right vc' hlo
    have h2 : ic' * vc ≤ 3 * vc' * vc := by linarith
    have := Nat.le_of_mul_le_mul_right h2 (by omega : 0 < vc)
    omega
  have hsym : ic * 2 ^ 51 * vc' + ic' * 2 ^ 51 * vc = 2 * (5 * 2 ^ 50) * (vc * vc') := by
    linarith
  have hs := roundHalfEven_symm (ic * 2 ^ 51) vc (ic' * 2 ^ 51) vc' (5 * 2 ^ 50)
    (by omega) (by omega) hsym
  unfold significandGap ratioSignificand
  rw [if_pos hi4, if_pos hi4']
  omega

theorem gapNumer_cast (ic vc : Nat) :
    ((gapNumer ic vc : Nat) : ℚ) = |2 * (ic : ℚ) - 5 * (vc : ℚ)| := by
  unfold gapNumer
  rcases Nat.lt_or_ge (2 * ic) (5 * vc) with s | s
  · have g : 2 * ic - 5 * vc + (5 * vc - 2 * ic) = 5 * vc - 2 * ic := by omega
    have hq : (2 * (ic : ℚ)) ≤ 5 * (vc : ℚ) := by exact_mod_cast s.le
    rw [g, Nat.cast_sub s.le, abs_of_nonpos (by linarith)]
    push_cast
    ring
  · have g : 2 * ic - 5 * vc + (5 * vc - 2 * ic) = 2 * ic - 5 * vc := by omega
    have hq : 5 * (vc : ℚ) ≤ 2 * (ic : ℚ) := by exact_mod_cast s
    rw [g, Nat.cast_sub s, abs_of_nonneg (by linarith)]
    push_cast
    ring

theorem ratioGap_eq (L vc : Nat) (hv : 0 < vc) :
    ratioGap L vc = ((gapNumer (indexCountFor L vc) vc : Nat) : ℚ) / (2 * (vc : ℚ)) := by
  have hq : (0 : ℚ) < 2 * (vc : ℚ) := by
    have : (0 : ℚ) < (vc : ℚ) := by exact_mod_cast hv
    linarith
  unfold ratioGap
  rw [gapNumer_cast]
  conv_rhs => rw [← abs_of_pos hq, ← abs_div]
  congr 1
  field_simp
  ring

theorem ratioGap_lt_iff (L vc vc' : Nat) (hv : 0 < vc) (hv' : 0 < vc') :
    ratioGap L vc < ratioGap L vc'
      ↔ gapNumer (indexCountFor L vc) vc * vc' < gapNumer (indexCountFor L vc') vc' * vc := by
  have hq : (0 : ℚ) < 2 * (vc : ℚ) := by
    have : (0 : ℚ) < (vc : ℚ) := by exact_mod_cast hv
    linarith
  have hq' : (0 : ℚ) < 2 * (vc' : ℚ) := by
    have : (0 : ℚ) < (vc' : ℚ) := by exact_mod_cast hv'
    linarith
  rw [ratioGap_eq L vc hv, ratioGap_eq L vc' hv', div_lt_div_iff₀ hq hq']
  constructor
  · intro h
    have h2 : ((gapNumer (indexCountFor L vc) vc * vc' : Nat) : ℚ)
        < ((gapNumer (indexCountFor L vc') vc' * vc : Nat) : ℚ) := by
      push_cast
      linarith
    exact_mod_cast h2
  · intro h
    have h2 : ((gapNumer (indexCountFor L vc) vc * vc' : Nat) : ℚ)
        < ((gapNumer (indexCountFor L vc') vc' * vc : Nat) : ℚ) := by exact_mod_cast h
    push_cast at h2
    linarith

/-- The comparison `ratioDiff < currentBestDiff` of the first loop agrees with
the exact comparison of the distances from 2.5, for a candidate and an earlier
candidate of the same buffer length. -/
theorem lt_candidateDistance_iff (L vc vc' : Nat) (hw : WindowCandidate L vc)
    (hw' : WindowCandidate L vc') (hlt : vc' < vc) :
    lt binary64 (candidateDistance (indexCountFor L vc) vc)
        (candidateDistance (indexCountFor L vc') vc') = true
      ↔ ratioGap L vc < ratioGap L vc' := by
  obtain ⟨hv1, hv2, hL, hlo, hhi⟩ := WindowCandidate_facts L vc hw
  obtain ⟨hv1', hv2', hL', hlo', hhi'⟩ := WindowCandidate_facts L vc' hw'
  rw [lt_candidateDistance _ _ _ _ hv1 hv2 hlo hhi hv1' hv2' hlo' hhi',
    ratioGap_lt_iff L vc vc' hv1 hv1']
  constructor
  · intro h
    by_contra hcon
    rcases Nat.lt_or_eq_of_le (Nat.le_of_not_lt hcon) with h2 | h2
    · have := significandGap_lt _ _ _ _ hv1' hv2' hlo' hhi' hv1 hv2 hlo hhi h2
      omega
    · have := significandGap_tie L vc vc' hw hw' hlt h2.symm
      omega
  · exact significandGap_lt _ _ _ _ hv1 hv2 hlo hhi hv1' hv2' hlo' hhi'

end


/-! ## Layout recovery: the window loop -/

section
open IEEE

theorem layoutWindowBody_take (L vc : Nat) (s : LayoutState) (hw : WindowCandidate L vc) :
    layoutWindowBody L vc s =
      if s.bestVC = 0 ∨ lt binary64 (candidateDistance (indexCountFor L vc) vc)
          (ratioDistance s.bestRatio (f64 25 10)) = true then
        { bestVC := vc, bestIC := indexCountFor L vc, bestVB := 12 * vc, bestIO := 12 * vc,
          bestRatio := div binary64 (ofInt binary64 (indexCountFor L vc)) (ofInt binary64 vc) }
      else s := by
  have hw' := hw
  unfold WindowCandidate indexCountFor at hw'
  unfold layoutWindowBody candidateDistance indexCountFor
  simp only [align4_length_mul]
  rw [if_pos ⟨hw'.2.2.2.1, by omega⟩, if_pos ⟨by omega, by omega⟩]
  have e : vc * 3 * 4 = 12 * vc := by omega
  rw [e]

theorem layoutWindowBody_inv (L vc : Nat) (s : LayoutState) (h1 : 1 ≤ vc) (h2 : vc ≤ 100)
    (hlt : 12 * vc < L) (hinv : WindowInv L vc s) : WindowInv L (vc + 1) (layoutWindowBody L vc s) := by
  by_cases hw : WindowCandidate L vc
  · rw [layoutWindowBody_take L vc s hw]
    rcases hinv with h | h
    · rw [if_pos (Or.inl h.1)]
      right
      refine ⟨by simp, hw, rfl, rfl, rfl, rfl, ?_⟩
      intro v hv1 hv2 hcv
      by_cases e : v = vc
      · subst e; right; exact ⟨rfl, Nat.le_refl _⟩
      · exact absurd hcv (h.2 v hv1 (by omega))
    · obtain ⟨hb, hbc, hic, hvb, hio, hratio, hmin⟩ := h
      have hne : ¬ s.bestVC = 0 := by
        have := hbc.1
        omega
      have hcur : ratioDistance s.bestRatio (f64 25 10)
          = candidateDistance (indexCountFor L s.bestVC) s.bestVC := by
        rw [hratio, hic]; rfl
      rw [hcur]
      have hiff := lt_candidateDistance_iff L vc s.bestVC hw hbc hb
      by_cases hlt : ratioGap L vc < ratioGap L s.bestVC
      · rw [if_pos (Or.inr (hiff.mpr hlt))]
        right
        refine ⟨by simp, hw, rfl, rfl, rfl, rfl, ?_⟩
        intro v hv1 hv2 hcv
        by_cases e : v = vc
        · subst e; right; exact ⟨rfl, Nat.le_refl _⟩
        · left
          rcases hmin v hv1 (by omega) hcv with m | m
          · exact lt_trans hlt m
          · exact lt_of_lt_of_eq hlt m.1
      · have hno : ¬ (s.bestVC = 0 ∨ lt binary64 (candidateDistance (indexCountFor L vc) vc)
            (candidateDistance (indexCountFor L s.bestVC) s.bestVC) = true) := by
          intro hor
          rcases hor with hor | hor
          · exact hne hor
          · exact hlt (hiff.mp hor)
        rw [if_neg hno]
        right
        refine ⟨by omega, hbc, hic, hvb, hio, hratio, ?_⟩
        intro v hv1 hv2 hcv
        by_cases e : v = vc
        · subst e
          rcases lt_or_eq_of_le (not_lt.mp hlt) with m | m
          · left; exact m
          · right; exact ⟨m, by omega⟩
        · exact hmin v hv1 (by omega) hcv
  · have hskip : layoutWindowBody L vc s = s := by
      apply layoutWindowBody_skip
      intro hc
      apply hw
      exact ⟨h1, h2, hlt, hc.1, hc.2.2.1, hc.2.2.2⟩
    rw [hskip]
    rcases hinv with h | h
    · left
      refine ⟨h.1, ?_⟩
      intro v hv1 hv2
      by_cases e : v = vc
      · subst e; exact hw
      · exact h.2 v hv1 (by omega)
    · obtain ⟨hb, hbc, hic, hvb, hio, hratio, hmin⟩ := h
      right
      refine ⟨by omega, hbc, hic, hvb, hio, hratio, ?_⟩
      intro v hv1 hv2 hcv
      by_cases e : v = vc
      · subst e; exact absurd hcv hw
      · exact hmin v hv1 (by omega) hcv

theorem layoutWindowLoop_inv (L : Nat) :
    ∀ (k vc : Nat) (s : LayoutState), 1 ≤ vc → vc + k ≤ 101 → WindowInv L vc s →
      WindowInv L (vc + k) (layoutWindowLoop L k vc s) := by
  intro k
  induction k with
  | zero => intro vc s _ _ h; exact h
  | succ k ih =>
    intro vc s h1 h2 hinv
    rw [layoutWindowLoop]
    split
    · rename_i hge
      rw [align4_length_mul] at hge
      have hnone : ∀ v, vc ≤ v → ¬ WindowCandidate L v := by
        intro v hv hcv
        unfold WindowCandidate at hcv
        omega
      rcases hinv with h | h
      · left
        refine ⟨h.1, ?_⟩
        intro v hv1 _
        by_cases e : v < vc
        · exact h.2 v hv1 e
        · exact hnone v (by omega)
      · obtain ⟨hb, hbc, hic, hvb, hio, hratio, hmin⟩ := h
        right
        refine ⟨by omega, hbc, hic, hvb, hio, hratio, ?_⟩
        intro v hv1 _ hcv
        by_cases e : v < vc
        · exact hmin v hv1 e hcv
        · exact absurd hcv (hnone v (by omega))
    · rename_i hlt
      rw [align4_length_mul] at hlt
      have := ih (vc + 1) (layoutWindowBody L vc s) (by omega) (by omega)
        (layoutWindowBody_inv L vc s h1 (by omega) (by omega) hinv)
      have e : vc + (k + 1) = vc + 1 + k := by omega
      rw [e]
      exact this

/-- C6. Whenever some vertex count in 1..100 is a window candidate for the
buffer length, `calculateBufferLayout` returns a window candidate
`(vc, ic, 12*vc, 12*vc)` with `ic = (L - 12*vc)/2`; its exact ratio `ic/vc` is at
least as near to 2.5 as that of every window candidate, and among equally near
candidates it is the one with the smallest `vc`. -/
theorem calculateBufferLayout_window (bufferData : List Nat)
    (h : ∃ v, WindowCandidate bufferData.length v) :
    WindowCandidate bufferData.length (calculateBufferLayout bufferData).1 ∧
    calculateBufferLayout bufferData =
      ((calculateBufferLayout bufferData).1,
       indexCountFor bufferData.length (calculateBufferLayout bufferData).1,
       12 * (calculateBufferLayout bufferData).1,
       12 * (calculateBufferLayout bufferData).1) ∧
    ∀ v, WindowCandidate bufferData.length v →
      ratioGap bufferData.length (calculateBufferLayout bufferData).1
          ≤ ratioGap bufferData.length v ∧
      (ratioGap bufferData.length (calculateBufferLayout bufferData).1
          = ratioGap bufferData.length v →
        (calculateBufferLayout bufferData).1 ≤ v) := by
  obtain ⟨v0, hv0⟩ := h
  have hinv := layoutWindowLoop_inv bufferData.length 100 1 ⟨0, 0, 0, 0, f64 0 1⟩
    (by omega) (by omega) (Or.inl ⟨rfl, fun v h1 h2 => by omega⟩)
  rcases hinv with hl | hr
  · exact absurd hv0 (hl.2 v0 hv0.1 (by have := hv0.2.1; omega))
  · obtain ⟨hb, hbc, hic, hvb, hio, hratio, hmin⟩ := hr
    have hne : ¬ (layoutWindowLoop bufferData.length 100 1 ⟨0, 0, 0, 0, f64 0 1⟩).bestVC = 0 := by
      have := hbc.1
      omega
    have hres : calculateBufferLayout bufferData =
        ((layoutWindowLoop bufferData.length 100 1 ⟨0, 0, 0, 0, f64 0 1⟩).bestVC,
         (layoutWindowLoop bufferData.length 100 1 ⟨0, 0, 0, 0, f64 0 1⟩).bestIC,
         (layoutWindowLoop bufferData.length 100 1 ⟨0, 0, 0, 0, f64 0 1⟩).bestVB,
         LayoutState.bestIO (layoutWindowLoop bufferData.length 100 1 ⟨0, 0, 0, 0, f64 0 1⟩)) := by
      unfold calculateBufferLayout
      simp only
      rw [if_neg hne]
    rw [hres]
    refine ⟨hbc, ?_, ?_⟩
    · simp only [hic, hvb, hio]
    · intro v hcv
      rcases hmin v hcv.1 (by have := hcv.2.1; omega) hcv with m | m
      · exact ⟨le_of_lt m, fun e => absurd e (ne_of_lt m)⟩
      · exact ⟨le_of_eq m.1, fun _ => m.2⟩

theorem calculateBufferLayout_window_witness :
    (∃ v, WindowCandidate (List.replicate 144 0).length v) ∧
    WindowCandidate (List.replicate 144 0).length
      (calculateBufferLayout (List.replicate 144 0)).1 ∧
    (∀ v, WindowCandidate (List.replicate 144 0).length v →
      ratioGap (List.replicate 144 0).length (calculateBufferLayout (List.replicate 144 0)).1
          ≤ ratioGap (List.replicate 144 0).length v ∧
      (ratioGap (List.replicate 144 0).length (calculateBufferLayout (List.replicate 144 0)).1
          = ratioGap (List.replicate 144 0).length v →
        (calculateBufferLayout (List.replicate 144 0)).1 ≤ v)) :=
  ⟨⟨8, by rw [List.length_replicate]; decide⟩,
   (calculateBufferLayout_window (List.replicate 144 0) ⟨8, by rw [List.length_replicate]; decide⟩).1,
   (calculateBufferLayout_window (List.replicate 144 0) ⟨8, by rw [List.length_replicate]; decide⟩).2.2⟩

end


/-! ## The class and text-quad buffers -/

section
open IEEE

theorem GenerateClassWireframe_buffer (cls : extuml.Class) (position : Vec3) :
    (GenerateClassWireframe cls position).2.2 = classBuffer := rfl

theorem GenerateTextQuad_buffer (text : String) (position : Vec3) :
    (GenerateTextQuad text position).2 = textQuadBuffer := rfl

theorem classBuffer_eq :
    classBuffer = createBufferData
      (boxCornerVertices (ofRat binary32 125 100) (ofRat binary32 125 100)
        (ofRat binary32 125 100)) boxEdgeIndices := by decide!

theorem classBuffer_words :
    (List.range 24).map (floatAt classBuffer)
      = boxCornerVertices (ofRat binary32 125 100) (ofRat binary32 125 100)
          (ofRat binary32 125 100) := by decide!

theorem textQuadBuffer_length : textQuadBuffer.length = 92 := by decide!

theorem textQuadBuffer_words :
    (List.range 20).map (floatAt textQuadBuffer)
      = [neg binary32 (ofRat binary32 12 10), neg binary32 (ofRat binary32 12 10),
           ofRat binary32 0 1, ofRat binary32 0 1, ofRat binary32 1 1,
         ofRat binary32 12 10, neg binary32 (ofRat binary32 12 10),
           ofRat binary32 0 1, ofRat binary32 1 1, ofRat binary32 1 1,
         ofRat binary32 12 10, ofRat binary32 12 10,
           ofRat binary32 0 1, ofRat binary32 1 1, ofRat binary32 0 1,
         neg binary32 (ofRat binary32 12 10), ofRat binary32 12 10,
           ofRat binary32 0 1, ofRat binary32 0 1, ofRat binary32 0 1] := by decide!

theorem textQuadBuffer_indices :
    (List.range 6).map (fun j => getUint16 textQuadBuffer (80 + j * 2)) = [0, 1, 2, 0, 2, 3] := by
  decide!

theorem textQuadBuffer_winding :
    0 < signedArea2 textQuadBuffer 0 1 2 ∧ 0 < signedArea2 textQuadBuffer 0 2 3 := by decide!

end


/-! ## Class geometry, text quad and accessor layout -/

section
open IEEE

/-- C14. Class geometry does not depend on the class: for any two classes and
any two positions `GenerateClassWireframe` returns the same bytes, the packing
of the 24 box edge indices after the eight corners `(±1.25, ±1.25, ±1.25)` of the
box of size 2.5 (1.25 and 2.5 are exact in `float32`). -/
theorem GenerateClassWireframe_independent (c1 c2 : extuml.Class) (p1 p2 : Vec3) :
    (GenerateClassWireframe c1 p1).2.2 = (GenerateClassWireframe c2 p2).2.2 ∧
    (GenerateClassWireframe c1 p1).2.2
      = createBufferData
          (createSimpleWireframeBox (ofRat binary32 25 10) (ofRat binary32 25 10)
            (ofRat binary32 25 10)).1
          (createSimpleWireframeBox (ofRat binary32 25 10) (ofRat binary32 25 10)
            (ofRat binary32 25 10)).2 ∧
    (GenerateClassWireframe c1 p1).2.2
      = createBufferData
          (boxCornerVertices (ofRat binary32 125 100) (ofRat binary32 125 100)
            (ofRat binary32 125 100)) boxEdgeIndices ∧
    (List.range 24).map (floatAt (GenerateClassWireframe c1 p1).2.2)
      = boxCornerVertices (ofRat binary32 125 100) (ofRat binary32 125 100)
          (ofRat binary32 125 100) ∧
    4 * signedNumer binary32 (ofRat binary32 125 100) = 5 * 2 ^ 149 ∧
    10 * signedNumer binary32 (ofRat binary32 25 10) = 25 * 2 ^ 149 := by
  rw [GenerateClassWireframe_buffer, GenerateClassWireframe_buffer]
  refine ⟨rfl, ?_, classBuffer_eq, classBuffer_words, ?_, ?_⟩
  · decide!
  · decide!
  · decide!

/-- C15. For every text and position `GenerateTextQuad` packs 92 bytes: four
interleaved vertices of five floats, in the order (-1.2, -1.2, 0 | 0, 1),
(1.2, -1.2, 0 | 1, 1), (1.2, 1.2, 0 | 1, 0), (-1.2, 1.2, 0 | 0, 0), then the six
indices 0, 1, 2, 0, 2, 3; every vertex has z = 0, and the triangles (0, 1, 2) and
(0, 2, 3) have positive signed area in the XY plane, that is they are
counter-clockwise seen from +Z. -/
theorem GenerateTextQuad_layout (text : String) (position : Vec3) :
    (GenerateTextQuad text position).2.length = 4 * (5 * 4) + 6 * 2 ∧
    (List.range 20).map (floatAt (GenerateTextQuad text position).2)
      = [neg binary32 (ofRat binary32 12 10), neg binary32 (ofRat binary32 12 10),
           ofRat binary32 0 1, ofRat binary32 0 1, ofRat binary32 1 1,
         ofRat binary32 12 10, neg binary32 (ofRat binary32 12 10),
           ofRat binary32 0 1, ofRat binary32 1 1, ofRat binary32 1 1,
         ofRat binary32 12 10, ofRat binary32 12 10,
           ofRat binary32 0 1, ofRat binary32 1 1, ofRat binary32 0 1,
         neg binary32 (ofRat binary32 12 10), ofRat binary32 12 10,
           ofRat binary32 0 1, ofRat binary32 0 1, ofRat binary32 0 1] ∧
    (List.range 6).map (fun j => getUint16 (GenerateTextQuad text position).2 (80 + j * 2))
      = [0, 1, 2, 0, 2, 3] ∧
    (∀ j, j < 4 → floatAt (GenerateTextQuad text position).2 (5 * j + 2) = 0) ∧
    0 < signedArea2 (GenerateTextQuad text position).2 0 1 2 ∧
    0 < signedArea2 (GenerateTextQuad text position).2 0 2 3 := by
  rw [GenerateTextQuad_buffer]
  refine ⟨textQuadBuffer_length, textQuadBuffer_words, textQuadBuffer_indices, ?_,
    textQuadBuffer_winding.1, textQuadBuffer_winding.2⟩
  have hz : ∀ j, j < 4 → floatAt textQuadBuffer (5 * j + 2) = 0 := by decide!
  exact hz

/-- C16. The tables that `addTextLabel` appends describe the buffer that
`GenerateTextQuad` packs: a vertex buffer view at offset 0 of 80 bytes with
stride 20, an index buffer view at offset 80 of 12 bytes, a `VEC3` position
accessor (count 4, offset 0) and a `VEC2` UV accessor (count 4, offset 12) on the
vertex view, a `SCALAR` index accessor of count 6 on the index view, all on the
appended buffer, whose length is `80 + 12`, the length of the packed data. -/
theorem addTextLabel_buffer_layout (text : String) (position : Vec3) (billboard : Bool)
    (url : String) (asset : gltf.GLTFAsset) :
    (addTextLabel text position billboard url asset).1.BufferViews = asset.BufferViews ++
      [({ Buffer := asset.Buffers.length, ByteOffset := 0, ByteLength := 80,
          ByteStride := some 20, Target := some 34962 } : gltf.BufferView),
       ({ Buffer := asset.Buffers.length, ByteOffset := 80, ByteLength := 12,
          ByteStride := none, Target := some 34963 } : gltf.BufferView)] ∧
    (addTextLabel text position billboard url asset).1.Accessors = asset.Accessors ++
      [({ BufferView := some asset.BufferViews.length, ByteOffset := 0,
          ComponentType := 5126, Count := 4, Type_ := "VEC3",
          Max := [f64 12 10, f64 12 10, f64 0 1],
          Min := [neg binary64 (f64 12 10), neg binary64 (f64 12 10), f64 0 1] } :
          gltf.Accessor),
       ({ BufferView := some asset.BufferViews.length, ByteOffset := 12,
          ComponentType := 5126, Count := 4, Type_ := "VEC2", Max := [], Min := [] } :
          gltf.Accessor),
       ({ BufferView := some (asset.BufferViews.length + 1), ByteOffset := 0,
          ComponentType := 5123, Count := 6, Type_ := "SCALAR", Max := [], Min := [] } :
          gltf.Accessor)] ∧
    (addTextLabel text position billboard url asset).1.Buffers = asset.Buffers ++
      [({ ByteLength := 80 + 12,
          URI := CreateTextBufferURI (GenerateTextQuad text position).2 } : gltf.Buffer)] ∧
    (GenerateTextQuad text position).2.length = 80 + 12 := by
  refine ⟨addTextLabel_BufferViews _ _ _ _ _, addTextLabel_Accessors _ _ _ _ _, ?_, ?_⟩
  · rw [addTextLabel_Buffers, GenerateTextQuad_buffer, textQuadBuffer_length]
  · rw [GenerateTextQuad_buffer, textQuadBuffer_length]

theorem classBuffer_extents :
    positionMin classBuffer 8
      = [neg binary64 (f64 125 100), neg binary64 (f64 125 100), neg binary64 (f64 125 100)] ∧
    positionMax classBuffer 8 = [f64 125 100, f64 125 100, f64 125 100] := by
  constructor
  · decide!
  · decide!

/-- C18. The position accessor that `addClassToScene` appends for a class has
count 8, `min = (-1.25, -1.25, -1.25)` and `max = (1.25, 1.25, 1.25)`, and these are
the component-wise minimum and maximum of the 8 vertex positions packed into the
class buffer. -/
theorem addClassToScene_accessor_bounds (cls : extuml.Class) (position : Vec3)
    (asset : gltf.GLTFAsset) (nodeIndex : Nat) :
    ∃ acc : gltf.Accessor,
      (addClassToScene cls position asset nodeIndex).1.Accessors[asset.Accessors.length]?
        = some acc ∧
      acc.Type_ = "VEC3" ∧ acc.Count = 8 ∧
      acc.Min = [neg binary64 (f64 125 100), neg binary64 (f64 125 100),
        neg binary64 (f64 125 100)] ∧
      acc.Max = [f64 125 100, f64 125 100, f64 125 100] ∧
      4 * signedNumer binary64 (f64 125 100) = 5 * 2 ^ 1074 ∧
      positionMin (GenerateClassWireframe cls position).2.2 acc.Count = acc.Min ∧
      positionMax (GenerateClassWireframe cls position).2.2 acc.Count = acc.Max := by
  have hcount : (calculateBufferLayout (GenerateClassWireframe cls position).2.2).1 = 8 := by
    have := calculateBufferLayout_congr _ 144 (GenerateClassWireframe_length cls position)
    rw [this, calculateBufferLayout_144]
  have h4 : 4 * signedNumer binary64 (f64 125 100) = 5 * 2 ^ 1074 := by decide!
  refine ⟨⟨some asset.BufferViews.length, 0, 5126, 8, "VEC3",
      [f64 125 100, f64 125 100, f64 125 100],
      [neg binary64 (f64 125 100), neg binary64 (f64 125 100), neg binary64 (f64 125 100)]⟩,
    ?_, rfl, rfl, rfl, rfl, h4, ?_, ?_⟩
  · rw [addClassToScene_Accessors, List.getElem?_append_right (Nat.le_refl _), hcount]
    simp only [Nat.sub_self, List.getElem?_cons_zero]
  · rw [GenerateClassWireframe_buffer]
    exact classBuffer_extents.1
  · rw [GenerateClassWireframe_buffer]
    exact classBuffer_extents.2

end


/-! ## Shape of the compartmented wireframe box -/

section
open IEEE

theorem flatMap_range_succ {α : Type} (g : Nat → List α) (k : Nat) :
    (List.range (k + 1)).flatMap g = g 0 ++ (List.range k).flatMap (fun j => g (j + 1)) := by
  rw [List.range_succ_eq_map]
  simp [List.flatMap_map, Function.comp_def]

theorem dividerIndicesLoop_eq :
    ∀ (k i : Nat) (acc : List Nat), i + k ≤ 16382 →
      dividerIndicesLoop k i acc
        = acc ++ (List.range k).flatMap (fun j => dividerRing (8 + 4 * (i + j))) := by
  intro k
  induction k with
  | zero => intro i acc _; simp [dividerIndicesLoop]
  | succ k ih =>
    intro i acc h
    rw [dividerIndicesLoop, ih (i + 1) _ (by omega), flatMap_range_succ]
    have e0 : (8 + i * 4 % 65536) % 65536 = 8 + 4 * i := by omega
    have e1 : (8 + 4 * i + 1) % 65536 = 8 + 4 * i + 1 := by omega
    have e2 : (8 + 4 * i + 2) % 65536 = 8 + 4 * i + 2 := by omega
    have e3 : (8 + 4 * i + 3) % 65536 = 8 + 4 * i + 3 := by omega
    simp only [e0, e1, e2, e3, dividerRing, Nat.add_zero, List.append_assoc]
    congr 2
    apply List.flatMap_congr
    intro j _
    have : i + 1 + j = i + (j + 1) := by omega
    rw [this]

theorem dividerVerticesLoop_eq (w d : float32) :
    ∀ (hs : List float32) (y : float32) (acc : List float32),
      dividerVerticesLoop w d hs y acc
        = acc ++ (List.range hs.length).flatMap
            (fun i => dividerQuad w d ((hs.take (i + 1)).foldl (sub binary32) y)) := by
  intro hs
  induction hs with
  | nil => intro y acc; simp [dividerVerticesLoop]
  | cons x hs ih =>
    intro y acc
    rw [dividerVerticesLoop, ih, List.length_cons, flatMap_range_succ]
    simp [dividerQuad]

theorem take_drop_flatMap_range {α : Type} (g : Nat → List α) (n : Nat)
    (hg : ∀ j, (g j).length = n) :
    ∀ (k i : Nat), i < k →
      (((List.range k).flatMap g).drop (n * i)).take n = g i := by
  intro k
  induction k with
  | zero => intro i h; omega
  | succ k ih =>
    intro i h
    rw [List.range_succ, List.flatMap_append]
    have hlen : ((List.range k).flatMap g).length = n * k := by
      clear ih h
      induction k with
      | zero => simp
      | succ k ih2 =>
        rw [List.range_succ, List.flatMap_append, List.length_append, ih2]
        simp [hg, Nat.mul_succ]
    by_cases hik : i < k
    · have hle : n * i + n ≤ ((List.range k).flatMap g).length := by
        rw [hlen]
        calc n * i + n = n * (i + 1) := by rw [Nat.mul_succ]
          _ ≤ n * k := Nat.mul_le_mul_left _ hik
      rw [List.drop_append_of_le_length (by omega), List.take_append_of_le_length
        (by rw [List.length_drop]; omega)]
      exact ih i hik
    · have hi : i = k := by omega
      subst hi
      rw [← hlen, List.drop_left]
      simp only [List.flatMap_cons, List.flatMap_nil, List.append_nil]
      rw [← hg i, List.take_length]

theorem createWireframeBox_eq (width height depth : float32) (compartments : Nat)
    (dividerHeights : List float32) (hk : dividerHeights.length ≤ 16382) :
    createWireframeBox width height depth compartments dividerHeights
      = ((createSimpleWireframeBox width height depth).1 ++
          (List.range dividerHeights.length).flatMap (fun i =>
            dividerQuad (div binary32 width (ofRat binary32 2 1))
              (div binary32 depth (ofRat binary32 2 1))
              ((dividerHeights.take (i + 1)).foldl (sub binary32)
                (div binary32 height (ofRat binary32 2 1)))),
         (createSimpleWireframeBox width height depth).2 ++
          (List.range dividerHeights.length).flatMap (fun i => dividerRing (8 + 4 * i))) := by
  unfold createWireframeBox createSimpleWireframeBox
  simp only [dividerVerticesLoop_eq, dividerIndicesLoop_eq _ 0 _ (by omega : 0 + dividerHeights.length ≤ 16382),
    List.nil_append, Nat.zero_add]

theorem GenerateInterfaceWireframe_counts (iface : extuml.Interface) (position : Vec3) :
    ∃ (v : List float32) (i : List Nat),
      (GenerateInterfaceWireframe iface position).2.2 = createBufferData v i ∧
      v.length = 3 * 12 ∧ i.length = 32 := by
  unfold GenerateInterfaceWireframe
  simp only
  exact ⟨_, _, rfl, (createWireframeBox_length _ _ _ 2 [_]).1,
    (createWireframeBox_length _ _ _ 2 [_]).2⟩

theorem GenerateEnumWireframe_counts (enum : extuml.Enum) (position : Vec3) :
    ∃ (v : List float32) (i : List Nat),
      (GenerateEnumWireframe enum position).2.2 = createBufferData v i ∧
      v.length = 3 * 12 ∧ i.length = 32 := by
  unfold GenerateEnumWireframe
  simp only
  exact ⟨_, _, rfl, (createWireframeBox_length _ _ _ 2 [_]).1,
    (createWireframeBox_length _ _ _ 2 [_]).2⟩

/-- C12. For `k ≤ 16382` divider heights `createWireframeBox` returns `8 + 4k`
vertices of three floats and `24 + 8k` indices. The first 24 floats and the first
24 indices are the corners and the 12 edges that `createSimpleWireframeBox`
returns. Divider `i` owns the vertices `8+4i .. 8+4i+3` (its four corners at the
running height), and the eight indices after the first `24 + 8i` are the closed
ring `(b, b+1, b+1, b+2, b+2, b+3, b+3, b)` over them, `b = 8 + 4i`. The buffer
of every interface and of every enum is the packing of the vertices and indices
that `createWireframeBox` returns for the box sizes of the element and the one
header divider, and these are 12 vertices and 32 indices. -/
theorem createWireframeBox_shape (width height depth : float32) (compartments : Nat)
    (dividerHeights : List float32) (hk : dividerHeights.length ≤ 16382) :
    (createWireframeBox width height depth compartments dividerHeights).1.length
      = 3 * (8 + 4 * dividerHeights.length) ∧
    (createWireframeBox width height depth compartments dividerHeights).2.length
      = 24 + 8 * dividerHeights.length ∧
    (createWireframeBox width height depth compartments dividerHeights).1.take (3 * 8)
      = (createSimpleWireframeBox width height depth).1 ∧
    (createWireframeBox width height depth compartments dividerHeights).2.take 24
      = (createSimpleWireframeBox width height depth).2 ∧
    (createSimpleWireframeBox width height depth).2
      = [0, 1, 1, 2, 2, 3, 3, 0, 4, 5, 5, 6, 6, 7, 7, 4, 0, 4, 1, 5, 2, 6, 3, 7] ∧
    (∀ (iface : extuml.Interface) (position : Vec3),
      ∃ box : List float32 × List Nat,
        box = createWireframeBox (toFloat32 (f64 2 1))
          (toFloat32 (add binary64 (f64 4 10)
            (if eq binary64
                (mul binary64 (ofInt binary64 iface.Operations.length) (f64 2 10)) (f64 0 1)
              then f64 2 10
              else mul binary64 (ofInt binary64 iface.Operations.length) (f64 2 10))))
          (toFloat32 (f64 5 10)) 2 [toFloat32 (f64 4 10)] ∧
        (GenerateInterfaceWireframe iface position).2.2 = createBufferData box.1 box.2 ∧
        box.1.length = 3 * 12 ∧ box.2.length = 32 ∧
        box.2 = (createSimpleWireframeBox (toFloat32 (f64 2 1))
            (toFloat32 (add binary64 (f64 4 10)
              (if eq binary64
                  (mul binary64 (ofInt binary64 iface.Operations.length) (f64 2 10)) (f64 0 1)
                then f64 2 10
                else mul binary64 (ofInt binary64 iface.Operations.length) (f64 2 10))))
            (toFloat32 (f64 5 10))).2 ++ [8, 9, 9, 10, 10, 11, 11, 8]) ∧
    (∀ (enum : extuml.Enum) (position : Vec3),
      ∃ box : List float32 × List Nat,
        box = createWireframeBox (toFloat32 (f64 15 10))
          (toFloat32 (add binary64 (f64 3 10)
            (if eq binary64
                (mul binary64 (ofInt binary64 enum.Literals.length) (f64 15 100)) (f64 0 1)
              then f64 15 100
              else mul binary64 (ofInt binary64 enum.Literals.length) (f64 15 100))))
          (toFloat32 (f64 4 10)) 2 [toFloat32 (f64 3 10)] ∧
        (GenerateEnumWireframe enum position).2.2 = createBufferData box.1 box.2 ∧
        box.1.length = 3 * 12 ∧ box.2.length = 32 ∧
        box.2 = (createSimpleWireframeBox (toFloat32 (f64 15 10))
            (toFloat32 (add binary64 (f64 3 10)
              (if eq binary64
                  (mul binary64 (ofInt binary64 enum.Literals.length) (f64 15 100)) (f64 0 1)
                then f64 15 100
                else mul binary64 (ofInt binary64 enum.Literals.length) (f64 15 100))))
            (toFloat32 (f64 4 10))).2 ++ [8, 9, 9, 10, 10, 11, 11, 8]) ∧
    ∀ i, i < dividerHeights.length →
      (((createWireframeBox width height depth compartments dividerHeights).2.drop
          (24 + 8 * i)).take 8
        = [8 + 4 * i, 8 + 4 * i + 1, 8 + 4 * i + 1, 8 + 4 * i + 2,
           8 + 4 * i + 2, 8 + 4 * i + 3, 8 + 4 * i + 3, 8 + 4 * i]) ∧
      (((createWireframeBox width height depth compartments dividerHeights).1.drop
          (3 * (8 + 4 * i))).take (3 * 4)
        = dividerQuad (div binary32 width (ofRat binary32 2 1))
            (div binary32 depth (ofRat binary32 2 1))
            ((dividerHeights.take (i + 1)).foldl (sub binary32)
              (div binary32 height (ofRat binary32 2 1)))) := by
  have hl := createWireframeBox_length width height depth compartments dividerHeights
  have hs := createSimpleWireframeBox_length width height depth
  rw [createWireframeBox_eq width height depth compartments dividerHeights hk] at hl ⊢
  refine ⟨hl.1, hl.2, ?_, ?_, rfl, ?_, ?_, ?_⟩
  · simp only
    rw [← hs.1, List.take_left]
  · simp only
    rw [← hs.2, List.take_left]
  · intro iface position
    refine ⟨_, rfl, ?_, (createWireframeBox_length _ _ _ 2 [_]).1,
      (createWireframeBox_length _ _ _ 2 [_]).2,
      congrArg Prod.snd (createWireframeBox_eq _ _ _ 2 [_] (Nat.le_of_ble_eq_true rfl))⟩
    unfold GenerateInterfaceWireframe
    simp only
  · intro enum position
    refine ⟨_, rfl, ?_, (createWireframeBox_length _ _ _ 2 [_]).1,
      (createWireframeBox_length _ _ _ 2 [_]).2,
      congrArg Prod.snd (createWireframeBox_eq _ _ _ 2 [_] (Nat.le_of_ble_eq_true rfl))⟩
    unfold GenerateEnumWireframe
    simp only
  · intro i hi
    constructor
    · simp only
      have e : 24 + 8 * i = (createSimpleWireframeBox width height depth).2.length + 8 * i := by
        rw [hs.2]
      rw [e, List.drop_append]
      exact take_drop_flatMap_range (fun i => dividerRing (8 + 4 * i)) 8 (fun _ => rfl)
        dividerHeights.length i hi
    · simp only
      have e : 3 * (8 + 4 * i)
          = (createSimpleWireframeBox width height depth).1.length + 12 * i := by
        rw [hs.1]; omega
      rw [e, List.drop_append]
      exact take_drop_flatMap_range
        (fun i => dividerQuad (div binary32 width (ofRat binary32 2 1))
          (div binary32 depth (ofRat binary32 2 1))
          ((dividerHeights.take (i + 1)).foldl (sub binary32)
            (div binary32 height (ofRat binary32 2 1)))) 12 (fun _ => rfl)
        dividerHeights.length i hi

theorem createWireframeBox_shape_witness :
    [ofRat binary32 4 10].length ≤ 16382 ∧
    (createWireframeBox (ofRat binary32 2 1) (ofRat binary32 1 1) (ofRat binary32 1 2) 2
        [ofRat binary32 4 10]).1.length = 3 * (8 + 4 * 1) ∧
    (createWireframeBox (ofRat binary32 2 1) (ofRat binary32 1 1) (ofRat binary32 1 2) 2
        [ofRat binary32 4 10]).2.length = 24 + 8 * 1 :=
  ⟨by decide,
   (createWireframeBox_shape (ofRat binary32 2 1) (ofRat binary32 1 1) (ofRat binary32 1 2) 2
      [ofRat binary32 4 10] (by decide)).1,
   (createWireframeBox_shape (ofRat binary32 2 1) (ofRat binary32 1 1) (ofRat binary32 1 2) 2
      [ofRat binary32 4 10] (by decide)).2.1⟩

end


/-! ## The class label text -/

theorem intercalate_go_eq_foldl (s : String) :
    ∀ (ls : List String) (acc : String),
      String.intercalate.go acc s ls = ls.foldl (fun t a => t ++ s ++ a) acc := by
  intro ls
  induction ls with
  | nil => intro acc; rfl
  | cons a ls ih => intro acc; rw [String.intercalate.go, ih]; rfl

theorem foldl_label_lines {α : Type} (f : α → String) (xs : List α) (acc : String) :
    xs.foldl (fun t a => t ++ ("\n" ++ f a)) acc
      = (xs.map f).foldl (fun t a => t ++ "\n" ++ a) acc := by
  induction xs generalizing acc with
  | nil => rfl
  | cons x xs ih =>
    simp only [List.foldl_cons, List.map_cons]
    rw [ih, String.append_assoc]

theorem foldl_guard {α β : Type} (g : β → α → β) (xs : List α) (acc : β) :
    (if 0 < xs.length then xs.foldl g acc else acc) = xs.foldl g acc := by
  cases xs with
  | nil => rfl
  | cons x xs => simp

theorem combinedClassText_eq (cls : extuml.Class) :
    combinedClassText cls = String.intercalate "\n" (classLabelLines cls) := by
  unfold combinedClassText classLabelLines
  simp only [foldl_guard]
  rw [List.append_assoc, List.append_assoc, List.append_assoc, List.append_assoc,
    List.singleton_append, String.intercalate, intercalate_go_eq_foldl]
  have ha : (fun (t : String) (attr : extuml.Attribute) =>
      t ++ ("\n" ++ attr.Name ++ ": " ++ attr.Type_))
      = (fun t attr => t ++ ("\n" ++ (attr.Name ++ ": " ++ attr.Type_))) := by
    funext t attr
    simp only [String.append_assoc]
  have ho : (fun (t : String) (op : extuml.Operation) =>
      t ++ ("\n" ++ op.Name ++ "(): " ++ op.ReturnType))
      = (fun t op => t ++ ("\n" ++ (op.Name ++ "(): " ++ op.ReturnType))) := by
    funext t op
    simp only [String.append_assoc]
  rw [ha, ho, foldl_label_lines, foldl_label_lines]
  have hsep : ∀ t : String, t ++ "\n---" = t ++ "\n" ++ "---" := by
    intro t
    rw [String.append_assoc]
    rfl
  by_cases hu : cls.URL ≠ ""
  · simp only [if_pos hu, List.foldl_append, List.foldl_cons, List.foldl_nil, hsep]
  · simp only [if_neg hu, List.foldl_append, List.foldl_cons, List.foldl_nil, hsep,
      List.nil_append]

theorem newlines_append (s t : String) : newlines (s ++ t) = newlines s + newlines t := by
  unfold newlines
  rw [String.toList, String.toList, String.toList, String.data_append, List.count_append]

theorem newlines_foldl (ls : List String) (h : ∀ l ∈ ls, newlines l = 0) :
    ∀ acc : String,
      newlines (ls.foldl (fun t a => t ++ "\n" ++ a) acc) = newlines acc + ls.length := by
  induction ls with
  | nil => intro acc; rfl
  | cons l ls ih =>
    intro acc
    rw [List.foldl_cons, ih (fun x hx => h x (List.mem_cons_of_mem _ hx)), newlines_append,
      newlines_append, h l (List.mem_cons_self _ _), List.length_cons]
    have : newlines "\n" = 1 := by decide
    omega

theorem lineCount_intercalate (l : String) (ls : List String)
    (h : ∀ x ∈ l :: ls, newlines x = 0) :
    lineCount (String.intercalate "\n" (l :: ls)) = (l :: ls).length := by
  unfold lineCount
  rw [String.intercalate, intercalate_go_eq_foldl,
    newlines_foldl ls (fun x hx => h x (List.mem_cons_of_mem _ hx)),
    h l (List.mem_cons_self _ _), List.length_cons]
  omega

theorem classLabelLines_length (cls : extuml.Class) :
    (classLabelLines cls).length
      = 3 + cls.Attributes.length + cls.Operations.length + (if cls.URL ≠ "" then 1 else 0) := by
  unfold classLabelLines
  by_cases hu : cls.URL ≠ ""
  · simp only [if_pos hu, List.length_append, List.length_map, List.length_singleton]
    omega
  · simp only [if_neg hu, List.length_append, List.length_map, List.length_singleton,
      List.length_nil]
    omega

theorem classLabelLines_newlines (cls : extuml.Class)
    (hn : newlines cls.Name = 0) (hu : newlines cls.URL = 0)
    (ha : ∀ a ∈ cls.Attributes, newlines a.Name = 0 ∧ newlines a.Type_ = 0)
    (ho : ∀ o ∈ cls.Operations, newlines o.Name = 0 ∧ newlines o.ReturnType = 0) :
    ∀ x ∈ classLabelLines cls, newlines x = 0 := by
  intro x hx
  unfold classLabelLines at hx
  have hsep : newlines "---" = 0 := by decide
  have hc1 : newlines ": " = 0 := by decide
  have hc2 : newlines "(): " = 0 := by decide
  simp only [List.mem_append, List.mem_singleton, List.mem_map] at hx
  rcases hx with ((((h | h) | h) | h) | h) | h
  · rw [h]; exact hn
  · by_cases hurl : cls.URL ≠ ""
    · rw [if_pos hurl, List.mem_singleton] at h
      rw [h]; exact hu
    · rw [if_neg hurl] at h
      exact absurd h (List.not_mem_nil _)
  · rw [h]; exact hsep
  · obtain ⟨a, ha1, ha2⟩ := h
    rw [← ha2, newlines_append, newlines_append, (ha a ha1).1, (ha a ha1).2, hc1]
  · rw [h]; exact hsep
  · obtain ⟨o, ho1, ho2⟩ := h
    rw [← ho2, newlines_append, newlines_append, (ho o ho1).1, (ho o ho1).2, hc2]

theorem addTextLabel_node (text : String) (position : Vec3) (billboard : Bool)
    (url : String) (a : gltf.GLTFAsset) :
    ∃ nd : gltf.Node,
      (addTextLabel text position billboard url a).1.Nodes = a.Nodes ++ [nd] ∧
      nd.Name = "text_node_" ++ toString a.Nodes.length ∧
      nd.Translation = [position.x, position.y, position.z] ∧
      (GoAny.get nd.Extras "extuml").bind (fun e => GoAny.get e "type")
        = some (GoAny.str "text") ∧
      (GoAny.get nd.Extras "extuml").bind (fun e => GoAny.get e "text")
        = some (GoAny.str text) := by
  refine ⟨_, rfl, rfl, rfl, ?_, ?_⟩
  · cases billboard <;> by_cases hu : url ≠ "" <;>
      simp [GoAny.get, mapSet, hu]
  · cases billboard <;> by_cases hu : url ≠ "" <;>
      simp [GoAny.get, mapSet, hu]

/-- C20. The text node that `addClassToScene` appends right after the class node
stores under `extras.extuml.text` the newline-joined lines: the class name; the
URL when it is non-empty; `---`; `<name>: <type>` for each attribute in order;
`---`; `<name>(): <returnType>` for each operation in order. When no field
contains a newline the label has `3 + |attributes| + |operations|` lines, one
more with a URL. -/
theorem addClassToScene_label (cls : extuml.Class) (position : Vec3)
    (asset : gltf.GLTFAsset) (nodeIndex : Nat) :
    (∃ classNode textNode : gltf.Node,
      (addClassToScene cls position asset nodeIndex).1.Nodes
        = asset.Nodes ++ [classNode, textNode] ∧
      classNode.Name = cls.Name ∧
      (GoAny.get textNode.Extras "extuml").bind (fun e => GoAny.get e "type")
        = some (GoAny.str "text") ∧
      (GoAny.get textNode.Extras "extuml").bind (fun e => GoAny.get e "text")
        = some (GoAny.str (String.intercalate "\n"
            ([cls.Name] ++ (if cls.URL ≠ "" then [cls.URL] else []) ++ ["---"] ++
              cls.Attributes.map (fun a => a.Name ++ ": " ++ a.Type_) ++ ["---"] ++
              cls.Operations.map (fun o => o.Name ++ "(): " ++ o.ReturnType))))) ∧
    (newlines cls.Name = 0 → newlines cls.URL = 0 →
      (∀ a ∈ cls.Attributes, newlines a.Name = 0 ∧ newlines a.Type_ = 0) →
      (∀ o ∈ cls.Operations, newlines o.Name = 0 ∧ newlines o.ReturnType = 0) →
      lineCount (combinedClassText cls)
        = 3 + cls.Attributes.length + cls.Operations.length
            + (if cls.URL ≠ "" then 1 else 0)) := by
  constructor
  · obtain ⟨nd, h1, -, -, h4⟩ := classBoxStage_Nodes cls position asset
    obtain ⟨tn, t1, -, -, t4, t5⟩ := addTextLabel_node (combinedClassText cls)
      ⟨position.x, position.y, IEEE.add IEEE.binary64 position.z (f64 0 1)⟩ true cls.URL
      (classBoxStage cls position asset)
    refine ⟨nd, tn, ?_, h4, t4, ?_⟩
    · rw [addClassToScene_eq, t1, h1, List.append_assoc]
      rfl
    · rw [t5, combinedClassText_eq]
      rfl
  · intro hn hu ha ho
    rw [combinedClassText_eq]
    have hlines := classLabelLines_newlines cls hn hu ha ho
    have hlen := classLabelLines_length cls
    have hne : ∃ l ls, classLabelLines cls = l :: ls := ⟨cls.Name, _, by
      unfold classLabelLines
      rw [List.append_assoc, List.append_assoc, List.append_assoc, List.append_assoc,
        List.singleton_append]⟩
    obtain ⟨l, ls, e⟩ := hne
    rw [e] at hlines hlen
    rw [e, lineCount_intercalate l ls hlines, hlen]

theorem addClassToScene_label_witness :
    lineCount (combinedClassText sampleClass) = 3 + 2 + 1 + 1 :=
  (addClassToScene_label sampleClass ⟨0, 0, 0⟩ (initialAsset ⟨"1.0", none, none⟩ "") 0).2
    (by decide) (by decide) (by decide) (by decide)


/-! ## Nodes appended by the element loops -/

section
open IEEE

theorem add_zero_zero : add binary64 (f64 0 1) (f64 0 1) = f64 0 1 := by decide!

theorem classBoxStage_node (x : extuml.Class) (position : Vec3) (a : gltf.GLTFAsset) :
    ∃ nd : gltf.Node,
      (classBoxStage x position a).Nodes = a.Nodes ++ [nd] ∧
      nd.Name = x.Name ∧ nodeKind nd = some (GoAny.str "class") ∧
      nd.Translation = [position.x, position.y, position.z] := by
  refine ⟨_, rfl, rfl, ?_, rfl⟩
  simp [nodeKind, GoAny.get]

theorem addClassToScene_nodes (cls : extuml.Class) (position : Vec3) (a : gltf.GLTFAsset)
    (n : Nat) :
    ∃ cn tn : gltf.Node,
      (addClassToScene cls position a n).1.Nodes = a.Nodes ++ [cn, tn] ∧
      cn.Name = cls.Name ∧ nodeKind cn = some (GoAny.str "class") ∧
      cn.Translation = [position.x, position.y, position.z] ∧
      nodeKind tn = some (GoAny.str "text") ∧
      nodeText tn = some (GoAny.str (combinedClassText cls)) ∧
      tn.Translation = [position.x, position.y, add binary64 position.z (f64 0 1)] := by
  obtain ⟨tn, t1, -, t3, t4, t5⟩ := addTextLabel_node (combinedClassText cls)
    ⟨position.x, position.y, add binary64 position.z (f64 0 1)⟩ true cls.URL
    (classBoxStage cls position a)
  obtain ⟨cn, c1, c2, c3, c4⟩ := classBoxStage_node cls position a
  refine ⟨cn, tn, ?_, c2, c3, c4, t4, t5, t3⟩
  rw [addClassToScene_eq, t1, c1, List.append_assoc]
  rfl

theorem addInterfaceToScene_node (x : extuml.Interface) (position : Vec3) (a : gltf.GLTFAsset)
    (n : Nat) :
    ∃ nd : gltf.Node,
      (addInterfaceToScene x position a n).1.Nodes = a.Nodes ++ [nd] ∧
      nd.Name = x.Name ∧ nodeKind nd = some (GoAny.str "interface") ∧
      nd.Translation = [position.x, position.y, position.z] := by
  refine ⟨_, rfl, rfl, ?_, rfl⟩
  simp [nodeKind, GoAny.get]

theorem addEnumToScene_node (x : extuml.Enum) (position : Vec3) (a : gltf.GLTFAsset)
    (n : Nat) :
    ∃ nd : gltf.Node,
      (addEnumToScene x position a n).1.Nodes = a.Nodes ++ [nd] ∧
      nd.Name = x.Name ∧ nodeKind nd = some (GoAny.str "enum") ∧
      nd.Translation = [position.x, position.y, position.z] := by
  refine ⟨_, rfl, rfl, ?_, rfl⟩
  simp [nodeKind, GoAny.get]

theorem classesLoop_nodes (xs : List extuml.Class) :
    ∀ (i0 : Nat) (st : gltf.GLTFAsset × Nat),
      ∃ L : List gltf.Node,
        (classesLoop (f64 3 1) xs i0 st).1.Nodes = st.1.Nodes ++ L ∧
        L.length = 2 * xs.length ∧
        ∀ (i : Nat) (cls : extuml.Class), xs[i]? = some cls →
          ∃ cn tn : gltf.Node, L[2 * i]? = some cn ∧ L[2 * i + 1]? = some tn ∧
            cn.Name = cls.Name ∧ nodeKind cn = some (GoAny.str "class") ∧
            cn.Translation = [gridX (i0 + i), f64 0 1, f64 0 1] ∧
            nodeKind tn = some (GoAny.str "text") ∧
            nodeText tn = some (GoAny.str (combinedClassText cls)) ∧
            tn.Translation = [gridX (i0 + i), f64 0 1, f64 0 1] := by
  induction xs with
  | nil =>
    intro i0 st
    exact ⟨[], by simp [classesLoop], rfl, fun i cls h => by simp at h⟩
  | cons x xs ih =>
    intro i0 st
    rw [classesLoop]
    obtain ⟨cn, tn, h1, h2, h3, h4, h5, h5', h6⟩ := addClassToScene_nodes x
      ⟨mul binary64 (ofInt binary64 i0) (f64 3 1), f64 0 1, f64 0 1⟩ st.1 st.2
    obtain ⟨L, l1, l2, l3⟩ := ih (i0 + 1) (addClassToScene x
      ⟨mul binary64 (ofInt binary64 i0) (f64 3 1), f64 0 1, f64 0 1⟩ st.1 st.2)
    refine ⟨cn :: tn :: L, ?_, ?_, ?_⟩
    · rw [l1, h1, List.append_assoc]; rfl
    · simp only [List.length_cons, l2]; omega
    · intro i cls hi
      cases i with
      | zero =>
        simp only [List.getElem?_cons_zero, Option.some.injEq] at hi
        subst hi
        refine ⟨cn, tn, by simp, by simp, h2, h3, h4, h5, h5', ?_⟩
        rw [h6]
        simp only [add_zero_zero]
        rfl
      | succ i =>
        rw [List.getElem?_cons_succ] at hi
        obtain ⟨cn', tn', c1, c2, c3, c4, c5, c6, c6', c7⟩ := l3 i cls hi
        have e : i0 + 1 + i = i0 + (i + 1) := by omega
        rw [e] at c5 c7
        refine ⟨cn', tn', ?_, ?_, c3, c4, c5, c6, c6', c7⟩
        · have : 2 * (i + 1) = 2 * i + 1 + 1 := by omega
          rw [this, List.getElem?_cons_succ, List.getElem?_cons_succ]
          exact c1
        · have : 2 * (i + 1) + 1 = 2 * i + 1 + 1 + 1 := by omega
          rw [this, List.getElem?_cons_succ, List.getElem?_cons_succ]
          exact c2

theorem interfacesLoop_nodes (xs : List extuml.Interface) :
    ∀ (i0 : Nat) (st : gltf.GLTFAsset × Nat),
      ∃ L : List gltf.Node,
        (interfacesLoop (f64 3 1) xs i0 st).1.Nodes = st.1.Nodes ++ L ∧
        L.length = xs.length ∧
        ∀ (i : Nat) (x : extuml.Interface), xs[i]? = some x →
          ∃ nd : gltf.Node, L[i]? = some nd ∧
            nd.Name = x.Name ∧ nodeKind nd = some (GoAny.str "interface") ∧
            nd.Translation = [gridX (i0 + i), f64 3 1, f64 0 1] := by
  induction xs with
  | nil =>
    intro i0 st
    exact ⟨[], by simp [interfacesLoop], rfl, fun i cls h => by simp at h⟩
  | cons x xs ih =>
    intro i0 st
    rw [interfacesLoop]
    obtain ⟨nd, h1, h2, h3, h4⟩ := addInterfaceToScene_node x
      ⟨mul binary64 (ofInt binary64 i0) (f64 3 1), f64 3 1, f64 0 1⟩ st.1 st.2
    obtain ⟨L, l1, l2, l3⟩ := ih (i0 + 1) (addInterfaceToScene x
      ⟨mul binary64 (ofInt binary64 i0) (f64 3 1), f64 3 1, f64 0 1⟩ st.1 st.2)
    refine ⟨nd :: L, ?_, ?_, ?_⟩
    · rw [l1, h1, List.append_assoc]; rfl
    · simp only [List.length_cons, l2]
    · intro i y hi
      cases i with
      | zero =>
        simp only [List.getElem?_cons_zero, Option.some.injEq] at hi
        subst hi
        exact ⟨nd, by simp, h2, h3, h4⟩
      | succ i =>
        rw [List.getElem?_cons_succ] at hi
        obtain ⟨nd', c1, c2, c3, c4⟩ := l3 i y hi
        have e : i0 + 1 + i = i0 + (i + 1) := by omega
        rw [e] at c4
        exact ⟨nd', by rw [List.getElem?_cons_succ]; exact c1, c2, c3, c4⟩

theorem enumsLoop_nodes (xs : List extuml.Enum) :
    ∀ (i0 : Nat) (st : gltf.GLTFAsset × Nat),
      ∃ L : List gltf.Node,
        (enumsLoop (f64 3 1) xs i0 st).1.Nodes = st.1.Nodes ++ L ∧
        L.length = xs.length ∧
        ∀ (i : Nat) (x : extuml.Enum), xs[i]? = some x →
          ∃ nd : gltf.Node, L[i]? = some nd ∧
            nd.Name = x.Name ∧ nodeKind nd = some (GoAny.str "enum") ∧
            nd.Translation = [gridX (i0 + i), neg binary64 (f64 3 1), f64 0 1] := by
  induction xs with
  | nil =>
    intro i0 st
    exact ⟨[], by simp [enumsLoop], rfl, fun i cls h => by simp at h⟩
  | cons x xs ih =>
    intro i0 st
    rw [enumsLoop]
    obtain ⟨nd, h1, h2, h3, h4⟩ := addEnumToScene_node x
      ⟨mul binary64 (ofInt binary64 i0) (f64 3 1), neg binary64 (f64 3 1), f64 0 1⟩ st.1 st.2
    obtain ⟨L, l1, l2, l3⟩ := ih (i0 + 1) (addEnumToScene x
      ⟨mul binary64 (ofInt binary64 i0) (f64 3 1), neg binary64 (f64 3 1), f64 0 1⟩ st.1 st.2)
    refine ⟨nd :: L, ?_, ?_, ?_⟩
    · rw [l1, h1, List.append_assoc]; rfl
    · simp only [List.length_cons, l2]
    · intro i y hi
      cases i with
      | zero =>
        simp only [List.getElem?_cons_zero, Option.some.injEq] at hi
        subst hi
        exact ⟨nd, by simp, h2, h3, h4⟩
      | succ i =>
        rw [List.getElem?_cons_succ] at hi
        obtain ⟨nd', c1, c2, c3, c4⟩ := l3 i y hi
        have e : i0 + 1 + i = i0 + (i + 1) := by omega
        rw [e] at c4
        exact ⟨nd', by rw [List.getElem?_cons_succ]; exact c1, c2, c3, c4⟩

end


/-! ## Node layout on the grid -/

namespace IEEE

theorem roundRat_mul_right (f : Format) (s : Bool) (n d c : Nat) (hc : 0 < c) :
    roundRat f s (n * c) (d * c) = roundRat f s n d := by
  rw [roundRat_eq, roundRat_eq]
  have e1 : n * c * 2 ^ f.scaleExp = n * 2 ^ f.scaleExp * c := by
    rw [Nat.mul_assoc, Nat.mul_comm c, ← Nat.mul_assoc]
  have e2 : ∀ q, d * c * 2 ^ q = d * 2 ^ q * c := by
    intro q
    rw [Nat.mul_assoc, Nat.mul_comm c, ← Nat.mul_assoc]
  rw [e1, Nat.mul_div_mul_right _ _ hc, e2, roundHalfEven_mul_right _ _ _ hc]

theorem ofInt_natCast (f : Format) (n : Nat) : ofInt f (n : Int) = roundRat f false n 1 := by
  unfold ofInt
  have : decide ((n : Int) < 0) = false := by simp
  rw [this, Int.natAbs_ofNat]

theorem three_facts :
    isNaN binary64 (f64 3 1) = false ∧ isInf binary64 (f64 3 1) = false ∧
    signOf binary64 (f64 3 1) = false ∧ numer binary64 (f64 3 1) = 3 * 2 ^ 1074 := by decide!

theorem mul_zero_three : mul binary64 (ofInt binary64 0) (f64 3 1) = ofInt binary64 0 := by
  decide!

end IEEE

section
open IEEE

/-- The grid coordinate `float64(i) * 3.0` is the exact product while `3 * i`
fits the 53-bit significand. -/
theorem gridX_exact (i : Nat) (h : 3 * i < 2 ^ 53) :
    gridX i = ofInt binary64 ((3 * i : Nat) : Int) := by
  unfold gridX
  rcases Nat.eq_zero_or_pos i with h0 | h0
  · subst h0
    exact mul_zero_three
  · obtain ⟨a1, a2, a3, -, a5⟩ := ofInt_exact i h0 (by omega)
    obtain ⟨b1, b2, b3, b4⟩ := three_facts
    have hs : binary64.scaleExp = 1074 := rfl
    have hC : 0 < 2 ^ 1074 * 2 ^ 1074 := Nat.mul_pos (Nat.two_pow_pos 1074) (Nat.two_pow_pos 1074)
    have hx : mul binary64 (ofInt binary64 i) (f64 3 1)
        = roundRat binary64 false (i * 2 ^ 1074 * (3 * 2 ^ 1074)) (2 ^ 1074 * 2 ^ 1074) := by
      unfold mul
      simp only [a1, a2, a3, b1, b2, b3, a5, b4, hs, Bool.false_eq_true, or_self, if_false,
        bne_self_eq_false]
    rw [hx, ofInt_natCast]
    have e1 : i * 2 ^ 1074 * (3 * 2 ^ 1074) = 3 * i * (2 ^ 1074 * 2 ^ 1074) := by
      generalize (2 : Nat) ^ 1074 = C
      rw [Nat.mul_assoc, Nat.mul_left_comm C 3 C, ← Nat.mul_assoc, Nat.mul_comm i 3]
    rw [e1]
    have hr := roundRat_mul_right binary64 false (3 * i) 1 _ hC
    rw [Nat.one_mul] at hr
    exact hr

/-- C19. The node table follows the declaration order on the grid: for class
`i` node `2i` is the class node, named after the class, and node `2i+1` is the
text node with its label, both translated to `(3i, 0, 0)`; for interface `j`
node `2N+j` is translated to `(3j, 3, 0)`; for enum `k` node `2N+M+k` is
translated to `(3k, -3, 0)`. The x coordinate is `float64(i) * 3.0`, the exact
product `3i` as long as it fits a 53-bit significand. -/
theorem generateGeometry_node_layout (version generatedAt : String)
    (meta : Option extuml.Meta) (elements : extuml.Elements) :
    ∃ a : gltf.GLTFAsset,
      generateGeometry ⟨version, meta, some elements⟩
          (initialAsset ⟨version, meta, some elements⟩ generatedAt) = some a ∧
      (∀ (i : Nat) (cls : extuml.Class), elements.Classes[i]? = some cls →
        ∃ cn tn : gltf.Node, a.Nodes[2 * i]? = some cn ∧ a.Nodes[2 * i + 1]? = some tn ∧
          cn.Name = cls.Name ∧ nodeKind cn = some (GoAny.str "class") ∧
          cn.Translation = [gridX i, f64 0 1, f64 0 1] ∧
          nodeKind tn = some (GoAny.str "text") ∧
          nodeText tn = some (GoAny.str (combinedClassText cls)) ∧
          tn.Translation = [gridX i, f64 0 1, f64 0 1]) ∧
      (∀ (j : Nat) (x : extuml.Interface), elements.Interfaces[j]? = some x →
        ∃ nd : gltf.Node, a.Nodes[2 * elements.Classes.length + j]? = some nd ∧
          nd.Name = x.Name ∧ nodeKind nd = some (GoAny.str "interface") ∧
          nd.Translation = [gridX j, f64 3 1, f64 0 1]) ∧
      (∀ (k : Nat) (x : extuml.Enum), elements.Enums[k]? = some x →
        ∃ nd : gltf.Node,
          a.Nodes[2 * elements.Classes.length + elements.Interfaces.length + k]? = some nd ∧
          nd.Name = x.Name ∧ nodeKind nd = some (GoAny.str "enum") ∧
          nd.Translation = [gridX k, neg binary64 (f64 3 1), f64 0 1]) ∧
      (∀ i : Nat, 3 * i < 2 ^ 53 → gridX i = ofInt binary64 ((3 * i : Nat) : Int)) ∧
      signedNumer binary64 (f64 3 1) = 3 * 2 ^ 1074 ∧
      signedNumer binary64 (neg binary64 (f64 3 1)) = -(3 * 2 ^ 1074) ∧
      signedNumer binary64 (f64 0 1) = 0 := by
  obtain ⟨a, ha, hsc, hgen⟩ := generateGeometry_eq ⟨version, meta, some elements⟩ elements
    (initialAsset ⟨version, meta, some elements⟩ generatedAt) ⟨[], "Scene"⟩ [] rfl rfl
  obtain ⟨Lc, c1, c2, c3⟩ := classesLoop_nodes elements.Classes 0
    (initialAsset ⟨version, meta, some elements⟩ generatedAt, 0)
  obtain ⟨Li, i1, i2, i3⟩ := interfacesLoop_nodes elements.Interfaces 0
    (classesLoop (f64 3 1) elements.Classes 0
      (initialAsset ⟨version, meta, some elements⟩ generatedAt, 0))
  obtain ⟨Le, e1, e2, e3⟩ := enumsLoop_nodes elements.Enums 0
    (interfacesLoop (f64 3 1) elements.Interfaces 0
      (classesLoop (f64 3 1) elements.Classes 0
        (initialAsset ⟨version, meta, some elements⟩ generatedAt, 0)))
  have hnodes : a.Nodes = (Lc ++ Li) ++ Le := by
    rw [ha, e1, i1, c1]
    rfl
  have hfinal : ∃ b : gltf.GLTFAsset,
      generateGeometry ⟨version, meta, some elements⟩
          (initialAsset ⟨version, meta, some elements⟩ generatedAt) = some b ∧
      b.Nodes = (Lc ++ Li) ++ Le := by
    by_cases hpos : 0 < a.Nodes.length
    · rw [if_pos hpos] at hgen
      exact ⟨_, hgen, hnodes⟩
    · rw [if_neg hpos] at hgen
      exact ⟨_, hgen, hnodes⟩
  obtain ⟨b, hb, hbn⟩ := hfinal
  refine ⟨b, hb, ?_, ?_, ?_, gridX_exact, by decide!, by decide!, by decide!⟩
  · intro i cls hi
    obtain ⟨cn, tn, n1, n2, n3, n4, n5, n6, n7, n8⟩ := c3 i cls hi
    rw [Nat.zero_add] at n5 n8
    have hlt : i < elements.Classes.length := by
      rcases Nat.lt_or_ge i elements.Classes.length with h | h
      · exact h
      · rw [List.getElem?_eq_none h] at hi
        exact absurd hi (by simp)
    refine ⟨cn, tn, ?_, ?_, n3, n4, n5, n6, n7, n8⟩
    · rw [hbn, List.append_assoc, List.getElem?_append_left (by omega)]
      exact n1
    · rw [hbn, List.append_assoc, List.getElem?_append_left (by omega)]
      exact n2
  · intro j x hj
    obtain ⟨nd, n1, n2, n3, n4⟩ := i3 j x hj
    rw [Nat.zero_add] at n4
    have hlt : j < elements.Interfaces.length := by
      rcases Nat.lt_or_ge j elements.Interfaces.length with h | h
      · exact h
      · rw [List.getElem?_eq_none h] at hj
        exact absurd hj (by simp)
    refine ⟨nd, ?_, n2, n3, n4⟩
    rw [hbn, List.append_assoc, List.getElem?_append_right (by omega),
      List.getElem?_append_left (by omega)]
    have : 2 * elements.Classes.length + j - Lc.length = j := by omega
    rw [this]
    exact n1
  · intro k x hk
    obtain ⟨nd, n1, n2, n3, n4⟩ := e3 k x hk
    rw [Nat.zero_add] at n4
    refine ⟨nd, ?_, n2, n3, n4⟩
    rw [hbn, List.getElem?_append_right (by rw [List.length_append]; omega)]
    have : 2 * elements.Classes.length + elements.Interfaces.length + k - (Lc ++ Li).length
        = k := by
      rw [List.length_append]; omega
    rw [this]
    exact n1

end


/-! ## Accessor bounds against the packed extents -/

section
open IEEE

theorem interfaceBuffer_three_extents :
    positionMax (interfaceBuffer 3) 12 = [f64 1 1, f64 1 2, f64 25 100] ∧
    positionMin (interfaceBuffer 3) 12
      = [neg binary64 (f64 1 1), neg binary64 (f64 1 2), neg binary64 (f64 25 100)] := by
  constructor
  · decide!
  · decide!

theorem enumBuffer_three_extents :
    positionMax (enumBuffer 3) 12
      = [f64 75 100, f64 375 1000, convert binary32 binary64 (ofRat binary32 2 10)] ∧
    positionMin (enumBuffer 3) 12
      = [neg binary64 (f64 75 100), neg binary64 (f64 375 1000),
         neg binary64 (convert binary32 binary64 (ofRat binary32 2 10))] := by
  constructor
  · decide!
  · decide!

theorem bounds_compare :
    lt binary64 (f64 4 10) (f64 1 2) = true ∧ lt binary64 (f64 3 10) (f64 375 1000) = true ∧
    8 * signedNumer binary64 (f64 375 1000) = 3 * 2 ^ 1074 ∧
    2 * signedNumer binary64 (f64 1 2) = 2 ^ 1074 := by decide!

theorem interface_layout_count (x : extuml.Interface) (position : Vec3) :
    (calculateBufferLayout (GenerateInterfaceWireframe x position).2.2).1 = 12 := by
  have := calculateBufferLayout_congr _ 208 (GenerateInterfaceWireframe_length x position)
  rw [this, calculateBufferLayout_208]

theorem enum_layout_count (x : extuml.Enum) (position : Vec3) :
    (calculateBufferLayout (GenerateEnumWireframe x position).2.2).1 = 12 := by
  have := calculateBufferLayout_congr _ 208 (GenerateEnumWireframe_length x position)
  rw [this, calculateBufferLayout_208]

/-- C17, the code at an interface with three operations and at an enum with
three literals. The position accessor records `max = (1, 0.4, 0.25)` for the
interface and `max = (0.75, 0.3, 0.2)` for the enum, the negated values as `min`;
the 12 packed vertex positions have the component-wise maximum `(1, 0.5, 0.25)`
and `(0.75, 0.375, 0.2f)`. The recorded y bounds differ from the extents of the
geometry: 0.4 < 0.5 and 0.3 < 0.375. -/
theorem accessor_bounds_three_members :
    (∃ acc : gltf.Accessor,
      (addInterfaceToScene sampleInterface ⟨0, 0, 0⟩
          (initialAsset ⟨"1.0", none, none⟩ "") 0).1.Accessors[0]? = some acc ∧
      acc.Type_ = "VEC3" ∧ acc.Count = 12 ∧
      acc.Max = [f64 1 1, f64 4 10, f64 25 100] ∧
      acc.Min = [neg binary64 (f64 1 1), neg binary64 (f64 4 10), neg binary64 (f64 25 100)] ∧
      positionMax (GenerateInterfaceWireframe sampleInterface ⟨0, 0, 0⟩).2.2 acc.Count
        = [f64 1 1, f64 1 2, f64 25 100] ∧
      positionMin (GenerateInterfaceWireframe sampleInterface ⟨0, 0, 0⟩).2.2 acc.Count
        = [neg binary64 (f64 1 1), neg binary64 (f64 1 2), neg binary64 (f64 25 100)] ∧
      acc.Max ≠ positionMax (GenerateInterfaceWireframe sampleInterface ⟨0, 0, 0⟩).2.2 acc.Count ∧
      acc.Min ≠ positionMin (GenerateInterfaceWireframe sampleInterface ⟨0, 0, 0⟩).2.2 acc.Count) ∧
    (∃ acc : gltf.Accessor,
      (addEnumToScene sampleEnum ⟨0, 0, 0⟩
          (initialAsset ⟨"1.0", none, none⟩ "") 0).1.Accessors[0]? = some acc ∧
      acc.Type_ = "VEC3" ∧ acc.Count = 12 ∧
      acc.Max = [f64 75 100, f64 3 10, f64 2 10] ∧
      acc.Min = [neg binary64 (f64 75 100), neg binary64 (f64 3 10), neg binary64 (f64 2 10)] ∧
      positionMax (GenerateEnumWireframe sampleEnum ⟨0, 0, 0⟩).2.2 acc.Count
        = [f64 75 100, f64 375 1000, convert binary32 binary64 (ofRat binary32 2 10)] ∧
      positionMin (GenerateEnumWireframe sampleEnum ⟨0, 0, 0⟩).2.2 acc.Count
        = [neg binary64 (f64 75 100), neg binary64 (f64 375 1000),
           neg binary64 (convert binary32 binary64 (ofRat binary32 2 10))] ∧
      acc.Max ≠ positionMax (GenerateEnumWireframe sampleEnum ⟨0, 0, 0⟩).2.2 acc.Count ∧
      acc.Min ≠ positionMin (GenerateEnumWireframe sampleEnum ⟨0, 0, 0⟩).2.2 acc.Count) ∧
    lt binary64 (f64 4 10) (f64 1 2) = true ∧ lt binary64 (f64 3 10) (f64 375 1000) = true := by
  refine ⟨?_, ?_, bounds_compare.1, bounds_compare.2.1⟩
  · have hb : (GenerateInterfaceWireframe sampleInterface ⟨0, 0, 0⟩).2.2 = interfaceBuffer 3 :=
      GenerateInterfaceWireframe_buffer sampleInterface ⟨0, 0, 0⟩
    refine ⟨⟨some 0, 0, 5126, 12, "VEC3", [f64 1 1, f64 4 10, f64 25 100],
      [neg binary64 (f64 1 1), neg binary64 (f64 4 10), neg binary64 (f64 25 100)]⟩,
      ?_, rfl, rfl, rfl, rfl, ?_, ?_, ?_, ?_⟩
    · rw [addInterfaceToScene_Accessors, interface_layout_count]
      rfl
    · rw [hb]; exact interfaceBuffer_three_extents.1
    · rw [hb]; exact interfaceBuffer_three_extents.2
    · rw [hb, interfaceBuffer_three_extents.1]; decide!
    · rw [hb, interfaceBuffer_three_extents.2]; decide!
  · have hb : (GenerateEnumWireframe sampleEnum ⟨0, 0, 0⟩).2.2 = enumBuffer 3 :=
      GenerateEnumWireframe_buffer sampleEnum ⟨0, 0, 0⟩
    refine ⟨⟨some 0, 0, 5126, 12, "VEC3", [f64 75 100, f64 3 10, f64 2 10],
      [neg binary64 (f64 75 100), neg binary64 (f64 3 10), neg binary64 (f64 2 10)]⟩,
      ?_, rfl, rfl, rfl, rfl, ?_, ?_, ?_, ?_⟩
    · rw [addEnumToScene_Accessors, enum_layout_count]
      rfl
    · rw [hb]; exact enumBuffer_three_extents.1
    · rw [hb]; exact enumBuffer_three_extents.2
    · rw [hb, enumBuffer_three_extents.1]; decide!
    · rw [hb, enumBuffer_three_extents.2]; decide!

end


/-! ## Positive patterns -/

namespace IEEE

theorem signBit_eq (f : Format) : f.signBit = 2 ^ f.ebits * 2 ^ f.mbits := pow_add 2 f.ebits f.mbits

theorem infBits_lt_signBit (f : Format) : f.infBits < f.signBit := by
  unfold Format.infBits
  rw [signBit_eq]
  exact Nat.mul_lt_mul_of_pos_right (Nat.sub_lt (Nat.two_pow_pos _) Nat.one_pos)
    (Nat.two_pow_pos _)

theorem one_le_infBits (f : Format) (he : 1 ≤ f.ebits) : 1 ≤ f.infBits := by
  unfold Format.infBits
  have h2 : 2 ^ 1 ≤ 2 ^ f.ebits := Nat.pow_le_pow_right (by norm_num) he
  have h3 : 1 ≤ 2 ^ f.ebits - 1 := by omega
  exact Nat.mul_pos h3 (Nat.two_pow_pos _)

/-- A pattern between the smallest subnormal and `+Inf` is no NaN, has sign `+`
and a positive numerator. -/
theorem positive_bits (f : Format) (m : Nat) (h1 : 1 ≤ m) (h2 : m ≤ f.infBits) :
    magnitude f m = m ∧ isNaN f m = false ∧ signOf f m = false ∧ 1 ≤ numer f m := by
  have hlt : m < f.signBit := lt_of_le_of_lt h2 (infBits_lt_signBit f)
  have hmag : magnitude f m = m := Nat.mod_eq_of_lt hlt
  refine ⟨hmag, ?_, ?_, ?_⟩
  · unfold isNaN
    rw [hmag]
    exact decide_eq_false (Nat.not_lt.mpr h2)
  · unfold signOf
    rw [Nat.div_eq_of_lt hlt]
    rfl
  · unfold numer
    simp only
    have hM : 0 < 2 ^ f.mbits := Nat.two_pow_pos _
    split
    · rename_i he
      have hq : m / 2 ^ f.mbits < 2 ^ f.ebits := by
        apply Nat.div_lt_of_lt_mul
        rw [Nat.mul_comm, ← signBit_eq]
        exact hlt
      rw [Nat.mod_eq_of_lt hq] at he
      have hm : m < 2 ^ f.mbits := (Nat.div_eq_zero_iff hM).mp he
      rw [Nat.mod_eq_of_lt hm]
      exact h1
    · exact Nat.mul_pos (Nat.add_pos_left hM _) (Nat.two_pow_pos _)

theorem zero_bits (f : Format) :
    isNaN f 0 = false ∧ signOf f 0 = false ∧ numer f 0 = 0 ∧ signedNumer f 0 = 0 := by
  have a : isNaN f 0 = false := by simp [isNaN, magnitude]
  have b : signOf f 0 = false := by simp [signOf]
  have c : numer f 0 = 0 := by simp [numer]
  refine ⟨a, b, c, ?_⟩
  unfold signedNumer
  rw [b, c]
  rfl

/-- A pattern between the smallest subnormal and `+Inf` is greater than zero. -/
theorem lt_zero_bits (f : Format) (m : Nat) (h1 : 1 ≤ m) (h2 : m ≤ f.infBits) :
    lt f 0 m = true ∧ eq f m 0 = false := by
  obtain ⟨-, a, b, c⟩ := positive_bits f m h1 h2
  obtain ⟨z1, -, -, z4⟩ := zero_bits f
  have hs : signedNumer f m = (numer f m : Int) := by
    unfold signedNumer
    rw [b]
    rfl
  unfold lt eq
  rw [a, z1, z4, hs]
  constructor
  · simp only [Bool.not_false, Bool.true_and, decide_eq_true_eq]
    exact_mod_cast c
  · simp only [Bool.not_false, Bool.true_and, decide_eq_false_iff_not]
    intro h
    have : numer f m = 0 := by exact_mod_cast h
    omega

/-- Rounding a quotient that is at least the smallest subnormal gives a pattern
between the smallest subnormal and `+Inf`. -/
theorem roundRat_bits (f : Format) (n d : Nat) (he : 1 ≤ f.ebits) (hd : 0 < d)
    (h : d ≤ n * 2 ^ f.scaleExp) :
    1 ≤ roundRat f false n d ∧ roundRat f false n d ≤ f.infBits := by
  rw [roundRat_eq]
  unfold withSign
  simp only [Bool.false_eq_true, if_false, Nat.zero_add]
  refine ⟨?_, Nat.min_le_left _ _⟩
  apply Nat.le_min.mpr
  refine ⟨one_le_infBits f he, ?_⟩
  rcases Nat.eq_zero_or_pos (ilog2 (n * 2 ^ f.scaleExp / d) - f.mbits) with hq | hq
  · rw [hq, Nat.zero_mul, Nat.zero_add, Nat.pow_zero, Nat.mul_one]
    exact Nat.le_trans (Nat.div_pos h hd) (roundHalfEven_bounds _ _).1
  · have : 1 ≤ (ilog2 (n * 2 ^ f.scaleExp / d) - f.mbits) * 2 ^ f.mbits :=
      Nat.mul_pos hq (Nat.two_pow_pos _)
    omega

/-- Negation of a positive pattern: same numerator, sign `-`, no NaN. -/
theorem neg_bits (f : Format) (m : Nat) (h1 : 1 ≤ m) (h2 : m ≤ f.infBits) :
    isNaN f (neg f m) = false ∧ signOf f (neg f m) = true ∧
    numer f (neg f m) = numer f m := by
  obtain ⟨a, -, b, -⟩ := positive_bits f m h1 h2
  have hlt : m < f.signBit := lt_of_le_of_lt h2 (infBits_lt_signBit f)
  have hS : 0 < f.signBit := Nat.two_pow_pos _
  have hn : neg f m = f.signBit + m := by
    unfold neg withSign
    rw [a, b]
    rfl
  rw [hn]
  have hmag : magnitude f (f.signBit + m) = m := by
    unfold magnitude
    rw [Nat.add_mod_left, Nat.mod_eq_of_lt hlt]
  refine ⟨?_, ?_, ?_⟩
  · unfold isNaN
    rw [hmag]
    exact decide_eq_false (Nat.not_lt.mpr h2)
  · unfold signOf
    rw [Nat.add_div_left _ hS, Nat.div_eq_of_lt hlt]
    rfl
  · unfold numer
    have hM : 0 < 2 ^ f.mbits := Nat.two_pow_pos _
    have e1 : (f.signBit + m) / 2 ^ f.mbits % 2 ^ f.ebits = m / 2 ^ f.mbits % 2 ^ f.ebits := by
      rw [signBit_eq, Nat.add_comm, Nat.add_mul_div_right _ _ hM, Nat.add_mod_right]
    have e2 : (f.signBit + m) % 2 ^ f.mbits = m % 2 ^ f.mbits := by
      rw [signBit_eq, Nat.add_comm, Nat.add_mul_mod_self_right]
    simp only [e1, e2]

/-- Comparisons between a positive pattern and its negation. -/
theorem eq_neg_bits (f : Format) (m : Nat) (h1 : 1 ≤ m) (h2 : m ≤ f.infBits) :
    eq f m m = true ∧ eq f (neg f m) (neg f m) = true ∧
    eq f m (neg f m) = false ∧ eq f (neg f m) m = false := by
  obtain ⟨-, a, b, c⟩ := positive_bits f m h1 h2
  obtain ⟨a', b', c'⟩ := neg_bits f m h1 h2
  have hs : signedNumer f m = (numer f m : Int) := by
    unfold signedNumer
    rw [b]
    rfl
  have hs' : signedNumer f (neg f m) = -(numer f m : Int) := by
    unfold signedNumer
    rw [b', c']
    rfl
  have hpos : (0 : Int) < (numer f m : Int) := by exact_mod_cast c
  unfold eq
  rw [a, a', hs, hs']
  refine ⟨by simp, by simp, ?_, ?_⟩
  · simp only [Bool.not_false, Bool.true_and, decide_eq_false_iff_not]
    omega
  · simp only [Bool.not_false, Bool.true_and, decide_eq_false_iff_not]
    omega

end IEEE


/-! ## Member-space heights -/

namespace IEEE

/-- The conversion `float64(n)` of a positive `int` is at least 1.0 and at most
`+Inf`, as patterns. -/
theorem ofInt_bits (n : Nat) (h1 : 1 ≤ n) :
    1023 * 2 ^ 52 ≤ ofInt binary64 n ∧ ofInt binary64 n ≤ binary64.infBits := by
  rw [ofInt_natCast, roundRat_eq]
  have e1 : binary64.scaleExp = 1074 := rfl
  have e2 : binary64.mbits = 52 := rfl
  have e3 : binary64.infBits = 2047 * 2 ^ 52 := rfl
  unfold withSign
  simp only [Bool.false_eq_true, if_false, Nat.zero_add, e1, e2, Nat.div_one, Nat.one_mul]
  refine ⟨?_, Nat.min_le_left _ _⟩
  have hC : 0 < 2 ^ 1074 := Nat.two_pow_pos 1074
  have hpos : 1 ≤ n * 2 ^ 1074 := Nat.mul_pos h1 hC
  have hge : 2 ^ 1074 ≤ n * 2 ^ 1074 := Nat.le_mul_of_pos_left _ h1
  obtain ⟨l, u⟩ := ilog2_spec (n * 2 ^ 1074) hpos
  have t1 : 1074 < ilog2 (n * 2 ^ 1074) + 1 :=
    (Nat.pow_lt_pow_iff_right (by norm_num : 1 < 2)).mp (Nat.lt_of_le_of_lt hge u)
  generalize ilog2 (n * 2 ^ 1074) = t at l u t1
  generalize n * 2 ^ 1074 = N at l u hpos hge
  have hq : 0 < 2 ^ (t - 52) := Nat.two_pow_pos _
  have hsplit : 2 ^ t = 2 ^ 52 * 2 ^ (t - 52) := by
    rw [← pow_add]
    congr 1
    omega
  have hk : 2 ^ 52 ≤ N / 2 ^ (t - 52) := by
    rw [Nat.le_div_iff_mul_le hq, ← hsplit]
    exact l
  have hr := (roundHalfEven_bounds N (2 ^ (t - 52))).1
  apply Nat.le_min.mpr
  rw [e3]
  refine ⟨Nat.mul_le_mul_right _ (by norm_num), ?_⟩
  have hq2 : 1022 ≤ t - 52 := by omega
  have hm : 1022 * 2 ^ 52 ≤ (t - 52) * 2 ^ 52 := Nat.mul_le_mul_right _ hq2
  generalize roundHalfEven N (2 ^ (t - 52)) = r at hr
  generalize N / 2 ^ (t - 52) = k at hk hr
  generalize (t - 52) * 2 ^ 52 = a at hm
  omega

/-- A `float64` pattern from 1.0 up to `+Inf` has a numerator of at least
`2 ^ 1074`, the numerator of 1.0. -/
theorem numer_ge_one (m : Nat) (h1 : 1023 * 2 ^ 52 ≤ m) (h2 : m ≤ 2047 * 2 ^ 52) :
    2 ^ 1074 ≤ numer binary64 m := by
  have e2 : binary64.mbits = 52 := rfl
  have e3 : binary64.ebits = 11 := rfl
  unfold numer
  rw [e2, e3]
  have he : m / 2 ^ 52 % 2 ^ 11 = m / 2 ^ 52 := by omega
  have hlo : 1023 ≤ m / 2 ^ 52 := by omega
  simp only [he]
  rw [if_neg (by omega)]
  have hp : 2 ^ 1022 ≤ 2 ^ (m / 2 ^ 52 - 1) := Nat.pow_le_pow_right (by norm_num) (by omega)
  have hsplit : (2 : Nat) ^ 1074 = 2 ^ 52 * 2 ^ 1022 := pow_add 2 52 1022
  rw [hsplit]
  exact Nat.mul_le_mul (Nat.le_add_right _ _) hp

/-- The product of a `float64` that is at least 1.0 with a positive finite
constant is positive: it does not underflow to zero. -/
theorem mul_bits (x c : Nat) (h1 : 1023 * 2 ^ 52 ≤ x) (h2 : x ≤ binary64.infBits)
    (c1 : isNaN binary64 c = false) (c2 : isInf binary64 c = false)
    (c3 : signOf binary64 c = false) (c4 : magnitude binary64 c ≠ 0)
    (c5 : 1 ≤ numer binary64 c) :
    1 ≤ mul binary64 x c ∧ mul binary64 x c ≤ binary64.infBits := by
  have e3 : binary64.infBits = 2047 * 2 ^ 52 := rfl
  have hx1 : 1 ≤ x := Nat.le_trans (Nat.mul_pos (by norm_num) (Nat.two_pow_pos 52)) h1
  obtain ⟨a, b, s, -⟩ := positive_bits binary64 x hx1 h2
  have hs : binary64.scaleExp = 1074 := rfl
  have hnum := numer_ge_one x h1 (by rw [← e3]; exact h2)
  unfold mul
  simp only [b, c1, c2, s, c3, Bool.false_eq_true, or_self, if_false, bne_self_eq_false,
    or_false]
  by_cases hinf : isInf binary64 x = true
  · rw [if_pos hinf, if_neg]
    · unfold withSign
      simp only [Bool.false_eq_true, if_false, Nat.zero_add]
      exact ⟨one_le_infBits binary64 (by decide), Nat.le_refl _⟩
    · rw [a]
      intro h
      rcases h with h | h
      · omega
      · exact c4 h
  · rw [if_neg hinf]
    apply roundRat_bits binary64 _ _ (by decide) (Nat.mul_pos (Nat.two_pow_pos _) (Nat.two_pow_pos _))
    rw [hs]
    apply Nat.mul_le_mul_right
    calc 2 ^ 1074 = 2 ^ 1074 * 1 := (Nat.mul_one _).symm
      _ ≤ numer binary64 x * numer binary64 c := Nat.mul_le_mul hnum c5

theorem member_constants :
    (isNaN binary64 (f64 2 10) = false ∧ isInf binary64 (f64 2 10) = false ∧
      signOf binary64 (f64 2 10) = false ∧ magnitude binary64 (f64 2 10) ≠ 0 ∧
      1 ≤ numer binary64 (f64 2 10)) ∧
    (isNaN binary64 (f64 15 100) = false ∧ isInf binary64 (f64 15 100) = false ∧
      signOf binary64 (f64 15 100) = false ∧ magnitude binary64 (f64 15 100) ≠ 0 ∧
      1 ≤ numer binary64 (f64 15 100)) := by decide!

theorem member_zero :
    (eq binary64 (mul binary64 (ofInt binary64 ((0 : Nat) : Int)) (f64 2 10)) (f64 0 1) = true ∧
      mul binary64 (ofInt binary64 ((1 : Nat) : Int)) (f64 2 10) = f64 2 10) ∧
    (eq binary64 (mul binary64 (ofInt binary64 ((0 : Nat) : Int)) (f64 15 100)) (f64 0 1) = true ∧
      mul binary64 (ofInt binary64 ((1 : Nat) : Int)) (f64 15 100) = f64 15 100) := by decide!

end IEEE

section
open IEEE

/-- The member-space height `float64(n) * unit`, replaced by `unit` when it is
zero, is `float64(max(n, 1)) * unit`, and it is positive. -/
theorem member_height (n : Nat) (c : float64)
    (hc : isNaN binary64 c = false ∧ isInf binary64 c = false ∧
      signOf binary64 c = false ∧ magnitude binary64 c ≠ 0 ∧ 1 ≤ numer binary64 c)
    (h0 : eq binary64 (mul binary64 (ofInt binary64 ((0 : Nat) : Int)) c) (f64 0 1) = true ∧
      mul binary64 (ofInt binary64 ((1 : Nat) : Int)) c = c) :
    (if eq binary64 (mul binary64 (ofInt binary64 (n : Int)) c) (f64 0 1) = true then c
      else mul binary64 (ofInt binary64 (n : Int)) c)
      = mul binary64 (ofInt binary64 ((max n 1 : Nat) : Int)) c ∧
    lt binary64 (f64 0 1) (mul binary64 (ofInt binary64 ((max n 1 : Nat) : Int)) c) = true := by
  have hz : f64 0 1 = 0 := zero_facts.1
  have hpos : ∀ k : Nat, 1 ≤ k →
      lt binary64 (f64 0 1) (mul binary64 (ofInt binary64 (k : Int)) c) = true ∧
      eq binary64 (mul binary64 (ofInt binary64 (k : Int)) c) (f64 0 1) = false := by
    intro k hk
    obtain ⟨b1, b2⟩ := ofInt_bits k hk
    obtain ⟨m1, m2⟩ := mul_bits _ c b1 b2 hc.1 hc.2.1 hc.2.2.1 hc.2.2.2.1 hc.2.2.2.2
    rw [hz]
    exact lt_zero_bits binary64 _ m1 m2
  rcases Nat.eq_zero_or_pos n with hn | hn
  · subst hn
    have hm : max 0 1 = 1 := rfl
    rw [if_pos h0.1, hm, h0.2]
    refine ⟨rfl, ?_⟩
    have := (hpos 1 (Nat.le_refl 1)).1
    rw [h0.2] at this
    exact this
  · have hm : max n 1 = n := Nat.max_eq_left hn
    rw [hm, (hpos n hn).2]
    exact ⟨by simp, (hpos n hn).1⟩

theorem empty_member_heights :
    toFloat32 (add binary64 (f64 4 10)
        (mul binary64 (ofInt binary64 ((max 0 1 : Nat) : Int)) (f64 2 10)))
      = ofRat binary32 6 10 ∧
    toFloat32 (add binary64 (f64 3 10)
        (mul binary64 (ofInt binary64 ((max 0 1 : Nat) : Int)) (f64 15 100)))
      = ofRat binary32 45 100 := by decide!

/-- C11. The member space of a box never has height zero. For an interface
with `n` operations the height that `GenerateInterfaceWireframe` passes to
`createWireframeBox` is `0.4 + 0.2 * max(n, 1)`, for an enum with `n` literals
`GenerateEnumWireframe` passes `0.3 + 0.15 * max(n, 1)` (in `float64` arithmetic,
converted to `float32`), and the member term is positive. With no member the
member height is 0.2 for an interface (box height 0.6) and 0.15 for an enum (box
height 0.45). -/
theorem member_space_heights (iface : extuml.Interface) (enum : extuml.Enum) (p q : Vec3) :
    (GenerateInterfaceWireframe iface p).2.2
      = createBufferData
          (createWireframeBox (toFloat32 (f64 2 1))
            (toFloat32 (add binary64 (f64 4 10)
              (mul binary64 (ofInt binary64 ((max iface.Operations.length 1 : Nat) : Int))
                (f64 2 10))))
            (toFloat32 (f64 5 10)) 2 [toFloat32 (f64 4 10)]).1
          (createWireframeBox (toFloat32 (f64 2 1))
            (toFloat32 (add binary64 (f64 4 10)
              (mul binary64 (ofInt binary64 ((max iface.Operations.length 1 : Nat) : Int))
                (f64 2 10))))
            (toFloat32 (f64 5 10)) 2 [toFloat32 (f64 4 10)]).2 ∧
    lt binary64 (f64 0 1)
      (mul binary64 (ofInt binary64 ((max iface.Operations.length 1 : Nat) : Int)) (f64 2 10))
      = true ∧
    (GenerateEnumWireframe enum q).2.2
      = createBufferData
          (createWireframeBox (toFloat32 (f64 15 10))
            (toFloat32 (add binary64 (f64 3 10)
              (mul binary64 (ofInt binary64 ((max enum.Literals.length 1 : Nat) : Int))
                (f64 15 100))))
            (toFloat32 (f64 4 10)) 2 [toFloat32 (f64 3 10)]).1
          (createWireframeBox (toFloat32 (f64 15 10))
            (toFloat32 (add binary64 (f64 3 10)
              (mul binary64 (ofInt binary64 ((max enum.Literals.length 1 : Nat) : Int))
                (f64 15 100))))
            (toFloat32 (f64 4 10)) 2 [toFloat32 (f64 3 10)]).2 ∧
    lt binary64 (f64 0 1)
      (mul binary64 (ofInt binary64 ((max enum.Literals.length 1 : Nat) : Int)) (f64 15 100))
      = true ∧
    mul binary64 (ofInt binary64 ((max 0 1 : Nat) : Int)) (f64 2 10) = f64 2 10 ∧
    toFloat32 (add binary64 (f64 4 10)
        (mul binary64 (ofInt binary64 ((max 0 1 : Nat) : Int)) (f64 2 10)))
      = ofRat binary32 6 10 ∧
    mul binary64 (ofInt binary64 ((max 0 1 : Nat) : Int)) (f64 15 100) = f64 15 100 ∧
    toFloat32 (add binary64 (f64 3 10)
        (mul binary64 (ofInt binary64 ((max 0 1 : Nat) : Int)) (f64 15 100)))
      = ofRat binary32 45 100 := by
  obtain ⟨i1, i2⟩ := member_height iface.Operations.length (f64 2 10) member_constants.1
    member_zero.1
  obtain ⟨e1, e2⟩ := member_height enum.Literals.length (f64 15 100) member_constants.2
    member_zero.2
  refine ⟨?_, i2, ?_, e2, member_zero.1.2, empty_member_heights.1, member_zero.2.2,
    empty_member_heights.2⟩
  · unfold GenerateInterfaceWireframe
    simp only
    rw [i1]
  · unfold GenerateEnumWireframe
    simp only
    rw [e1]

end


/-! ## The simple wireframe box -/

namespace IEEE

theorem two_facts32 :
    isNaN binary32 (ofRat binary32 2 1) = false ∧ isInf binary32 (ofRat binary32 2 1) = false ∧
    signOf binary32 (ofRat binary32 2 1) = false ∧ magnitude binary32 (ofRat binary32 2 1) ≠ 0 ∧
    numer binary32 (ofRat binary32 2 1) = 2 * 2 ^ 149 ∧
    isNaN binary32 1 = false ∧ signedNumer binary32 1 = 1 := by decide!

/-- Half of a `float32` above the smallest positive value `2 ^ -149` is positive:
the division by two does not underflow to zero. -/
theorem half_bits (x : Nat) (h : lt binary32 1 x = true) :
    1 ≤ div binary32 x (ofRat binary32 2 1) ∧
    div binary32 x (ofRat binary32 2 1) ≤ binary32.infBits := by
  obtain ⟨t1, t2, t3, t4, t5, o1, o2⟩ := two_facts32
  unfold lt at h
  rw [o1, o2] at h
  simp only [Bool.not_false, Bool.true_and, Bool.and_eq_true, Bool.not_eq_true',
    decide_eq_true_eq] at h
  obtain ⟨hnan, hgt⟩ := h
  have hs : signOf binary32 x = false := by
    by_contra hc
    have hc' : signOf binary32 x = true := by simpa using hc
    unfold signedNumer at hgt
    rw [hc'] at hgt
    simp only [if_true] at hgt
    have : (0 : Int) ≤ (numer binary32 x : Int) := Int.natCast_nonneg _
    omega
  have hn : 2 ≤ numer binary32 x := by
    unfold signedNumer at hgt
    rw [hs] at hgt
    simp only [Bool.false_eq_true, if_false] at hgt
    omega
  have hsc : binary32.scaleExp = 149 := rfl
  unfold div
  simp only [hnan, t1, t2, hs, t3, Bool.false_eq_true, or_self, if_false, bne_self_eq_false]
  by_cases hinf : isInf binary32 x = true
  · rw [if_pos hinf]
    unfold withSign
    simp only [Bool.false_eq_true, if_false, Nat.zero_add]
    exact ⟨one_le_infBits binary32 (by decide), Nat.le_refl _⟩
  · rw [if_neg hinf, if_neg t4, t5]
    apply roundRat_bits binary32 _ _ (by decide)
      (Nat.mul_pos (by norm_num) (Nat.two_pow_pos _))
    rw [hsc]
    exact Nat.mul_le_mul_right _ hn

end IEEE

section
open IEEE

theorem boxCornerVertices_corners (w h d : float32) :
    cornerAt (boxCornerVertices w h d) 0 = (neg binary32 w, neg binary32 h, d) ∧
    cornerAt (boxCornerVertices w h d) 1 = (w, neg binary32 h, d) ∧
    cornerAt (boxCornerVertices w h d) 2 = (w, neg binary32 h, neg binary32 d) ∧
    cornerAt (boxCornerVertices w h d) 3 = (neg binary32 w, neg binary32 h, neg binary32 d) ∧
    cornerAt (boxCornerVertices w h d) 4 = (neg binary32 w, h, d) ∧
    cornerAt (boxCornerVertices w h d) 5 = (w, h, d) ∧
    cornerAt (boxCornerVertices w h d) 6 = (w, h, neg binary32 d) ∧
    cornerAt (boxCornerVertices w h d) 7 = (neg binary32 w, h, neg binary32 d) :=
  ⟨rfl, rfl, rfl, rfl, rfl, rfl, rfl, rfl⟩

theorem boxEdgeIndices_segments :
    (List.range 12).map (segmentAt boxEdgeIndices)
      = [(0, 1), (1, 2), (2, 3), (3, 0), (4, 5), (5, 6), (6, 7), (7, 4),
         (0, 4), (1, 5), (2, 6), (3, 7)] := by decide

theorem boxEdgeIndices_distinct :
    ∀ s, s < 12 → ∀ t, t < 12 → s ≠ t →
      segmentAt boxEdgeIndices s ≠ segmentAt boxEdgeIndices t ∧
      segmentAt boxEdgeIndices s
        ≠ ((segmentAt boxEdgeIndices t).2, (segmentAt boxEdgeIndices t).1) := by decide

/-- The box wireframe property of the corner and edge tables, for half extents
that are positive patterns. -/
theorem boxCornerVertices_wireframe (w h d : float32)
    (hw : 1 ≤ w ∧ w ≤ binary32.infBits) (hh : 1 ≤ h ∧ h ≤ binary32.infBits)
    (hd : 1 ≤ d ∧ d ≤ binary32.infBits) :
    IsBoxWireframe w h d (boxCornerVertices w h d) boxEdgeIndices := by
  obtain ⟨w1, w2, w3, w4⟩ := eq_neg_bits binary32 w hw.1 hw.2
  obtain ⟨h1, h2, h3, h4⟩ := eq_neg_bits binary32 h hh.1 hh.2
  obtain ⟨d1, d2, d3, d4⟩ := eq_neg_bits binary32 d hd.1 hd.2
  obtain ⟨c0, c1, c2, c3, c4, c5, c6, c7⟩ := boxCornerVertices_corners w h d
  refine ⟨rfl, rfl, ?_, ?_, ?_, boxEdgeIndices_distinct⟩
  · intro j hj
    interval_cases j
    · exact ⟨true, true, false, c0⟩
    · exact ⟨false, true, false, c1⟩
    · exact ⟨false, true, true, c2⟩
    · exact ⟨true, true, true, c3⟩
    · exact ⟨true, false, false, c4⟩
    · exact ⟨false, false, false, c5⟩
    · exact ⟨false, false, true, c6⟩
    · exact ⟨true, false, true, c7⟩
  · intro i hi j hj hne
    interval_cases i <;> interval_cases j <;>
      first
      | exact absurd rfl hne
      | simp [c0, c1, c2, c3, c4, c5, c6, c7, coordsDiffering, w1, w2, w3, w4, h1, h2, h3, h4,
          d1, d2, d3, d4]
  · intro t ht
    have hseg : ∀ t, t < 12 → segmentAt boxEdgeIndices t
        = ([(0, 1), (1, 2), (2, 3), (3, 0), (4, 5), (5, 6), (6, 7), (7, 4),
            (0, 4), (1, 5), (2, 6), (3, 7)] : List (Nat × Nat)).getD t (0, 0) := by decide
    rw [hseg t ht]
    interval_cases t <;>
      simp [c0, c1, c2, c3, c4, c5, c6, c7, coordsDiffering, w1, w2, w3, w4, h1, h2, h3, h4,
        d1, d2, d3, d4]

/-- C13 (as stated, refuted). The smallest positive `float32`, `2 ^ -149` (bit
pattern 1), is a positive width, height and depth, but its half rounds to zero:
all eight vertices of the box that `createSimpleWireframeBox` builds for it are
the same point, so they are not eight distinct corners. -/
theorem createSimpleWireframeBox_smallest_positive :
    lt binary32 0 1 = true ∧ signedNumer binary32 1 = 1 ∧
    div binary32 1 (ofRat binary32 2 1) = 0 ∧
    coordsDiffering (cornerAt (createSimpleWireframeBox 1 1 1).1 0)
      (cornerAt (createSimpleWireframeBox 1 1 1).1 1) = 0 ∧
    ¬ IsBoxWireframe (div binary32 1 (ofRat binary32 2 1)) (div binary32 1 (ofRat binary32 2 1))
        (div binary32 1 (ofRat binary32 2 1))
        (createSimpleWireframeBox 1 1 1).1 (createSimpleWireframeBox 1 1 1).2 := by
  have h01 : coordsDiffering (cornerAt (createSimpleWireframeBox 1 1 1).1 0)
      (cornerAt (createSimpleWireframeBox 1 1 1).1 1) = 0 := by decide!
  refine ⟨by decide!, by decide!, by decide!, h01, ?_⟩
  intro h
  exact h.2.2.2.1 0 (by norm_num) 1 (by norm_num) (by norm_num) h01

/-- C13 (amended). For width, height and depth greater than the smallest positive
`float32` value `2 ^ -149`, `createSimpleWireframeBox` returns exactly 8 vertices,
each a corner `(±width/2, ±height/2, ±depth/2)` and pairwise distinct, and 24
indices forming 12 segments, each joining two corners that differ in exactly
one coordinate, no two joining the same pair of corners: the 12 edges of the
box. -/
theorem createSimpleWireframeBox_wireframe (width height depth : float32)
    (hw : lt binary32 1 width = true) (hh : lt binary32 1 height = true)
    (hd : lt binary32 1 depth = true) :
    IsBoxWireframe (div binary32 width (ofRat binary32 2 1))
      (div binary32 height (ofRat binary32 2 1)) (div binary32 depth (ofRat binary32 2 1))
      (createSimpleWireframeBox width height depth).1
      (createSimpleWireframeBox width height depth).2 ∧
    lt binary32 0 (div binary32 width (ofRat binary32 2 1)) = true ∧
    lt binary32 0 (div binary32 height (ofRat binary32 2 1)) = true ∧
    lt binary32 0 (div binary32 depth (ofRat binary32 2 1)) = true :=
  ⟨boxCornerVertices_wireframe _ _ _ (half_bits width hw) (half_bits height hh)
      (half_bits depth hd),
    (lt_zero_bits binary32 _ (half_bits width hw).1 (half_bits width hw).2).1,
    (lt_zero_bits binary32 _ (half_bits height hh).1 (half_bits height hh).2).1,
    (lt_zero_bits binary32 _ (half_bits depth hd).1 (half_bits depth hd).2).1⟩

theorem createSimpleWireframeBox_wireframe_witness :
    lt binary32 1 (ofRat binary32 25 10) = true ∧
    IsBoxWireframe (div binary32 (ofRat binary32 25 10) (ofRat binary32 2 1))
      (div binary32 (ofRat binary32 25 10) (ofRat binary32 2 1))
      (div binary32 (ofRat binary32 25 10) (ofRat binary32 2 1))
      (createSimpleWireframeBox (ofRat binary32 25 10) (ofRat binary32 25 10)
        (ofRat binary32 25 10)).1
      (createSimpleWireframeBox (ofRat binary32 25 10) (ofRat binary32 25 10)
        (ofRat binary32 25 10)).2 :=
  ⟨by decide!,
   (createSimpleWireframeBox_wireframe (ofRat binary32 25 10) (ofRat binary32 25 10)
      (ofRat binary32 25 10) (by decide!) (by decide!) (by decide!)).1⟩

end

/-! ## Consistency of a recovered layout -/

/-- C30. Whenever `calculateBufferLayout` returns a non-zero vertex count, the
layout `(vc, ic, vb, io)` it returns fits the buffer length `L`:
`1 ≤ vc ≤ 100`, `ic ≥ 1`, `vb = 12 * vc`, `io = vb` and `io + 2 * ic = L`. -/
theorem calculateBufferLayout_consistent (bufferData : List Nat)
    (h : (calculateBufferLayout bufferData).1 ≠ 0) :
    1 ≤ (calculateBufferLayout bufferData).1 ∧
    (calculateBufferLayout bufferData).1 ≤ 100 ∧
    1 ≤ (calculateBufferLayout bufferData).2.1 ∧
    (calculateBufferLayout bufferData).2.2.1 = 12 * (calculateBufferLayout bufferData).1 ∧
    (calculateBufferLayout bufferData).2.2.2 = (calculateBufferLayout bufferData).2.2.1 ∧
    (calculateBufferLayout bufferData).2.2.2 + 2 * (calculateBufferLayout bufferData).2.1
      = bufferData.length := by
  by_cases hw : ∃ v, WindowCandidate bufferData.length v
  · obtain ⟨v0, hv0⟩ := hw
    have hinv := layoutWindowLoop_inv bufferData.length 100 1 ⟨0, 0, 0, 0, f64 0 1⟩
      (by omega) (by omega) (Or.inl ⟨rfl, fun v h1 h2 => by omega⟩)
    rcases hinv with hl | hr
    · exact absurd hv0 (hl.2 v0 hv0.1 (by have := hv0.2.1; omega))
    · obtain ⟨-, hbc, hic, hvb, hio, -, -⟩ := hr
      have hne : ¬ (layoutWindowLoop bufferData.length 100 1 ⟨0, 0, 0, 0, f64 0 1⟩).bestVC = 0 := by
        have := hbc.1
        omega
      have hres : calculateBufferLayout bufferData =
          ((layoutWindowLoop bufferData.length 100 1 ⟨0, 0, 0, 0, f64 0 1⟩).bestVC,
           (layoutWindowLoop bufferData.length 100 1 ⟨0, 0, 0, 0, f64 0 1⟩).bestIC,
           (layoutWindowLoop bufferData.length 100 1 ⟨0, 0, 0, 0, f64 0 1⟩).bestVB,
           LayoutState.bestIO (layoutWindowLoop bufferData.length 100 1 ⟨0, 0, 0, 0, f64 0 1⟩)) := by
        unfold calculateBufferLayout
        simp only
        rw [if_neg hne]
      rw [hres]
      simp only
      unfold WindowCandidate indexCountFor at hbc
      unfold indexCountFor at hic
      generalize (layoutWindowLoop bufferData.length 100 1 ⟨0, 0, 0, 0, f64 0 1⟩).bestVC = vc
        at hbc hic hvb hio
      omega
  · have hno : ∀ v, ¬ WindowCandidate bufferData.length v := fun v hv => hw ⟨v, hv⟩
    obtain ⟨hinv, hres⟩ := calculateBufferLayout_of_no_window bufferData hno
    rw [hres] at h ⊢
    simp only at h ⊢
    rcases hinv with hl | hr
    · exact absurd hl.1 h
    · obtain ⟨-, hbc, hic, hvb, hio, -⟩ := hr
      unfold FallbackCandidate indexCountFor at hbc
      unfold indexCountFor at hic
      generalize (layoutFallbackLoop bufferData.length 100 1 ⟨0, 0, 0, 0, f64 0 1⟩).bestVC = vc
        at hbc hic hvb hio
      omega

theorem calculateBufferLayout_consistent_witness :
    (calculateBufferLayout (List.replicate 144 0)).1 ≠ 0 ∧
    (calculateBufferLayout (List.replicate 144 0)).2.2.2
      + 2 * (calculateBufferLayout (List.replicate 144 0)).2.1
      = (List.replicate 144 0).length :=
  ⟨by rw [calculateBufferLayout_144]; decide,
   (calculateBufferLayout_consistent (List.replicate 144 0)
      (by rw [calculateBufferLayout_144]; decide)).2.2.2.2.2⟩

/-! ## The asset tables are append-only -/

theorem TablesExtend_trans {a b c : gltf.GLTFAsset} (h1 : TablesExtend a b)
    (h2 : TablesExtend b c) : TablesExtend a c :=
  ⟨h1.1.trans h2.1, h1.2.1.trans h2.2.1, h1.2.2.1.trans h2.2.2.1,
    h1.2.2.2.1.trans h2.2.2.2.1, h1.2.2.2.2.1.trans h2.2.2.2.2.1,
    h1.2.2.2.2.2.trans h2.2.2.2.2.2⟩

theorem addTextLabel_extends (text : String) (position : Vec3) (billboard : Bool)
    (url : String) (a : gltf.GLTFAsset) :
    TablesExtend a (addTextLabel text position billboard url a).1 := by
  obtain ⟨nd, hn, -⟩ := addTextLabel_Nodes text position billboard url a
  obtain ⟨mat, hm⟩ := addTextLabel_Materials text position billboard url a
  refine ⟨?_, ?_, ?_, ?_, ?_, ?_⟩
  · rw [hn]; exact List.prefix_append _ _
  · rw [addTextLabel_Meshes]; exact List.prefix_append _ _
  · rw [hm]; exact List.prefix_append _ _
  · rw [addTextLabel_Buffers]; exact List.prefix_append _ _
  · rw [addTextLabel_BufferViews]; exact List.prefix_append _ _
  · rw [addTextLabel_Accessors]; exact List.prefix_append _ _

theorem classBoxStage_extends (x : extuml.Class) (position : Vec3) (a : gltf.GLTFAsset) :
    TablesExtend a (classBoxStage x position a) := by
  obtain ⟨nd, hn, -⟩ := classBoxStage_Nodes x position a
  refine ⟨?_, ?_, ?_, ?_, ?_, ?_⟩
  · rw [hn]; exact List.prefix_append _ _
  · rw [classBoxStage_Meshes]; exact List.prefix_append _ _
  · rw [classBoxStage_Materials]; exact List.prefix_append _ _
  · rw [classBoxStage_Buffers]; exact List.prefix_append _ _
  · rw [classBoxStage_BufferViews]; exact List.prefix_append _ _
  · rw [classBoxStage_Accessors]; exact List.prefix_append _ _

theorem addClassToScene_extends (x : extuml.Class) (position : Vec3) (a : gltf.GLTFAsset)
    (n : Nat) : TablesExtend a (addClassToScene x position a n).1 := by
  rw [addClassToScene_eq]
  exact TablesExtend_trans (classBoxStage_extends x position a) (addTextLabel_extends _ _ _ _ _)

theorem addInterfaceToScene_extends (x : extuml.Interface) (position : Vec3)
    (a : gltf.GLTFAsset) (n : Nat) : TablesExtend a (addInterfaceToScene x position a n).1 := by
  obtain ⟨nd, hn, -⟩ := addInterfaceToScene_Nodes x position a n
  refine ⟨?_, ?_, ?_, ?_, ?_, ?_⟩
  · rw [hn]; exact List.prefix_append _ _
  · rw [addInterfaceToScene_Meshes]; exact List.prefix_append _ _
  · rw [addInterfaceToScene_Materials]; exact List.prefix_append _ _
  · rw [addInterfaceToScene_Buffers]; exact List.prefix_append _ _
  · rw [addInterfaceToScene_BufferViews]; exact List.prefix_append _ _
  · rw [addInterfaceToScene_Accessors]; exact List.prefix_append _ _

theorem addEnumToScene_extends (x : extuml.Enum) (position : Vec3)
    (a : gltf.GLTFAsset) (n : Nat) : TablesExtend a (addEnumToScene x position a n).1 := by
  obtain ⟨nd, hn, -⟩ := addEnumToScene_Nodes x position a n
  refine ⟨?_, ?_, ?_, ?_, ?_, ?_⟩
  · rw [hn]; exact List.prefix_append _ _
  · rw [addEnumToScene_Meshes]; exact List.prefix_append _ _
  · rw [addEnumToScene_Materials]; exact List.prefix_append _ _
  · rw [addEnumToScene_Buffers]; exact List.prefix_append _ _
  · rw [addEnumToScene_BufferViews]; exact List.prefix_append _ _
  · rw [addEnumToScene_Accessors]; exact List.prefix_append _ _

/-- C26. The asset tables are append-only: after `addClassToScene`,
`addInterfaceToScene`, `addEnumToScene` or `addTextLabel` each of the tables
nodes, meshes, materials, buffers, bufferViews and accessors has its previous
contents as an unchanged prefix. -/
theorem tables_append_only (cls : extuml.Class) (iface : extuml.Interface)
    (enum : extuml.Enum) (text url : String) (billboard : Bool) (position : Vec3)
    (asset : gltf.GLTFAsset) (nodeIndex : Nat) :
    (asset.Nodes <+: (addClassToScene cls position asset nodeIndex).1.Nodes ∧
      asset.Meshes <+: (addClassToScene cls position asset nodeIndex).1.Meshes ∧
      asset.Materials <+: (addClassToScene cls position asset nodeIndex).1.Materials ∧
      asset.Buffers <+: (addClassToScene cls position asset nodeIndex).1.Buffers ∧
      asset.BufferViews <+: (addClassToScene cls position asset nodeIndex).1.BufferViews ∧
      asset.Accessors <+: (addClassToScene cls position asset nodeIndex).1.Accessors) ∧
    (asset.Nodes <+: (addInterfaceToScene iface position asset nodeIndex).1.Nodes ∧
      asset.Meshes <+: (addInterfaceToScene iface position asset nodeIndex).1.Meshes ∧
      asset.Materials <+: (addInterfaceToScene iface position asset nodeIndex).1.Materials ∧
      asset.Buffers <+: (addInterfaceToScene iface position asset nodeIndex).1.Buffers ∧
      asset.BufferViews <+: (addInterfaceToScene iface position asset nodeIndex).1.BufferViews ∧
      asset.Accessors <+: (addInterfaceToScene iface position asset nodeIndex).1.Accessors) ∧
    (asset.Nodes <+: (addEnumToScene enum position asset nodeIndex).1.Nodes ∧
      asset.Meshes <+: (addEnumToScene enum position asset nodeIndex).1.Meshes ∧
      asset.Materials <+: (addEnumToScene enum position asset nodeIndex).1.Materials ∧
      asset.Buffers <+: (addEnumToScene enum position asset nodeIndex).1.Buffers ∧
      asset.BufferViews <+: (addEnumToScene enum position asset nodeIndex).1.BufferViews ∧
      asset.Accessors <+: (addEnumToScene enum position asset nodeIndex).1.Accessors) ∧
    (asset.Nodes <+: (addTextLabel text position billboard url asset).1.Nodes ∧
      asset.Meshes <+: (addTextLabel text position billboard url asset).1.Meshes ∧
      asset.Materials <+: (addTextLabel text position billboard url asset).1.Materials ∧
      asset.Buffers <+: (addTextLabel text position billboard url asset).1.Buffers ∧
      asset.BufferViews <+: (addTextLabel text position billboard url asset).1.BufferViews ∧
      asset.Accessors <+: (addTextLabel text position billboard url asset).1.Accessors) :=
  ⟨addClassToScene_extends cls position asset nodeIndex,
    addInterfaceToScene_extends iface position asset nodeIndex,
    addEnumToScene_extends enum position asset nodeIndex,
    addTextLabel_extends text position billboard url asset⟩

/-! ## Wiring is kept by an append -/

theorem prefix_getElem? {α : Type} {l1 l2 : List α} (h : l1 <+: l2) {i : Nat} {x : α}
    (hx : l1[i]? = some x) : l2[i]? = some x := by
  obtain ⟨t, rfl⟩ := h
  have hi : i < l1.length := by
    rcases Nat.lt_or_ge i l1.length with h | h
    · exact h
    · rw [List.getElem?_eq_none h] at hx
      exact absurd hx (by simp)
  rw [List.getElem?_append_left hi]
  exact hx

theorem getElem?_append_new0 {α : Type} (l r : List α) (x : α) :
    (l ++ x :: r)[l.length]? = some x := by
  rw [List.getElem?_append_right (Nat.le_refl _), Nat.sub_self]
  simp

theorem getElem?_append_new1 {α : Type} (l r : List α) (x y : α) :
    (l ++ x :: y :: r)[l.length + 1]? = some y := by
  rw [List.getElem?_append_right (Nat.le_add_right _ _), Nat.add_sub_cancel_left]
  simp

theorem getElem?_append_new2 {α : Type} (l r : List α) (x y z : α) :
    (l ++ x :: y :: z :: r)[l.length + 2]? = some z := by
  rw [List.getElem?_append_right (Nat.le_add_right _ _), Nat.add_sub_cancel_left]
  simp

/-- Wiring of an element survives every extension of the tables. -/
theorem Wired_extend {a b : gltf.GLTFAsset} (h : TablesExtend a b) {k : Nat}
    (hw : Wired a k) : Wired b k := by
  obtain ⟨hN, hMe, -, hB, hV, hA⟩ := h
  obtain ⟨nd, m, p, bu, v0, v1, data, pos, idx, posAcc, idxAcc,
    ⟨n1, n2, n3, n4, n5⟩, ⟨b1, b2, b3, b4, b5, b6, b7, b8, b9, b10, b11, b12, b13⟩,
    ⟨c1, c2, c3, c4, c5, c6, c7, c8⟩, hidx, hkind⟩ := hw
  refine ⟨nd, m, p, bu, v0, v1, data, pos, idx, posAcc, idxAcc,
    ⟨prefix_getElem? hN n1, n2, prefix_getElem? hMe n3, n4, n5⟩,
    ⟨prefix_getElem? hB b1, b2, b3, prefix_getElem? hV b4, b5, b6, b7,
      prefix_getElem? hV b8, b9, b10, b11, b12, b13⟩,
    ⟨c1, prefix_getElem? hA c2, c3, c4, c5, ?_, c7, prefix_getElem? hA c8⟩, hidx, hkind⟩
  intro kv hkv
  obtain ⟨acc, e1, e2⟩ := c6 kv hkv
  exact ⟨acc, prefix_getElem? hA e1, e2⟩

/-! ## Wiring of the appended elements -/

theorem textQuadBuffer_indices_bound :
    ∀ j, j < 6 → getUint16 textQuadBuffer (80 + 0 + 2 * j) < 4 := by decide!

theorem classBuffer_indices_bound :
    ∀ j, j < 24 → getUint16 classBuffer (96 + 0 + 2 * j) < 8 := by decide!

theorem getUint16_packed (v i : List Nat) (off : Nat) (hoff : off = 4 * v.length) (j : Nat)
    (hj : j < i.length) :
    getUint16 (createBufferData v i) (off + 0 + 2 * j) = i.getD j 0 % 2 ^ 16 := by
  have h := getUint16_createBufferData v i j hj
  rw [align4_mul_four] at h
  have e : off + 0 + 2 * j = v.length * 4 + j * 2 := by omega
  rw [e]
  exact h

theorem createWireframeBox_one_indices (w h d x : float32) (c : Nat) :
    (createWireframeBox w h d c [x]).2
      = [0, 1, 1, 2, 2, 3, 3, 0, 4, 5, 5, 6, 6, 7, 7, 4, 0, 4, 1, 5, 2, 6, 3, 7,
         8, 9, 9, 10, 10, 11, 11, 8] := rfl

theorem divided_indices_bound (w h d x : float32) (c : Nat) :
    ∀ j, j < 32 →
      getUint16 (createBufferData (createWireframeBox w h d c [x]).1
        (createWireframeBox w h d c [x]).2) (144 + 0 + 2 * j) < 12 := by
  intro j hj
  have hl := createWireframeBox_length w h d c [x]
  rw [getUint16_packed _ _ 144 (by rw [hl.1]; rfl) j (by rw [hl.2]; exact hj),
    createWireframeBox_one_indices]
  have hall : ∀ j, j < 32 →
      ([0, 1, 1, 2, 2, 3, 3, 0, 4, 5, 5, 6, 6, 7, 7, 4, 0, 4, 1, 5, 2, 6, 3, 7,
         8, 9, 9, 10, 10, 11, 11, 8] : List Nat).getD j 0 % 2 ^ 16 < 12 := by decide
  exact hall j hj

theorem interface_indices_bound (x : extuml.Interface) (position : Vec3) :
    ∀ j, j < 32 → getUint16 (GenerateInterfaceWireframe x position).2.2 (144 + 0 + 2 * j) < 12 := by
  unfold GenerateInterfaceWireframe
  simp only
  exact divided_indices_bound _ _ _ _ _

theorem enum_indices_bound (x : extuml.Enum) (position : Vec3) :
    ∀ j, j < 32 → getUint16 (GenerateEnumWireframe x position).2.2 (144 + 0 + 2 * j) < 12 := by
  unfold GenerateEnumWireframe
  simp only
  exact divided_indices_bound _ _ _ _ _

theorem class_layout (x : extuml.Class) (position : Vec3) :
    calculateBufferLayout (GenerateClassWireframe x position).2.2 = (8, 24, 96, 96) := by
  rw [calculateBufferLayout_congr _ 144 (GenerateClassWireframe_length x position)]
  exact calculateBufferLayout_144

theorem interface_layout (x : extuml.Interface) (position : Vec3) :
    calculateBufferLayout (GenerateInterfaceWireframe x position).2.2 = (12, 32, 144, 144) := by
  rw [calculateBufferLayout_congr _ 208 (GenerateInterfaceWireframe_length x position)]
  exact calculateBufferLayout_208

theorem enum_layout (x : extuml.Enum) (position : Vec3) :
    calculateBufferLayout (GenerateEnumWireframe x position).2.2 = (12, 32, 144, 144) := by
  rw [calculateBufferLayout_congr _ 208 (GenerateEnumWireframe_length x position)]
  exact calculateBufferLayout_208

theorem addTextLabel_node_mesh (text : String) (position : Vec3) (billboard : Bool)
    (url : String) (a : gltf.GLTFAsset) :
    ∃ nd : gltf.Node,
      (addTextLabel text position billboard url a).1.Nodes = a.Nodes ++ [nd] ∧
      nd.Mesh = some a.Meshes.length ∧ nodeKind nd = some (GoAny.str "text") := by
  refine ⟨_, rfl, rfl, ?_⟩
  cases billboard <;> by_cases hu : url ≠ "" <;> simp [nodeKind, GoAny.get, mapSet, hu]

theorem addTextLabel_wired (text : String) (position : Vec3) (billboard : Bool)
    (url : String) (a : gltf.GLTFAsset) (h : WiredAll a) :
    WiredAll (addTextLabel text position billboard url a).1 := by
  obtain ⟨⟨l1, l2, l3, l4⟩, hcodes, hw⟩ := h
  obtain ⟨nd, hN, hmesh, hkind⟩ := addTextLabel_node_mesh text position billboard url a
  obtain ⟨mat, hMa⟩ := addTextLabel_Materials text position billboard url a
  have hMe := addTextLabel_Meshes text position billboard url a
  have hB := addTextLabel_Buffers text position billboard url a
  have hV := addTextLabel_BufferViews text position billboard url a
  have hA := addTextLabel_Accessors text position billboard url a
  have hP := wirePrimitive_textQuad text position a.Accessors.length (a.Accessors.length + 1)
    (a.Accessors.length + 2) a.Materials.length
  have hdata : (GenerateTextQuad text position).2 = textQuadBuffer :=
    GenerateTextQuad_buffer text position
  refine ⟨⟨?_, ?_, ?_, ?_⟩, ?_, ?_⟩
  · rw [hMe, hN]; simp only [List.length_append, List.length_singleton]; omega
  · rw [hMa, hN]; simp only [List.length_append, List.length_singleton]; omega
  · rw [hB, hN]; simp only [List.length_append, List.length_singleton]; omega
  · rw [hV, hN]
    simp only [List.length_append, List.length_singleton, List.length_cons, List.length_nil]
    omega
  · intro acc hacc
    rw [hA] at hacc
    rcases List.mem_append.mp hacc with ho | hn
    · exact hcodes acc ho
    · simp only [List.mem_cons, List.mem_singleton, List.not_mem_nil, or_false] at hn
      rcases hn with rfl | rfl | rfl
      · exact Or.inl ⟨Or.inl rfl, rfl⟩
      · exact Or.inl ⟨Or.inr rfl, rfl⟩
      · exact Or.inr ⟨rfl, rfl⟩
  · intro k hk
    rw [hN, List.length_append, List.length_singleton] at hk
    rcases Nat.lt_or_ge k a.Nodes.length with hlt | hge
    · exact Wired_extend (addTextLabel_extends text position billboard url a) (hw k hlt)
    · have hk' : k = a.Nodes.length := by omega
      subst hk'
      refine ⟨nd,
        wirePrimitive (GenerateTextQuad text position).1
          [("POSITION", a.Accessors.length), ("TEXCOORD_0", a.Accessors.length + 1)]
          (a.Accessors.length + 2) a.Materials.length,
        ⟨[("POSITION", a.Accessors.length), ("TEXCOORD_0", a.Accessors.length + 1)],
          some (a.Accessors.length + 2), some a.Materials.length, some 4⟩,
        ⟨(GenerateTextQuad text position).2.length,
          CreateTextBufferURI (GenerateTextQuad text position).2⟩,
        ⟨a.Buffers.length, 0, 80, some 20, some 34962⟩,
        ⟨a.Buffers.length, 80, 12, none, some 34963⟩,
        textQuadBuffer, a.Accessors.length, a.Accessors.length + 2,
        ⟨some a.BufferViews.length, 0, 5126, 4, "VEC3", [f64 12 10, f64 12 10, f64 0 1],
          [IEEE.neg IEEE.binary64 (f64 12 10), IEEE.neg IEEE.binary64 (f64 12 10), f64 0 1]⟩,
        ⟨some (a.BufferViews.length + 1), 0, 5123, 6, "SCALAR", [], []⟩,
        ⟨?_, ?_, ?_, hP, ?_⟩, ⟨?_, ?_, ?_, ?_, ?_, rfl, rfl, ?_, ?_, rfl, rfl, ?_, ?_⟩,
        ⟨rfl, ?_, ?_, rfl, ?_, ?_, ?_, ?_⟩, ?_, ?_⟩
      · rw [hN]; exact getElem?_append_new0 _ _ _
      · rw [hmesh, l1]
      · rw [hMe, ← l1]; exact getElem?_append_new0 _ _ _
      · rw [l2]
      · rw [hB, ← l3]; exact getElem?_append_new0 _ _ _
      · rw [hdata]
      · rw [hdata]; rfl
      · rw [hV, ← l4]; exact getElem?_append_new0 _ _ _
      · exact l3
      · rw [hV, ← l4]; exact getElem?_append_new1 _ _ _ _
      · exact l3
      · show 80 % 4 = 0
        decide
      · rw [hdata]; exact textQuadBuffer_length.symm
      · rw [hA]; exact getElem?_append_new2 _ _ _ _ _
      · rw [l4]
      · rfl
      · intro kv hkv
        simp only [List.mem_cons, List.mem_singleton, List.not_mem_nil, or_false] at hkv
        rcases hkv with rfl | rfl
        · exact ⟨_, by rw [hA]; exact getElem?_append_new0 _ _ _, by rw [l4]⟩
        · exact ⟨_, by rw [hA]; exact getElem?_append_new1 _ _ _ _, by rw [l4]⟩
      · rfl
      · rw [hA]; exact getElem?_append_new0 _ _ _
      · exact textQuadBuffer_indices_bound
      · exact Or.inl ⟨hkind, rfl, rfl⟩

/-- Wiring of a new wireframe element, from the entries appended for it. -/
theorem wireframe_wired (a b : gltf.GLTFAsset) (name kind : String) (data : List Nat)
    (vc ic vb ib : Nat) (mx mn : List float64) (nd : gltf.Node) (mat : gltf.Material)
    (h : WiredAll a)
    (hN : b.Nodes = a.Nodes ++ [nd]) (hmesh : nd.Mesh = some a.Meshes.length)
    (hkind : nodeKind nd = some (GoAny.str kind))
    (hMe : b.Meshes = a.Meshes ++
      [wirePrimitive (wireframeMesh name) [("POSITION", a.Accessors.length)]
        (a.Accessors.length + 1) a.Materials.length])
    (hMa : b.Materials = a.Materials ++ [mat])
    (hB : b.Buffers = a.Buffers ++ [⟨data.length, CreateBufferURI data⟩])
    (hV : b.BufferViews = a.BufferViews ++
      [⟨a.Buffers.length, 0, vb, none, some 34962⟩,
       ⟨a.Buffers.length, vb, ib, none, some 34963⟩])
    (hA : b.Accessors = a.Accessors ++
      [⟨some a.BufferViews.length, 0, 5126, vc, "VEC3", mx, mn⟩,
       ⟨some (a.BufferViews.length + 1), 0, 5123, ic, "SCALAR", [], []⟩])
    (hvb : vb % 4 = 0) (hib : 2 * ic = ib) (hlen : vb + ib = data.length)
    (hidx : ∀ j, j < ic → getUint16 data (vb + 0 + 2 * j) < vc)
    (hk : (kind = "class" ∧ vc = 8) ∨ ((kind = "interface" ∨ kind = "enum") ∧ vc = 12)) :
    WiredAll b := by
  obtain ⟨⟨l1, l2, l3, l4⟩, hcodes, hw⟩ := h
  have hext : TablesExtend a b := by
    refine ⟨?_, ?_, ?_, ?_, ?_, ?_⟩
    · rw [hN]; exact List.prefix_append _ _
    · rw [hMe]; exact List.prefix_append _ _
    · rw [hMa]; exact List.prefix_append _ _
    · rw [hB]; exact List.prefix_append _ _
    · rw [hV]; exact List.prefix_append _ _
    · rw [hA]; exact List.prefix_append _ _
  have hP := wirePrimitive_wireframeMesh name a.Accessors.length (a.Accessors.length + 1)
    a.Materials.length
  refine ⟨⟨?_, ?_, ?_, ?_⟩, ?_, ?_⟩
  · rw [hMe, hN]; simp only [List.length_append, List.length_singleton]; omega
  · rw [hMa, hN]; simp only [List.length_append, List.length_singleton]; omega
  · rw [hB, hN]; simp only [List.length_append, List.length_singleton]; omega
  · rw [hV, hN]
    simp only [List.length_append, List.length_singleton, List.length_cons, List.length_nil]
    omega
  · intro acc hacc
    rw [hA] at hacc
    rcases List.mem_append.mp hacc with ho | hn
    · exact hcodes acc ho
    · simp only [List.mem_cons, List.mem_singleton, List.not_mem_nil, or_false] at hn
      rcases hn with rfl | rfl
      · exact Or.inl ⟨Or.inl rfl, rfl⟩
      · exact Or.inr ⟨rfl, rfl⟩
  · intro k hk'
    rw [hN, List.length_append, List.length_singleton] at hk'
    rcases Nat.lt_or_ge k a.Nodes.length with hlt | hge
    · exact Wired_extend hext (hw k hlt)
    · have hk'' : k = a.Nodes.length := by omega
      subst hk''
      refine ⟨nd,
        wirePrimitive (wireframeMesh name) [("POSITION", a.Accessors.length)]
          (a.Accessors.length + 1) a.Materials.length,
        ⟨[("POSITION", a.Accessors.length)], some (a.Accessors.length + 1),
          some a.Materials.length, some 1⟩,
        ⟨data.length, CreateBufferURI data⟩,
        ⟨a.Buffers.length, 0, vb, none, some 34962⟩,
        ⟨a.Buffers.length, vb, ib, none, some 34963⟩,
        data, a.Accessors.length, a.Accessors.length + 1,
        ⟨some a.BufferViews.length, 0, 5126, vc, "VEC3", mx, mn⟩,
        ⟨some (a.BufferViews.length + 1), 0, 5123, ic, "SCALAR", [], []⟩,
        ⟨?_, ?_, ?_, hP, ?_⟩, ⟨?_, rfl, rfl, ?_, l3, rfl, rfl, ?_, l3, ?_, rfl, hvb, hlen⟩,
        ⟨rfl, ?_, ?_, rfl, hib, ?_, rfl, ?_⟩, hidx, ?_⟩
      · rw [hN]; exact getElem?_append_new0 _ _ _
      · rw [hmesh, l1]
      · rw [hMe, ← l1]; exact getElem?_append_new0 _ _ _
      · show some a.Materials.length = some a.Nodes.length
        rw [l2]
      · rw [hB, ← l3]; exact getElem?_append_new0 _ _ _
      · rw [hV, ← l4]; exact getElem?_append_new0 _ _ _
      · rw [hV, ← l4]; exact getElem?_append_new1 _ _ _ _
      · show vb = 0 + vb
        omega
      · rw [hA]; exact getElem?_append_new1 _ _ _ _
      · show some (a.BufferViews.length + 1) = some (2 * a.Nodes.length + 1)
        rw [l4]
      · intro kv hkv
        simp only [List.mem_singleton] at hkv
        subst hkv
        refine ⟨_, by rw [hA]; exact getElem?_append_new0 _ _ _, ?_⟩
        show some a.BufferViews.length = some (2 * a.Nodes.length)
        rw [l4]
      · rw [hA]; exact getElem?_append_new0 _ _ _
      · rcases hk with ⟨h1, h2⟩ | ⟨h1, h2⟩
        · subst h1
          exact Or.inr (Or.inl ⟨hkind, rfl, h2⟩)
        · refine Or.inr (Or.inr ⟨?_, rfl, h2⟩)
          rcases h1 with h1 | h1
          · subst h1; exact Or.inl hkind
          · subst h1; exact Or.inr hkind

theorem classBoxStage_node_mesh (x : extuml.Class) (position : Vec3) (a : gltf.GLTFAsset) :
    ∃ nd : gltf.Node,
      (classBoxStage x position a).Nodes = a.Nodes ++ [nd] ∧
      nd.Mesh = some a.Meshes.length ∧ nodeKind nd = some (GoAny.str "class") := by
  refine ⟨_, rfl, rfl, ?_⟩
  simp [nodeKind, GoAny.get]

theorem addInterfaceToScene_node_mesh (x : extuml.Interface) (position : Vec3)
    (a : gltf.GLTFAsset) (n : Nat) :
    ∃ nd : gltf.Node,
      (addInterfaceToScene x position a n).1.Nodes = a.Nodes ++ [nd] ∧
      nd.Mesh = some a.Meshes.length ∧ nodeKind nd = some (GoAny.str "interface") := by
  refine ⟨_, rfl, rfl, ?_⟩
  simp [nodeKind, GoAny.get]

theorem addEnumToScene_node_mesh (x : extuml.Enum) (position : Vec3)
    (a : gltf.GLTFAsset) (n : Nat) :
    ∃ nd : gltf.Node,
      (addEnumToScene x position a n).1.Nodes = a.Nodes ++ [nd] ∧
      nd.Mesh = some a.Meshes.length ∧ nodeKind nd = some (GoAny.str "enum") := by
  refine ⟨_, rfl, rfl, ?_⟩
  simp [nodeKind, GoAny.get]

theorem classBoxStage_wired (x : extuml.Class) (position : Vec3) (a : gltf.GLTFAsset)
    (h : WiredAll a) : WiredAll (classBoxStage x position a) := by
  obtain ⟨nd, hN, hmesh, hkind⟩ := classBoxStage_node_mesh x position a
  have hV := classBoxStage_BufferViews x position a
  have hA := classBoxStage_Accessors x position a
  simp only [class_layout] at hV hA
  have hdata : (GenerateClassWireframe x position).2.2 = classBuffer :=
    GenerateClassWireframe_buffer x position
  exact wireframe_wired a _ x.Name "class" (GenerateClassWireframe x position).2.2
    8 24 96 (24 * 2) _ _ nd _ h hN hmesh hkind (classBoxStage_Meshes x position a)
    (classBoxStage_Materials x position a) (classBoxStage_Buffers x position a) hV hA
    (by decide) (by decide) (by rw [GenerateClassWireframe_length])
    (by rw [hdata]; exact classBuffer_indices_bound) (Or.inl ⟨rfl, rfl⟩)

theorem addClassToScene_wired (x : extuml.Class) (position : Vec3) (a : gltf.GLTFAsset)
    (n : Nat) (h : WiredAll a) : WiredAll (addClassToScene x position a n).1 := by
  rw [addClassToScene_eq]
  exact addTextLabel_wired _ _ _ _ _ (classBoxStage_wired x position a h)

theorem addInterfaceToScene_wired (x : extuml.Interface) (position : Vec3)
    (a : gltf.GLTFAsset) (n : Nat) (h : WiredAll a) :
    WiredAll (addInterfaceToScene x position a n).1 := by
  obtain ⟨nd, hN, hmesh, hkind⟩ := addInterfaceToScene_node_mesh x position a n
  have hV := addInterfaceToScene_BufferViews x position a n
  have hA := addInterfaceToScene_Accessors x position a n
  simp only [interface_layout] at hV hA
  exact wireframe_wired a _ x.Name "interface" (GenerateInterfaceWireframe x position).2.2
    12 32 144 (32 * 2) _ _ nd _ h hN hmesh hkind (addInterfaceToScene_Meshes x position a n)
    (addInterfaceToScene_Materials x position a n) (addInterfaceToScene_Buffers x position a n)
    hV hA (by decide) (by decide) (by rw [GenerateInterfaceWireframe_length])
    (interface_indices_bound x position) (Or.inr ⟨Or.inl rfl, rfl⟩)

theorem addEnumToScene_wired (x : extuml.Enum) (position : Vec3)
    (a : gltf.GLTFAsset) (n : Nat) (h : WiredAll a) :
    WiredAll (addEnumToScene x position a n).1 := by
  obtain ⟨nd, hN, hmesh, hkind⟩ := addEnumToScene_node_mesh x position a n
  have hV := addEnumToScene_BufferViews x position a n
  have hA := addEnumToScene_Accessors x position a n
  simp only [enum_layout] at hV hA
  exact wireframe_wired a _ x.Name "enum" (GenerateEnumWireframe x position).2.2
    12 32 144 (32 * 2) _ _ nd _ h hN hmesh hkind (addEnumToScene_Meshes x position a n)
    (addEnumToScene_Materials x position a n) (addEnumToScene_Buffers x position a n)
    hV hA (by decide) (by decide) (by rw [GenerateEnumWireframe_length])
    (enum_indices_bound x position) (Or.inr ⟨Or.inr rfl, rfl⟩)

/-- A property kept by every element builder holds after the element loops. -/
theorem classesLoop_preserves (P : gltf.GLTFAsset → Prop) (spacing : float64)
    (hP : ∀ x position a n, P a → P (addClassToScene x position a n).1)
    (xs : List extuml.Class) :
    ∀ (i : Nat) (st : gltf.GLTFAsset × Nat), P st.1 → P (classesLoop spacing xs i st).1 := by
  induction xs with
  | nil => intro i st h; exact h
  | cons x xs ih =>
    intro i st h
    rw [classesLoop]
    exact ih _ _ (hP _ _ _ _ h)

theorem interfacesLoop_preserves (P : gltf.GLTFAsset → Prop) (spacing : float64)
    (hP : ∀ x position a n, P a → P (addInterfaceToScene x position a n).1)
    (xs : List extuml.Interface) :
    ∀ (i : Nat) (st : gltf.GLTFAsset × Nat), P st.1 → P (interfacesLoop spacing xs i st).1 := by
  induction xs with
  | nil => intro i st h; exact h
  | cons x xs ih =>
    intro i st h
    rw [interfacesLoop]
    exact ih _ _ (hP _ _ _ _ h)

theorem enumsLoop_preserves (P : gltf.GLTFAsset → Prop) (spacing : float64)
    (hP : ∀ x position a n, P a → P (addEnumToScene x position a n).1)
    (xs : List extuml.Enum) :
    ∀ (i : Nat) (st : gltf.GLTFAsset × Nat), P st.1 → P (enumsLoop spacing xs i st).1 := by
  induction xs with
  | nil => intro i st h; exact h
  | cons x xs ih =>
    intro i st h
    rw [enumsLoop]
    exact ih _ _ (hP _ _ _ _ h)

theorem WiredAll_scenes (a : gltf.GLTFAsset) (s : List gltf.Scene) (h : WiredAll a) :
    WiredAll { a with Scenes := s } := h

theorem initialAsset_wired (doc : extuml.Document) (generatedAt : String) :
    WiredAll (initialAsset doc generatedAt) := by
  refine ⟨⟨rfl, rfl, rfl, rfl⟩, ?_, ?_⟩
  · intro acc hacc
    simp [initialAsset] at hacc
  · intro k hk
    simp [initialAsset] at hk

/-- The asset that `generateGeometry` builds from the empty asset of `Execute`
is wired element by element. -/
theorem generateGeometry_wired (version generatedAt : String) (meta : Option extuml.Meta)
    (elements : extuml.Elements) :
    ∃ a : gltf.GLTFAsset,
      generateGeometry ⟨version, meta, some elements⟩
          (initialAsset ⟨version, meta, some elements⟩ generatedAt) = some a ∧
      WiredAll a := by
  obtain ⟨a, ha, hsc, hgen⟩ := generateGeometry_eq ⟨version, meta, some elements⟩ elements
    (initialAsset ⟨version, meta, some elements⟩ generatedAt) ⟨[], "Scene"⟩ [] rfl rfl
  have hw : WiredAll a := by
    rw [ha]
    exact enumsLoop_preserves WiredAll _ addEnumToScene_wired _ _ _
      (interfacesLoop_preserves WiredAll _ addInterfaceToScene_wired _ _ _
        (classesLoop_preserves WiredAll _ addClassToScene_wired _ _ _
          (initialAsset_wired _ _)))
  by_cases hpos : 0 < a.Nodes.length
  · rw [if_pos hpos] at hgen
    exact ⟨_, hgen, WiredAll_scenes a _ hw⟩
  · rw [if_neg hpos] at hgen
    exact ⟨_, hgen, hw⟩

/-! ## Numeric codes, lock-step wiring, buffer views and indices -/

theorem getElem?_lt {α : Type} {l : List α} {i : Nat} {x : α} (h : l[i]? = some x) :
    i < l.length := by
  rcases Nat.lt_or_ge i l.length with h1 | h1
  · exact h1
  · rw [List.getElem?_eq_none h1] at h
    exact absurd h (by simp)

/-- C23. In the generated asset the glTF numeric codes follow the convention:
every `VEC3` and `VEC2` accessor has component type 5126 and every `SCALAR`
accessor 5123; the buffer view at every even position has target 34962 and
the one at every odd position 34963; the mesh of every class, interface and
enum node has a single primitive of mode 1 and the mesh of every text node a
single primitive of mode 4. -/
theorem generateGeometry_numeric_codes (version generatedAt : String)
    (meta : Option extuml.Meta) (elements : extuml.Elements) :
    ∃ a : gltf.GLTFAsset,
      generateGeometry ⟨version, meta, some elements⟩
          (initialAsset ⟨version, meta, some elements⟩ generatedAt) = some a ∧
      (∀ acc ∈ a.Accessors,
        (acc.Type_ = "VEC3" → acc.ComponentType = 5126) ∧
        (acc.Type_ = "VEC2" → acc.ComponentType = 5126) ∧
        (acc.Type_ = "SCALAR" → acc.ComponentType = 5123) ∧
        (acc.Type_ = "VEC3" ∨ acc.Type_ = "VEC2" ∨ acc.Type_ = "SCALAR")) ∧
      (∀ (k : Nat) (bv : gltf.BufferView), a.BufferViews[2 * k]? = some bv →
        bv.Target = some 34962) ∧
      (∀ (k : Nat) (bv : gltf.BufferView), a.BufferViews[2 * k + 1]? = some bv →
        bv.Target = some 34963) ∧
      a.Meshes.length = a.Nodes.length ∧
      (∀ (k : Nat) (nd : gltf.Node), a.Nodes[k]? = some nd →
        ∃ (m : gltf.Mesh) (p : gltf.Primitive),
          nd.Mesh = some k ∧ a.Meshes[k]? = some m ∧ m.Primitives = [p] ∧
          ((nodeKind nd = some (GoAny.str "text") ∧ p.Mode = some 4) ∨
           ((nodeKind nd = some (GoAny.str "class") ∨
              nodeKind nd = some (GoAny.str "interface") ∨
              nodeKind nd = some (GoAny.str "enum")) ∧ p.Mode = some 1))) := by
  obtain ⟨a, hgen, ⟨l1, l2, l3, l4⟩, hcodes, hw⟩ :=
    generateGeometry_wired version generatedAt meta elements
  refine ⟨a, hgen, ?_, ?_, ?_, l1, ?_⟩
  · intro acc hacc
    rcases hcodes acc hacc with ⟨ht, hc⟩ | ⟨ht, hc⟩
    · refine ⟨fun _ => hc, fun _ => hc, ?_, ?_⟩
      · intro hs
        rcases ht with ht | ht <;> rw [ht] at hs <;> exact absurd hs (by decide)
      · rcases ht with ht | ht
        · exact Or.inl ht
        · exact Or.inr (Or.inl ht)
    · refine ⟨?_, ?_, fun _ => hc, Or.inr (Or.inr ht)⟩
      · intro hs
        rw [ht] at hs
        exact absurd hs (by decide)
      · intro hs
        rw [ht] at hs
        exact absurd hs (by decide)
  · intro k bv hbv
    have hk : k < a.Nodes.length := by
      have := getElem?_lt hbv
      omega
    obtain ⟨nd, m, p, bu, v0, v1, data, pos, idx, posAcc, idxAcc,
      -, ⟨b1, b2, b3, b4, b5, b6, b7, b8, b9, b10, b11, b12, b13⟩, -, -, -⟩ := hw k hk
    rw [b4] at hbv
    cases hbv
    exact b7
  · intro k bv hbv
    have hk : k < a.Nodes.length := by
      have := getElem?_lt hbv
      omega
    obtain ⟨nd, m, p, bu, v0, v1, data, pos, idx, posAcc, idxAcc,
      -, ⟨b1, b2, b3, b4, b5, b6, b7, b8, b9, b10, b11, b12, b13⟩, -, -, -⟩ := hw k hk
    rw [b8] at hbv
    cases hbv
    exact b11
  · intro k nd hnd
    obtain ⟨nd', m, p, bu, v0, v1, data, pos, idx, posAcc, idxAcc,
      ⟨n1, n2, n3, n4, n5⟩, -, -, -, hkind⟩ := hw k (getElem?_lt hnd)
    rw [n1] at hnd
    cases hnd
    refine ⟨m, p, n2, n3, n4, ?_⟩
    rcases hkind with ⟨k1, k2, -⟩ | ⟨k1, k2, -⟩ | ⟨k1, k2, -⟩
    · exact Or.inl ⟨k1, k2⟩
    · exact Or.inr ⟨Or.inl k1, k2⟩
    · refine Or.inr ⟨?_, k2⟩
      rcases k1 with k1 | k1
      · exact Or.inr (Or.inl k1)
      · exact Or.inr (Or.inr k1)

/-- C27. Lock-step wiring: in the generated asset the tables nodes, meshes,
materials and buffers have one length `n` and bufferViews has length `2n`; for
every `k < n` node `k` shows mesh `k`, the primitive of mesh `k` uses material
`k`, buffer views `2k` and `2k+1` reference buffer `k`, every attribute accessor
of mesh `k` reads buffer view `2k` and its index accessor reads buffer view
`2k+1`. -/
theorem generateGeometry_lock_step (version generatedAt : String)
    (meta : Option extuml.Meta) (elements : extuml.Elements) :
    ∃ a : gltf.GLTFAsset,
      generateGeometry ⟨version, meta, some elements⟩
          (initialAsset ⟨version, meta, some elements⟩ generatedAt) = some a ∧
      a.Meshes.length = a.Nodes.length ∧ a.Materials.length = a.Nodes.length ∧
      a.Buffers.length = a.Nodes.length ∧ a.BufferViews.length = 2 * a.Nodes.length ∧
      ∀ k, k < a.Nodes.length →
        ∃ (nd : gltf.Node) (m : gltf.Mesh) (p : gltf.Primitive) (v0 v1 : gltf.BufferView)
          (idx : Nat) (idxAcc : gltf.Accessor),
          a.Nodes[k]? = some nd ∧ nd.Mesh = some k ∧
          a.Meshes[k]? = some m ∧ m.Primitives = [p] ∧ p.Material = some k ∧
          a.BufferViews[2 * k]? = some v0 ∧ v0.Buffer = k ∧
          a.BufferViews[2 * k + 1]? = some v1 ∧ v1.Buffer = k ∧
          (∀ kv ∈ p.Attributes, ∃ acc : gltf.Accessor,
            a.Accessors[kv.2]? = some acc ∧ acc.BufferView = some (2 * k)) ∧
          p.Attributes ≠ [] ∧
          p.Indices = some idx ∧ a.Accessors[idx]? = some idxAcc ∧
          idxAcc.BufferView = some (2 * k + 1) := by
  obtain ⟨a, hgen, ⟨l1, l2, l3, l4⟩, hcodes, hw⟩ :=
    generateGeometry_wired version generatedAt meta elements
  refine ⟨a, hgen, l1, l2, l3, l4, ?_⟩
  intro k hk
  obtain ⟨nd, m, p, bu, v0, v1, data, pos, idx, posAcc, idxAcc,
    ⟨n1, n2, n3, n4, n5⟩, ⟨b1, b2, b3, b4, b5, b6, b7, b8, b9, b10, b11, b12, b13⟩,
    ⟨c1, c2, c3, c4, c5, c6, c7, c8⟩, -, -⟩ := hw k hk
  refine ⟨nd, m, p, v0, v1, idx, idxAcc, n1, n2, n3, n4, n5, b4, b5, b8, b9, c6, ?_, c1, c2, c3⟩
  intro he
  rw [he] at c7
  simp at c7

/-- C28. Every buffer view of the generated asset lies inside its buffer and is
4-byte aligned; the byte length of every buffer is the length of the bytes
packed into its URI; and the two views of a buffer, the vertex view `2k` then
the index view `2k+1`, cover buffer `k` exactly, with no gap and no overlap. -/
theorem generateGeometry_buffer_views (version generatedAt : String)
    (meta : Option extuml.Meta) (elements : extuml.Elements) :
    ∃ a : gltf.GLTFAsset,
      generateGeometry ⟨version, meta, some elements⟩
          (initialAsset ⟨version, meta, some elements⟩ generatedAt) = some a ∧
      a.BufferViews.length = 2 * a.Buffers.length ∧
      (∀ (i : Nat) (bv : gltf.BufferView), a.BufferViews[i]? = some bv →
        ∃ b : gltf.Buffer, a.Buffers[bv.Buffer]? = some b ∧ bv.Buffer = i / 2 ∧
          bv.ByteOffset % 4 = 0 ∧ bv.ByteOffset + bv.ByteLength ≤ b.ByteLength) ∧
      (∀ k, k < a.Buffers.length →
        ∃ (b : gltf.Buffer) (data : List Nat) (v0 v1 : gltf.BufferView),
          a.Buffers[k]? = some b ∧ b.URI = CreateBufferURI data ∧
          b.ByteLength = data.length ∧
          a.BufferViews[2 * k]? = some v0 ∧ a.BufferViews[2 * k + 1]? = some v1 ∧
          v0.ByteOffset = 0 ∧ v1.ByteOffset = v0.ByteOffset + v0.ByteLength ∧
          v1.ByteOffset + v1.ByteLength = b.ByteLength) := by
  obtain ⟨a, hgen, ⟨l1, l2, l3, l4⟩, hcodes, hw⟩ :=
    generateGeometry_wired version generatedAt meta elements
  refine ⟨a, hgen, by rw [l4, l3], ?_, ?_⟩
  · intro i bv hbv
    have hi := getElem?_lt hbv
    have hk : i / 2 < a.Nodes.length := by omega
    obtain ⟨nd, m, p, bu, v0, v1, data, pos, idx, posAcc, idxAcc,
      -, ⟨b1, b2, b3, b4, b5, b6, b7, b8, b9, b10, b11, b12, b13⟩, -, -, -⟩ := hw (i / 2) hk
    rcases Nat.mod_two_eq_zero_or_one i with h0 | h1
    · have e : i = 2 * (i / 2) := by omega
      rw [e, b4] at hbv
      cases hbv
      refine ⟨bu, by rw [b5]; exact b1, b5, by rw [b6], ?_⟩
      omega
    · have e : i = 2 * (i / 2) + 1 := by omega
      rw [e, b8] at hbv
      cases hbv
      exact ⟨bu, by rw [b9]; exact b1, b9, b12, by omega⟩
  · intro k hk
    obtain ⟨nd, m, p, bu, v0, v1, data, pos, idx, posAcc, idxAcc,
      -, ⟨b1, b2, b3, b4, b5, b6, b7, b8, b9, b10, b11, b12, b13⟩, -, -, -⟩ :=
      hw k (by rw [← l3]; exact hk)
    exact ⟨bu, data, v0, v1, b1, b3, b2, b4, b8, b6, b10, b13⟩

/-- C29. Index consistency: for every mesh `k` of the generated asset every
16-bit index stored in the index region of buffer `k` (the region of the index
accessor of the primitive, which fills buffer view `2k+1`) is strictly below the
count of the `POSITION` accessor of the primitive; that count is 8 for a class,
12 for an interface or enum and 4 for a text quad. -/
theorem generateGeometry_index_consistency (version generatedAt : String)
    (meta : Option extuml.Meta) (elements : extuml.Elements) :
    ∃ a : gltf.GLTFAsset,
      generateGeometry ⟨version, meta, some elements⟩
          (initialAsset ⟨version, meta, some elements⟩ generatedAt) = some a ∧
      a.Buffers.length = a.Meshes.length ∧ a.Nodes.length = a.Meshes.length ∧
      ∀ k, k < a.Meshes.length →
        ∃ (nd : gltf.Node) (m : gltf.Mesh) (p : gltf.Primitive) (b : gltf.Buffer)
          (data : List Nat) (v1 : gltf.BufferView) (pos idx : Nat)
          (posAcc idxAcc : gltf.Accessor),
          a.Nodes[k]? = some nd ∧ nd.Mesh = some k ∧
          a.Meshes[k]? = some m ∧ m.Primitives = [p] ∧
          a.Buffers[k]? = some b ∧ b.URI = CreateBufferURI data ∧
          b.ByteLength = data.length ∧
          a.BufferViews[2 * k + 1]? = some v1 ∧ v1.Buffer = k ∧
          p.Indices = some idx ∧ a.Accessors[idx]? = some idxAcc ∧
          idxAcc.BufferView = some (2 * k + 1) ∧ 2 * idxAcc.Count = v1.ByteLength ∧
          p.Attributes.lookup "POSITION" = some pos ∧ a.Accessors[pos]? = some posAcc ∧
          (∀ j, j < idxAcc.Count →
            getUint16 data (v1.ByteOffset + idxAcc.ByteOffset + 2 * j) < posAcc.Count) ∧
          ((nodeKind nd = some (GoAny.str "text") ∧ posAcc.Count = 4) ∨
           (nodeKind nd = some (GoAny.str "class") ∧ posAcc.Count = 8) ∨
           ((nodeKind nd = some (GoAny.str "interface") ∨
              nodeKind nd = some (GoAny.str "enum")) ∧ posAcc.Count = 12)) := by
  obtain ⟨a, hgen, ⟨l1, l2, l3, l4⟩, hcodes, hw⟩ :=
    generateGeometry_wired version generatedAt meta elements
  refine ⟨a, hgen, by rw [l3, l1], l1.symm, ?_⟩
  intro k hk
  obtain ⟨nd, m, p, bu, v0, v1, data, pos, idx, posAcc, idxAcc,
    ⟨n1, n2, n3, n4, n5⟩, ⟨b1, b2, b3, b4, b5, b6, b7, b8, b9, b10, b11, b12, b13⟩,
    ⟨c1, c2, c3, c4, c5, c6, c7, c8⟩, hidx, hkind⟩ := hw k (by rw [← l1]; exact hk)
  refine ⟨nd, m, p, bu, data, v1, pos, idx, posAcc, idxAcc, n1, n2, n3, n4, b1, b3, b2, b8, b9,
    c1, c2, c3, c5, c7, c8, hidx, ?_⟩
  rcases hkind with ⟨k1, -, k3⟩ | ⟨k1, -, k3⟩ | ⟨k1, -, k3⟩
  · exact Or.inl ⟨k1, k3⟩
  · exact Or.inr (Or.inl ⟨k1, k3⟩)
  · exact Or.inr (Or.inr ⟨k1, k3⟩)

/-! ## Determinism up to the timestamp -/

theorem addTextLabel_withHeader (text : String) (position : Vec3) (billboard : Bool)
    (url : String) (a : gltf.GLTFAsset) (h : gltf.Asset) :
    addTextLabel text position billboard url (withHeader a h)
      = (withHeader (addTextLabel text position billboard url a).1 h,
          (addTextLabel text position billboard url a).2) := rfl

theorem classBoxStage_withHeader (x : extuml.Class) (position : Vec3) (a : gltf.GLTFAsset)
    (h : gltf.Asset) :
    classBoxStage x position (withHeader a h) = withHeader (classBoxStage x position a) h := rfl

theorem addClassToScene_withHeader (x : extuml.Class) (position : Vec3) (a : gltf.GLTFAsset)
    (n : Nat) (h : gltf.Asset) :
    addClassToScene x position (withHeader a h) n
      = (withHeader (addClassToScene x position a n).1 h, (addClassToScene x position a n).2) := by
  rw [addClassToScene_eq, addClassToScene_eq, classBoxStage_withHeader, addTextLabel_withHeader]
  rfl

theorem addInterfaceToScene_withHeader (x : extuml.Interface) (position : Vec3)
    (a : gltf.GLTFAsset) (n : Nat) (h : gltf.Asset) :
    addInterfaceToScene x position (withHeader a h) n
      = (withHeader (addInterfaceToScene x position a n).1 h,
          (addInterfaceToScene x position a n).2) := rfl

theorem addEnumToScene_withHeader (x : extuml.Enum) (position : Vec3)
    (a : gltf.GLTFAsset) (n : Nat) (h : gltf.Asset) :
    addEnumToScene x position (withHeader a h) n
      = (withHeader (addEnumToScene x position a n).1 h,
          (addEnumToScene x position a n).2) := rfl

theorem classesLoop_withHeader (spacing : float64) (h : gltf.Asset) (xs : List extuml.Class) :
    ∀ (i : Nat) (a : gltf.GLTFAsset) (n : Nat),
      classesLoop spacing xs i (withHeader a h, n)
        = (withHeader (classesLoop spacing xs i (a, n)).1 h,
            (classesLoop spacing xs i (a, n)).2) := by
  induction xs with
  | nil => intro i a n; rfl
  | cons x xs ih =>
    intro i a n
    rw [classesLoop, classesLoop]
    simp only
    rw [addClassToScene_withHeader, ih]

theorem interfacesLoop_withHeader (spacing : float64) (h : gltf.Asset)
    (xs : List extuml.Interface) :
    ∀ (i : Nat) (a : gltf.GLTFAsset) (n : Nat),
      interfacesLoop spacing xs i (withHeader a h, n)
        = (withHeader (interfacesLoop spacing xs i (a, n)).1 h,
            (interfacesLoop spacing xs i (a, n)).2) := by
  induction xs with
  | nil => intro i a n; rfl
  | cons x xs ih =>
    intro i a n
    rw [interfacesLoop, interfacesLoop]
    simp only
    rw [addInterfaceToScene_withHeader, ih]

theorem enumsLoop_withHeader (spacing : float64) (h : gltf.Asset) (xs : List extuml.Enum) :
    ∀ (i : Nat) (a : gltf.GLTFAsset) (n : Nat),
      enumsLoop spacing xs i (withHeader a h, n)
        = (withHeader (enumsLoop spacing xs i (a, n)).1 h,
            (enumsLoop spacing xs i (a, n)).2) := by
  induction xs with
  | nil => intro i a n; rfl
  | cons x xs ih =>
    intro i a n
    rw [enumsLoop, enumsLoop]
    simp only
    rw [addEnumToScene_withHeader, ih]

theorem loops_withHeader (elements : extuml.Elements) (a : gltf.GLTFAsset) (h : gltf.Asset) :
    enumsLoop (f64 3 1) elements.Enums 0
        (interfacesLoop (f64 3 1) elements.Interfaces 0
          (classesLoop (f64 3 1) elements.Classes 0 (withHeader a h, 0)))
      = (withHeader (enumsLoop (f64 3 1) elements.Enums 0
            (interfacesLoop (f64 3 1) elements.Interfaces 0
              (classesLoop (f64 3 1) elements.Classes 0 (a, 0)))).1 h,
          (enumsLoop (f64 3 1) elements.Enums 0
            (interfacesLoop (f64 3 1) elements.Interfaces 0
              (classesLoop (f64 3 1) elements.Classes 0 (a, 0)))).2) := by
  rw [classesLoop_withHeader, interfacesLoop_withHeader, enumsLoop_withHeader]

theorem generateGeometry_withHeader (doc : extuml.Document) (a : gltf.GLTFAsset)
    (h : gltf.Asset) :
    generateGeometry doc (withHeader a h)
      = (generateGeometry doc a).map (fun r => withHeader r h) := by
  unfold generateGeometry
  cases doc.Elements with
  | none => rfl
  | some elements =>
    simp only
    rw [loops_withHeader]
    simp only
    generalize (enumsLoop (f64 3 1) elements.Enums 0
      (interfacesLoop (f64 3 1) elements.Interfaces 0
        (classesLoop (f64 3 1) elements.Classes 0 (a, 0)))).1 = r
    have hn : (withHeader r h).Nodes = r.Nodes := rfl
    have hs : (withHeader r h).Scenes = r.Scenes := rfl
    rw [hn, hs]
    by_cases hpos : 0 < r.Nodes.length
    · rw [if_pos hpos, if_pos hpos]
      cases r.Scenes with
      | nil => rfl
      | cons scene rest => rfl
    · rw [if_neg hpos, if_neg hpos]
      rfl

theorem initialAsset_withHeader (doc : extuml.Document) (generatedAt : String) :
    initialAsset doc generatedAt
      = withHeader (initialAsset doc "")
          { Version := "2.0", Generator := "extuml-cli v0.1",
            Extras := GoAny.map
              [("extuml", GoAny.map
                [("version", GoAny.str doc.Version),
                 ("generatedAt", GoAny.str generatedAt)])] } := rfl

theorem calculateSceneBounds_withHeader (a : gltf.GLTFAsset) (h : gltf.Asset) :
    calculateSceneBounds (withHeader a h) = calculateSceneBounds a := rfl

/-- The asset of `Execute` is a fixed asset, the same for every clock reading,
with the clock reading stored at `asset.extras.extuml.generatedAt`. -/
theorem executeAsset_eq (doc : extuml.Document) :
    ∃ (rest : gltf.GLTFAsset) (tail : List (String × GoAny)),
      ∀ generatedAt : String,
        executeAsset doc generatedAt
          = some { rest with
              Asset :=
                { Version := "2.0", Generator := "extuml-cli v0.1",
                  Extras := GoAny.map
                    (("extuml", GoAny.map
                      [("version", GoAny.str doc.Version),
                       ("generatedAt", GoAny.str generatedAt)]) :: tail) } } := by
  cases hdoc : doc.Elements with
  | none =>
    refine ⟨initialAsset doc "", [], ?_⟩
    intro generatedAt
    unfold executeAsset
    rw [hdoc]
    rfl
  | some elements =>
    obtain ⟨a, -, -, hgen⟩ := generateGeometry_eq doc elements (initialAsset doc "")
      ⟨[], "Scene"⟩ [] hdoc rfl
    generalize (if 0 < a.Nodes.length then
        ({ a with Scenes := [{ Nodes := List.range a.Nodes.length, Name := "Scene" }] } :
          gltf.GLTFAsset)
      else a) = r at hgen
    refine ⟨r, [("camera", calculateSceneBounds r)], ?_⟩
    intro generatedAt
    unfold executeAsset
    rw [hdoc]
    simp only
    rw [initialAsset_withHeader, generateGeometry_withHeader, hgen]
    rfl

/-- C24. Determinism up to the timestamp: for every document and any two clock
readings the two assets that `Execute` builds exist, and the second is the
first with only `asset.extras.extuml.generatedAt` replaced; every table, the
scenes, the header strings, the document version and the camera hint are
equal. -/
theorem executeAsset_deterministic (doc : extuml.Document) (t1 t2 : String) :
    ∃ (a1 a2 : gltf.GLTFAsset) (tail : List (String × GoAny)),
      executeAsset doc t1 = some a1 ∧ executeAsset doc t2 = some a2 ∧
      a1.Asset.Extras
        = GoAny.map (("extuml", GoAny.map
            [("version", GoAny.str doc.Version), ("generatedAt", GoAny.str t1)]) :: tail) ∧
      a2 = { a1 with
              Asset := { a1.Asset with
                Extras := GoAny.map (("extuml", GoAny.map
                  [("version", GoAny.str doc.Version), ("generatedAt", GoAny.str t2)])
                    :: tail) } } ∧
      a1.Asset.Version = a2.Asset.Version ∧ a1.Asset.Generator = a2.Asset.Generator ∧
      a1.Scenes = a2.Scenes ∧ a1.Scene = a2.Scene ∧ a1.Nodes = a2.Nodes ∧
      a1.Meshes = a2.Meshes ∧ a1.Materials = a2.Materials ∧ a1.Textures = a2.Textures ∧
      a1.Images = a2.Images ∧ a1.Samplers = a2.Samplers ∧ a1.Buffers = a2.Buffers ∧
      a1.BufferViews = a2.BufferViews ∧ a1.Accessors = a2.Accessors := by
  obtain ⟨rest, tail, h⟩ := executeAsset_eq doc
  exact ⟨_, _, tail, h t1, h t2, rfl, rfl, rfl, rfl, rfl, rfl, rfl, rfl, rfl, rfl, rfl, rfl,
    rfl, rfl, rfl⟩

/-! ## Order of float64 values and running extremes -/

namespace IEEE

theorem lt_eq_true_iff (f : Format) (x y : Nat) :
    lt f x y = true ↔ isNaN f x = false ∧ isNaN f y = false ∧ signedNumer f x < signedNumer f y := by
  unfold lt
  simp only [Bool.and_eq_true, Bool.not_eq_true', decide_eq_true_eq]
  constructor
  · rintro ⟨⟨a, b⟩, c⟩; exact ⟨a, b, c⟩
  · rintro ⟨a, b, c⟩; exact ⟨⟨a, b⟩, c⟩

theorem lt_eq_false_iff (f : Format) (x y : Nat) :
    lt f x y = false ↔
      isNaN f x = true ∨ isNaN f y = true ∨ signedNumer f y ≤ signedNumer f x := by
  rw [← Bool.not_eq_true, lt_eq_true_iff]
  constructor
  · intro h
    by_cases hx : isNaN f x = true
    · exact Or.inl hx
    · by_cases hy : isNaN f y = true
      · exact Or.inr (Or.inl hy)
      · right; right
        by_contra hc
        exact h ⟨by simpa using hx, by simpa using hy, by omega⟩
  · rintro (h | h | h) ⟨a, b, c⟩
    · rw [a] at h; exact absurd h (by simp)
    · rw [b] at h; exact absurd h (by simp)
    · omega

/-- From `a ≤ b` and `b ≤ c` (as "not below") with `b` a number: `a ≤ c`. -/
theorem not_lt_trans (f : Format) (a b c : Nat) (h1 : lt f b a = false)
    (h2 : lt f c b = false) (hb : isNaN f b = false) : lt f c a = false := by
  rw [lt_eq_false_iff] at h1 h2 ⊢
  rcases h1 with h1 | h1 | h1
  · rw [hb] at h1; exact absurd h1 (by simp)
  · exact Or.inr (Or.inl h1)
  · rcases h2 with h2 | h2 | h2
    · exact Or.inl h2
    · rw [hb] at h2; exact absurd h2 (by simp)
    · exact Or.inr (Or.inr (by omega))

/-- From `b ≤ c` and `c < a`: not `a < b`. -/
theorem not_lt_of_lt (f : Format) (a b c : Nat) (h1 : lt f c b = false)
    (h2 : lt f c a = true) : lt f a b = false := by
  rw [lt_eq_true_iff] at h2
  rw [lt_eq_false_iff] at h1 ⊢
  rcases h1 with h1 | h1 | h1
  · rw [h2.1] at h1; exact absurd h1 (by simp)
  · exact Or.inr (Or.inl h1)
  · exact Or.inr (Or.inr (by omega))

/-- From `c ≤ b` and `a < c`: not `b < a`. -/
theorem not_lt_of_gt (f : Format) (a b c : Nat) (h1 : lt f b c = false)
    (h2 : lt f a c = true) : lt f b a = false := by
  rw [lt_eq_true_iff] at h2
  rw [lt_eq_false_iff] at h1 ⊢
  rcases h1 with h1 | h1 | h1
  · exact Or.inl h1
  · rw [h2.2.1] at h1; exact absurd h1 (by simp)
  · exact Or.inr (Or.inr (by omega))

end IEEE

/-- A running best value over a list: it is the start value or a member, the
start value is not better, and no member is better. -/
theorem foldl_best_spec (better : Nat → Nat → Bool) (ok : Nat → Prop)
    (A0 : ∀ a, better a a = false)
    (A1 : ∀ a b c, better b a = false → better c b = false → ok b → better c a = false)
    (A2 : ∀ a b c, better c b = false → better c a = true → better a b = false)
    (A3 : ∀ v m, better v m = true → ok v)
    (vals : List Nat) :
    ∀ init : Nat, ok init →
      (vals.foldl (fun m v => if better v m then v else m) init = init ∨
        vals.foldl (fun m v => if better v m then v else m) init ∈ vals) ∧
      better init (vals.foldl (fun m v => if better v m then v else m) init) = false ∧
      (∀ v ∈ vals,
        better v (vals.foldl (fun m v => if better v m then v else m) init) = false) := by
  induction vals with
  | nil =>
    intro init _
    exact ⟨Or.inl rfl, A0 init, fun v h => absurd h (List.not_mem_nil v)⟩
  | cons v vs ih =>
    intro init hok
    rw [List.foldl_cons]
    by_cases hb : better v init = true
    · rw [if_pos hb]
      obtain ⟨h1, h2, h3⟩ := ih v (A3 v init hb)
      refine ⟨?_, A2 _ _ _ h2 hb, ?_⟩
      · rcases h1 with h1 | h1
        · right; rw [h1]; exact List.mem_cons_self _ _
        · right; exact List.mem_cons_of_mem _ h1
      · intro w hw
        rcases List.mem_cons.mp hw with rfl | hw
        · exact h2
        · exact h3 w hw
    · rw [if_neg hb]
      obtain ⟨h1, h2, h3⟩ := ih init hok
      refine ⟨?_, h2, ?_⟩
      · rcases h1 with h1 | h1
        · exact Or.inl h1
        · right; exact List.mem_cons_of_mem _ h1
      · intro w hw
        rcases List.mem_cons.mp hw with rfl | hw
        · exact A1 _ _ _ h2 (by simpa using hb) hok
        · exact h3 w hw

section
open IEEE

theorem lt_irrefl64 (a : Nat) : lt binary64 a a = false := by
  rw [lt_eq_false_iff]
  by_cases h : isNaN binary64 a = true
  · exact Or.inl h
  · exact Or.inr (Or.inr (Int.le_refl _))

/-- The running minimum of `calculateSceneBounds` over values of which one is
below the start value is a minimum of the values. -/
theorem running_min (vals : List float64) (init : float64) (hinit : isNaN binary64 init = false)
    (hex : ∃ v ∈ vals, lt binary64 v init = true) :
    IsMinOf vals (vals.foldl (fun m v => if lt binary64 v m then v else m) init) := by
  obtain ⟨h1, h2, h3⟩ := foldl_best_spec (fun v m => lt binary64 v m)
    (fun b => isNaN binary64 b = false) lt_irrefl64
    (fun a b c => not_lt_trans binary64 a b c)
    (fun a b c => not_lt_of_lt binary64 a b c)
    (fun v m h => ((lt_eq_true_iff binary64 v m).mp h).1) vals init hinit
  refine ⟨?_, h3⟩
  rcases h1 with h1 | h1
  · obtain ⟨v, hv, hlt⟩ := hex
    have := h3 v hv
    rw [h1, hlt] at this
    exact absurd this (by simp)
  · exact h1

/-- The running maximum of `calculateSceneBounds` over values of which one is
above the start value is a maximum of the values. -/
theorem running_max (vals : List float64) (init : float64) (hinit : isNaN binary64 init = false)
    (hex : ∃ v ∈ vals, lt binary64 init v = true) :
    IsMaxOf vals (vals.foldl (fun m v => if lt binary64 m v then v else m) init) := by
  obtain ⟨h1, h2, h3⟩ := foldl_best_spec (fun v m => lt binary64 m v)
    (fun b => isNaN binary64 b = false) lt_irrefl64
    (fun a b c h1 h2 hb => not_lt_trans binary64 c b a h2 h1 hb)
    (fun a b c => not_lt_of_gt binary64 a b c)
    (fun v m h => ((lt_eq_true_iff binary64 m v).mp h).2.1) vals init hinit
  refine ⟨?_, h3⟩
  rcases h1 with h1 | h1
  · obtain ⟨v, hv, hlt⟩ := hex
    have := h3 v hv
    rw [h1, hlt] at this
    exact absurd this (by simp)
  · exact h1

end

/-! ## Bounds on rounded sums -/

namespace IEEE

theorem numer_small (n : Nat) (h : n < 2 ^ 52) : numer binary64 n = n := by
  have e2 : binary64.mbits = 52 := rfl
  have e3 : binary64.ebits = 11 := rfl
  unfold numer
  rw [e2, e3]
  have a : n / 2 ^ 52 % 2 ^ 11 = 0 := by omega
  have b : n % 2 ^ 52 = n := by omega
  simp only [a, b, if_true]

/-- Rounding a numerator over `2 ^ 1074` gives a number, at most twice the
numerator. -/
theorem round_bound (s : Bool) (n : Nat) (hn : n < 2 ^ 2000) :
    isNaN binary64 (roundRat binary64 s n (2 ^ 1074)) = false ∧
    numer binary64 (roundRat binary64 s n (2 ^ 1074)) ≤ 2 * n := by
  have hC : 0 < 2 ^ 1074 := Nat.two_pow_pos 1074
  have hdiv : n * 2 ^ 1074 / 2 ^ 1074 = n := Nat.mul_div_cancel _ hC
  rcases Nat.lt_or_ge n (2 ^ 52) with hs | hb
  · have e1 : binary64.scaleExp = 1074 := rfl
    have e2 : binary64.mbits = 52 := rfl
    have e3 : binary64.infBits = 2047 * 2 ^ 52 := rfl
    have hlog : ilog2 n - 52 = 0 := by
      rcases Nat.eq_zero_or_pos n with h0 | h0
      · subst h0
        have : ilog2 0 = 0 := by simp [ilog2, log2Levels, log2Search]
        rw [this]
      · obtain ⟨l, -⟩ := ilog2_spec n h0
        have : ilog2 n < 52 :=
          (Nat.pow_lt_pow_iff_right (by norm_num : 1 < 2)).mp (Nat.lt_of_le_of_lt l hs)
        omega
    have hr : roundRat binary64 s n (2 ^ 1074) = withSign binary64 s n := by
      rw [roundRat_eq, e1, e2, e3, hdiv, hlog, Nat.zero_mul, Nat.zero_add, Nat.pow_zero,
        Nat.mul_one, roundHalfEven_of_dvd _ _ hC (Nat.dvd_mul_left _ _), hdiv]
      congr 1
      exact Nat.min_eq_right (by omega)
    rw [hr]
    obtain ⟨f1, f2, f3⟩ := withSign_facts s n (by omega)
    refine ⟨?_, ?_⟩
    · unfold isNaN
      rw [f1, e3]
      exact decide_eq_false (by omega)
    · rw [f3, numer_small n hs]
      omega
  · have hpos : 1 ≤ n := Nat.le_trans (Nat.two_pow_pos 52) hb
    obtain ⟨l, u⟩ := ilog2_spec n hpos
    have t1 : 52 < ilog2 n + 1 :=
      (Nat.pow_lt_pow_iff_right (by norm_num : 1 < 2)).mp (Nat.lt_of_le_of_lt hb u)
    have t2 : ilog2 n < 2000 :=
      (Nat.pow_lt_pow_iff_right (by norm_num : 1 < 2)).mp (Nat.lt_of_le_of_lt l hn)
    generalize ilog2 n = t at l u t1 t2
    obtain ⟨c1, -, -, -, c5⟩ := roundRat_normal_facts s n (2 ^ 1074) t hC
      (by rw [hdiv]; exact l) (by rw [hdiv]; exact u) (by omega) (by omega)
    refine ⟨c1, ?_⟩
    rw [c5]
    have hq : 0 < 2 ^ (t - 52) := Nat.two_pow_pos _
    have hle : 2 ^ (t - 52) ≤ 2 ^ t := Nat.pow_le_pow_right (by norm_num) (by omega)
    have hr := (roundHalfEven_bounds (n * 2 ^ 1074) (2 ^ 1074 * 2 ^ (t - 52))).2
    have hq2 : n * 2 ^ 1074 / (2 ^ 1074 * 2 ^ (t - 52)) = n / 2 ^ (t - 52) := by
      rw [Nat.mul_comm n, Nat.mul_div_mul_left _ _ hC]
    rw [hq2] at hr
    have hm : n / 2 ^ (t - 52) * 2 ^ (t - 52) ≤ n := Nat.div_mul_le_self _ _
    calc roundHalfEven (n * 2 ^ 1074) (2 ^ 1074 * 2 ^ (t - 52)) * 2 ^ (t - 52)
        ≤ (n / 2 ^ (t - 52) + 1) * 2 ^ (t - 52) := Nat.mul_le_mul_right _ hr
      _ = n / 2 ^ (t - 52) * 2 ^ (t - 52) + 2 ^ (t - 52) := by rw [Nat.add_mul, Nat.one_mul]
      _ ≤ n + n := Nat.add_le_add hm (Nat.le_trans hle l)
      _ = 2 * n := (Nat.two_mul n).symm

theorem numer_inf (x : Nat) (h : isInf binary64 x = true) :
    2 ^ 1999 ≤ numer binary64 x := by
  have e1 : binary64.signBit = 2 ^ 63 := rfl
  have e2 : binary64.mbits = 52 := rfl
  have e3 : binary64.ebits = 11 := rfl
  have e4 : binary64.infBits = 2047 * 2 ^ 52 := rfl
  unfold isInf magnitude at h
  rw [e1, e4] at h
  have h' : x % 2 ^ 63 = 2047 * 2 ^ 52 := by simpa using h
  unfold numer
  rw [e2, e3]
  have a : x / 2 ^ 52 % 2 ^ 11 ≠ 0 := by omega
  have k : 1999 ≤ x / 2 ^ 52 % 2 ^ 11 - 1 := by omega
  simp only [a, if_false]
  exact Nat.le_trans (Nat.pow_le_pow_right (by decide) k)
    (Nat.le_mul_of_pos_left _ (Nat.add_pos_left (Nat.two_pow_pos 52) _))

/-- The sum of two finite values is a number, at most twice the sum of the
magnitudes. -/
theorem add_bound (x y : Nat) (hx : isNaN binary64 x = false) (hy : isNaN binary64 y = false)
    (hxi : isInf binary64 x = false) (hyi : isInf binary64 y = false)
    (hsum : numer binary64 x + numer binary64 y < 2 ^ 2000) :
    isNaN binary64 (add binary64 x y) = false ∧
    numer binary64 (add binary64 x y) ≤ 2 * (numer binary64 x + numer binary64 y) := by
  have e1 : binary64.scaleExp = 1074 := rfl
  unfold add
  simp only [hx, hy, hxi, hyi, Bool.false_eq_true, or_self, if_false, e1]
  split_ifs with h1 h2 h3
  · exact round_bound _ _ hsum
  · exact ⟨zero_bits binary64 |>.1, by rw [(zero_bits binary64).2.2.1]; omega⟩
  · obtain ⟨r1, r2⟩ := round_bound (signOf binary64 x) (numer binary64 x - numer binary64 y)
      (by omega)
    exact ⟨r1, by omega⟩
  · obtain ⟨r1, r2⟩ := round_bound (signOf binary64 y) (numer binary64 y - numer binary64 x)
      (by omega)
    exact ⟨r1, by omega⟩

theorem signedNumer_abs (x : Nat) :
    signedNumer binary64 x ≤ (numer binary64 x : Int) ∧
    -(numer binary64 x : Int) ≤ signedNumer binary64 x := by
  unfold signedNumer
  split <;> omega

/-- A number of smaller magnitude than a positive `c` lies between `-c` and `c`. -/
theorem lt_of_numer_lt (r c : Nat) (hr : isNaN binary64 r = false)
    (hc : isNaN binary64 c = false) (hs : signOf binary64 c = false)
    (h : numer binary64 r < numer binary64 c) :
    lt binary64 r c = true ∧ lt binary64 (neg binary64 c) r = true := by
  obtain ⟨-, n2, n3, n4, -⟩ := neg_facts c
  obtain ⟨a1, a2⟩ := signedNumer_abs r
  have sc : signedNumer binary64 c = (numer binary64 c : Int) := by
    unfold signedNumer; rw [hs]; rfl
  have sn : signedNumer binary64 (neg binary64 c) = -(numer binary64 c : Int) := by
    unfold signedNumer; rw [n2, hs, n3]; rfl
  refine ⟨(lt_eq_true_iff _ _ _).2 ⟨hr, hc, ?_⟩, (lt_eq_true_iff _ _ _).2 ⟨?_, hr, ?_⟩⟩
  · rw [sc]; omega
  · rw [n4]; exact hc
  · rw [sn]; omega

/-- A number strictly between `-c` and `c` has magnitude below that of `c`
and is finite. -/
theorem numer_lt_of_lt (x c : Nat) (hs : signOf binary64 c = false)
    (hc : numer binary64 c < 2 ^ 1999)
    (h1 : lt binary64 x c = true) (h2 : lt binary64 (neg binary64 c) x = true) :
    isNaN binary64 x = false ∧ isInf binary64 x = false ∧
    numer binary64 x < numer binary64 c := by
  obtain ⟨-, n2, n3, -, -⟩ := neg_facts c
  have sc : signedNumer binary64 c = (numer binary64 c : Int) := by
    unfold signedNumer; rw [hs]; rfl
  have sn : signedNumer binary64 (neg binary64 c) = -(numer binary64 c : Int) := by
    unfold signedNumer; rw [n2, hs, n3]; rfl
  obtain ⟨a1, -, a3⟩ := (lt_eq_true_iff _ _ _).1 h1
  obtain ⟨-, -, b3⟩ := (lt_eq_true_iff _ _ _).1 h2
  rw [sc] at a3
  rw [sn] at b3
  have hlt : numer binary64 x < numer binary64 c := by
    unfold signedNumer at a3 b3
    cases hsx : signOf binary64 x <;> rw [hsx] at a3 b3 <;>
      simp only [if_true, if_false, Bool.false_eq_true] at a3 b3 <;> omega
  refine ⟨a1, ?_, hlt⟩
  cases hi : isInf binary64 x
  · rfl
  · have := numer_inf x hi
    omega

theorem bound_constants :
    isNaN binary64 (f64 10000000000 1) = false ∧ signOf binary64 (f64 10000000000 1) = false ∧
    numer binary64 (f64 10000000000 1) = 10000000000 * 2 ^ 1074 ∧
    isNaN binary64 (f64 1000000000 1) = false ∧ signOf binary64 (f64 1000000000 1) = false ∧
    numer binary64 (f64 1000000000 1) = 1000000000 * 2 ^ 1074 ∧
    isNaN binary64 (f64 2 1) = false ∧ isInf binary64 (f64 2 1) = false ∧
    signOf binary64 (f64 2 1) = false ∧ numer binary64 (f64 2 1) = 2 * 2 ^ 1074 ∧
    isNaN binary64 (f64 5 10) = false ∧ isInf binary64 (f64 5 10) = false ∧
    signOf binary64 (f64 5 10) = false ∧ numer binary64 (f64 5 10) = 2 ^ 1073 := by decide!

end IEEE

/-! ## The bounds loop as running extremes -/

section
open IEEE

theorem translations_cons3 (nd : gltf.Node) (rest : List gltf.Node) (x y z : float64)
    (h : nd.Translation = [x, y, z]) :
    translations (nd :: rest) = (x, y, z) :: translations rest := by
  unfold translations
  rw [List.filterMap_cons]
  simp only [h]

theorem translations_cons_other (nd : gltf.Node) (rest : List gltf.Node)
    (h : ∀ x y z, nd.Translation ≠ [x, y, z]) :
    translations (nd :: rest) = translations rest := by
  unfold translations
  rw [List.filterMap_cons]
  split
  · rfl
  · rename_i b hb
    split at hb
    · rename_i x y z hxyz
      exact absurd hxyz (h x y z)
    · exact absurd hb (by simp)

theorem boundsBody_other (nd : gltf.Node) (s : BoundsState)
    (h : ∀ x y z, nd.Translation ≠ [x, y, z]) : boundsBody nd s = s := by
  unfold boundsBody
  split
  · rename_i x y z hxyz
    exact absurd hxyz (h x y z)
  · rfl

theorem boundsBody_fields (nd : gltf.Node) (s : BoundsState) (x y z : float64)
    (h : nd.Translation = [x, y, z]) :
    (boundsBody nd s).minX
      = (if lt binary64 (sub binary64 x (f64 2 1)) s.minX then sub binary64 x (f64 2 1)
         else s.minX) ∧
    (boundsBody nd s).minY
      = (if lt binary64 (sub binary64 y (f64 2 1)) s.minY then sub binary64 y (f64 2 1)
         else s.minY) ∧
    (boundsBody nd s).minZ
      = (if lt binary64 (sub binary64 z (f64 5 10)) s.minZ then sub binary64 z (f64 5 10)
         else s.minZ) ∧
    (boundsBody nd s).maxX
      = (if lt binary64 s.maxX (add binary64 x (f64 2 1)) then add binary64 x (f64 2 1)
         else s.maxX) ∧
    (boundsBody nd s).maxY
      = (if lt binary64 s.maxY (add binary64 y (f64 2 1)) then add binary64 y (f64 2 1)
         else s.maxY) ∧
    (boundsBody nd s).maxZ
      = (if lt binary64 s.maxZ (add binary64 z (f64 5 10)) then add binary64 z (f64 5 10)
         else s.maxZ) := by
  unfold boundsBody
  simp only [h, apply_ite BoundsState.minX, apply_ite BoundsState.minY,
    apply_ite BoundsState.minZ, apply_ite BoundsState.maxX, apply_ite BoundsState.maxY,
    apply_ite BoundsState.maxZ, ite_self, and_self]

/-- Each field of the loop result is a running minimum or maximum over the
3-component translations. -/
theorem boundsLoop_fields (nodes : List gltf.Node) (s : BoundsState) :
    (boundsLoop nodes s).minX
      = ((translations nodes).map (fun t => sub binary64 t.1 (f64 2 1))).foldl
          (fun m v => if lt binary64 v m then v else m) s.minX ∧
    (boundsLoop nodes s).minY
      = ((translations nodes).map (fun t => sub binary64 t.2.1 (f64 2 1))).foldl
          (fun m v => if lt binary64 v m then v else m) s.minY ∧
    (boundsLoop nodes s).minZ
      = ((translations nodes).map (fun t => sub binary64 t.2.2 (f64 5 10))).foldl
          (fun m v => if lt binary64 v m then v else m) s.minZ ∧
    (boundsLoop nodes s).maxX
      = ((translations nodes).map (fun t => add binary64 t.1 (f64 2 1))).foldl
          (fun m v => if lt binary64 m v then v else m) s.maxX ∧
    (boundsLoop nodes s).maxY
      = ((translations nodes).map (fun t => add binary64 t.2.1 (f64 2 1))).foldl
          (fun m v => if lt binary64 m v then v else m) s.maxY ∧
    (boundsLoop nodes s).maxZ
      = ((translations nodes).map (fun t => add binary64 t.2.2 (f64 5 10))).foldl
          (fun m v => if lt binary64 m v then v else m) s.maxZ := by
  induction nodes generalizing s with
  | nil => exact ⟨rfl, rfl, rfl, rfl, rfl, rfl⟩
  | cons nd rest ih =>
    show (boundsLoop rest (boundsBody nd s)).minX = _ ∧ (boundsLoop rest (boundsBody nd s)).minY = _ ∧
      (boundsLoop rest (boundsBody nd s)).minZ = _ ∧ (boundsLoop rest (boundsBody nd s)).maxX = _ ∧
      (boundsLoop rest (boundsBody nd s)).maxY = _ ∧ (boundsLoop rest (boundsBody nd s)).maxZ = _
    obtain ⟨i1, i2, i3, i4, i5, i6⟩ := ih (boundsBody nd s)
    rw [i1, i2, i3, i4, i5, i6]
    by_cases h : ∃ x y z, nd.Translation = [x, y, z]
    · obtain ⟨x, y, z, h⟩ := h
      obtain ⟨b1, b2, b3, b4, b5, b6⟩ := boundsBody_fields nd s x y z h
      rw [translations_cons3 nd rest x y z h, b1, b2, b3, b4, b5, b6]
      simp only [List.map_cons, List.foldl_cons, and_self]
    · have h' : ∀ x y z, nd.Translation ≠ [x, y, z] := fun x y z e => h ⟨x, y, z, e⟩
      rw [translations_cons_other nd rest h', boundsBody_other nd s h']
      exact ⟨rfl, rfl, rfl, rfl, rfl, rfl⟩

end

/-! ## The camera report of an asset -/

section
open IEEE

/-- A coordinate of magnitude below 1e9, shifted by a half-extent of at most 2,
lies strictly between -1e10 and 1e10. -/
theorem shifted_bounds (x e : float64) (hx : Below1e9 x) (he1 : isNaN binary64 e = false)
    (he2 : isInf binary64 e = false) (he3 : numer binary64 e ≤ 2 * 2 ^ 1074) :
    lt binary64 (add binary64 x e) (f64 10000000000 1) = true ∧
    lt binary64 (neg binary64 (f64 10000000000 1)) (add binary64 x e) = true := by
  obtain ⟨c1, c2, c3, c4, c5, c6, -⟩ := bound_constants
  obtain ⟨x1, x2, x3⟩ := numer_lt_of_lt x (f64 1000000000 1) c5
    (by rw [c6]; exact Nat.lt_of_lt_of_le (by decide : 1000000000 * 2 ^ 1074 < 2 ^ 1104)
          (Nat.pow_le_pow_right (by decide) (by decide))) hx.1 hx.2
  rw [c6] at x3
  have hp : 2 ^ 1074 * 2 ^ 926 = 2 ^ 2000 := by rw [← Nat.pow_add]
  obtain ⟨r1, r2⟩ := add_bound x e x1 he1 x2 he2 (by
    rw [← hp]
    generalize 2 ^ 1074 = c at x3 he3 ⊢
    have : c * (1000000000 + 2) ≤ c * 2 ^ 926 := Nat.mul_le_mul_left _ (by decide)
    have h2 : 0 < c ∨ c = 0 := by omega
    rcases h2 with h2 | h2
    · rw [Nat.mul_add] at this; omega
    · subst h2; omega)
  exact lt_of_numer_lt _ _ r1 c1 c2 (by rw [c3]; omega)

theorem sub_eq_add_neg64 (x e : float64) : sub binary64 x e = add binary64 x (neg binary64 e) :=
  rfl

/-- Every value `x - e` and `x + e`, for `e` one of the half-extents 2.0 and
0.5, lies strictly between -1e10 and 1e10. -/
theorem half_extent_bounds (x : float64) (hx : Below1e9 x) :
    lt binary64 (sub binary64 x (f64 2 1)) (f64 10000000000 1) = true ∧
    lt binary64 (neg binary64 (f64 10000000000 1)) (add binary64 x (f64 2 1)) = true ∧
    lt binary64 (sub binary64 x (f64 5 10)) (f64 10000000000 1) = true ∧
    lt binary64 (neg binary64 (f64 10000000000 1)) (add binary64 x (f64 5 10)) = true := by
  obtain ⟨-, -, -, -, -, -, t1, t2, -, t4, d1, d2, -, d4⟩ := bound_constants
  obtain ⟨-, -, n3, n4, n5⟩ := neg_facts (f64 2 1)
  obtain ⟨-, -, m3, m4, m5⟩ := neg_facts (f64 5 10)
  have hd : 2 ^ 1073 ≤ 2 * 2 ^ 1074 := by omega
  refine ⟨?_, ?_, ?_, ?_⟩
  · rw [sub_eq_add_neg64]
    exact (shifted_bounds x _ hx (by rw [n4, t1]) (by rw [n5, t2]) (by rw [n3, t4])).1
  · exact (shifted_bounds x _ hx t1 t2 (by rw [t4])).2
  · rw [sub_eq_add_neg64]
    exact (shifted_bounds x _ hx (by rw [m4, d1]) (by rw [m5, d2]) (by rw [m3, d4]; exact hd)).1
  · exact (shifted_bounds x _ hx d1 d2 (by rw [d4]; exact hd)).2

theorem boundsResult_eq (s : BoundsState) :
    boundsResult s = boundsReport s.minX s.minY s.minZ s.maxX s.maxY s.maxZ := rfl

/-- C21. for an asset with at least one node whose translation has 3
components, all such coordinates of magnitude below 1e9, `calculateSceneBounds`
returns the report (center = (min + max) / 2, size = max - min, distance =
max(2.5 * max(sizeX, sizeY), 3.0), target = center, orbit = (45, 55, distance))
of, per axis, a minimum over these nodes of translation - e and a maximum of
translation + e, with e = (2.0, 2.0, 0.5); and any asset with the same
3-component translations, whatever its other nodes, gets the same report. -/
theorem calculateSceneBounds_report (asset : gltf.GLTFAsset)
    (hne : translations asset.Nodes ≠ [])
    (hb : ∀ t ∈ translations asset.Nodes, Below1e9 t.1 ∧ Below1e9 t.2.1 ∧ Below1e9 t.2.2) :
    (∃ minX minY minZ maxX maxY maxZ : float64,
      IsMinOf ((translations asset.Nodes).map (fun t => sub binary64 t.1 (f64 2 1))) minX ∧
      IsMinOf ((translations asset.Nodes).map (fun t => sub binary64 t.2.1 (f64 2 1))) minY ∧
      IsMinOf ((translations asset.Nodes).map (fun t => sub binary64 t.2.2 (f64 5 10))) minZ ∧
      IsMaxOf ((translations asset.Nodes).map (fun t => add binary64 t.1 (f64 2 1))) maxX ∧
      IsMaxOf ((translations asset.Nodes).map (fun t => add binary64 t.2.1 (f64 2 1))) maxY ∧
      IsMaxOf ((translations asset.Nodes).map (fun t => add binary64 t.2.2 (f64 5 10))) maxZ ∧
      calculateSceneBounds asset = boundsReport minX minY minZ maxX maxY maxZ) ∧
    (∀ other : gltf.GLTFAsset, translations other.Nodes = translations asset.Nodes →
      calculateSceneBounds other = calculateSceneBounds asset) := by
  obtain ⟨c1, -⟩ := bound_constants
  have cn : isNaN binary64 (neg binary64 (f64 10000000000 1)) = false := by
    rw [(neg_facts _).2.2.2.1]; exact c1
  constructor
  · obtain ⟨f1, f2, f3, f4, f5, f6⟩ := boundsLoop_fields asset.Nodes
      { minX := f64 10000000000 1, minY := f64 10000000000 1, minZ := f64 10000000000 1,
        maxX := neg binary64 (f64 10000000000 1), maxY := neg binary64 (f64 10000000000 1),
        maxZ := neg binary64 (f64 10000000000 1) }
    obtain ⟨t, ts, hts⟩ := List.exists_cons_of_ne_nil hne
    have ht : t ∈ translations asset.Nodes := by rw [hts]; exact List.mem_cons_self _ _
    obtain ⟨bx, by', bz⟩ := hb t ht
    obtain ⟨x1, x2, -, -⟩ := half_extent_bounds t.1 bx
    obtain ⟨y1, y2, -, -⟩ := half_extent_bounds t.2.1 by'
    obtain ⟨-, -, z1, z2⟩ := half_extent_bounds t.2.2 bz
    refine ⟨_, _, _, _, _, _, ?_, ?_, ?_, ?_, ?_, ?_, boundsResult_eq _⟩
    · rw [f1]
      exact running_min _ _ c1 ⟨_, List.mem_map_of_mem _ ht, x1⟩
    · rw [f2]
      exact running_min _ _ c1 ⟨_, List.mem_map_of_mem _ ht, y1⟩
    · rw [f3]
      exact running_min _ _ c1 ⟨_, List.mem_map_of_mem _ ht, z1⟩
    · rw [f4]
      exact running_max _ _ cn ⟨_, List.mem_map_of_mem _ ht, x2⟩
    · rw [f5]
      exact running_max _ _ cn ⟨_, List.mem_map_of_mem _ ht, y2⟩
    · rw [f6]
      exact running_max _ _ cn ⟨_, List.mem_map_of_mem _ ht, z2⟩
  · intro other ho
    unfold calculateSceneBounds
    simp only
    rw [boundsResult_eq, boundsResult_eq]
    obtain ⟨f1, f2, f3, f4, f5, f6⟩ := boundsLoop_fields asset.Nodes
      { minX := f64 10000000000 1, minY := f64 10000000000 1, minZ := f64 10000000000 1,
        maxX := neg binary64 (f64 10000000000 1), maxY := neg binary64 (f64 10000000000 1),
        maxZ := neg binary64 (f64 10000000000 1) }
    obtain ⟨g1, g2, g3, g4, g5, g6⟩ := boundsLoop_fields other.Nodes
      { minX := f64 10000000000 1, minY := f64 10000000000 1, minZ := f64 10000000000 1,
        maxX := neg binary64 (f64 10000000000 1), maxY := neg binary64 (f64 10000000000 1),
        maxZ := neg binary64 (f64 10000000000 1) }
    rw [g1, g2, g3, g4, g5, g6, f1, f2, f3, f4, f5, f6, ho]

theorem sample_translations :
    translations sampleBoundsAsset.Nodes
      = [(f64 0 1, f64 0 1, f64 0 1), (f64 3 1, neg binary64 (f64 1 1), f64 0 1)] := rfl

theorem calculateSceneBounds_report_witness :
    translations sampleBoundsAsset.Nodes ≠ [] ∧
    calculateSceneBounds { sampleBoundsAsset with Nodes := sampleBoundsAsset.Nodes.take 3 }
      = calculateSceneBounds sampleBoundsAsset :=
  ⟨by rw [sample_translations]; exact List.cons_ne_nil _ _,
   (calculateSceneBounds_report sampleBoundsAsset
      (by rw [sample_translations]; exact List.cons_ne_nil _ _)
      (by
        rw [sample_translations]
        intro t ht
        simp only [List.mem_cons, List.mem_singleton, List.not_mem_nil, or_false] at ht
        rcases ht with rfl | rfl <;> unfold Below1e9 <;> decide!)).2 _ rfl⟩

end

/-! ## Exact arithmetic on small integers -/

namespace IEEE

theorem ofInt_zero_bits : ofInt binary64 ((0 : Nat) : Int) = 0 := by decide!

/-- The conversion of a natural number below `2 ^ 53` is exact. -/
theorem ofInt_facts (n : Nat) (h : n < 2 ^ 53) :
    isNaN binary64 (ofInt binary64 (n : Int)) = false ∧
    isInf binary64 (ofInt binary64 (n : Int)) = false ∧
    signOf binary64 (ofInt binary64 (n : Int)) = false ∧
    numer binary64 (ofInt binary64 (n : Int)) = n * 2 ^ 1074 ∧
    signedNumer binary64 (ofInt binary64 (n : Int)) = ((n * 2 ^ 1074 : Nat) : Int) := by
  have key : isNaN binary64 (ofInt binary64 (n : Int)) = false ∧
      isInf binary64 (ofInt binary64 (n : Int)) = false ∧
      signOf binary64 (ofInt binary64 (n : Int)) = false ∧
      numer binary64 (ofInt binary64 (n : Int)) = n * 2 ^ 1074 := by
    rcases Nat.eq_zero_or_pos n with h0 | h0
    · subst h0
      rw [ofInt_zero_bits]
      decide!
    · obtain ⟨a, b, c, -, e⟩ := ofInt_exact n h0 h
      exact ⟨a, b, c, e⟩
  obtain ⟨a, b, c, e⟩ := key
  refine ⟨a, b, c, e, ?_⟩
  unfold signedNumer
  rw [c, e]
  rfl

theorem f64_one_den (n : Nat) : f64 n 1 = ofInt binary64 (n : Int) := (ofInt_natCast binary64 n).symm

theorem roundRat_scaled (s : Bool) (n : Nat) :
    roundRat binary64 s (n * 2 ^ 1074) (2 ^ 1074) = roundRat binary64 s n 1 := by
  have h := roundRat_mul_right binary64 s n 1 (2 ^ 1074) (Nat.two_pow_pos 1074)
  rw [Nat.one_mul] at h
  exact h

theorem add_ofInt (a b : Nat) (h : a + b < 2 ^ 53) :
    add binary64 (ofInt binary64 (a : Int)) (ofInt binary64 (b : Int))
      = ofInt binary64 ((a + b : Nat) : Int) := by
  obtain ⟨a1, a2, a3, a4, -⟩ := ofInt_facts a (by omega)
  obtain ⟨b1, b2, b3, b4, -⟩ := ofInt_facts b (by omega)
  have e1 : binary64.scaleExp = 1074 := rfl
  unfold add
  simp only [a1, a2, a3, a4, b1, b2, b3, b4, Bool.false_eq_true, or_self, if_false, if_true, e1]
  rw [← Nat.add_mul, roundRat_scaled, ofInt_natCast]

/-- Subtracting a smaller natural number from a larger one is exact. -/
theorem sub_ofInt (a b : Nat) (h : a < 2 ^ 53) (hb : b ≤ a) :
    sub binary64 (ofInt binary64 (a : Int)) (ofInt binary64 (b : Int))
      = ofInt binary64 ((a - b : Nat) : Int) ∧
    add binary64 (neg binary64 (ofInt binary64 (b : Int))) (ofInt binary64 (a : Int))
      = ofInt binary64 ((a - b : Nat) : Int) := by
  obtain ⟨a1, a2, a3, a4, -⟩ := ofInt_facts a (by omega)
  obtain ⟨b1, b2, b3, b4, -⟩ := ofInt_facts b (by omega)
  obtain ⟨-, n2, n3, n4, n5⟩ := neg_facts (ofInt binary64 (b : Int))
  rw [b3] at n2
  rw [b4] at n3
  rw [b1] at n4
  rw [b2] at n5
  have e1 : binary64.scaleExp = 1074 := rfl
  have hC : 0 < 2 ^ 1074 := Nat.two_pow_pos 1074
  have hm : a * 2 ^ 1074 - b * 2 ^ 1074 = (a - b) * 2 ^ 1074 := (Nat.sub_mul _ _ _).symm
  rcases Nat.eq_or_lt_of_le hb with hab | hab
  · subst hab
    rw [Nat.sub_self, ofInt_zero_bits]
    constructor
    · unfold sub add
      simp [a1, a2, a3, a4, n2, n3, n4, n5]
    · unfold add
      simp [a1, a2, a3, a4, n2, n3, n4, n5]
  · have hlt : b * 2 ^ 1074 < a * 2 ^ 1074 := Nat.mul_lt_mul_of_pos_right hab hC
    have hne : a * 2 ^ 1074 ≠ b * 2 ^ 1074 := by omega
    have hnlt : ¬ a * 2 ^ 1074 < b * 2 ^ 1074 := by omega
    constructor
    · unfold sub add
      simp only [a1, a2, a3, a4, n2, n3, n4, n5, Bool.false_eq_true, or_self, if_false, e1,
        Bool.not_false, hne, hlt, if_true]
      rw [hm, roundRat_scaled, ofInt_natCast]
    · unfold add
      simp only [a1, a2, a3, a4, n2, n3, n4, n5, Bool.false_eq_true, or_self, if_false, e1,
        Bool.not_false, hne.symm, hnlt, Bool.true_eq_false]
      rw [hm, roundRat_scaled, ofInt_natCast]

theorem lt_ofInt (a b : Nat) (ha : a < 2 ^ 53) (hb : b < 2 ^ 53) :
    lt binary64 (ofInt binary64 (a : Int)) (ofInt binary64 (b : Int)) = decide (a < b) := by
  obtain ⟨a1, -, -, -, a5⟩ := ofInt_facts a ha
  obtain ⟨b1, -, -, -, b5⟩ := ofInt_facts b hb
  have hC : 0 < 2 ^ 1074 := Nat.two_pow_pos 1074
  unfold lt
  rw [a1, b1, a5, b5]
  simp only [Bool.not_false, Bool.true_and, Nat.cast_lt]
  congr 1
  exact propext (Nat.mul_lt_mul_right hC)

/-- A natural number is not below a negated natural number. -/
theorem lt_ofInt_neg (a b : Nat) (ha : a < 2 ^ 53) (hb : b < 2 ^ 53) :
    lt binary64 (ofInt binary64 (a : Int)) (neg binary64 (ofInt binary64 (b : Int))) = false := by
  obtain ⟨a1, -, -, -, a5⟩ := ofInt_facts a ha
  obtain ⟨b1, -, b3, b4, -⟩ := ofInt_facts b hb
  obtain ⟨-, n2, n3, n4, -⟩ := neg_facts (ofInt binary64 (b : Int))
  rw [lt_eq_false_iff]
  right; right
  rw [a5]
  unfold signedNumer
  rw [n2, b3, n3, b4]
  simp only [Bool.not_false, if_true]
  omega

theorem two_ne_zero_bits : magnitude binary64 (f64 2 1) ≠ 0 := by decide!

/-- Halving a natural number gives the correctly rounded half. -/
theorem div_two_ofInt (k : Nat) (h : k < 2 ^ 53) :
    div binary64 (ofInt binary64 (k : Int)) (f64 2 1) = f64 k 2 := by
  obtain ⟨a1, a2, a3, a4, -⟩ := ofInt_facts k h
  obtain ⟨-, -, -, -, -, -, t1, t2, t3, t4, -⟩ := bound_constants
  unfold div
  simp only [a1, a2, a3, a4, t1, t2, t3, t4, two_ne_zero_bits, Bool.false_eq_true, or_self,
    if_false, bne_self_eq_false]
  exact roundRat_mul_right binary64 false k 2 (2 ^ 1074) (Nat.two_pow_pos 1074)

/-- Multiplying a natural number by 2.5 gives the correctly rounded product. -/
theorem mul_ofInt_target (k : Nat) (h : k < 2 ^ 53) :
    mul binary64 (ofInt binary64 (k : Int)) (f64 25 10) = f64 (5 * k) 2 := by
  obtain ⟨a1, a2, a3, a4, -⟩ := ofInt_facts k h
  obtain ⟨t1, t2, t3, t4⟩ := target_facts
  have e1 : binary64.scaleExp = 1074 := rfl
  unfold mul
  simp only [a1, a2, a3, a4, t1, t2, t3, t4, Bool.false_eq_true, or_self, if_false,
    bne_self_eq_false, e1]
  have hn : k * 2 ^ 1074 * (5 * 2 ^ 50 * 2 ^ 1023) = 5 * k * (2 ^ 1074 * 2 ^ 1073) := by
    have : (5 * 2 ^ 50 * 2 ^ 1023 : Nat) = 5 * 2 ^ 1073 := by
      rw [Nat.mul_assoc, ← Nat.pow_add]
    rw [this]
    ring
  have hd : (2 ^ 1074 * 2 ^ 1074 : Nat) = 2 * (2 ^ 1074 * 2 ^ 1073) := by
    have : (2 ^ 1074 : Nat) = 2 * 2 ^ 1073 := by
      rw [Nat.mul_comm, ← Nat.pow_succ]
    nth_rewrite 2 [this]
    ring
  rw [hn, hd]
  exact roundRat_mul_right binary64 false (5 * k) 2 (2 ^ 1074 * 2 ^ 1073)
    (Nat.mul_pos (Nat.two_pow_pos _) (Nat.two_pow_pos _))

/-- Half of a natural number `n` of at least 8 is not below 3. -/
theorem half_not_lt_three (n : Nat) (h1 : 8 ≤ n) (h2 : n < 2 ^ 60) :
    lt binary64 (f64 n 2) (f64 3 1) = false := by
  obtain ⟨c1, -, c3, c4⟩ := three_facts
  have hC : (2 ^ 1074 : Nat) = 2 * 2 ^ 1073 := by rw [Nat.mul_comm, ← Nat.pow_succ]
  have hq : n * 2 ^ 1074 / 2 = n * 2 ^ 1073 := by
    rw [hC, Nat.mul_comm 2, ← Nat.mul_assoc]
    exact Nat.mul_div_cancel _ (by decide)
  have hpos : 1 ≤ n * 2 ^ 1073 := Nat.mul_pos (by omega) (Nat.two_pow_pos _)
  obtain ⟨l, u⟩ := ilog2_spec (n * 2 ^ 1073) hpos
  have hlo : 2 ^ 1076 ≤ n * 2 ^ 1073 := by
    have : (2 ^ 1076 : Nat) = 8 * 2 ^ 1073 := by
      rw [show (8 : Nat) = 2 ^ 3 from rfl, ← Nat.pow_add]
    rw [this]
    exact Nat.mul_le_mul_right _ h1
  have hhi : n * 2 ^ 1073 < 2 ^ 1133 := by
    have : (2 ^ 1133 : Nat) = 2 ^ 60 * 2 ^ 1073 := by rw [← Nat.pow_add]
    rw [this]
    exact Nat.mul_lt_mul_of_pos_right h2 (Nat.two_pow_pos _)
  have t1 : 1076 < ilog2 (n * 2 ^ 1073) + 1 :=
    (Nat.pow_lt_pow_iff_right (by norm_num : 1 < 2)).mp (Nat.lt_of_le_of_lt hlo u)
  have t2 : ilog2 (n * 2 ^ 1073) < 1133 :=
    (Nat.pow_lt_pow_iff_right (by norm_num : 1 < 2)).mp (Nat.lt_of_le_of_lt l hhi)
  generalize ilog2 (n * 2 ^ 1073) = t at l u t1 t2
  obtain ⟨r1, -, r3, -, r5⟩ := roundRat_normal_facts false n 2 t (by decide)
    (by rw [hq]; exact l) (by rw [hq]; exact u) (by omega) (by omega)
  have hge : 2 ^ t ≤ numer binary64 (f64 n 2) := by
    show 2 ^ t ≤ numer binary64 (roundRat binary64 false n 2)
    rw [r5]
    have hb := (roundHalfEven_bounds (n * 2 ^ 1074) (2 * 2 ^ (t - 52))).1
    have hdiv : n * 2 ^ 1074 / (2 * 2 ^ (t - 52)) = n * 2 ^ 1073 / 2 ^ (t - 52) := by
      rw [← Nat.div_div_eq_div_mul, hq]
    rw [hdiv] at hb
    have hsplit : (2 ^ t : Nat) = 2 ^ 52 * 2 ^ (t - 52) := by
      rw [← Nat.pow_add]; congr 1; omega
    have h52 : 2 ^ 52 ≤ n * 2 ^ 1073 / 2 ^ (t - 52) := by
      rw [Nat.le_div_iff_mul_le (Nat.two_pow_pos _), ← hsplit]
      exact l
    rw [hsplit]
    exact Nat.mul_le_mul_right _ (Nat.le_trans h52 hb)
  rw [lt_eq_false_iff]
  right; right
  have s3 : signedNumer binary64 (f64 3 1) = ((3 * 2 ^ 1074 : Nat) : Int) := by
    unfold signedNumer; rw [c3, c4]; rfl
  have sn : signedNumer binary64 (f64 n 2) = (numer binary64 (f64 n 2) : Int) := by
    unfold signedNumer
    have : signOf binary64 (f64 n 2) = false := r3
    rw [this]; rfl
  rw [s3, sn]
  have h3 : 3 * 2 ^ 1074 ≤ 2 ^ t := by
    have : (3 * 2 ^ 1074 : Nat) ≤ 2 ^ 1076 := by decide
    exact Nat.le_trans this (Nat.pow_le_pow_right (by decide) (by omega))
  exact_mod_cast Nat.le_trans h3 hge

end IEEE

/-! ## The camera report of a diagram of classes -/

section
open IEEE

theorem BoundsState_ext (s t : BoundsState) (h1 : s.minX = t.minX) (h2 : s.minY = t.minY)
    (h3 : s.minZ = t.minZ) (h4 : s.maxX = t.maxX) (h5 : s.maxY = t.maxY)
    (h6 : s.maxZ = t.maxZ) : s = t := by
  cases s
  cases t
  simp only [BoundsState.mk.injEq]
  exact ⟨h1, h2, h3, h4, h5, h6⟩

theorem boundsLoop_append (l1 l2 : List gltf.Node) (s : BoundsState) :
    boundsLoop (l1 ++ l2) s = boundsLoop l2 (boundsLoop l1 s) := by
  induction l1 generalizing s with
  | nil => rfl
  | cons nd rest ih => exact ih (boundsBody nd s)

/-- The left edge of a class on the grid is not left of -2. -/
theorem grid_left_edge (i : Nat) (h : 3 * i < 2 ^ 53) :
    lt binary64 (sub binary64 (gridX i) (f64 2 1)) (neg binary64 (f64 2 1)) = false := by
  rcases Nat.eq_zero_or_pos i with h0 | h0
  · subst h0
    decide!
  · rw [gridX_exact i h, f64_one_den 2, (sub_ofInt (3 * i) 2 h (by omega)).1]
    exact lt_ofInt_neg _ _ (by omega) (by decide)

/-- The right edge of class `i` on the grid is `3 i + 2`. -/
theorem grid_right_edge (i : Nat) (h : 3 * i + 2 < 2 ^ 53) :
    add binary64 (gridX i) (f64 2 1) = ofInt binary64 ((3 * i + 2 : Nat) : Int) := by
  rw [gridX_exact i (by omega), f64_one_den 2, add_ofInt _ _ h]

theorem row_facts :
    sub binary64 (f64 0 1) (f64 2 1) = neg binary64 (f64 2 1) ∧
    lt binary64 (neg binary64 (f64 2 1)) (f64 10000000000 1) = true ∧
    lt binary64 (neg binary64 (f64 2 1)) (neg binary64 (f64 2 1)) = false ∧
    add binary64 (f64 0 1) (f64 2 1) = f64 2 1 ∧
    lt binary64 (neg binary64 (f64 10000000000 1)) (f64 2 1) = true ∧
    lt binary64 (f64 2 1) (f64 2 1) = false ∧
    sub binary64 (f64 0 1) (f64 5 10) = neg binary64 (f64 5 10) ∧
    lt binary64 (neg binary64 (f64 5 10)) (f64 10000000000 1) = true ∧
    lt binary64 (neg binary64 (f64 5 10)) (neg binary64 (f64 5 10)) = false ∧
    add binary64 (f64 0 1) (f64 5 10) = f64 5 10 ∧
    lt binary64 (neg binary64 (f64 10000000000 1)) (f64 5 10) = true ∧
    lt binary64 (f64 5 10) (f64 5 10) = false := by decide!

theorem first_column_facts :
    sub binary64 (gridX 0) (f64 2 1) = neg binary64 (f64 2 1) ∧
    add binary64 (gridX 0) (f64 2 1) = ofInt binary64 ((3 * 0 + 2 : Nat) : Int) ∧
    lt binary64 (neg binary64 (f64 10000000000 1))
      (ofInt binary64 ((3 * 0 + 2 : Nat) : Int)) = true := by decide!

/-- The first class node turns the start values into the bounds of one class. -/
theorem boundsBody_first (nd : gltf.Node)
    (h : nd.Translation = [gridX 0, f64 0 1, f64 0 1]) :
    boundsBody nd (boundsAfter 0) = boundsAfter 1 := by
  obtain ⟨b1, b2, b3, b4, b5, b6⟩ := boundsBody_fields nd (boundsAfter 0) _ _ _ h
  obtain ⟨r1, r2, -, r4, r5, -, r7, r8, -, r10, r11, -⟩ := row_facts
  obtain ⟨c1, c2, c3⟩ := first_column_facts
  apply BoundsState_ext
  · rw [b1, c1]
    show (if lt binary64 (neg binary64 (f64 2 1)) (f64 10000000000 1) = true then _ else _) = _
    rw [if_pos r2]; rfl
  · rw [b2, r1]
    show (if lt binary64 (neg binary64 (f64 2 1)) (f64 10000000000 1) = true then _ else _) = _
    rw [if_pos r2]; rfl
  · rw [b3, r7]
    show (if lt binary64 (neg binary64 (f64 5 10)) (f64 10000000000 1) = true then _ else _) = _
    rw [if_pos r8]; rfl
  · rw [b4, c2]
    simp only [boundsAfter]
    rw [if_pos c3]
  · rw [b5, r4]
    show (if lt binary64 (neg binary64 (f64 10000000000 1)) (f64 2 1) = true then _ else _) = _
    rw [if_pos r5]; rfl
  · rw [b6, r10]
    show (if lt binary64 (neg binary64 (f64 10000000000 1)) (f64 5 10) = true then _ else _) = _
    rw [if_pos r11]; rfl

/-- A class node in column `i`, met with the bounds of the first `k + 1`
classes, moves the right edge to `3 i + 2` if that is further right and
changes nothing else. -/
theorem boundsBody_column (nd : gltf.Node) (i k : Nat) (hi : 3 * i + 2 < 2 ^ 53)
    (hk : k ≤ i) (h : nd.Translation = [gridX i, f64 0 1, f64 0 1]) :
    boundsBody nd (boundsAfter (k + 1)) = boundsAfter (i + 1) := by
  obtain ⟨b1, b2, b3, b4, b5, b6⟩ := boundsBody_fields nd (boundsAfter (k + 1)) _ _ _ h
  obtain ⟨r1, -, r3, r4, -, r6, r7, -, r9, r10, -, r12⟩ := row_facts
  apply BoundsState_ext
  · rw [b1]
    show (if lt binary64 (sub binary64 (gridX i) (f64 2 1)) (neg binary64 (f64 2 1)) = true
      then _ else _) = _
    rw [grid_left_edge i (by omega)]; rfl
  · rw [b2, r1]
    show (if lt binary64 (neg binary64 (f64 2 1)) (neg binary64 (f64 2 1)) = true
      then _ else _) = _
    rw [r3]; rfl
  · rw [b3, r7]
    show (if lt binary64 (neg binary64 (f64 5 10)) (neg binary64 (f64 5 10)) = true
      then _ else _) = _
    rw [r9]; rfl
  · rw [b4, grid_right_edge i hi]
    show (if lt binary64 (ofInt binary64 ((3 * k + 2 : Nat) : Int))
      (ofInt binary64 ((3 * i + 2 : Nat) : Int)) = true then _ else _) = _
    rw [lt_ofInt _ _ (by omega) hi]
    rcases Nat.eq_or_lt_of_le hk with e | e
    · subst e
      simp only [Nat.lt_irrefl, decide_False, Bool.false_eq_true, if_false]
    · have : 3 * k + 2 < 3 * i + 2 := by omega
      simp only [this, decide_True, if_true]
      rfl
  · rw [b5, r4]
    show (if lt binary64 (f64 2 1) (f64 2 1) = true then _ else _) = _
    rw [r6]; rfl
  · rw [b6, r10]
    show (if lt binary64 (f64 5 10) (f64 5 10) = true then _ else _) = _
    rw [r12]; rfl

/-- The bounds loop over the nodes that the class loop appends. -/
theorem classesLoop_bounds (xs : List extuml.Class) :
    ∀ (i0 : Nat) (st : gltf.GLTFAsset × Nat) (s0 : BoundsState),
      3 * (i0 + xs.length) < 2 ^ 53 →
      boundsLoop st.1.Nodes s0 = boundsAfter i0 →
      boundsLoop (classesLoop (f64 3 1) xs i0 st).1.Nodes s0 = boundsAfter (i0 + xs.length) := by
  induction xs with
  | nil =>
    intro i0 st s0 _ h
    exact h
  | cons x xs ih =>
    intro i0 st s0 hb h
    rw [classesLoop]
    obtain ⟨cn, tn, h1, -, -, h4, -, -, h6⟩ := addClassToScene_nodes x
      ⟨mul binary64 (ofInt binary64 i0) (f64 3 1), f64 0 1, f64 0 1⟩ st.1 st.2
    have hlen : (x :: xs).length = xs.length + 1 := rfl
    rw [hlen] at hb
    have e : i0 + (x :: xs).length = i0 + 1 + xs.length := by rw [hlen]; omega
    rw [e]
    apply ih (i0 + 1) _ s0 (by omega)
    rw [h1, boundsLoop_append, h]
    have c4 : cn.Translation = [gridX i0, f64 0 1, f64 0 1] := h4
    have t6 : tn.Translation = [gridX i0, f64 0 1, f64 0 1] := by
      rw [h6]
      simp only [add_zero_zero]
      rfl
    show boundsBody tn (boundsBody cn (boundsAfter i0)) = boundsAfter (i0 + 1)
    cases i0 with
    | zero =>
      rw [boundsBody_first cn c4]
      exact boundsBody_column tn 0 0 (by decide) (Nat.le_refl _) t6
    | succ k =>
      rw [boundsBody_column cn (k + 1) k (by omega) (by omega) c4]
      exact boundsBody_column tn (k + 1) (k + 1) (by omega) (Nat.le_refl _) t6

theorem report_constants :
    div binary64 (add binary64 (neg binary64 (f64 2 1)) (f64 2 1)) (f64 2 1) = f64 0 1 ∧
    div binary64 (add binary64 (neg binary64 (f64 5 10)) (f64 5 10)) (f64 2 1) = f64 0 1 ∧
    sub binary64 (f64 2 1) (neg binary64 (f64 2 1)) = f64 4 1 ∧
    sub binary64 (f64 5 10) (neg binary64 (f64 5 10)) = f64 1 1 ∧
    neg binary64 (neg binary64 (f64 2 1)) = f64 2 1 := by decide!

/-- The report for the bounds of `m + 1` classes. -/
theorem boundsReport_classes (m : Nat) (h : 3 * (m + 1) + 1 < 2 ^ 53) :
    boundsReport (neg binary64 (f64 2 1)) (neg binary64 (f64 2 1)) (neg binary64 (f64 5 10))
        (ofInt binary64 ((3 * m + 2 : Nat) : Int)) (f64 2 1) (f64 5 10)
      = classesReport (m + 1) := by
  obtain ⟨k1, k2, k3, k4, k5⟩ := report_constants
  have cx : div binary64 (add binary64 (neg binary64 (f64 2 1))
      (ofInt binary64 ((3 * m + 2 : Nat) : Int))) (f64 2 1) = f64 (3 * m) 2 := by
    have := (sub_ofInt (3 * m + 2) 2 (by omega) (by omega)).2
    rw [← f64_one_den 2, Nat.add_sub_cancel] at this
    rw [this]
    exact div_two_ofInt _ (by omega)
  have sx : sub binary64 (ofInt binary64 ((3 * m + 2 : Nat) : Int)) (neg binary64 (f64 2 1))
      = ofInt binary64 ((3 * (m + 1) + 1 : Nat) : Int) := by
    have e : 3 * m + 2 + 2 = 3 * (m + 1) + 1 := by omega
    rw [sub_eq_add_neg64, k5, f64_one_den 2, add_ofInt _ _ (by omega), e]
  have h4 : f64 4 1 = ofInt binary64 ((4 : Nat) : Int) := f64_one_den 4
  have md : max64 (ofInt binary64 ((3 * (m + 1) + 1 : Nat) : Int)) (f64 4 1)
      = ofInt binary64 ((3 * (m + 1) + 1 : Nat) : Int) := by
    unfold max64
    rw [h4, lt_ofInt _ _ h (by decide)]
    have : ¬ 3 * (m + 1) + 1 < 4 := by omega
    simp only [this, decide_False, Bool.false_eq_true, if_false]
  have cd : max64 (mul binary64 (ofInt binary64 ((3 * (m + 1) + 1 : Nat) : Int)) (f64 25 10))
      (f64 3 1) = f64 (5 * (3 * (m + 1) + 1)) 2 := by
    unfold max64
    rw [mul_ofInt_target _ h, half_not_lt_three _ (by omega)
      (Nat.lt_of_lt_of_le (by omega : 5 * (3 * (m + 1) + 1) < 8 * 2 ^ 53) (by decide))]
    simp only [Bool.false_eq_true, if_false]
  unfold boundsReport classesReport
  rw [cx, sx, k1, k2, k3, k4, md, cd, Nat.add_sub_cancel]

/-- C22. for a diagram of `N >= 1` classes and no interfaces or enums (with
`3 N + 1` below `2 ^ 53`, so that the grid coordinates are exact in float64),
`generateGeometry` returns an asset for which `calculateSceneBounds` reports
min = (-2, -2, -0.5), max = (3(N-1)+2, 2, 0.5), center = (3(N-1)/2, 0, 0),
size = (3N+1, 4, 1) and distance 2.5 * (3N+1). -/
theorem classes_only_bounds (version : String) (meta : Option extuml.Meta)
    (classes : List extuml.Class) (packages : List extuml.Package) (notes : List extuml.Note)
    (generatedAt : String) (h1 : 1 ≤ classes.length) (h2 : 3 * classes.length + 1 < 2 ^ 53) :
    ∃ a : gltf.GLTFAsset,
      generateGeometry ⟨version, meta, some ⟨classes, [], [], packages, notes⟩⟩
        (initialAsset ⟨version, meta, some ⟨classes, [], [], packages, notes⟩⟩ generatedAt)
          = some a ∧
      calculateSceneBounds a = classesReport classes.length := by
  obtain ⟨a, ha, -, hg⟩ := generateGeometry_eq
    ⟨version, meta, some ⟨classes, [], [], packages, notes⟩⟩ ⟨classes, [], [], packages, notes⟩
    (initialAsset ⟨version, meta, some ⟨classes, [], [], packages, notes⟩⟩ generatedAt)
    { Nodes := [], Name := "Scene" } [] rfl rfl
  have hloop := classesLoop_bounds classes 0
    (initialAsset ⟨version, meta, some ⟨classes, [], [], packages, notes⟩⟩ generatedAt, 0)
    (boundsAfter 0) (by omega) rfl
  have ha' : a = (classesLoop (f64 3 1) classes 0
      (initialAsset ⟨version, meta, some ⟨classes, [], [], packages, notes⟩⟩ generatedAt, 0)).1 := by
    rw [ha]
    rfl
  rw [← ha', Nat.zero_add] at hloop
  obtain ⟨m, hm⟩ : ∃ m, classes.length = m + 1 := ⟨classes.length - 1, by omega⟩
  rw [hm] at hloop h2 ⊢
  have hres : ∀ b : gltf.GLTFAsset, b.Nodes = a.Nodes →
      calculateSceneBounds b = classesReport (m + 1) := by
    intro b hb
    show boundsResult (boundsLoop b.Nodes (boundsAfter 0)) = _
    rw [hb, hloop, boundsResult_eq]
    exact boundsReport_classes m h2
  refine ⟨_, hg, ?_⟩
  split_ifs
  · exact hres _ rfl
  · exact hres _ rfl

theorem classes_only_bounds_witness :
    classesReport [sampleClass].length = singleClassReport ∧
    ∃ a : gltf.GLTFAsset,
      generateGeometry ⟨"0.1", none, some ⟨[sampleClass], [], [], [], []⟩⟩
        (initialAsset ⟨"0.1", none, some ⟨[sampleClass], [], [], [], []⟩⟩ "") = some a ∧
      calculateSceneBounds a = classesReport [sampleClass].length :=
  ⟨by
    have e1 : ofInt binary64 ((3 * ([sampleClass].length - 1) + 2 : Nat) : Int) = f64 2 1 := by
      decide!
    have e2 : f64 (3 * ([sampleClass].length - 1)) 2 = f64 0 1 := by decide!
    have e3 : ofInt binary64 ((3 * [sampleClass].length + 1 : Nat) : Int) = f64 4 1 := by decide!
    have e4 : f64 (5 * (3 * [sampleClass].length + 1)) 2 = f64 10 1 := by decide!
    unfold classesReport singleClassReport
    rw [e1, e2, e3, e4],
   classes_only_bounds "0.1" none [sampleClass] [] [] "" (by decide) (by decide)⟩

end

/-! ## The loader and the asset header -/

/-- A document that `Load` returns has the version "0.1" and a non-nil
`Elements`. -/
theorem Load_ok (file : Except String (List String × Option String)) (doc : extuml.Document)
    (h : Load file = Except.ok doc) :
    doc.Version = "0.1" ∧ doc.Meta = none ∧ ∃ e, doc.Elements = some e := by
  unfold Load at h
  split at h
  · exact absurd h (by simp)
  · simp only at h
    split at h
    · exact absurd h (by simp)
    · split at h
      · exact absurd h (by simp)
      · split at h
        · exact absurd h (by simp)
        · simp only [Except.ok.injEq] at h
          subst h
          exact ⟨rfl, rfl, _, rfl⟩

/-- C25. for every input that `Load` accepts, the loaded document has version
"0.1", and the asset that `Execute` builds from it has `asset.version` "2.0",
`asset.generator` "extuml-cli v0.1" and `asset.extras.extuml.version` equal to
the document's version. -/
theorem Load_asset_header (file : Except String (List String × Option String))
    (doc : extuml.Document) (generatedAt : String) (h : Load file = Except.ok doc) :
    doc.Version = "0.1" ∧
    ∃ a : gltf.GLTFAsset,
      executeAsset doc generatedAt = some a ∧
      a.Asset.Version = "2.0" ∧ a.Asset.Generator = "extuml-cli v0.1" ∧
      (GoAny.get a.Asset.Extras "extuml").bind (fun e => GoAny.get e "version")
        = some (GoAny.str doc.Version) ∧
      (GoAny.get a.Asset.Extras "extuml").bind (fun e => GoAny.get e "version")
        = some (GoAny.str "0.1") := by
  obtain ⟨hv, -, -⟩ := Load_ok file doc h
  obtain ⟨rest, tail, he⟩ := executeAsset_eq doc
  refine ⟨hv, _, he generatedAt, rfl, rfl, ?_, ?_⟩
  · simp [GoAny.get]
  · simp [GoAny.get, hv]

theorem Load_testInput :
    Load (Except.ok (testInput, none))
      = Except.ok
          { Version := "0.1", Meta := none,
            Elements := some
              { Classes := [{ ID := "Test", Type_ := "class", Name := "Test", URL := "",
                              Attributes := [{ Name := "id", Type_ := "string" }],
                              Operations := [] }],
                Interfaces := [], Enums := [], Packages := [], Notes := [] } } := by
  rfl

theorem Load_asset_header_witness :
    ∃ doc : extuml.Document, Load (Except.ok (testInput, none)) = Except.ok doc ∧
      doc.Version = "0.1" ∧
      ∃ a : gltf.GLTFAsset,
        executeAsset doc "" = some a ∧
        a.Asset.Version = "2.0" ∧ a.Asset.Generator = "extuml-cli v0.1" ∧
        (GoAny.get a.Asset.Extras "extuml").bind (fun e => GoAny.get e "version")
          = some (GoAny.str doc.Version) ∧
        (GoAny.get a.Asset.Extras "extuml").bind (fun e => GoAny.get e "version")
          = some (GoAny.str "0.1") :=
  ⟨_, Load_testInput, Load_asset_header _ _ "" Load_testInput⟩

/-! ## The recovered layout is zero exactly on short or odd buffers -/

/-- C31. For every buffer, `calculateBufferLayout` returns the all-zero layout
`(0, 0, 0, 0)` if and only if the buffer length is odd or below 16. -/
theorem calculateBufferLayout_zero_iff (bufferData : List Nat) :
    calculateBufferLayout bufferData = (0, 0, 0, 0) ↔
      (bufferData.length % 2 = 1 ∨ bufferData.length < 16) := by
  constructor
  · intro hz
    by_contra hc
    have hf : FallbackCandidate bufferData.length 1 := by
      unfold FallbackCandidate indexCountFor
      omega
    have h1 : (calculateBufferLayout bufferData).1 = 0 := by rw [hz]
    by_cases hw : ∃ v, WindowCandidate bufferData.length v
    · obtain ⟨v0, hv0⟩ := hw
      have hinv := layoutWindowLoop_inv bufferData.length 100 1 ⟨0, 0, 0, 0, f64 0 1⟩
        (by omega) (by omega) (Or.inl ⟨rfl, fun v h1 h2 => by omega⟩)
      rcases hinv with hl | hr
      · exact absurd hv0 (hl.2 v0 hv0.1 (by have := hv0.2.1; omega))
      · have hne : ¬ (layoutWindowLoop bufferData.length 100 1 ⟨0, 0, 0, 0, f64 0 1⟩).bestVC = 0 := by
          have := hr.2.1.1
          omega
        apply hne
        unfold calculateBufferLayout at h1
        simp only at h1
        rw [if_neg hne] at h1
        exact h1
    · have hno : ∀ v, ¬ WindowCandidate bufferData.length v := fun v hv => hw ⟨v, hv⟩
      obtain ⟨hinv, hres⟩ := calculateBufferLayout_of_no_window bufferData hno
      rw [hres] at h1
      simp only at h1
      rcases hinv with hl | hr
      · exact hl.2.2.2.2 1 (by omega) (by omega) hf
      · have := hr.2.1.1
        omega
  · intro h
    have hno : ∀ v, ¬ WindowCandidate bufferData.length v := by
      intro v hv
      unfold WindowCandidate indexCountFor at hv
      omega
    have hnf : ∀ v, ¬ FallbackCandidate bufferData.length v := by
      intro v hv
      unfold FallbackCandidate indexCountFor at hv
      omega
    obtain ⟨hinv, hres⟩ := calculateBufferLayout_of_no_window bufferData hno
    rw [hres]
    rcases hinv with hl | hr
    · obtain ⟨a, b, c, d, -⟩ := hl
      rw [a, b, c, d]
    · exact absurd hr.2.1 (hnf _)

/-- C32. The two buffer packers are the same function: for all vertices and
indices `createBufferData` of the geometry generator and `createTextBufferData`
of the text geometry generator return the same bytes, namely the vertex words
followed by the index half-words. -/
theorem createTextBufferData_eq_createBufferData (vertices : List float32) (indices : List Nat) :
    createTextBufferData vertices indices = createBufferData vertices indices ∧
    createTextBufferData vertices indices
      = vertices.flatMap (fun v => le32 (Float32bits v))
          ++ indices.flatMap (fun i => le16 (i % 65536)) :=
  ⟨rfl, createBufferData_eq vertices indices⟩

/-! ## The header check of the loader -/

theorem headerLoop_eq (fail : Option String) (lines : List String) :
    headerLoop fail lines =
      match firstContentLine lines with
      | none => ("", { input := [], fail := fail, err := fail })
      | some header => (header, { input := bodyLines lines, fail := fail, err := none }) := by
  induction lines with
  | nil => rfl
  | cons text rest ih =>
    unfold headerLoop
    by_cases h : isSkipped text = true
    · have h' := h
      unfold isSkipped at h'
      simp only [h', if_true]
      rw [ih]
      have e1 : firstContentLine (text :: rest) = firstContentLine rest := by
        unfold firstContentLine
        rw [List.find?_cons_of_neg _ (by simp [h])]
      have e2 : bodyLines (text :: rest) = bodyLines rest := by
        unfold bodyLines
        rw [List.dropWhile_cons_of_pos h]
      rw [e1, e2]
    · have h' := h
      unfold isSkipped at h'
      simp only [h', Bool.false_eq_true, if_false]
      have e1 : firstContentLine (text :: rest) = some (strings.TrimSpace text) := by
        unfold firstContentLine
        rw [List.find?_cons_of_pos _ (by simp [h])]
        rfl
      have e2 : bodyLines (text :: rest) = rest := by
        unfold bodyLines
        rw [List.dropWhile_cons_of_neg h]
        rfl
      rw [e1, e2]

/-- The first content line is not empty. -/
theorem firstContentLine_ne_empty (lines : List String) (header : String)
    (h : firstContentLine lines = some header) : (header == "") = false := by
  unfold firstContentLine at h
  cases hf : lines.find? (fun text => !isSkipped text) with
  | none => rw [hf] at h; exact absurd h (by simp)
  | some text =>
    rw [hf] at h
    simp only [Option.map_some', Option.some.injEq] at h
    have := List.find?_some hf
    simp only [Bool.not_eq_true'] at this
    unfold isSkipped at this
    rw [h] at this
    simp only [Bool.or_eq_false_iff] at this
    exact this.1

/-- The result of `Load` on lines that end without a read error. -/
theorem Load_lines (lines : List String) :
    Load (Except.ok (lines, none)) =
      match firstContentLine lines with
      | none => Except.error "E100: DSL header not found (expected 'extuml classDiagram3D')"
      | some header =>
        if strings.HasPrefix header "extuml" then
          Except.ok { Version := "0.1", Meta := none,
                      Elements := some (loadLoop (bodyLines lines) loadStart).Elements }
        else Except.error "E100: DSL header not found (expected 'extuml classDiagram3D')" := by
  unfold Load
  simp only
  rw [headerLoop_eq]
  cases hf : firstContentLine lines with
  | none => rfl
  | some header =>
    simp only
    rw [firstContentLine_ne_empty lines header hf]
    cases hp : strings.HasPrefix header "extuml"
    · simp
    · simp
      rfl

/-- C36. For every sequence of input lines (read to the end without a read
error) `Load` returns the E100 error "DSL header not found" exactly when no line
is left after skipping the lines that are blank or start with "%%" after
trimming, or the first line left, trimmed, does not start with "extuml"; in
every other case it returns a document. -/
theorem Load_header_check (lines : List String) :
    (Load (Except.ok (lines, none))
        = Except.error "E100: DSL header not found (expected 'extuml classDiagram3D')" ↔
      (firstContentLine lines = none ∨
        ∃ header, firstContentLine lines = some header ∧
          strings.HasPrefix header "extuml" = false)) ∧
    ((firstContentLine lines = none ∨
        ∃ header, firstContentLine lines = some header ∧
          strings.HasPrefix header "extuml" = false) ∨
      ∃ doc, Load (Except.ok (lines, none)) = Except.ok doc) := by
  rw [Load_lines]
  cases hf : firstContentLine lines with
  | none => simp
  | some header =>
    cases hp : strings.HasPrefix header "extuml"
    · simp [hp]
    · simp [hp]

/-! ## The elements a load keeps -/

theorem close_line_facts :
    ("\x7d" == "") = false ∧ strings.HasPrefix "\x7d" "%%" = false ∧
    strings.HasPrefix "\x7d" "class " = false ∧ strings.HasPrefix "\x7d" "interface " = false ∧
    strings.HasPrefix "\x7d" "enum " = false := by decide

/-- One step of the body loop appends to the document exactly the element that
the line closes, and nothing to the packages and notes. -/
theorem loadBody_elements (text : String) (s : LoadState) :
    (loadBody text s).Elements.Classes
      = s.Elements.Classes ++ (closedClass (text, s)).toList ∧
    (loadBody text s).Elements.Interfaces
      = s.Elements.Interfaces ++ (closedInterface (text, s)).toList ∧
    (loadBody text s).Elements.Enums
      = s.Elements.Enums ++ (closedEnum (text, s)).toList ∧
    (loadBody text s).Elements.Packages = s.Elements.Packages ∧
    (loadBody text s).Elements.Notes = s.Elements.Notes := by
  obtain ⟨k1, k2, k3, k4, k5⟩ := close_line_facts
  unfold closedClass closedInterface closedEnum isClose loadBody
  simp only
  by_cases hc : (strings.TrimSpace text == "\x7d") = true
  · have he : strings.TrimSpace text = "\x7d" := by simpa using hc
    rw [he]
    simp only [k1, k2, k3, k4, k5, Bool.false_eq_true, or_self, if_false, beq_self_eq_true,
      if_true, true_and]
    cases h1 : s.currentClass with
    | some c => simp
    | none =>
      cases h2 : s.currentInterface with
      | some i => simp
      | none =>
        cases h3 : s.currentEnum with
        | some e => simp
        | none => simp
  · have hc' : (strings.TrimSpace text == "\x7d") = false := by simpa using hc
    simp only [hc', Bool.false_eq_true, if_false, false_and, Option.toList_none,
      List.append_nil]
    split_ifs
    · exact ⟨rfl, rfl, rfl, rfl, rfl⟩
    · exact ⟨rfl, rfl, rfl, rfl, rfl⟩
    · exact ⟨rfl, rfl, rfl, rfl, rfl⟩
    · exact ⟨rfl, rfl, rfl, rfl, rfl⟩
    · cases h1 : s.currentClass with
      | some c => exact ⟨rfl, rfl, rfl, rfl, rfl⟩
      | none =>
        cases h2 : s.currentInterface with
        | some i => exact ⟨rfl, rfl, rfl, rfl, rfl⟩
        | none =>
          cases h3 : s.currentEnum with
          | some e => exact ⟨rfl, rfl, rfl, rfl, rfl⟩
          | none => exact ⟨rfl, rfl, rfl, rfl, rfl⟩

/-- The body loop appends to the document the elements that the steps of its
run close, in the order of the steps. -/
theorem loadLoop_elements (lines : List String) :
    ∀ s : LoadState,
      (loadLoop lines s).Elements.Classes
        = s.Elements.Classes ++ (loadTrace lines s).filterMap closedClass ∧
      (loadLoop lines s).Elements.Interfaces
        = s.Elements.Interfaces ++ (loadTrace lines s).filterMap closedInterface ∧
      (loadLoop lines s).Elements.Enums
        = s.Elements.Enums ++ (loadTrace lines s).filterMap closedEnum ∧
      (loadLoop lines s).Elements.Packages = s.Elements.Packages ∧
      (loadLoop lines s).Elements.Notes = s.Elements.Notes := by
  induction lines with
  | nil =>
    intro s
    simp [loadLoop, loadTrace]
  | cons text rest ih =>
    intro s
    obtain ⟨b1, b2, b3, b4, b5⟩ := loadBody_elements text s
    obtain ⟨i1, i2, i3, i4, i5⟩ := ih (loadBody text s)
    have e : loadLoop (text :: rest) s = loadLoop rest (loadBody text s) := rfl
    have t : loadTrace (text :: rest) s = (text, s) :: loadTrace rest (loadBody text s) := rfl
    rw [e, t, i1, i2, i3, i4, i5, b1, b2, b3, b4, b5]
    refine ⟨?_, ?_, ?_, rfl, rfl⟩
    · rw [List.filterMap_cons]
      cases closedClass (text, s) <;> simp
    · rw [List.filterMap_cons]
      cases closedInterface (text, s) <;> simp
    · rw [List.filterMap_cons]
      cases closedEnum (text, s) <;> simp

/-- The body loop keeps at most one current element. -/
theorem loadBody_oneCurrent (text : String) (s : LoadState) (h : OneCurrent s) :
    OneCurrent (loadBody text s) := by
  unfold loadBody
  simp only
  split_ifs
  · exact h
  · exact Or.inr (Or.inr ⟨rfl, rfl⟩)
  · exact Or.inr (Or.inl ⟨rfl, rfl⟩)
  · exact Or.inl ⟨rfl, rfl⟩
  · unfold OneCurrent at h ⊢
    cases h1 : s.currentClass <;> cases h2 : s.currentInterface <;>
      cases h3 : s.currentEnum <;> simp_all
  · unfold OneCurrent at h ⊢
    cases h1 : s.currentClass <;> cases h2 : s.currentInterface <;>
      cases h3 : s.currentEnum <;> simp_all

theorem loadTrace_oneCurrent (lines : List String) :
    ∀ s : LoadState, OneCurrent s → ∀ step ∈ loadTrace lines s, OneCurrent step.2 := by
  induction lines with
  | nil =>
    intro s _ step hstep
    simp [loadTrace] at hstep
  | cons text rest ih =>
    intro s hs step hstep
    have t : loadTrace (text :: rest) s = (text, s) :: loadTrace rest (loadBody text s) := rfl
    rw [t, List.mem_cons] at hstep
    rcases hstep with e | hmem
    · rw [e]; exact hs
    · exact ih _ (loadBody_oneCurrent text s hs) step hmem

/-- A declaration line closes nothing, leaves the document as it is and replaces
the current elements, whatever they were, by the declared element alone. -/
theorem loadBody_declaration (text : String) (s : LoadState) (h : isDeclaration text = true) :
    closedClass (text, s) = none ∧ closedInterface (text, s) = none ∧
    closedEnum (text, s) = none ∧
    (loadBody text s).Elements = s.Elements ∧
    (loadBody text s).currentClass = (loadBody text loadStart).currentClass ∧
    (loadBody text s).currentInterface = (loadBody text loadStart).currentInterface ∧
    (loadBody text s).currentEnum = (loadBody text loadStart).currentEnum ∧
    ((loadBody text s).currentClass.isSome ∨ (loadBody text s).currentInterface.isSome ∨
      (loadBody text s).currentEnum.isSome) := by
  obtain ⟨k1, k2, k3, k4, k5⟩ := close_line_facts
  unfold isDeclaration isSkipped at h
  have hnc : (strings.TrimSpace text == "\x7d") = false := by
    cases hc : (strings.TrimSpace text == "\x7d")
    · rfl
    · have he : strings.TrimSpace text = "\x7d" := by simpa using hc
      rw [he, k1, k2, k3, k4, k5] at h
      exact absurd h (by decide)
  simp only [Bool.and_eq_true, Bool.not_eq_true', Bool.or_eq_false_iff, Bool.or_eq_true] at h
  obtain ⟨⟨s1, s2⟩, hd⟩ := h
  unfold closedClass closedInterface closedEnum isClose loadBody
  simp only [hnc, s1, s2, Bool.false_eq_true, if_false, false_and, or_self]
  by_cases c1 : strings.HasPrefix (strings.TrimSpace text) "class " = true
  · simp [c1]
  · by_cases c2 : strings.HasPrefix (strings.TrimSpace text) "interface " = true
    · simp [c1, c2]
    · have c3 : strings.HasPrefix (strings.TrimSpace text) "enum " = true := by
        refine hd.elim (fun a => a.elim (fun b => absurd b c1) (fun b => absurd b c2))
          (fun a => a)
      simp [c1, c2, c3]

theorem Load_ok_lines (file : Except String (List String × Option String))
    (doc : extuml.Document) (h : Load file = Except.ok doc) :
    ∃ lines, file = Except.ok (lines, none) := by
  unfold Load at h
  split at h
  · exact absurd h (by simp)
  · rename_i lines fail
    simp only at h
    split at h
    · exact absurd h (by simp)
    · split at h
      · exact absurd h (by simp)
      · split at h
        · exact absurd h (by simp)
        · rename_i hfail
          have e : (headerLoop fail lines).2.fail = fail := by
            rw [headerLoop_eq]
            cases firstContentLine lines <;> rfl
          rw [e] at hfail
          subst hfail
          exact ⟨lines, rfl⟩

theorem Load_ok_elements (lines : List String) (doc : extuml.Document)
    (h : Load (Except.ok (lines, none)) = Except.ok doc) :
    doc.Elements = some (loadLoop (bodyLines lines) loadStart).Elements := by
  rw [Load_lines] at h
  cases hf : firstContentLine lines with
  | none => rw [hf] at h; exact absurd h (by simp)
  | some header =>
    rw [hf] at h
    simp only at h
    split_ifs at h
    simp only [Except.ok.injEq] at h
    rw [← h]

/-- C37. In `Load` an element enters the document only at a line equal to
"\x7d" that is read while the element is the current one. The classes,
interfaces and enums of the returned document are exactly the elements that the
steps of the body loop close, in the order of the steps; at every step at most
one element is current; a declaration line closes nothing and replaces the
current element, so that an element whose block is still open at the next
declaration or at the end of the input is not added. -/
theorem Load_closed_elements (file : Except String (List String × Option String))
    (doc : extuml.Document) (h : Load file = Except.ok doc) :
    ∃ (lines : List String) (elements : extuml.Elements),
      file = Except.ok (lines, none) ∧ doc.Elements = some elements ∧
      elements.Classes = (loadTrace (bodyLines lines) loadStart).filterMap closedClass ∧
      elements.Interfaces = (loadTrace (bodyLines lines) loadStart).filterMap closedInterface ∧
      elements.Enums = (loadTrace (bodyLines lines) loadStart).filterMap closedEnum ∧
      elements.Packages = [] ∧ elements.Notes = [] ∧
      (∀ step ∈ loadTrace (bodyLines lines) loadStart, OneCurrent step.2) ∧
      (∀ step ∈ loadTrace (bodyLines lines) loadStart, isDeclaration step.1 = true →
        closedClass step = none ∧ closedInterface step = none ∧ closedEnum step = none ∧
        (loadBody step.1 step.2).Elements = step.2.Elements ∧
        (loadBody step.1 step.2).currentClass = (loadBody step.1 loadStart).currentClass ∧
        (loadBody step.1 step.2).currentInterface
          = (loadBody step.1 loadStart).currentInterface ∧
        (loadBody step.1 step.2).currentEnum = (loadBody step.1 loadStart).currentEnum) := by
  obtain ⟨lines, hfile⟩ := Load_ok_lines file doc h
  subst hfile
  obtain ⟨l1, l2, l3, l4, l5⟩ := loadLoop_elements (bodyLines lines) loadStart
  refine ⟨lines, _, rfl, Load_ok_elements lines doc h, ?_, ?_, ?_, ?_, ?_, ?_, ?_⟩
  · rw [l1]; rfl
  · rw [l2]; rfl
  · rw [l3]; rfl
  · rw [l4]; rfl
  · rw [l5]; rfl
  · exact loadTrace_oneCurrent _ _ (Or.inl ⟨rfl, rfl⟩)
  · intro step _ hd
    obtain ⟨d1, d2, d3, d4, d5, d6, d7, -⟩ := loadBody_declaration step.1 step.2 hd
    exact ⟨d1, d2, d3, d4, d5, d6, d7⟩

theorem Load_unclosedInput :
    Load (Except.ok (unclosedInput, none)) = Except.ok unclosedDocument := by
  rfl

theorem Load_closed_elements_witness :
    Load (Except.ok (unclosedInput, none)) = Except.ok unclosedDocument ∧
    ∃ (lines : List String) (elements : extuml.Elements),
      (Except.ok (unclosedInput, none) : Except String (List String × Option String))
        = Except.ok (lines, none) ∧
      unclosedDocument.Elements = some elements ∧
      elements.Classes = (loadTrace (bodyLines lines) loadStart).filterMap closedClass ∧
      elements.Interfaces = (loadTrace (bodyLines lines) loadStart).filterMap closedInterface ∧
      elements.Enums = (loadTrace (bodyLines lines) loadStart).filterMap closedEnum :=
  ⟨Load_unclosedInput,
   let ⟨lines, elements, a, b, c, d, e, _⟩ :=
     Load_closed_elements (Except.ok (unclosedInput, none)) unclosedDocument Load_unclosedInput
   ⟨lines, elements, a, b, c, d, e⟩⟩

/-! ## Relative error of float64 rounding -/

namespace IEEE

theorem numer_le_pow (k : Nat) (h : k ≤ 2 ^ 52) : numer binary64 k = k := by
  rcases Nat.lt_or_ge k (2 ^ 52) with h1 | h1
  · exact numer_small k h1
  · have e : k = 2 ^ 52 := Nat.le_antisymm h h1
    have := numer_normal 0 k h1 (by omega) (by decide)
    rw [Nat.zero_mul, Nat.zero_add, Nat.pow_zero, Nat.mul_one] at this
    exact this

/-- Rounding the quotient `n / d`: the result is finite with the given sign, and
its numerator is within one part in `2 ^ 52` (and one unit) of the quotient
`M = n * 2 ^ 1074 / d`. -/
theorem round_near (s : Bool) (n d : Nat) (hd : 0 < d) (hM : n * 2 ^ 1074 / d < 2 ^ 1998) :
    isNaN binary64 (roundRat binary64 s n d) = false ∧
    isInf binary64 (roundRat binary64 s n d) = false ∧
    signOf binary64 (roundRat binary64 s n d) = s ∧
    n * 2 ^ 1074 / d - n * 2 ^ 1074 / d / 2 ^ 52 ≤ numer binary64 (roundRat binary64 s n d) ∧
    numer binary64 (roundRat binary64 s n d)
      ≤ n * 2 ^ 1074 / d + n * 2 ^ 1074 / d / 2 ^ 52 + 1 := by
  rcases Nat.lt_or_ge (n * 2 ^ 1074 / d) (2 ^ 52) with hs | hb
  · have e1 : binary64.scaleExp = 1074 := rfl
    have e2 : binary64.mbits = 52 := rfl
    have e3 : binary64.infBits = 2047 * 2 ^ 52 := rfl
    have hlog : ilog2 (n * 2 ^ 1074 / d) - 52 = 0 := by
      rcases Nat.eq_zero_or_pos (n * 2 ^ 1074 / d) with h0 | h0
      · rw [h0]
        have : ilog2 0 = 0 := by simp [ilog2, log2Levels, log2Search]
        rw [this]
      · obtain ⟨l, -⟩ := ilog2_spec _ h0
        have : ilog2 (n * 2 ^ 1074 / d) < 52 :=
          (Nat.pow_lt_pow_iff_right (by norm_num : 1 < 2)).mp (Nat.lt_of_le_of_lt l hs)
        omega
    obtain ⟨b1, b2⟩ := roundHalfEven_bounds (n * 2 ^ 1074) d
    have hk : roundHalfEven (n * 2 ^ 1074) d ≤ 2 ^ 52 := by omega
    have hr : roundRat binary64 s n d
        = withSign binary64 s (roundHalfEven (n * 2 ^ 1074) d) := by
      rw [roundRat_eq, e1, e2, e3, hlog, Nat.zero_mul, Nat.zero_add, Nat.pow_zero, Nat.mul_one]
      congr 1
      exact Nat.min_eq_right (by omega)
    rw [hr]
    obtain ⟨f1, f2, f3⟩ := withSign_facts s (roundHalfEven (n * 2 ^ 1074) d) (by omega)
    refine ⟨?_, ?_, f2, ?_, ?_⟩
    · unfold isNaN
      rw [f1, e3]
      exact decide_eq_false (by omega)
    · unfold isInf
      rw [f1, e3]
      exact beq_false_of_ne (by omega)
    · rw [f3, numer_le_pow _ hk]
      generalize n * 2 ^ 1074 / d = M at b1 b2 hs
      omega
    · rw [f3, numer_le_pow _ hk]
      generalize n * 2 ^ 1074 / d = M at b1 b2 hs
      omega
  · have hpos : 1 ≤ n * 2 ^ 1074 / d := Nat.le_trans (Nat.two_pow_pos 52) hb
    obtain ⟨l, u⟩ := ilog2_spec _ hpos
    have t1 : 52 < ilog2 (n * 2 ^ 1074 / d) + 1 :=
      (Nat.pow_lt_pow_iff_right (by norm_num : 1 < 2)).mp (Nat.lt_of_le_of_lt hb u)
    have t2 : ilog2 (n * 2 ^ 1074 / d) < 1998 :=
      (Nat.pow_lt_pow_iff_right (by norm_num : 1 < 2)).mp (Nat.lt_of_le_of_lt l hM)
    generalize ilog2 (n * 2 ^ 1074 / d) = t at l u t1 t2
    obtain ⟨c1, c2, c3, -, c5⟩ := roundRat_normal_facts s n d t hd l u (by omega) (by omega)
    have hq : 0 < 2 ^ (t - 52) := Nat.two_pow_pos _
    have hsplit : (2 ^ t : Nat) = 2 ^ (t - 52) * 2 ^ 52 := by
      rw [← Nat.pow_add]; congr 1; omega
    have hr := roundHalfEven_bounds (n * 2 ^ 1074) (d * 2 ^ (t - 52))
    have hq2 : n * 2 ^ 1074 / (d * 2 ^ (t - 52)) = n * 2 ^ 1074 / d / 2 ^ (t - 52) :=
      (Nat.div_div_eq_div_mul _ _ _).symm
    rw [hq2] at hr
    have he : 2 ^ (t - 52) ≤ n * 2 ^ 1074 / d / 2 ^ 52 := by
      rw [Nat.le_div_iff_mul_le (Nat.two_pow_pos 52), ← hsplit]
      exact l
    rw [c5]
    generalize n * 2 ^ 1074 / d = M at hr he
    generalize roundHalfEven (n * 2 ^ 1074) (d * 2 ^ (t - 52)) = R at hr
    generalize 2 ^ (t - 52) = Q at hq hr he
    have hm1 : Q * (M / Q) + M % Q = M := Nat.div_add_mod M Q
    have hm2 : M % Q < Q := Nat.mod_lt _ hq
    have hlo : M / Q * Q ≤ R * Q := Nat.mul_le_mul_right _ hr.1
    have hhi : R * Q ≤ (M / Q + 1) * Q := Nat.mul_le_mul_right _ hr.2
    rw [Nat.add_mul, Nat.one_mul] at hhi
    rw [Nat.mul_comm Q] at hm1
    refine ⟨c1, c2, c3, by omega, by omega⟩

theorem roundRat_zero : roundRat binary64 false 0 (2 ^ 1074) = 0 := by
  have h := roundRat_scaled false 0
  rw [Nat.zero_mul] at h
  rw [h, ← ofInt_natCast]
  exact ofInt_zero_bits

/-- A sum of two finite values is the rounding of its exact value. -/
theorem add_cases (x y : Nat) (hx : isNaN binary64 x = false) (hy : isNaN binary64 y = false)
    (hxi : isInf binary64 x = false) (hyi : isInf binary64 y = false) :
    ∃ (s : Bool) (n : Nat),
      add binary64 x y = roundRat binary64 s n (2 ^ 1074) ∧
      n ≤ numer binary64 x + numer binary64 y ∧
      (if s then -(n : Int) else (n : Int)) = signedNumer binary64 x + signedNumer binary64 y := by
  have e1 : binary64.scaleExp = 1074 := rfl
  unfold add signedNumer
  simp only [hx, hy, hxi, hyi, Bool.false_eq_true, or_self, if_false, e1]
  by_cases hs : signOf binary64 x = signOf binary64 y
  · rw [if_pos hs]
    refine ⟨signOf binary64 x, _, rfl, Nat.le_refl _, ?_⟩
    rw [← hs]
    cases signOf binary64 x
    · simp only [Bool.false_eq_true, if_false]; omega
    · simp only [if_true]; omega
  · rw [if_neg hs]
    by_cases hab : numer binary64 x = numer binary64 y
    · rw [if_pos hab]
      refine ⟨false, 0, roundRat_zero.symm, Nat.zero_le _, ?_⟩
      rw [hab]
      cases hsx : signOf binary64 x <;> cases hsy : signOf binary64 y
      · rw [hsx, hsy] at hs; exact absurd rfl hs
      · simp
      · simp
      · rw [hsx, hsy] at hs; exact absurd rfl hs
    · rw [if_neg hab]
      by_cases hlt : numer binary64 y < numer binary64 x
      · rw [if_pos hlt]
        refine ⟨signOf binary64 x, _, rfl, by omega, ?_⟩
        cases hsx : signOf binary64 x <;> cases hsy : signOf binary64 y
        · rw [hsx, hsy] at hs; exact absurd rfl hs
        · simp only [Bool.false_eq_true, if_false, if_true]; omega
        · simp only [Bool.false_eq_true, if_false, if_true]; omega
        · rw [hsx, hsy] at hs; exact absurd rfl hs
      · rw [if_neg hlt]
        refine ⟨signOf binary64 y, _, rfl, by omega, ?_⟩
        cases hsx : signOf binary64 x <;> cases hsy : signOf binary64 y
        · rw [hsx, hsy] at hs; exact absurd rfl hs
        · simp only [Bool.false_eq_true, if_false, if_true]; omega
        · simp only [Bool.false_eq_true, if_false, if_true]; omega
        · rw [hsx, hsy] at hs; exact absurd rfl hs

/-- A sum of two finite values is finite and within one part in `2 ^ 52` of
the magnitudes (and one unit) of its exact value. -/
theorem add_near (x y : Nat) (hx : isNaN binary64 x = false) (hy : isNaN binary64 y = false)
    (hxi : isInf binary64 x = false) (hyi : isInf binary64 y = false)
    (hb : numer binary64 x + numer binary64 y < 2 ^ 1998) :
    isNaN binary64 (add binary64 x y) = false ∧
    isInf binary64 (add binary64 x y) = false ∧
    signedNumer binary64 x + signedNumer binary64 y
        - (((numer binary64 x + numer binary64 y) / 2 ^ 52 + 1 : Nat) : Int)
      ≤ signedNumer binary64 (add binary64 x y) ∧
    signedNumer binary64 (add binary64 x y)
      ≤ signedNumer binary64 x + signedNumer binary64 y
        + (((numer binary64 x + numer binary64 y) / 2 ^ 52 + 1 : Nat) : Int) := by
  obtain ⟨s, n, hr, hn, hv⟩ := add_cases x y hx hy hxi hyi
  have hC : 0 < 2 ^ 1074 := Nat.two_pow_pos 1074
  have hdiv : n * 2 ^ 1074 / 2 ^ 1074 = n := Nat.mul_div_cancel _ hC
  obtain ⟨r1, r2, r3, r4, r5⟩ := round_near s n (2 ^ 1074) hC (by rw [hdiv]; omega)
  rw [hdiv] at r4 r5
  rw [hr]
  refine ⟨r1, r2, ?_, ?_⟩
  all_goals
    rw [← hv]
    unfold signedNumer
    rw [r3]
    have hdle : n / 2 ^ 52 ≤ (numer binary64 x + numer binary64 y) / 2 ^ 52 :=
      Nat.div_le_div_right hn
    generalize numer binary64 (roundRat binary64 s n (2 ^ 1074)) = R at r4 r5
    generalize (numer binary64 x + numer binary64 y) / 2 ^ 52 = E at hdle
    generalize n / 2 ^ 52 = e at hdle r4 r5
    cases s
    · simp only [Bool.false_eq_true, if_false]; omega
    · simp only [if_true]; omega

theorem signedNumer_neg (x : Nat) :
    signedNumer binary64 (neg binary64 x) = -signedNumer binary64 x := by
  obtain ⟨-, n2, n3, -, -⟩ := neg_facts x
  unfold signedNumer
  rw [n2, n3]
  cases signOf binary64 x <;> simp

theorem numer_eq_natAbs (x : Nat) :
    numer binary64 x = (signedNumer binary64 x).natAbs := by
  unfold signedNumer
  cases signOf binary64 x <;> simp

/-- A difference of two finite values is finite and near its exact value. -/
theorem sub_near (x y : Nat) (hx : isNaN binary64 x = false) (hy : isNaN binary64 y = false)
    (hxi : isInf binary64 x = false) (hyi : isInf binary64 y = false)
    (hb : numer binary64 x + numer binary64 y < 2 ^ 1998) :
    isNaN binary64 (sub binary64 x y) = false ∧
    isInf binary64 (sub binary64 x y) = false ∧
    signedNumer binary64 x - signedNumer binary64 y
        - (((numer binary64 x + numer binary64 y) / 2 ^ 52 + 1 : Nat) : Int)
      ≤ signedNumer binary64 (sub binary64 x y) ∧
    signedNumer binary64 (sub binary64 x y)
      ≤ signedNumer binary64 x - signedNumer binary64 y
        + (((numer binary64 x + numer binary64 y) / 2 ^ 52 + 1 : Nat) : Int) := by
  obtain ⟨-, -, n3, n4, n5⟩ := neg_facts y
  have h := add_near x (neg binary64 y) hx (by rw [n4]; exact hy) hxi (by rw [n5]; exact hyi)
    (by rw [n3]; exact hb)
  rw [n3, signedNumer_neg] at h
  obtain ⟨h1, h2, h3, h4⟩ := h
  exact ⟨h1, h2, by rw [sub_eq_add_neg] at *; exact h3, by rw [sub_eq_add_neg] at *; exact h4⟩

/-- The product of a finite non-negative value with 2.5 is finite, not
negative, and within one part in `2 ^ 52` below its exact value. -/
theorem mul_target_near (m : Nat) (hm : isNaN binary64 m = false)
    (hmi : isInf binary64 m = false) (hs : signOf binary64 m = false)
    (hb : numer binary64 m < 2 ^ 1990) :
    isNaN binary64 (mul binary64 m (f64 25 10)) = false ∧
    signOf binary64 (mul binary64 m (f64 25 10)) = false ∧
    5 * numer binary64 m / 2 - 5 * numer binary64 m / 2 / 2 ^ 52
      ≤ numer binary64 (mul binary64 m (f64 25 10)) := by
  obtain ⟨t1, t2, t3, t4⟩ := target_facts
  have e1 : binary64.scaleExp = 1074 := rfl
  have hC : 0 < 2 ^ 1074 := Nat.two_pow_pos 1074
  have hD : 0 < 2 ^ 1073 := Nat.two_pow_pos 1073
  have hq : numer binary64 m * (5 * 2 ^ 50 * 2 ^ 1023) * 2 ^ 1074 / (2 ^ 1074 * 2 ^ 1074)
      = 5 * numer binary64 m / 2 := by
    rw [Nat.mul_div_mul_right _ _ hC]
    have a : numer binary64 m * (5 * 2 ^ 50 * 2 ^ 1023) = 5 * numer binary64 m * 2 ^ 1073 := by
      have : (5 * 2 ^ 50 * 2 ^ 1023 : Nat) = 5 * 2 ^ 1073 := by
        rw [Nat.mul_assoc, ← Nat.pow_add]
      rw [this]
      ring
    have b : (2 ^ 1074 : Nat) = 2 * 2 ^ 1073 := by rw [Nat.mul_comm, ← Nat.pow_succ]
    rw [a, b, Nat.mul_div_mul_right _ _ hD]
  obtain ⟨r1, -, r3, r4, -⟩ := round_near false (numer binary64 m * (5 * 2 ^ 50 * 2 ^ 1023))
    (2 ^ 1074 * 2 ^ 1074) (Nat.mul_pos hC hC) (by
      rw [hq]
      have : (2 ^ 1998 : Nat) = 2 ^ 1990 * 2 ^ 8 := by rw [← Nat.pow_add]
      rw [this]
      generalize numer binary64 m = a at hb
      generalize 2 ^ 1990 = c at hb
      omega)
  rw [hq] at r4
  have hmul : mul binary64 m (f64 25 10)
      = roundRat binary64 false (numer binary64 m * (5 * 2 ^ 50 * 2 ^ 1023))
          (2 ^ 1074 * 2 ^ 1074) := by
    unfold mul
    simp only [hm, hmi, hs, t1, t2, t3, t4, Bool.false_eq_true, or_self, if_false,
      bne_self_eq_false, e1]
  rw [hmul]
  exact ⟨r1, r3, r4⟩

end IEEE

/-! ## Extent of an axis of the padded box -/

namespace IEEE

theorem numer_cases (x : Nat) :
    signedNumer binary64 x = (numer binary64 x : Int) ∨
    signedNumer binary64 x = -(numer binary64 x : Int) := by
  unfold signedNumer
  cases signOf binary64 x <;> simp

theorem signOf_of_pos (x : Nat) (h : 0 < signedNumer binary64 x) :
    signOf binary64 x = false := by
  unfold signedNumer at h
  cases hs : signOf binary64 x
  · rfl
  · rw [hs] at h
    simp only [if_true] at h
    omega

theorem le_eq_true_iff (x y : Nat) :
    le binary64 x y = true ↔
      isNaN binary64 x = false ∧ isNaN binary64 y = false ∧
        signedNumer binary64 x ≤ signedNumer binary64 y := by
  unfold le
  simp only [Bool.and_eq_true, Bool.not_eq_true', decide_eq_true_eq]
  constructor
  · rintro ⟨⟨a, b⟩, c⟩; exact ⟨a, b, c⟩
  · rintro ⟨a, b, c⟩; exact ⟨⟨a, b⟩, c⟩

end IEEE

section
open IEEE

/-- A coordinate of magnitude below 1e9 is finite with a numerator below
`10 ^ 9 * 2 ^ 1074`. -/
theorem Below1e9_facts (x : float64) (h : Below1e9 x) :
    isNaN binary64 x = false ∧ isInf binary64 x = false ∧
    numer binary64 x < 1000000000 * 2 ^ 1074 := by
  obtain ⟨-, -, -, -, c5, c6, -⟩ := bound_constants
  have := numer_lt_of_lt x (f64 1000000000 1) c5
    (by rw [c6]; exact Nat.lt_of_lt_of_le (by decide : 1000000000 * 2 ^ 1074 < 2 ^ 1104)
          (Nat.pow_le_pow_right (by decide) (by decide))) h.1 h.2
  rw [c6] at this
  exact this

/-- A coordinate of magnitude below 1e9 shifted by a half-extent of at most 2:
the sum is finite, below `2 ^ 31` in magnitude, and within `2 ^ -21` of its exact
value. -/
theorem shifted_near (x e : float64) (hx : Below1e9 x) (he1 : isNaN binary64 e = false)
    (he2 : isInf binary64 e = false) (he3 : numer binary64 e ≤ 2 * 2 ^ 1074) :
    isNaN binary64 (add binary64 x e) = false ∧
    isInf binary64 (add binary64 x e) = false ∧
    numer binary64 (add binary64 x e) < 2 ^ 31 * 2 ^ 1074 ∧
    signedNumer binary64 x + signedNumer binary64 e - 2 ^ 1053
      ≤ signedNumer binary64 (add binary64 x e) ∧
    signedNumer binary64 (add binary64 x e)
      ≤ signedNumer binary64 x + signedNumer binary64 e + 2 ^ 1053 := by
  obtain ⟨x1, x2, x3⟩ := Below1e9_facts x hx
  have hsum : numer binary64 x + numer binary64 e < 2 ^ 30 * 2 ^ 1074 := by omega
  obtain ⟨a1, a2, a3, a4⟩ := add_near x e x1 he1 x2 he2
    (Nat.lt_of_lt_of_le hsum (by rw [← Nat.pow_add]; exact Nat.pow_le_pow_right (by decide) (by decide)))
  have hE : (numer binary64 x + numer binary64 e) / 2 ^ 52 + 1 ≤ 2 ^ 1053 := by omega
  have cx := numer_cases x
  have ce := numer_cases e
  have cr := numer_cases (add binary64 x e)
  refine ⟨a1, a2, ?_, ?_, ?_⟩
  · generalize numer binary64 (add binary64 x e) = R at cr
    generalize signedNumer binary64 (add binary64 x e) = S at cr a3 a4
    generalize (numer binary64 x + numer binary64 e) / 2 ^ 52 + 1 = E at hE a3 a4
    generalize signedNumer binary64 x = sx at cx a3 a4
    generalize signedNumer binary64 e = se at ce a3 a4
    generalize numer binary64 x = nx at cx x3 hsum
    generalize numer binary64 e = ne at ce he3 hsum
    omega
  · generalize (numer binary64 x + numer binary64 e) / 2 ^ 52 + 1 = E at hE a3 a4
    omega
  · generalize (numer binary64 x + numer binary64 e) / 2 ^ 52 + 1 = E at hE a3 a4
    omega

/-- One axis of the scene bounds: for coordinates of magnitude below 1e9 and a
half-extent `e` of numerator `k`, a minimum `lo` of the values `x - e` and a
maximum `hi` of the values `x + e` satisfy `lo <= hi`, and the extent `hi - lo`
is finite, below `2 ^ 33`, and at least `2 e - 2 ^ -18`. -/
theorem axis_extent {α : Type} (ts : List α) (p : α → float64) (e : float64) (k : Nat)
    (hne : ts ≠ []) (hall : ∀ t ∈ ts, Below1e9 (p t))
    (he1 : isNaN binary64 e = false) (he2 : isInf binary64 e = false)
    (he3 : signOf binary64 e = false) (he4 : numer binary64 e = k) (hk : k ≤ 2 * 2 ^ 1074)
    (hk0 : 2 ^ 1054 ≤ k) (lo hi : float64)
    (hmin : IsMinOf (ts.map (fun t => sub binary64 (p t) e)) lo)
    (hmax : IsMaxOf (ts.map (fun t => add binary64 (p t) e)) hi) :
    le binary64 lo hi = true ∧
    isNaN binary64 (sub binary64 hi lo) = false ∧
    isInf binary64 (sub binary64 hi lo) = false ∧
    2 * (k : Int) - 2 ^ 1056 ≤ signedNumer binary64 (sub binary64 hi lo) ∧
    signedNumer binary64 (sub binary64 hi lo) < 2 ^ 33 * 2 ^ 1074 := by
  obtain ⟨-, -, n3, n4, n5⟩ := neg_facts e
  have sne : signedNumer binary64 (neg binary64 e) = -(k : Int) := by
    rw [signedNumer_neg]
    unfold signedNumer
    rw [he3, he4]
    rfl
  have se : signedNumer binary64 e = (k : Int) := by
    unfold signedNumer
    rw [he3, he4]
    rfl
  have hadd : ∀ t ∈ ts,
      isNaN binary64 (add binary64 (p t) e) = false ∧
      isInf binary64 (add binary64 (p t) e) = false ∧
      numer binary64 (add binary64 (p t) e) < 2 ^ 31 * 2 ^ 1074 ∧
      signedNumer binary64 (p t) + k - 2 ^ 1053
        ≤ signedNumer binary64 (add binary64 (p t) e) := by
    intro t ht
    obtain ⟨a1, a2, a3, a4, -⟩ := shifted_near (p t) e (hall t ht) he1 he2 (by rw [he4]; exact hk)
    rw [se] at a4
    exact ⟨a1, a2, a3, a4⟩
  have hsub : ∀ t ∈ ts,
      isNaN binary64 (sub binary64 (p t) e) = false ∧
      isInf binary64 (sub binary64 (p t) e) = false ∧
      numer binary64 (sub binary64 (p t) e) < 2 ^ 31 * 2 ^ 1074 ∧
      signedNumer binary64 (sub binary64 (p t) e)
        ≤ signedNumer binary64 (p t) - k + 2 ^ 1053 := by
    intro t ht
    obtain ⟨a1, a2, a3, -, a5⟩ := shifted_near (p t) (neg binary64 e) (hall t ht)
      (by rw [n4]; exact he1) (by rw [n5]; exact he2) (by rw [n3, he4]; exact hk)
    rw [sne] at a5
    exact ⟨a1, a2, a3, by rw [sub_eq_add_neg64]; omega⟩
  obtain ⟨t0, rest, hts⟩ := List.exists_cons_of_ne_nil hne
  have ht0 : t0 ∈ ts := by rw [hts]; exact List.mem_cons_self _ _
  obtain ⟨tl, htl, hlo⟩ := List.mem_map.mp hmin.1
  obtain ⟨th, hth, hhi⟩ := List.mem_map.mp hmax.1
  obtain ⟨l1, l2, l3, -⟩ := hsub tl htl
  obtain ⟨u1, u2, u3, -⟩ := hadd th hth
  rw [hlo] at l1 l2 l3
  rw [hhi] at u1 u2 u3
  obtain ⟨b1, -, -, b4⟩ := hsub t0 ht0
  obtain ⟨c1, -, -, c4⟩ := hadd t0 ht0
  have m1 := hmin.2 _ (List.mem_map_of_mem (fun t => sub binary64 (p t) e) ht0)
  have m2 := hmax.2 _ (List.mem_map_of_mem (fun t => add binary64 (p t) e) ht0)
  rw [lt_eq_false_iff] at m1 m2
  have m1' : signedNumer binary64 lo ≤ signedNumer binary64 (sub binary64 (p t0) e) := by
    rcases m1 with m | m | m
    · simp only at m; rw [b1] at m; exact absurd m (by simp)
    · rw [l1] at m; exact absurd m (by simp)
    · exact m
  have m2' : signedNumer binary64 (add binary64 (p t0) e) ≤ signedNumer binary64 hi := by
    rcases m2 with m | m | m
    · rw [u1] at m; exact absurd m (by simp)
    · simp only at m; rw [c1] at m; exact absurd m (by simp)
    · exact m
  obtain ⟨d1, d2, d3, d4⟩ := sub_near hi lo u1 l1 u2 l2
    (Nat.lt_of_lt_of_le (by omega : numer binary64 hi + numer binary64 lo < 2 ^ 32 * 2 ^ 1074)
      (by rw [← Nat.pow_add]; exact Nat.pow_le_pow_right (by decide) (by decide)))
  have hE : (numer binary64 hi + numer binary64 lo) / 2 ^ 52 + 1 ≤ 2 ^ 1055 := by omega
  have chi := numer_cases hi
  have clo := numer_cases lo
  have hk' : (k : Int) ≤ 2 * 2 ^ 1074 := by exact_mod_cast hk
  have hk0' : (2 ^ 1054 : Int) ≤ (k : Int) := by exact_mod_cast hk0
  generalize (numer binary64 hi + numer binary64 lo) / 2 ^ 52 + 1 = E at hE d3 d4
  generalize signedNumer binary64 (sub binary64 hi lo) = D at d3 d4
  generalize signedNumer binary64 (add binary64 (p t0) e) = A at c4 m2'
  generalize signedNumer binary64 (sub binary64 (p t0) e) = B at b4 m1'
  generalize signedNumer binary64 (p t0) = X at c4 b4
  generalize numer binary64 hi = NH at chi u3
  generalize numer binary64 lo = NL at clo l3
  refine ⟨(le_eq_true_iff _ _).2 ⟨l1, u1, ?_⟩, d1, d2, ?_, ?_⟩
  · generalize signedNumer binary64 hi = H at chi m2' d3 d4
    generalize signedNumer binary64 lo = L at clo m1' d3 d4
    omega
  · generalize signedNumer binary64 hi = H at chi m2' d3 d4
    generalize signedNumer binary64 lo = L at clo m1' d3 d4
    omega
  · generalize signedNumer binary64 hi = H at chi m2' d3 d4
    generalize signedNumer binary64 lo = L at clo m1' d3 d4
    omega

end

/-! ## Floors of the camera report -/

section
open IEEE

theorem floor_constants :
    (isNaN binary64 (f64 39999 10000) = false ∧ signOf binary64 (f64 39999 10000) = false ∧
      numer binary64 (f64 39999 10000) ≤ 4 * 2 ^ 1074 - 2 ^ 1056) ∧
    (isNaN binary64 (f64 9999 10000) = false ∧ signOf binary64 (f64 9999 10000) = false ∧
      numer binary64 (f64 9999 10000) ≤ 2 ^ 1074 - 2 ^ 1056) ∧
    (isNaN binary64 (f64 99999 10000) = false ∧ signOf binary64 (f64 99999 10000) = false ∧
      numer binary64 (f64 99999 10000) ≤ 10 * 2 ^ 1074 - 2 ^ 1059) := by decide!

theorem signedNumer_of_sign (c : Nat) (h : signOf binary64 c = false) :
    signedNumer binary64 c = (numer binary64 c : Int) := by
  unfold signedNumer
  rw [h]
  rfl

/-- The camera distance for a largest extent `m` of at least `4 - 2 ^ -18`: the
product with 2.5 is not below the floor 3.0, so it is the distance, and it is at
least 9.9999. -/
theorem distance_near (m : float64) (h1 : isNaN binary64 m = false)
    (h2 : isInf binary64 m = false)
    (h3 : 2 * ((2 * 2 ^ 1074 : Nat) : Int) - 2 ^ 1056 ≤ signedNumer binary64 m)
    (h4 : signedNumer binary64 m < 2 ^ 33 * 2 ^ 1074) :
    lt binary64 (mul binary64 m (f64 25 10)) (f64 3 1) = false ∧
    max64 (mul binary64 m (f64 25 10)) (f64 3 1) = mul binary64 m (f64 25 10) ∧
    le binary64 (f64 99999 10000) (mul binary64 m (f64 25 10)) = true := by
  obtain ⟨-, -, ⟨k1, k2, k3⟩⟩ := floor_constants
  obtain ⟨c1, -, c3, c4⟩ := three_facts
  have hs : signOf binary64 m = false := signOf_of_pos m (by push_cast at h3; omega)
  have hn := signedNumer_of_sign m hs
  rw [hn] at h3 h4
  have hb : numer binary64 m < 2 ^ 1990 := by
    have : numer binary64 m < 2 ^ 33 * 2 ^ 1074 := by exact_mod_cast h4
    exact Nat.lt_of_lt_of_le this
      (by rw [← Nat.pow_add]; exact Nat.pow_le_pow_right (by decide) (by decide))
  obtain ⟨r1, r2, r3⟩ := mul_target_near m h1 h2 hs hb
  have hcd := signedNumer_of_sign _ r2
  have h3' : 4 * 2 ^ 1074 - 2 ^ 1056 ≤ numer binary64 m := by
    push_cast at h3
    omega
  have h4' : numer binary64 m < 2 ^ 33 * 2 ^ 1074 := by exact_mod_cast h4
  have hlow : 10 * 2 ^ 1074 - 2 ^ 1059 ≤ numer binary64 (mul binary64 m (f64 25 10)) := by
    generalize numer binary64 (mul binary64 m (f64 25 10)) = R at r3
    generalize numer binary64 m = N at r3 h3' h4'
    omega
  have hlt : lt binary64 (mul binary64 m (f64 25 10)) (f64 3 1) = false := by
    rw [lt_eq_false_iff]
    right; right
    rw [hcd, signedNumer_of_sign _ c3, c4]
    have : 3 * 2 ^ 1074 ≤ numer binary64 (mul binary64 m (f64 25 10)) :=
      Nat.le_trans (by decide) hlow
    exact_mod_cast this
  refine ⟨hlt, ?_, (le_eq_true_iff _ _).2 ⟨k1, r1, ?_⟩⟩
  · unfold max64
    rw [hlt]
    simp
  · rw [hcd, signedNumer_of_sign _ k2]
    exact_mod_cast Nat.le_trans k3 hlow

theorem boundsLoop_no_translation (nodes : List gltf.Node) (s : BoundsState)
    (h : translations nodes = []) : boundsLoop nodes s = s := by
  obtain ⟨f1, f2, f3, f4, f5, f6⟩ := boundsLoop_fields nodes s
  rw [h] at f1 f2 f3 f4 f5 f6
  exact BoundsState_ext _ _ f1 f2 f3 f4 f5 f6

theorem sentinel_facts :
    lt binary64 (neg binary64 (f64 10000000000 1)) (f64 10000000000 1) = true ∧
    lt binary64
      (mul binary64
        (max64 (sub binary64 (neg binary64 (f64 10000000000 1)) (f64 10000000000 1))
          (sub binary64 (neg binary64 (f64 10000000000 1)) (f64 10000000000 1)))
        (f64 25 10)) (f64 3 1) = true ∧
    max64
      (mul binary64
        (max64 (sub binary64 (neg binary64 (f64 10000000000 1)) (f64 10000000000 1))
          (sub binary64 (neg binary64 (f64 10000000000 1)) (f64 10000000000 1)))
        (f64 25 10)) (f64 3 1) = f64 3 1 := by decide!

/-- The running extremes of `calculateSceneBounds` for an asset with a
3-component translation, all coordinates of magnitude below 1e9. -/
theorem sceneBounds_extremes (asset : gltf.GLTFAsset)
    (hne : translations asset.Nodes ≠ [])
    (hb : ∀ t ∈ translations asset.Nodes, Below1e9 t.1 ∧ Below1e9 t.2.1 ∧ Below1e9 t.2.2) :
    ∃ minX minY minZ maxX maxY maxZ : float64,
      IsMinOf ((translations asset.Nodes).map (fun t => sub binary64 t.1 (f64 2 1))) minX ∧
      IsMinOf ((translations asset.Nodes).map (fun t => sub binary64 t.2.1 (f64 2 1))) minY ∧
      IsMinOf ((translations asset.Nodes).map (fun t => sub binary64 t.2.2 (f64 5 10))) minZ ∧
      IsMaxOf ((translations asset.Nodes).map (fun t => add binary64 t.1 (f64 2 1))) maxX ∧
      IsMaxOf ((translations asset.Nodes).map (fun t => add binary64 t.2.1 (f64 2 1))) maxY ∧
      IsMaxOf ((translations asset.Nodes).map (fun t => add binary64 t.2.2 (f64 5 10))) maxZ ∧
      calculateSceneBounds asset = boundsReport minX minY minZ maxX maxY maxZ := by
  obtain ⟨c1, -⟩ := bound_constants
  have cn : isNaN binary64 (neg binary64 (f64 10000000000 1)) = false := by
    rw [(neg_facts _).2.2.2.1]; exact c1
  obtain ⟨f1, f2, f3, f4, f5, f6⟩ := boundsLoop_fields asset.Nodes
    { minX := f64 10000000000 1, minY := f64 10000000000 1, minZ := f64 10000000000 1,
      maxX := neg binary64 (f64 10000000000 1), maxY := neg binary64 (f64 10000000000 1),
      maxZ := neg binary64 (f64 10000000000 1) }
  obtain ⟨t, ts, hts⟩ := List.exists_cons_of_ne_nil hne
  have ht : t ∈ translations asset.Nodes := by rw [hts]; exact List.mem_cons_self _ _
  obtain ⟨bx, by', bz⟩ := hb t ht
  obtain ⟨x1, x2, -, -⟩ := half_extent_bounds t.1 bx
  obtain ⟨y1, y2, -, -⟩ := half_extent_bounds t.2.1 by'
  obtain ⟨-, -, z1, z2⟩ := half_extent_bounds t.2.2 bz
  refine ⟨_, _, _, _, _, _, ?_, ?_, ?_, ?_, ?_, ?_, boundsResult_eq _⟩
  · rw [f1]
    exact running_min _ _ c1 ⟨_, List.mem_map_of_mem _ ht, x1⟩
  · rw [f2]
    exact running_min _ _ c1 ⟨_, List.mem_map_of_mem _ ht, y1⟩
  · rw [f3]
    exact running_min _ _ c1 ⟨_, List.mem_map_of_mem _ ht, z1⟩
  · rw [f4]
    exact running_max _ _ cn ⟨_, List.mem_map_of_mem _ ht, x2⟩
  · rw [f5]
    exact running_max _ _ cn ⟨_, List.mem_map_of_mem _ ht, y2⟩
  · rw [f6]
    exact running_max _ _ cn ⟨_, List.mem_map_of_mem _ ht, z2⟩

/-- C33 (as stated, refuted). For the asset of one node at x = y = 2 + 2^-51,
z = 0.5 + 2^-53, whose coordinates have magnitude below 1e9,
`calculateSceneBounds` reports sizeX < 4, sizeY < 4, sizeZ < 1 and a distance
below 10: the sums `x + 2.0` and `z + 0.5` round down in `float64`. -/
theorem calculateSceneBounds_sizes_below :
    translations tightAsset.Nodes ≠ [] ∧
    (∀ t ∈ translations tightAsset.Nodes, Below1e9 t.1 ∧ Below1e9 t.2.1 ∧ Below1e9 t.2.2) ∧
    ∃ minX minY minZ maxX maxY maxZ : float64,
      calculateSceneBounds tightAsset = boundsReport minX minY minZ maxX maxY maxZ ∧
      lt binary64 (sub binary64 maxX minX) (f64 4 1) = true ∧
      lt binary64 (sub binary64 maxY minY) (f64 4 1) = true ∧
      lt binary64 (sub binary64 maxZ minZ) (f64 1 1) = true ∧
      lt binary64
        (max64 (mul binary64 (max64 (sub binary64 maxX minX) (sub binary64 maxY minY))
          (f64 25 10)) (f64 3 1)) (f64 10 1) = true := by
  have ht : translations tightAsset.Nodes
      = [(f64 (2 ^ 52 + 1) (2 ^ 51), f64 (2 ^ 52 + 1) (2 ^ 51), f64 (2 ^ 52 + 1) (2 ^ 53))] := rfl
  have hb : ∀ t ∈ translations tightAsset.Nodes,
      Below1e9 t.1 ∧ Below1e9 t.2.1 ∧ Below1e9 t.2.2 := by
    rw [ht]
    intro t h
    simp only [List.mem_singleton] at h
    subst h
    unfold Below1e9
    decide!
  have hf := boundsLoop_fields tightAsset.Nodes
    { minX := f64 10000000000 1, minY := f64 10000000000 1, minZ := f64 10000000000 1,
      maxX := neg binary64 (f64 10000000000 1), maxY := neg binary64 (f64 10000000000 1),
      maxZ := neg binary64 (f64 10000000000 1) }
  rw [ht] at hf
  simp only [List.map_cons, List.map_nil, List.foldl_cons, List.foldl_nil] at hf
  obtain ⟨f1, f2, f3, f4, f5, f6⟩ := hf
  have e : ∀ a b : float64,
      (if lt binary64 a b = true then a else b) = (if lt binary64 a b then a else b) :=
    fun _ _ => rfl
  have g1 : (if lt binary64 (sub binary64 (f64 (2 ^ 52 + 1) (2 ^ 51)) (f64 2 1))
      (f64 10000000000 1) = true then sub binary64 (f64 (2 ^ 52 + 1) (2 ^ 51)) (f64 2 1)
      else f64 10000000000 1) = 4377498837804122112 := by decide!
  have g3 : (if lt binary64 (sub binary64 (f64 (2 ^ 52 + 1) (2 ^ 53)) (f64 5 10))
      (f64 10000000000 1) = true then sub binary64 (f64 (2 ^ 52 + 1) (2 ^ 53)) (f64 5 10)
      else f64 10000000000 1) = 4368491638549381120 := by decide!
  have g4 : (if lt binary64 (neg binary64 (f64 10000000000 1))
      (add binary64 (f64 (2 ^ 52 + 1) (2 ^ 51)) (f64 2 1)) = true
      then add binary64 (f64 (2 ^ 52 + 1) (2 ^ 51)) (f64 2 1)
      else neg binary64 (f64 10000000000 1)) = 4616189618054758400 := by decide!
  have g6 : (if lt binary64 (neg binary64 (f64 10000000000 1))
      (add binary64 (f64 (2 ^ 52 + 1) (2 ^ 53)) (f64 5 10)) = true
      then add binary64 (f64 (2 ^ 52 + 1) (2 ^ 53)) (f64 5 10)
      else neg binary64 (f64 10000000000 1)) = 4607182418800017408 := by decide!
  rw [g1] at f1 f2
  rw [g3] at f3
  rw [g4] at f4 f5
  rw [g6] at f6
  refine ⟨by rw [ht]; exact List.cons_ne_nil _ _, hb,
    4377498837804122112, 4377498837804122112, 4368491638549381120,
    4616189618054758400, 4616189618054758400, 4607182418800017408, ?_, ?_⟩
  · show boundsResult _ = _
    rw [boundsResult_eq, f1, f2, f3, f4, f5, f6]
  · decide!

/-- C33 (amended). Without a node with a 3-component translation
`calculateSceneBounds` reports the start values min = (1e10, 1e10, 1e10), max =
(-1e10, -1e10, -1e10), so max < min, the product 2.5 * max(sizeX, sizeY) is
below 3.0 and the distance is the floor 3.0. With at least one such node, all
coordinates of magnitude below 1e9, min <= max on every axis, sizeX >= 3.9999,
sizeY >= 3.9999, sizeZ >= 0.9999, the product is not below 3.0, so the distance
is the product and the floor has no effect, and the distance is at least
9.9999. -/
theorem calculateSceneBounds_floor (asset : gltf.GLTFAsset) :
    (translations asset.Nodes = [] →
      calculateSceneBounds asset
        = boundsReport (f64 10000000000 1) (f64 10000000000 1) (f64 10000000000 1)
            (neg binary64 (f64 10000000000 1)) (neg binary64 (f64 10000000000 1))
            (neg binary64 (f64 10000000000 1)) ∧
      lt binary64 (neg binary64 (f64 10000000000 1)) (f64 10000000000 1) = true ∧
      lt binary64
        (mul binary64
          (max64 (sub binary64 (neg binary64 (f64 10000000000 1)) (f64 10000000000 1))
            (sub binary64 (neg binary64 (f64 10000000000 1)) (f64 10000000000 1)))
          (f64 25 10)) (f64 3 1) = true ∧
      max64
        (mul binary64
          (max64 (sub binary64 (neg binary64 (f64 10000000000 1)) (f64 10000000000 1))
            (sub binary64 (neg binary64 (f64 10000000000 1)) (f64 10000000000 1)))
          (f64 25 10)) (f64 3 1) = f64 3 1) ∧
    (translations asset.Nodes ≠ [] →
      (∀ t ∈ translations asset.Nodes, Below1e9 t.1 ∧ Below1e9 t.2.1 ∧ Below1e9 t.2.2) →
      ∃ minX minY minZ maxX maxY maxZ : float64,
        calculateSceneBounds asset = boundsReport minX minY minZ maxX maxY maxZ ∧
        le binary64 minX maxX = true ∧ le binary64 minY maxY = true ∧
        le binary64 minZ maxZ = true ∧
        le binary64 (f64 39999 10000) (sub binary64 maxX minX) = true ∧
        le binary64 (f64 39999 10000) (sub binary64 maxY minY) = true ∧
        le binary64 (f64 9999 10000) (sub binary64 maxZ minZ) = true ∧
        lt binary64
          (mul binary64 (max64 (sub binary64 maxX minX) (sub binary64 maxY minY)) (f64 25 10))
          (f64 3 1) = false ∧
        max64
          (mul binary64 (max64 (sub binary64 maxX minX) (sub binary64 maxY minY)) (f64 25 10))
          (f64 3 1)
          = mul binary64 (max64 (sub binary64 maxX minX) (sub binary64 maxY minY))
              (f64 25 10) ∧
        le binary64 (f64 99999 10000)
          (mul binary64 (max64 (sub binary64 maxX minX) (sub binary64 maxY minY)) (f64 25 10))
          = true) := by
  constructor
  · intro h
    obtain ⟨s1, s2, s3⟩ := sentinel_facts
    refine ⟨?_, s1, s2, s3⟩
    show boundsResult (boundsLoop asset.Nodes _) = _
    rw [boundsLoop_no_translation _ _ h, boundsResult_eq]
  · intro hne hb
    obtain ⟨minX, minY, minZ, maxX, maxY, maxZ, i1, i2, i3, i4, i5, i6, hres⟩ :=
      sceneBounds_extremes asset hne hb
    obtain ⟨-, -, -, -, -, -, t1, t2, t3, t4, d1, d2, d3, d4⟩ := bound_constants
    obtain ⟨⟨k1, k2, k3⟩, ⟨q1, q2, q3⟩, -⟩ := floor_constants
    obtain ⟨x1, x2, x3, x4, x5⟩ := axis_extent (translations asset.Nodes) (fun t => t.1)
      (f64 2 1) (2 * 2 ^ 1074) hne (fun t ht => (hb t ht).1) t1 t2 t3 t4 (Nat.le_refl _)
      (by decide) minX maxX i1 i4
    obtain ⟨y1, y2, y3, y4, y5⟩ := axis_extent (translations asset.Nodes) (fun t => t.2.1)
      (f64 2 1) (2 * 2 ^ 1074) hne (fun t ht => (hb t ht).2.1) t1 t2 t3 t4 (Nat.le_refl _)
      (by decide) minY maxY i2 i5
    obtain ⟨z1, z2, z3, z4, z5⟩ := axis_extent (translations asset.Nodes) (fun t => t.2.2)
      (f64 5 10) (2 ^ 1073) hne (fun t ht => (hb t ht).2.2) d1 d2 d3 d4 (by decide)
      (by decide) minZ maxZ i3 i6
    have hm : isNaN binary64 (max64 (sub binary64 maxX minX) (sub binary64 maxY minY)) = false ∧
        isInf binary64 (max64 (sub binary64 maxX minX) (sub binary64 maxY minY)) = false ∧
        2 * ((2 * 2 ^ 1074 : Nat) : Int) - 2 ^ 1056
          ≤ signedNumer binary64 (max64 (sub binary64 maxX minX) (sub binary64 maxY minY)) ∧
        signedNumer binary64 (max64 (sub binary64 maxX minX) (sub binary64 maxY minY))
          < 2 ^ 33 * 2 ^ 1074 := by
      unfold max64
      split
      · exact ⟨y2, y3, y4, y5⟩
      · exact ⟨x2, x3, x4, x5⟩
    obtain ⟨m1, m2, m3⟩ := distance_near _ hm.1 hm.2.1 hm.2.2.1 hm.2.2.2
    refine ⟨minX, minY, minZ, maxX, maxY, maxZ, hres, x1, y1, z1,
      (le_eq_true_iff _ _).2 ⟨k1, x2, ?_⟩, (le_eq_true_iff _ _).2 ⟨k1, y2, ?_⟩,
      (le_eq_true_iff _ _).2 ⟨q1, z2, ?_⟩, m1, m2, m3⟩
    · rw [signedNumer_of_sign _ k2]
      have : (numer binary64 (f64 39999 10000) : Int) ≤ ((4 * 2 ^ 1074 - 2 ^ 1056 : Nat) : Int) := by
        exact_mod_cast k3
      push_cast at x4 this
      omega
    · rw [signedNumer_of_sign _ k2]
      have : (numer binary64 (f64 39999 10000) : Int) ≤ ((4 * 2 ^ 1074 - 2 ^ 1056 : Nat) : Int) := by
        exact_mod_cast k3
      push_cast at y4 this
      omega
    · rw [signedNumer_of_sign _ q2]
      have : (numer binary64 (f64 9999 10000) : Int) ≤ ((2 ^ 1074 - 2 ^ 1056 : Nat) : Int) := by
        exact_mod_cast q3
      push_cast at z4 this
      omega

theorem calculateSceneBounds_floor_witness :
    (translations (initialAsset ⟨"0.1", none, none⟩ "").Nodes = [] ∧
      calculateSceneBounds (initialAsset ⟨"0.1", none, none⟩ "")
        = boundsReport (f64 10000000000 1) (f64 10000000000 1) (f64 10000000000 1)
            (neg binary64 (f64 10000000000 1)) (neg binary64 (f64 10000000000 1))
            (neg binary64 (f64 10000000000 1))) ∧
    (translations sampleBoundsAsset.Nodes ≠ [] ∧
      ∃ minX minY minZ maxX maxY maxZ : float64,
        calculateSceneBounds sampleBoundsAsset = boundsReport minX minY minZ maxX maxY maxZ ∧
        le binary64 minX maxX = true ∧ le binary64 minY maxY = true ∧
        le binary64 minZ maxZ = true ∧
        le binary64 (f64 39999 10000) (sub binary64 maxX minX) = true ∧
        le binary64 (f64 39999 10000) (sub binary64 maxY minY) = true ∧
        le binary64 (f64 9999 10000) (sub binary64 maxZ minZ) = true) :=
  ⟨⟨rfl, ((calculateSceneBounds_floor (initialAsset ⟨"0.1", none, none⟩ "")).1 rfl).1⟩,
   ⟨by rw [sample_translations]; exact List.cons_ne_nil _ _,
    let ⟨a, b, c, d, e, f, h1, h2, h3, h4, h5, h6, h7, _⟩ :=
      (calculateSceneBounds_floor sampleBoundsAsset).2
        (by rw [sample_translations]; exact List.cons_ne_nil _ _)
        (by
          rw [sample_translations]
          intro t ht
          simp only [List.mem_cons, List.mem_singleton, List.not_mem_nil, or_false] at ht
          rcases ht with rfl | rfl <;> unfold Below1e9 <;> decide!)
    ⟨a, b, c, d, e, f, h1, h2, h3, h4, h5, h6, h7⟩⟩⟩

end

/-! ## Relative error of float32 rounding -/

/-! ## Rounding in binary32 -/

namespace IEEE

/-- Facts about a binary32 pattern given by a sign and a magnitude below `2 ^ 31`. -/
theorem withSign_facts32 (s : Bool) (mag : Nat) (h : mag < 2 ^ 31) :
    magnitude binary32 (withSign binary32 s mag) = mag ∧
    signOf binary32 (withSign binary32 s mag) = s ∧
    numer binary32 (withSign binary32 s mag) = numer binary32 mag := by
  have e1 : binary32.signBit = 2 ^ 31 := rfl
  have e2 : binary32.mbits = 23 := rfl
  have e3 : binary32.ebits = 8 := rfl
  unfold magnitude signOf numer withSign
  rw [e1, e2, e3]
  cases s
  · simp only [Bool.false_eq_true, if_false, Nat.zero_add]
    refine ⟨Nat.mod_eq_of_lt h, ?_, trivial⟩
    have : mag / 2 ^ 31 = 0 := Nat.div_eq_of_lt h
    rw [this]; rfl
  · simp only [if_true]
    have a : (2 ^ 31 + mag) % 2 ^ 31 = mag := by omega
    have b : (2 ^ 31 + mag) / 2 ^ 31 % 2 = 1 := by omega
    have c : (2 ^ 31 + mag) / 2 ^ 23 % 2 ^ 8 = mag / 2 ^ 23 % 2 ^ 8 := by omega
    have d : (2 ^ 31 + mag) % 2 ^ 23 = mag % 2 ^ 23 := by omega
    rw [a, b, c, d]
    exact ⟨rfl, rfl, rfl⟩

theorem neg_facts32 (x : Nat) :
    magnitude binary32 (neg binary32 x) = magnitude binary32 x ∧
    signOf binary32 (neg binary32 x) = !signOf binary32 x ∧
    numer binary32 (neg binary32 x) = numer binary32 x ∧
    isNaN binary32 (neg binary32 x) = isNaN binary32 x ∧
    isInf binary32 (neg binary32 x) = isInf binary32 x := by
  have hm : magnitude binary32 x < 2 ^ 31 :=
    Nat.mod_lt _ (show 0 < binary32.signBit from Nat.two_pow_pos _)
  obtain ⟨f1, f2, f3⟩ := withSign_facts32 (!signOf binary32 x) _ hm
  have hn : numer binary32 (magnitude binary32 x) = numer binary32 x := by
    have e1 : binary32.signBit = 2 ^ 31 := rfl
    have e2 : binary32.mbits = 23 := rfl
    have e3 : binary32.ebits = 8 := rfl
    unfold numer magnitude
    rw [e1, e2, e3]
    have a : x % 2 ^ 31 / 2 ^ 23 % 2 ^ 8 = x / 2 ^ 23 % 2 ^ 8 := by omega
    have b : x % 2 ^ 31 % 2 ^ 23 = x % 2 ^ 23 := by omega
    rw [a, b]
  unfold neg
  refine ⟨f1, f2, by rw [f3, hn], ?_, ?_⟩
  · unfold isNaN; rw [f1]
  · unfold isInf; rw [f1]

/-- The numerator of a binary32 pattern with exponent field `q + 1` (or `q` for
a significand below `2 ^ 23`). -/
theorem numer_pattern32 (q k : Nat) (hk2 : k ≤ 2 ^ 24) (hq : q + 2 < 255)
    (hk : 2 ^ 23 ≤ k ∨ q = 0) :
    numer binary32 (q * 2 ^ 23 + k) = k * 2 ^ q := by
  have e2 : binary32.mbits = 23 := rfl
  have e3 : binary32.ebits = 8 := rfl
  unfold numer
  rw [e2, e3]
  rcases Nat.lt_or_ge k (2 ^ 23) with h0 | h0
  · have hq0 : q = 0 := by
      rcases hk with hk | hk
      · omega
      · exact hk
    subst hq0
    have a : (0 * 2 ^ 23 + k) / 2 ^ 23 % 2 ^ 8 = 0 := by omega
    have b : (0 * 2 ^ 23 + k) % 2 ^ 23 = k := by omega
    simp only [a, b, if_true, Nat.pow_zero, Nat.mul_one]
  · rcases Nat.lt_or_ge k (2 ^ 24) with h | h
    · have a : (q * 2 ^ 23 + k) / 2 ^ 23 % 2 ^ 8 = q + 1 := by omega
      have b : (q * 2 ^ 23 + k) % 2 ^ 23 = k - 2 ^ 23 := by omega
      simp only [a, b]
      have c : 2 ^ 23 + (k - 2 ^ 23) = k := by omega
      rw [if_neg (by omega), c, Nat.add_sub_cancel]
    · have hk3 : k = 2 ^ 24 := Nat.le_antisymm hk2 h
      subst hk3
      have a : (q * 2 ^ 23 + 2 ^ 24) / 2 ^ 23 % 2 ^ 8 = q + 2 := by omega
      have b : (q * 2 ^ 23 + 2 ^ 24) % 2 ^ 23 = 0 := by omega
      simp only [a, b]
      have : q + 2 - 1 = q + 1 := by omega
      rw [if_neg (by omega), this, Nat.add_zero, pow_succ 2 q, pow_succ 2 23]
      ring

/-- Rounding the quotient `n / d` to binary32: the result is finite with the
given sign, and its numerator is within one part in `2 ^ 23` (and one unit) of
the quotient `M = n * 2 ^ 149 / d`. -/
theorem round_near32 (s : Bool) (n d : Nat) (_hd : 0 < d) (hM : n * 2 ^ 149 / d < 2 ^ 250) :
    isNaN binary32 (roundRat binary32 s n d) = false ∧
    isInf binary32 (roundRat binary32 s n d) = false ∧
    signOf binary32 (roundRat binary32 s n d) = s ∧
    n * 2 ^ 149 / d - n * 2 ^ 149 / d / 2 ^ 23 ≤ numer binary32 (roundRat binary32 s n d) ∧
    numer binary32 (roundRat binary32 s n d)
      ≤ n * 2 ^ 149 / d + n * 2 ^ 149 / d / 2 ^ 23 + 1 := by
  have e1 : binary32.scaleExp = 149 := rfl
  have e2 : binary32.mbits = 23 := rfl
  have e3 : binary32.infBits = 255 * 2 ^ 23 := rfl
  have key : ∃ q k, ilog2 (n * 2 ^ 149 / d) - 23 = q ∧
      roundHalfEven (n * 2 ^ 149) (d * 2 ^ q) = k ∧ q + 2 < 255 ∧ k ≤ 2 ^ 24 ∧
      (2 ^ 23 ≤ k ∨ q = 0) ∧
      n * 2 ^ 149 / d - n * 2 ^ 149 / d / 2 ^ 23 ≤ k * 2 ^ q ∧
      k * 2 ^ q ≤ n * 2 ^ 149 / d + n * 2 ^ 149 / d / 2 ^ 23 + 1 := by
    rcases Nat.lt_or_ge (n * 2 ^ 149 / d) (2 ^ 23) with hs | hb
    · have hlog : ilog2 (n * 2 ^ 149 / d) - 23 = 0 := by
        rcases Nat.eq_zero_or_pos (n * 2 ^ 149 / d) with h0 | h0
        · rw [h0]
          have : ilog2 0 = 0 := by simp [ilog2, log2Levels, log2Search]
          rw [this]
        · obtain ⟨l, -⟩ := ilog2_spec _ h0
          have : ilog2 (n * 2 ^ 149 / d) < 23 :=
            (Nat.pow_lt_pow_iff_right (by norm_num : 1 < 2)).mp (Nat.lt_of_le_of_lt l hs)
          omega
      obtain ⟨b1, b2⟩ := roundHalfEven_bounds (n * 2 ^ 149) d
      refine ⟨0, roundHalfEven (n * 2 ^ 149) d, hlog, by rw [Nat.pow_zero, Nat.mul_one],
        by decide, ?_, Or.inr rfl, ?_, ?_⟩
      all_goals try rw [Nat.pow_zero, Nat.mul_one]
      all_goals
        generalize n * 2 ^ 149 / d = M at b1 b2 hs
        generalize roundHalfEven (n * 2 ^ 149) d = R at b1 b2
        omega
    · have hpos : 1 ≤ n * 2 ^ 149 / d := Nat.le_trans (Nat.two_pow_pos 23) hb
      obtain ⟨l, u⟩ := ilog2_spec _ hpos
      have t1 : 23 < ilog2 (n * 2 ^ 149 / d) + 1 :=
        (Nat.pow_lt_pow_iff_right (by norm_num : 1 < 2)).mp (Nat.lt_of_le_of_lt hb u)
      have t2 : ilog2 (n * 2 ^ 149 / d) < 250 :=
        (Nat.pow_lt_pow_iff_right (by norm_num : 1 < 2)).mp (Nat.lt_of_le_of_lt l hM)
      generalize ilog2 (n * 2 ^ 149 / d) = t at l u t1 t2
      have hq : 0 < 2 ^ (t - 23) := Nat.two_pow_pos _
      have hsplit : (2 ^ t : Nat) = 2 ^ (t - 23) * 2 ^ 23 := by
        rw [← Nat.pow_add]; congr 1; omega
      have hsplit' : (2 ^ (t + 1) : Nat) = 2 ^ (t - 23) * 2 ^ 24 := by
        rw [← Nat.pow_add]; congr 1; omega
      have hr := roundHalfEven_bounds (n * 2 ^ 149) (d * 2 ^ (t - 23))
      have hq2 : n * 2 ^ 149 / (d * 2 ^ (t - 23)) = n * 2 ^ 149 / d / 2 ^ (t - 23) :=
        (Nat.div_div_eq_div_mul _ _ _).symm
      rw [hq2] at hr
      have he : 2 ^ (t - 23) ≤ n * 2 ^ 149 / d / 2 ^ 23 := by
        rw [Nat.le_div_iff_mul_le (Nat.two_pow_pos 23), ← hsplit]
        exact l
      have hk1 : 2 ^ 23 ≤ n * 2 ^ 149 / d / 2 ^ (t - 23) := by
        rw [Nat.le_div_iff_mul_le hq, Nat.mul_comm (2 ^ 23) (2 ^ (t - 23)), ← hsplit]; exact l
      have hk2 : n * 2 ^ 149 / d / 2 ^ (t - 23) < 2 ^ 24 := by
        rw [Nat.div_lt_iff_lt_mul hq, Nat.mul_comm (2 ^ 24) (2 ^ (t - 23)), ← hsplit']; exact u
      refine ⟨t - 23, _, rfl, rfl, by omega, by omega, Or.inl (by omega), ?_, ?_⟩
      all_goals
        generalize n * 2 ^ 149 / d = M at hr he hk1 hk2
        generalize roundHalfEven (n * 2 ^ 149) (d * 2 ^ (t - 23)) = R at hr
        generalize 2 ^ (t - 23) = Q at hq hr he hk1 hk2
        have hm1 : Q * (M / Q) + M % Q = M := Nat.div_add_mod M Q
        have hm2 : M % Q < Q := Nat.mod_lt _ hq
        have hlo : M / Q * Q ≤ R * Q := Nat.mul_le_mul_right _ hr.1
        have hhi : R * Q ≤ (M / Q + 1) * Q := Nat.mul_le_mul_right _ hr.2
        rw [Nat.add_mul, Nat.one_mul] at hhi
        rw [Nat.mul_comm Q] at hm1
        omega
  obtain ⟨q, k, hq, hk, hq2, hk2, hk3, hlo, hhi⟩ := key
  have hr : roundRat binary32 s n d = withSign binary32 s (q * 2 ^ 23 + k) := by
    rw [roundRat_eq, e1, e2, e3, hq, hk]
    congr 1
    exact Nat.min_eq_right (by omega)
  rw [hr]
  obtain ⟨f1, f2, f3⟩ := withSign_facts32 s (q * 2 ^ 23 + k) (by omega)
  refine ⟨?_, ?_, f2, ?_, ?_⟩
  · unfold isNaN
    rw [f1, e3]
    exact decide_eq_false (by omega)
  · unfold isInf
    rw [f1, e3]
    exact beq_false_of_ne (by omega)
  · rw [f3, numer_pattern32 q k hk2 hq2 hk3]
    exact hlo
  · rw [f3, numer_pattern32 q k hk2 hq2 hk3]
    exact hhi

theorem signedNumer_cases32 (x : Nat) :
    (signOf binary32 x = false ∧ signedNumer binary32 x = (numer binary32 x : Int)) ∨
    (signOf binary32 x = true ∧ signedNumer binary32 x = -(numer binary32 x : Int)) := by
  unfold signedNumer
  cases signOf binary32 x <;> simp

/-- A positive finite `h` less a positive finite `c`, in binary32: when `c` is
more than one part in `2 ^ 23` of `h` and `2 h` exceeds `c` by more than one
part in `2 ^ 23`, the difference lies strictly between `-h` and `h`. -/
theorem sub_between32 (h c a b : Nat)
    (h1 : isNaN binary32 h = false) (h2 : isInf binary32 h = false)
    (h3 : signOf binary32 h = false) (h4 : numer binary32 h = a)
    (c1 : isNaN binary32 c = false) (c2 : isInf binary32 c = false)
    (c3 : signOf binary32 c = false) (c4 : numer binary32 c = b)
    (ha : a < 2 ^ 249) (hb : b < 2 ^ 249)
    (hup : a / 2 ^ 23 + 1 < b) (hlo : b + b / 2 ^ 23 + 1 < 2 * a) :
    isNaN binary32 (sub binary32 h c) = false ∧
    lt binary32 (sub binary32 h c) h = true ∧
    lt binary32 (neg binary32 h) (sub binary32 h c) = true := by
  obtain ⟨-, n2, n3, n4, n5⟩ := neg_facts32 c
  rw [c3] at n2
  rw [c4] at n3
  rw [c1] at n4
  rw [c2] at n5
  obtain ⟨-, m2, m3, m4, -⟩ := neg_facts32 h
  rw [h3] at m2
  rw [h4] at m3
  rw [h1] at m4
  simp only [Bool.not_false] at n2 m2
  have e1 : binary32.scaleExp = 149 := rfl
  have hC : 0 < 2 ^ 149 := Nat.two_pow_pos 149
  have sh : signedNumer binary32 h = (a : Int) := by
    unfold signedNumer; rw [h3, h4]; rfl
  have snh : signedNumer binary32 (neg binary32 h) = -(a : Int) := by
    unfold signedNumer; rw [m2, m3]; rfl
  have key : ∃ r, sub binary32 h c = r ∧ isNaN binary32 r = false ∧
      signedNumer binary32 r < (a : Int) ∧ -(a : Int) < signedNumer binary32 r := by
    refine ⟨_, rfl, ?_⟩
    unfold sub add
    simp only [h1, h2, h3, h4, n2, n3, n4, n5, Bool.false_eq_true, or_self, if_false, e1]
    by_cases hab : a = b
    · rw [if_pos hab]
      obtain ⟨z1, -, -, z4⟩ := zero_bits binary32
      rw [z4]
      exact ⟨z1, by omega, by omega⟩
    · rw [if_neg hab]
      by_cases hlt : b < a
      · rw [if_pos hlt]
        have hdiv : (a - b) * 2 ^ 149 / 2 ^ 149 = a - b := Nat.mul_div_cancel _ hC
        obtain ⟨r1, -, r3, -, r5⟩ := round_near32 false (a - b) (2 ^ 149) hC
          (by rw [hdiv]; omega)
        rw [hdiv] at r5
        refine ⟨r1, ?_, ?_⟩
        all_goals
          rcases signedNumer_cases32 (roundRat binary32 false (a - b) (2 ^ 149)) with ⟨-, e⟩ | ⟨e, -⟩
          · rw [e]
            generalize numer binary32 (roundRat binary32 false (a - b) (2 ^ 149)) = R at r5
            omega
          · rw [r3] at e
            exact absurd e (by simp)
      · rw [if_neg hlt]
        have hdiv : (b - a) * 2 ^ 149 / 2 ^ 149 = b - a := Nat.mul_div_cancel _ hC
        obtain ⟨r1, -, r3, -, r5⟩ := round_near32 true (b - a) (2 ^ 149) hC
          (by rw [hdiv]; omega)
        rw [hdiv] at r5
        refine ⟨r1, ?_, ?_⟩
        all_goals
          rcases signedNumer_cases32 (roundRat binary32 true (b - a) (2 ^ 149)) with ⟨e, -⟩ | ⟨-, e⟩
          · rw [r3] at e
            exact absurd e (by simp)
          · rw [e]
            generalize numer binary32 (roundRat binary32 true (b - a) (2 ^ 149)) = R at r5
            omega
  obtain ⟨r, hr, k1, k2, k3⟩ := key
  rw [hr]
  exact ⟨k1, (lt_eq_true_iff _ _ _).2 ⟨k1, h1, by rw [sh]; exact k2⟩,
    (lt_eq_true_iff _ _ _).2 ⟨m4, k1, by rw [snh]; exact k3⟩⟩

end IEEE

/-! ## The divider height inside the box -/

namespace IEEE

/-- The product of a natural number below `2 ^ 53` with a finite non-negative
`float64` value of numerator `U`: finite, non-negative, within one part in
`2 ^ 52` of `m * U`. -/
theorem mul_ofInt_near (m : Nat) (u U : Nat) (hm : m < 2 ^ 53)
    (u1 : isNaN binary64 u = false) (u2 : isInf binary64 u = false)
    (u3 : signOf binary64 u = false) (u4 : numer binary64 u = U) (hU : U < 2 ^ 1100) :
    isNaN binary64 (mul binary64 (ofInt binary64 (m : Int)) u) = false ∧
    isInf binary64 (mul binary64 (ofInt binary64 (m : Int)) u) = false ∧
    signOf binary64 (mul binary64 (ofInt binary64 (m : Int)) u) = false ∧
    m * U - m * U / 2 ^ 52 ≤ numer binary64 (mul binary64 (ofInt binary64 (m : Int)) u) ∧
    numer binary64 (mul binary64 (ofInt binary64 (m : Int)) u) ≤ m * U + m * U / 2 ^ 52 + 1 := by
  obtain ⟨a1, a2, a3, a4, -⟩ := ofInt_facts m hm
  have e1 : binary64.scaleExp = 1074 := rfl
  have hC : 0 < 2 ^ 1074 := Nat.two_pow_pos 1074
  have hq : m * 2 ^ 1074 * U * 2 ^ 1074 / (2 ^ 1074 * 2 ^ 1074) = m * U := by
    rw [Nat.mul_div_mul_right _ _ hC]
    have : m * 2 ^ 1074 * U = m * U * 2 ^ 1074 := by ring
    rw [this, Nat.mul_div_cancel _ hC]
  have hb : m * U < 2 ^ 1998 := by
    have : m * U < 2 ^ 53 * 2 ^ 1100 :=
      Nat.mul_lt_mul'' hm hU
    exact Nat.lt_of_lt_of_le this
      (by rw [← Nat.pow_add]; exact Nat.pow_le_pow_right (by decide) (by decide))
  obtain ⟨r1, r2, r3, r4, r5⟩ := round_near false (m * 2 ^ 1074 * U) (2 ^ 1074 * 2 ^ 1074)
    (Nat.mul_pos hC hC) (by rw [hq]; exact hb)
  rw [hq] at r4 r5
  have hmul : mul binary64 (ofInt binary64 (m : Int)) u
      = roundRat binary64 false (m * 2 ^ 1074 * U) (2 ^ 1074 * 2 ^ 1074) := by
    unfold mul
    simp only [a1, a2, a3, a4, u1, u2, u3, u4, Bool.false_eq_true, or_self, if_false,
      bne_self_eq_false, e1]
  rw [hmul]
  exact ⟨r1, r2, r3, r4, r5⟩

/-- The conversion to binary32 of a finite `float64` value of numerator `N`:
finite, of the same sign, within one part in `2 ^ 23` of `N / 2 ^ 925`. -/
theorem toFloat32_near (x N : Nat) (x1 : isNaN binary64 x = false)
    (x2 : isInf binary64 x = false) (x4 : numer binary64 x = N) (hN : N < 2 ^ 1100) :
    isNaN binary32 (toFloat32 x) = false ∧ isInf binary32 (toFloat32 x) = false ∧
    signOf binary32 (toFloat32 x) = signOf binary64 x ∧
    N / 2 ^ 925 - N / 2 ^ 925 / 2 ^ 23 ≤ numer binary32 (toFloat32 x) ∧
    numer binary32 (toFloat32 x) ≤ N / 2 ^ 925 + N / 2 ^ 925 / 2 ^ 23 + 1 := by
  have e1 : binary64.scaleExp = 1074 := rfl
  have hC : 0 < 2 ^ 149 := Nat.two_pow_pos 149
  have hq : N * 2 ^ 149 / 2 ^ 1074 = N / 2 ^ 925 := by
    have : (2 ^ 1074 : Nat) = 2 ^ 925 * 2 ^ 149 := by rw [← Nat.pow_add]
    rw [this, Nat.mul_div_mul_right _ _ hC]
  have hb : N / 2 ^ 925 < 2 ^ 250 := by
    rw [Nat.div_lt_iff_lt_mul (Nat.two_pow_pos 925), ← Nat.pow_add]
    exact Nat.lt_of_lt_of_le hN (Nat.pow_le_pow_right (by decide) (by decide))
  obtain ⟨r1, r2, r3, r4, r5⟩ := round_near32 (signOf binary64 x) N (2 ^ 1074)
    (Nat.two_pow_pos 1074) (by rw [hq]; exact hb)
  rw [hq] at r4 r5
  have hc : toFloat32 x = roundRat binary32 (signOf binary64 x) N (2 ^ 1074) := by
    unfold toFloat32 convert
    simp only [x1, x2, x4, Bool.false_eq_true, if_false, e1]
  rw [hc]
  exact ⟨r1, r2, r3, r4, r5⟩

/-- Half of a finite binary32 value of numerator `N`: finite, of the same sign,
within one part in `2 ^ 23` of `N / 2`. -/
theorem half_near32 (x N : Nat) (x1 : isNaN binary32 x = false)
    (x2 : isInf binary32 x = false) (x4 : numer binary32 x = N) (hN : N < 2 ^ 250) :
    isNaN binary32 (div binary32 x (ofRat binary32 2 1)) = false ∧
    isInf binary32 (div binary32 x (ofRat binary32 2 1)) = false ∧
    signOf binary32 (div binary32 x (ofRat binary32 2 1)) = signOf binary32 x ∧
    N / 2 - N / 2 / 2 ^ 23 ≤ numer binary32 (div binary32 x (ofRat binary32 2 1)) ∧
    numer binary32 (div binary32 x (ofRat binary32 2 1)) ≤ N / 2 + N / 2 / 2 ^ 23 + 1 := by
  obtain ⟨t1, t2, t3, t4, t5, -, -⟩ := two_facts32
  have hC : 0 < 2 ^ 149 := Nat.two_pow_pos 149
  have hq : N * 2 ^ 149 / (2 * 2 ^ 149) = N / 2 := Nat.mul_div_mul_right _ _ hC
  obtain ⟨r1, r2, r3, r4, r5⟩ := round_near32 (signOf binary32 x) N (2 * 2 ^ 149)
    (by omega) (by rw [hq]; omega)
  rw [hq] at r4 r5
  have hd : div binary32 x (ofRat binary32 2 1)
      = roundRat binary32 (signOf binary32 x) N (2 * 2 ^ 149) := by
    unfold div
    simp only [x1, x2, x4, t1, t2, t3, t4, t5, Bool.false_eq_true, or_self, if_false,
      Bool.bne_false]
  rw [hd]
  exact ⟨r1, r2, r3, r4, r5⟩

end IEEE

section
open IEEE

/-- The divider of a box of header `v` and `m` members of unit height `u`,
`1 <= m <= 10 ^ 7`: with `h` half of the `float32` box height and `c` the
`float32` header, the divider height `h - c` lies strictly between `-h` and
`h`. The numeric hypotheses say that `v + u` is above 4/3 of the header and
`v + 10 ^ 7 * u` below `2 ^ 22` headers. -/
theorem divider_inside (m : Nat) (v u : float64) (V U b : Nat)
    (hm1 : 1 ≤ m) (hm2 : m ≤ 10000000)
    (v1 : isNaN binary64 v = false) (v2 : isInf binary64 v = false)
    (v3 : signOf binary64 v = false) (v4 : numer binary64 v = V)
    (u1 : isNaN binary64 u = false) (u2 : isInf binary64 u = false)
    (u3 : signOf binary64 u = false) (u4 : numer binary64 u = U)
    (c1 : isNaN binary32 (toFloat32 v) = false) (c2 : isInf binary32 (toFloat32 v) = false)
    (c3 : signOf binary32 (toFloat32 v) = false) (c4 : numer binary32 (toFloat32 v) = b)
    (hb0 : 2 ^ 100 ≤ b) (hb : b < 2 ^ 150)
    (hlo : 4 * (b + 1) * 2 ^ 925 ≤ 3 * (V + U))
    (hup : V + 10000000 * U ≤ 2 ^ 948 * b) :
    isNaN binary32
      (sub binary32
        (div binary32
          (toFloat32 (add binary64 v (mul binary64 (ofInt binary64 (m : Int)) u)))
          (ofRat binary32 2 1))
        (toFloat32 v)) = false ∧
    lt binary32
      (sub binary32
        (div binary32
          (toFloat32 (add binary64 v (mul binary64 (ofInt binary64 (m : Int)) u)))
          (ofRat binary32 2 1))
        (toFloat32 v))
      (div binary32
        (toFloat32 (add binary64 v (mul binary64 (ofInt binary64 (m : Int)) u)))
        (ofRat binary32 2 1)) = true ∧
    lt binary32
      (neg binary32
        (div binary32
          (toFloat32 (add binary64 v (mul binary64 (ofInt binary64 (m : Int)) u)))
          (ofRat binary32 2 1)))
      (sub binary32
        (div binary32
          (toFloat32 (add binary64 v (mul binary64 (ofInt binary64 (m : Int)) u)))
          (ofRat binary32 2 1))
        (toFloat32 v)) = true := by
  have hT1 : U ≤ m * U := Nat.le_mul_of_pos_left _ hm1
  have hT2 : m * U ≤ 10000000 * U := Nat.mul_le_mul_right _ hm2
  have hU : U < 2 ^ 1100 := by omega
  obtain ⟨p1, p2, p3, p4, p5⟩ := mul_ofInt_near m u U (by omega) u1 u2 u3 u4 hU
  generalize mul binary64 (ofInt binary64 (m : Int)) u = p at p1 p2 p3 p4 p5 ⊢
  generalize m * U = T at hT1 hT2 p4 p5
  have sv := signedNumer_of_sign v v3
  have sp := signedNumer_of_sign p p3
  rw [v4] at sv
  obtain ⟨a1, a2, a3, a4⟩ := add_near v p v1 p1 v2 p2 (by rw [v4]; omega)
  rw [sv, sp, v4] at a3 a4
  have hpos : 0 < signedNumer binary64 (add binary64 v p) := by
    generalize numer binary64 p = P at p4 p5 a3 a4
    generalize signedNumer binary64 (add binary64 v p) = S at a3 a4
    omega
  have a5 := signOf_of_pos _ hpos
  have sH := signedNumer_of_sign _ a5
  rw [sH] at a3 a4
  generalize hN : numer binary64 (add binary64 v p) = N at a3 a4
  have hNlo : V + U - (V + U) / 2 ^ 51 - 2 ≤ N := by
    generalize numer binary64 p = P at p4 p5 a3 a4
    omega
  have hNhi : N ≤ V + 10000000 * U + (V + 10000000 * U) / 2 ^ 50 + 2 := by
    generalize numer binary64 p = P at p4 p5 a3 a4
    omega
  have s1 : 5 * (b + 1) * 2 ^ 925 ≤ 4 * N := by
    generalize V + U = W at hlo hNlo
    omega
  have t1 : 2 * N ≤ 3 * 2 ^ 948 * b := by
    generalize V + 10000000 * U = W at hup hNhi
    omega
  have hNb : N < 2 ^ 1100 := by omega
  obtain ⟨f1, f2, f3, f4, f5⟩ := toFloat32_near (add binary64 v p) N a1 a2 hN hNb
  rw [a5] at f3
  generalize toFloat32 (add binary64 v p) = H at f1 f2 f3 f4 f5 ⊢
  generalize hN2 : numer binary32 H = N2 at f4 f5
  have s2 : 5 * b ≤ 4 * (N / 2 ^ 925) := by omega
  have t2 : 2 * (N / 2 ^ 925) ≤ 3 * 2 ^ 23 * b := by omega
  generalize N / 2 ^ 925 = Q at f4 f5 s2 t2
  have s3 : 6 * b ≤ 5 * N2 := by omega
  have t3 : 5 * N2 ≤ 8 * 2 ^ 23 * b := by omega
  obtain ⟨g1, g2, g3, g4, g5⟩ := half_near32 H N2 f1 f2 hN2 (by omega)
  rw [f3] at g3
  generalize div binary32 H (ofRat binary32 2 1) = h at g1 g2 g3 g4 g5 ⊢
  generalize ha : numer binary32 h = a at g4 g5
  have s4 : 11 * b ≤ 20 * a := by omega
  have t4 : 20 * a ≤ 17 * 2 ^ 23 * b := by omega
  exact sub_between32 h (toFloat32 v) a b g1 g2 g3 ha c1 c2 c3 c4 (by omega) (by omega)
    (by omega) (by omega)

end

/-! ## Rounding to the binary32 grid, to half a unit in the last place -/

namespace IEEE

/-- Rounding half to even moves a quotient by at most half of the divisor. -/
theorem roundHalfEven_half (a b : Nat) (hb : 0 < b) :
    2 * (roundHalfEven a b * b) ≤ 2 * a + b ∧ 2 * a ≤ 2 * (roundHalfEven a b * b) + b := by
  have hd : b * (a / b) + a % b = a := Nat.div_add_mod a b
  have hm : a % b < b := Nat.mod_lt a hb
  rw [Nat.mul_comm b] at hd
  unfold roundHalfEven
  split
  · rename_i h
    rw [Nat.add_mul, Nat.one_mul]
    generalize a / b * b = P at hd
    generalize a % b = r at hd hm h
    rcases h with h | ⟨h, -⟩ <;> omega
  · rename_i h
    generalize a / b * b = P at hd
    have h1 : ¬ b < 2 * (a % b) := fun c => h (Or.inl c)
    generalize a % b = r at hd hm h1
    omega

/-- Rounding the quotient `n / d` to binary32: the result is finite with the
given sign, and its numerator is `k * 2 ^ q` for the exponent `q` of the quotient
`M = n * 2 ^ 149 / d` and the significand `k <= 2 ^ 24` that rounding half to
even gives. -/
theorem round_grid32 (s : Bool) (n d : Nat) (hM : n * 2 ^ 149 / d < 2 ^ 250) :
    isNaN binary32 (roundRat binary32 s n d) = false ∧
    isInf binary32 (roundRat binary32 s n d) = false ∧
    signOf binary32 (roundRat binary32 s n d) = s ∧
    roundHalfEven (n * 2 ^ 149) (d * 2 ^ (ilog2 (n * 2 ^ 149 / d) - 23)) ≤ 2 ^ 24 ∧
    numer binary32 (roundRat binary32 s n d)
      = roundHalfEven (n * 2 ^ 149) (d * 2 ^ (ilog2 (n * 2 ^ 149 / d) - 23))
          * 2 ^ (ilog2 (n * 2 ^ 149 / d) - 23) := by
  have e1 : binary32.scaleExp = 149 := rfl
  have e2 : binary32.mbits = 23 := rfl
  have e3 : binary32.infBits = 255 * 2 ^ 23 := rfl
  have key : ∃ q k, ilog2 (n * 2 ^ 149 / d) - 23 = q ∧
      roundHalfEven (n * 2 ^ 149) (d * 2 ^ q) = k ∧ q + 2 < 255 ∧ k ≤ 2 ^ 24 ∧
      (2 ^ 23 ≤ k ∨ q = 0) := by
    rcases Nat.lt_or_ge (n * 2 ^ 149 / d) (2 ^ 23) with hs | hb
    · have hlog : ilog2 (n * 2 ^ 149 / d) - 23 = 0 := by
        rcases Nat.eq_zero_or_pos (n * 2 ^ 149 / d) with h0 | h0
        · rw [h0]
          have : ilog2 0 = 0 := by simp [ilog2, log2Levels, log2Search]
          rw [this]
        · obtain ⟨l, -⟩ := ilog2_spec _ h0
          have : ilog2 (n * 2 ^ 149 / d) < 23 :=
            (Nat.pow_lt_pow_iff_right (by norm_num : 1 < 2)).mp (Nat.lt_of_le_of_lt l hs)
          omega
      obtain ⟨b1, b2⟩ := roundHalfEven_bounds (n * 2 ^ 149) d
      refine ⟨0, roundHalfEven (n * 2 ^ 149) d, hlog, by rw [Nat.pow_zero, Nat.mul_one],
        by decide, ?_, Or.inr rfl⟩
      generalize n * 2 ^ 149 / d = M at b1 b2 hs
      generalize roundHalfEven (n * 2 ^ 149) d = R at b1 b2
      omega
    · have hpos : 1 ≤ n * 2 ^ 149 / d := Nat.le_trans (Nat.two_pow_pos 23) hb
      obtain ⟨l, u⟩ := ilog2_spec _ hpos
      have t1 : 23 < ilog2 (n * 2 ^ 149 / d) + 1 :=
        (Nat.pow_lt_pow_iff_right (by norm_num : 1 < 2)).mp (Nat.lt_of_le_of_lt hb u)
      have t2 : ilog2 (n * 2 ^ 149 / d) < 250 :=
        (Nat.pow_lt_pow_iff_right (by norm_num : 1 < 2)).mp (Nat.lt_of_le_of_lt l hM)
      generalize ilog2 (n * 2 ^ 149 / d) = t at l u t1 t2
      have hq : 0 < 2 ^ (t - 23) := Nat.two_pow_pos _
      have hsplit : (2 ^ t : Nat) = 2 ^ (t - 23) * 2 ^ 23 := by
        rw [← Nat.pow_add]; congr 1; omega
      have hsplit' : (2 ^ (t + 1) : Nat) = 2 ^ (t - 23) * 2 ^ 24 := by
        rw [← Nat.pow_add]; congr 1; omega
      have hr := roundHalfEven_bounds (n * 2 ^ 149) (d * 2 ^ (t - 23))
      have hq2 : n * 2 ^ 149 / (d * 2 ^ (t - 23)) = n * 2 ^ 149 / d / 2 ^ (t - 23) :=
        (Nat.div_div_eq_div_mul _ _ _).symm
      rw [hq2] at hr
      have hk1 : 2 ^ 23 ≤ n * 2 ^ 149 / d / 2 ^ (t - 23) := by
        rw [Nat.le_div_iff_mul_le hq, Nat.mul_comm (2 ^ 23) (2 ^ (t - 23)), ← hsplit]; exact l
      have hk2 : n * 2 ^ 149 / d / 2 ^ (t - 23) < 2 ^ 24 := by
        rw [Nat.div_lt_iff_lt_mul hq, Nat.mul_comm (2 ^ 24) (2 ^ (t - 23)), ← hsplit']; exact u
      exact ⟨t - 23, _, rfl, rfl, by omega, by omega, Or.inl (by omega)⟩
  obtain ⟨q, k, hq, hk, hq2, hk2, hk3⟩ := key
  have hr : roundRat binary32 s n d = withSign binary32 s (q * 2 ^ 23 + k) := by
    rw [roundRat_eq, e1, e2, e3, hq, hk]
    congr 1
    exact Nat.min_eq_right (by omega)
  rw [hr, hq, hk]
  obtain ⟨f1, f2, f3⟩ := withSign_facts32 s (q * 2 ^ 23 + k) (by omega)
  refine ⟨?_, ?_, f2, hk2, ?_⟩
  · unfold isNaN
    rw [f1, e3]
    exact decide_eq_false (by omega)
  · unfold isInf
    rw [f1, e3]
    exact beq_false_of_ne (by omega)
  · rw [f3, numer_pattern32 q k hk2 hq2 hk3]

end IEEE

/-! ## Upper bounds of a rounded value -/

namespace IEEE

/-- The exponent of the binary32 grid at a quotient below `2 ^ t`. -/
theorem grid_exponent_le (M t : Nat) (ht : 24 ≤ t) (hM : M < 2 ^ t) :
    ilog2 M - 23 ≤ t - 24 := by
  rcases Nat.eq_zero_or_pos M with h0 | h0
  · rw [h0]
    have : ilog2 0 = 0 := by simp [ilog2, log2Levels, log2Search]
    rw [this]
    omega
  · obtain ⟨l, -⟩ := ilog2_spec _ h0
    have : ilog2 M < t :=
      (Nat.pow_lt_pow_iff_right (by norm_num : 1 < 2)).mp (Nat.lt_of_le_of_lt l hM)
    omega

/-- A quotient below `2 ^ t` plus half a unit in the last place of `2 ^ t`
rounds to at most `2 ^ t` in binary32. -/
theorem round_le_pow32 (s : Bool) (n d t : Nat) (hd : 0 < d) (ht : 24 ≤ t) (ht2 : t < 249)
    (h : 2 * (n * 2 ^ 149) < (2 ^ (t + 1) + 2 ^ (t - 23)) * d) :
    numer binary32 (roundRat binary32 s n d) ≤ 2 ^ t := by
  have hQ : 0 < 2 ^ (t - 23) := Nat.two_pow_pos _
  have hsplit : (2 ^ (t + 1) : Nat) = 2 ^ 24 * 2 ^ (t - 23) := by
    rw [← Nat.pow_add]; congr 1; omega
  have hsplit2 : (2 ^ t : Nat) = 2 ^ 23 * 2 ^ (t - 23) := by
    rw [← Nat.pow_add]; congr 1; omega
  have hsplit3 : (2 ^ t : Nat) = 2 ^ 24 * 2 ^ (t - 24) := by
    rw [← Nat.pow_add]; congr 1; omega
  have hle : 2 ^ (t - 23) ≤ 2 ^ (t + 1) := Nat.pow_le_pow_right (by decide) (by omega)
  have hN : n * 2 ^ 149 < 2 ^ (t + 1) * d := by
    have : (2 ^ (t + 1) + 2 ^ (t - 23)) * d ≤ 2 * (2 ^ (t + 1) * d) := by
      rw [← Nat.mul_assoc]
      exact Nat.mul_le_mul_right _ (by omega)
    omega
  have hMlt : n * 2 ^ 149 / d < 2 ^ (t + 1) := (Nat.div_lt_iff_lt_mul hd).2 hN
  have hM250 : n * 2 ^ 149 / d < 2 ^ 250 :=
    Nat.lt_of_lt_of_le hMlt (Nat.pow_le_pow_right (by decide) (by omega))
  obtain ⟨-, -, -, g4, g5⟩ := round_grid32 s n d hM250
  rw [g5]
  rcases Nat.lt_or_ge (n * 2 ^ 149 / d) (2 ^ t) with hs | hb
  · have hq := grid_exponent_le _ t ht hs
    have hq2 : 2 ^ (ilog2 (n * 2 ^ 149 / d) - 23) ≤ 2 ^ (t - 24) :=
      Nat.pow_le_pow_right (by decide) hq
    rw [hsplit3]
    exact Nat.mul_le_mul g4 hq2
  · have hlog : ilog2 (n * 2 ^ 149 / d) = t := ilog2_eq _ t hb hMlt
    rw [hlog] at g4 ⊢
    obtain ⟨r1, -⟩ := roundHalfEven_half (n * 2 ^ 149) (d * 2 ^ (t - 23)) (Nat.mul_pos hd hQ)
    have hX : (2 ^ (t + 1) + 2 ^ (t - 23)) * d = (2 ^ 24 + 1) * (d * 2 ^ (t - 23)) := by
      rw [hsplit]; ring
    rw [hX] at h
    have hk : 2 * roundHalfEven (n * 2 ^ 149) (d * 2 ^ (t - 23)) * (d * 2 ^ (t - 23))
        < (2 ^ 24 + 2) * (d * 2 ^ (t - 23)) := by
      rw [Nat.mul_assoc]
      generalize roundHalfEven (n * 2 ^ 149) (d * 2 ^ (t - 23)) * (d * 2 ^ (t - 23)) = P at r1
      have : (2 ^ 24 + 2) * (d * 2 ^ (t - 23)) = (2 ^ 24 + 1) * (d * 2 ^ (t - 23)) + d * 2 ^ (t - 23) := by
        ring
      rw [this]
      generalize (2 ^ 24 + 1) * (d * 2 ^ (t - 23)) = A at h
      generalize d * 2 ^ (t - 23) = X at r1
      omega
    have hk2 := Nat.lt_of_mul_lt_mul_right hk
    rw [hsplit2]
    exact Nat.mul_le_mul_right _ (by omega)

/-- A whole number of units below `2 ^ t` rounds, in binary32, to at most half a
unit in the last place more. -/
theorem round_units_le32 (s : Bool) (M t : Nat) (ht : 25 ≤ t) (ht2 : t ≤ 250)
    (hM : M < 2 ^ t) :
    numer binary32 (roundRat binary32 s M (2 ^ 149)) ≤ M + 2 ^ (t - 25) := by
  have hC : 0 < 2 ^ 149 := Nat.two_pow_pos 149
  have hdiv : M * 2 ^ 149 / 2 ^ 149 = M := Nat.mul_div_cancel _ hC
  have hM250 : M * 2 ^ 149 / 2 ^ 149 < 2 ^ 250 := by
    rw [hdiv]
    exact Nat.lt_of_lt_of_le hM (Nat.pow_le_pow_right (by decide) ht2)
  obtain ⟨-, -, -, -, g5⟩ := round_grid32 s M (2 ^ 149) hM250
  rw [g5, hdiv]
  have hq := grid_exponent_le M t (by omega) hM
  have hq2 : 2 ^ (ilog2 M - 23) ≤ 2 ^ (t - 24) := Nat.pow_le_pow_right (by decide) hq
  have hsplit : (2 ^ (t - 24) : Nat) = 2 * 2 ^ (t - 25) := by
    rw [← pow_succ']; congr 1; omega
  have hQ : 0 < 2 ^ (ilog2 M - 23) := Nat.two_pow_pos _
  have e : roundHalfEven (M * 2 ^ 149) (2 ^ 149 * 2 ^ (ilog2 M - 23))
      = roundHalfEven M (2 ^ (ilog2 M - 23)) := by
    rw [Nat.mul_comm (2 ^ 149) (2 ^ (ilog2 M - 23))]
    exact roundHalfEven_mul_right M _ _ hC
  rw [e]
  obtain ⟨r1, -⟩ := roundHalfEven_half M (2 ^ (ilog2 M - 23)) hQ
  generalize roundHalfEven M (2 ^ (ilog2 M - 23)) * 2 ^ (ilog2 M - 23) = P at r1
  generalize 2 ^ (ilog2 M - 23) = Q at r1 hq2
  generalize 2 ^ (t - 25) = Z at hsplit
  omega

end IEEE

/-! ## Conversion, halving and subtraction at the top of the range -/

namespace IEEE

/-- A finite `float64` value below `2 ^ 24 + 1` converts to a binary32 value of
at most `2 ^ 24`. -/
theorem toFloat32_le_pow (x N : Nat) (x1 : isNaN binary64 x = false)
    (x2 : isInf binary64 x = false) (x4 : numer binary64 x = N)
    (hN : N < (2 ^ 24 + 1) * 2 ^ 1074) :
    numer binary32 (toFloat32 x) ≤ 2 ^ 173 := by
  have e1 : binary64.scaleExp = 1074 := rfl
  have hc : toFloat32 x = roundRat binary32 (signOf binary64 x) N (2 ^ 1074) := by
    unfold toFloat32 convert
    simp only [x1, x2, x4, Bool.false_eq_true, if_false, e1]
  rw [hc]
  refine round_le_pow32 _ N (2 ^ 1074) 173 (Nat.two_pow_pos _) (by decide) (by decide) ?_
  have e : (2 ^ (173 + 1) + 2 ^ (173 - 23)) * 2 ^ 1074
      = 2 * ((2 ^ 24 + 1) * 2 ^ 1074 * 2 ^ 149) := by
    norm_num
  rw [e]
  have := Nat.mul_lt_mul_of_pos_right hN (Nat.two_pow_pos 149)
  omega

/-- Half of a finite binary32 value of at most `2 ^ 24` is at most `2 ^ 23`. -/
theorem half_le_pow32 (x N : Nat) (x1 : isNaN binary32 x = false)
    (x2 : isInf binary32 x = false) (x4 : numer binary32 x = N) (hN : N ≤ 2 ^ 173) :
    numer binary32 (div binary32 x (ofRat binary32 2 1)) ≤ 2 ^ 172 := by
  obtain ⟨t1, t2, t3, t4, t5, -, -⟩ := two_facts32
  have hd : div binary32 x (ofRat binary32 2 1)
      = roundRat binary32 (signOf binary32 x) N (2 * 2 ^ 149) := by
    unfold div
    simp only [x1, x2, x4, t1, t2, t3, t4, t5, Bool.false_eq_true, or_self, if_false,
      Bool.bne_false]
  rw [hd]
  refine round_le_pow32 _ N (2 * 2 ^ 149) 172 (by norm_num) (by decide) (by decide) ?_
  have e : (2 ^ (172 + 1) + 2 ^ (172 - 23)) * (2 * 2 ^ 149)
      = 2 * ((2 ^ 173 + 2 ^ 149) * 2 ^ 149) := by
    norm_num
  rw [e]
  have : N * 2 ^ 149 < (2 ^ 173 + 2 ^ 149) * 2 ^ 149 :=
    Nat.mul_lt_mul_of_pos_right (by omega) (Nat.two_pow_pos 149)
  omega

theorem signedNumer_of_sign32 (c : Nat) (h : signOf binary32 c = false) :
    signedNumer binary32 c = (numer binary32 c : Int) := by
  unfold signedNumer
  rw [h]
  rfl

/-- A positive finite `h` of at most `2 ^ 23` less a positive finite `c`
between 1/4 and 1, in binary32: when `2 h` exceeds `c` by more than one part in
`2 ^ 23`, the difference lies strictly between `-h` and `h`. -/
theorem sub_inside32 (h c a b : Nat)
    (h1 : isNaN binary32 h = false) (h2 : isInf binary32 h = false)
    (h3 : signOf binary32 h = false) (h4 : numer binary32 h = a)
    (c1 : isNaN binary32 c = false) (c2 : isInf binary32 c = false)
    (c3 : signOf binary32 c = false) (c4 : numer binary32 c = b)
    (ha : a ≤ 2 ^ 172) (hb0 : 2 ^ 147 < b) (hb : b < 2 ^ 149)
    (hlo : b + b / 2 ^ 23 + 1 < 2 * a) :
    isNaN binary32 (sub binary32 h c) = false ∧
    lt binary32 (sub binary32 h c) h = true ∧
    lt binary32 (neg binary32 h) (sub binary32 h c) = true := by
  rcases Nat.lt_or_ge a (2 ^ 170) with hs | hbig
  · exact sub_between32 h c a b h1 h2 h3 h4 c1 c2 c3 c4 (by omega) (by omega) (by omega) hlo
  · obtain ⟨-, n2, n3, n4, n5⟩ := neg_facts32 c
    rw [c3] at n2
    rw [c4] at n3
    rw [c1] at n4
    rw [c2] at n5
    obtain ⟨-, m2, m3, m4, -⟩ := neg_facts32 h
    rw [h3] at m2
    rw [h4] at m3
    rw [h1] at m4
    simp only [Bool.not_false] at n2 m2
    have e1 : binary32.scaleExp = 149 := rfl
    have hC : 0 < 2 ^ 149 := Nat.two_pow_pos 149
    have sh : signedNumer binary32 h = (a : Int) := by
      unfold signedNumer; rw [h3, h4]; rfl
    have snh : signedNumer binary32 (neg binary32 h) = -(a : Int) := by
      unfold signedNumer; rw [m2, m3]; rfl
    have hab : a ≠ b := by omega
    have hlt : b < a := by omega
    have hsub : sub binary32 h c = roundRat binary32 false (a - b) (2 ^ 149) := by
      unfold sub add
      simp only [h1, h2, h3, h4, n2, n3, n4, n5, Bool.false_eq_true, or_self, if_false, e1]
      rw [if_neg hab, if_pos hlt]
    have hdiv : (a - b) * 2 ^ 149 / 2 ^ 149 = a - b := Nat.mul_div_cancel _ hC
    obtain ⟨r1, -, r3, -, -⟩ := round_near32 false (a - b) (2 ^ 149) hC
      (by rw [hdiv]; omega)
    have r5 := round_units_le32 false (a - b) 172 (by decide) (by decide) (by omega)
    have sy := signedNumer_of_sign32 _ r3
    rw [hsub]
    refine ⟨r1, (lt_eq_true_iff _ _ _).2 ⟨r1, h1, ?_⟩, (lt_eq_true_iff _ _ _).2 ⟨m4, r1, ?_⟩⟩
    · rw [sh, sy]
      generalize numer binary32 (roundRat binary32 false (a - b) (2 ^ 149)) = R at r5
      omega
    · rw [snh, sy]
      generalize numer binary32 (roundRat binary32 false (a - b) (2 ^ 149)) = R at r5
      omega

end IEEE

/-! ## The divider height from the box height -/

section
open IEEE

/-- The divider of a box whose `float64` height `x` is below `2 ^ 24 + 1` and
at least 5/4 of the header: with `h` half of the `float32` height and `c` the
`float32` header, between 1/4 and 1, the divider height `h - c` lies strictly
between `-h` and `h`. -/
theorem divider_of_height (x N c b : Nat)
    (x1 : isNaN binary64 x = false) (x2 : isInf binary64 x = false)
    (x3 : signOf binary64 x = false) (x4 : numer binary64 x = N)
    (c1 : isNaN binary32 c = false) (c2 : isInf binary32 c = false)
    (c3 : signOf binary32 c = false) (c4 : numer binary32 c = b)
    (hb0 : 2 ^ 147 < b) (hb : b < 2 ^ 149)
    (hlo : 5 * (b + 1) * 2 ^ 925 ≤ 4 * N) (hup : N < (2 ^ 24 + 1) * 2 ^ 1074) :
    isNaN binary32 (sub binary32 (div binary32 (toFloat32 x) (ofRat binary32 2 1)) c) = false ∧
    lt binary32 (sub binary32 (div binary32 (toFloat32 x) (ofRat binary32 2 1)) c)
      (div binary32 (toFloat32 x) (ofRat binary32 2 1)) = true ∧
    lt binary32 (neg binary32 (div binary32 (toFloat32 x) (ofRat binary32 2 1)))
      (sub binary32 (div binary32 (toFloat32 x) (ofRat binary32 2 1)) c) = true := by
  have hNb : N < 2 ^ 1100 := by omega
  obtain ⟨f1, f2, f3, f4, -⟩ := toFloat32_near x N x1 x2 x4 hNb
  have f5 := toFloat32_le_pow x N x1 x2 x4 hup
  rw [x3] at f3
  generalize toFloat32 x = H at f1 f2 f3 f4 f5 ⊢
  generalize hN2 : numer binary32 H = N2 at f4 f5
  have s2 : 5 * b ≤ 4 * (N / 2 ^ 925) := by omega
  generalize N / 2 ^ 925 = Q at f4 s2
  have s3 : 6 * b ≤ 5 * N2 := by omega
  obtain ⟨g1, g2, g3, g4, -⟩ := half_near32 H N2 f1 f2 hN2 (by omega)
  have g5 := half_le_pow32 H N2 f1 f2 hN2 f5
  rw [f3] at g3
  generalize div binary32 H (ofRat binary32 2 1) = h at g1 g2 g3 g4 g5 ⊢
  generalize ha : numer binary32 h = a at g4 g5
  have s4 : 11 * b ≤ 20 * a := by omega
  exact sub_inside32 h c a b g1 g2 g3 ha c1 c2 c3 c4 g5 hb0 hb (by omega)

/-- The `float64` height `v + m * u` of a box of header `v` and `1 <= m <= K`
members of unit height `u`: finite, positive, and within one part in `2 ^ 50`
of the exact sum. -/
theorem height_near (m K : Nat) (v u : float64) (V U : Nat)
    (hm1 : 1 ≤ m) (hm2 : m ≤ K) (hK : K < 2 ^ 40)
    (v1 : isNaN binary64 v = false) (v2 : isInf binary64 v = false)
    (v3 : signOf binary64 v = false) (v4 : numer binary64 v = V)
    (u1 : isNaN binary64 u = false) (u2 : isInf binary64 u = false)
    (u3 : signOf binary64 u = false) (u4 : numer binary64 u = U)
    (hV : V < 2 ^ 1080) (hU : U < 2 ^ 1080) (hpos : 4 ≤ V + U) :
    isNaN binary64 (add binary64 v (mul binary64 (ofInt binary64 (m : Int)) u)) = false ∧
    isInf binary64 (add binary64 v (mul binary64 (ofInt binary64 (m : Int)) u)) = false ∧
    signOf binary64 (add binary64 v (mul binary64 (ofInt binary64 (m : Int)) u)) = false ∧
    V + U - (V + U) / 2 ^ 51 - 2
      ≤ numer binary64 (add binary64 v (mul binary64 (ofInt binary64 (m : Int)) u)) ∧
    numer binary64 (add binary64 v (mul binary64 (ofInt binary64 (m : Int)) u))
      ≤ V + K * U + (V + K * U) / 2 ^ 50 + 2 := by
  have hT1 : U ≤ m * U := Nat.le_mul_of_pos_left _ hm1
  have hT2 : m * U ≤ K * U := Nat.mul_le_mul_right _ hm2
  have hT3 : K * U < 2 ^ 1120 := by
    have e : (2 ^ 1120 : Nat) = 2 ^ 40 * 2 ^ 1080 := by rw [← Nat.pow_add]
    rw [e]
    rcases Nat.eq_zero_or_pos U with h0 | h0
    · rw [h0, Nat.mul_zero]; exact Nat.mul_pos (Nat.two_pow_pos _) (Nat.two_pow_pos _)
    · exact Nat.mul_lt_mul'' hK hU
  obtain ⟨p1, p2, p3, p4, p5⟩ := mul_ofInt_near m u U (by omega) u1 u2 u3 u4 (by omega)
  generalize mul binary64 (ofInt binary64 (m : Int)) u = p at p1 p2 p3 p4 p5 ⊢
  generalize m * U = T at hT1 hT2 p4 p5
  generalize K * U = W at hT2 hT3 ⊢
  have sv := signedNumer_of_sign v v3
  have sp := signedNumer_of_sign p p3
  rw [v4] at sv
  obtain ⟨a1, a2, a3, a4⟩ := add_near v p v1 p1 v2 p2 (by rw [v4]; omega)
  rw [sv, sp, v4] at a3 a4
  have hpos2 : 0 < signedNumer binary64 (add binary64 v p) := by
    generalize numer binary64 p = P at p4 p5 a3 a4
    generalize signedNumer binary64 (add binary64 v p) = S at a3 a4
    omega
  have a5 := signOf_of_pos _ hpos2
  have sH := signedNumer_of_sign _ a5
  rw [sH] at a3 a4
  generalize numer binary64 (add binary64 v p) = N at a3 a4 ⊢
  generalize numer binary64 p = P at p4 p5 a3 a4
  have b1 : V + U - (V + U) / 2 ^ 52 - 1 ≤ V + P := by omega
  have b2 : V + P ≤ V + W + W / 2 ^ 52 + 1 := by omega
  have b3 : V + P - (V + P) / 2 ^ 52 - 1 ≤ N := by omega
  have b4 : N ≤ V + P + (V + P) / 2 ^ 52 + 1 := by omega
  clear a3 a4 p4 p5 hT1 hT2 sv sp sH hpos2
  generalize V + P = S at b1 b2 b3 b4
  refine ⟨a1, a2, a5, ?_, ?_⟩
  · generalize V + U = Y at b1 hpos ⊢
    omega
  · have hWY : W ≤ V + W := Nat.le_add_left _ _
    clear b1 b3 hpos
    generalize V + W = Y at b2 hWY ⊢
    omega

end

/-! ## The divider ring of interface and enum boxes -/

section
open IEEE

theorem header_constants :
    (isNaN binary64 (f64 4 10) = false ∧ isInf binary64 (f64 4 10) = false ∧
      signOf binary64 (f64 4 10) = false ∧
      isNaN binary32 (toFloat32 (f64 4 10)) = false ∧
      isInf binary32 (toFloat32 (f64 4 10)) = false ∧
      signOf binary32 (toFloat32 (f64 4 10)) = false ∧
      2 ^ 100 ≤ numer binary32 (toFloat32 (f64 4 10)) ∧
      numer binary32 (toFloat32 (f64 4 10)) < 2 ^ 150 ∧
      4 * (numer binary32 (toFloat32 (f64 4 10)) + 1) * 2 ^ 925
        ≤ 3 * (numer binary64 (f64 4 10) + numer binary64 (f64 2 10)) ∧
      numer binary64 (f64 4 10) + 10000000 * numer binary64 (f64 2 10)
        ≤ 2 ^ 948 * numer binary32 (toFloat32 (f64 4 10))) ∧
    (isNaN binary64 (f64 3 10) = false ∧ isInf binary64 (f64 3 10) = false ∧
      signOf binary64 (f64 3 10) = false ∧
      isNaN binary32 (toFloat32 (f64 3 10)) = false ∧
      isInf binary32 (toFloat32 (f64 3 10)) = false ∧
      signOf binary32 (toFloat32 (f64 3 10)) = false ∧
      2 ^ 100 ≤ numer binary32 (toFloat32 (f64 3 10)) ∧
      numer binary32 (toFloat32 (f64 3 10)) < 2 ^ 150 ∧
      4 * (numer binary32 (toFloat32 (f64 3 10)) + 1) * 2 ^ 925
        ≤ 3 * (numer binary64 (f64 3 10) + numer binary64 (f64 15 100)) ∧
      numer binary64 (f64 3 10) + 10000000 * numer binary64 (f64 15 100)
        ≤ 2 ^ 948 * numer binary32 (toFloat32 (f64 3 10))) := by decide!

/-- The buffer of `GenerateInterfaceWireframe` is the packed box of half
extents `w = 1`, `h`, `d = 0.25` with one divider ring at `y = h - 0.4`, for `h`
half of the `float32` height `0.4 + 0.2 * max(n, 1)`. -/
theorem GenerateInterfaceWireframe_box (iface : extuml.Interface) (position : Vec3) :
    (GenerateInterfaceWireframe iface position).2.2
      = createBufferData
          (boxCornerVertices (div binary32 (toFloat32 (f64 2 1)) (ofRat binary32 2 1))
              (div binary32
                (toFloat32 (add binary64 (f64 4 10)
                  (mul binary64 (ofInt binary64 ((max iface.Operations.length 1 : Nat) : Int))
                    (f64 2 10))))
                (ofRat binary32 2 1))
              (div binary32 (toFloat32 (f64 5 10)) (ofRat binary32 2 1))
            ++ dividerQuad (div binary32 (toFloat32 (f64 2 1)) (ofRat binary32 2 1))
              (div binary32 (toFloat32 (f64 5 10)) (ofRat binary32 2 1))
              (sub binary32
                (div binary32
                  (toFloat32 (add binary64 (f64 4 10)
                    (mul binary64 (ofInt binary64 ((max iface.Operations.length 1 : Nat) : Int))
                      (f64 2 10))))
                  (ofRat binary32 2 1))
                (toFloat32 (f64 4 10))))
          (boxEdgeIndices ++ dividerRing 8) := by
  obtain ⟨i1, -⟩ := member_height iface.Operations.length (f64 2 10) member_constants.1
    member_zero.1
  unfold GenerateInterfaceWireframe
  simp only
  rw [i1]
  rfl

/-- The buffer of `GenerateEnumWireframe` is the packed box of half extents
`w = 0.75`, `h`, `d = 0.2` with one divider ring at `y = h - 0.3`, for `h` half
of the `float32` height `0.3 + 0.15 * max(n, 1)`. -/
theorem GenerateEnumWireframe_box (enum : extuml.Enum) (position : Vec3) :
    (GenerateEnumWireframe enum position).2.2
      = createBufferData
          (boxCornerVertices (div binary32 (toFloat32 (f64 15 10)) (ofRat binary32 2 1))
              (div binary32
                (toFloat32 (add binary64 (f64 3 10)
                  (mul binary64 (ofInt binary64 ((max enum.Literals.length 1 : Nat) : Int))
                    (f64 15 100))))
                (ofRat binary32 2 1))
              (div binary32 (toFloat32 (f64 4 10)) (ofRat binary32 2 1))
            ++ dividerQuad (div binary32 (toFloat32 (f64 15 10)) (ofRat binary32 2 1))
              (div binary32 (toFloat32 (f64 4 10)) (ofRat binary32 2 1))
              (sub binary32
                (div binary32
                  (toFloat32 (add binary64 (f64 3 10)
                    (mul binary64 (ofInt binary64 ((max enum.Literals.length 1 : Nat) : Int))
                      (f64 15 100))))
                  (ofRat binary32 2 1))
                (toFloat32 (f64 3 10))))
          (boxEdgeIndices ++ dividerRing 8) := by
  obtain ⟨i1, -⟩ := member_height enum.Literals.length (f64 15 100) member_constants.2
    member_zero.2
  unfold GenerateEnumWireframe
  simp only
  rw [i1]
  rfl

/-- Numeric facts about the headers 0.4 and 0.3 and the member heights 0.2 and
0.15: the `float32` header lies between 1/4 and 1, the smallest box is more than
5/4 of the header high, the interface box with 83,886,082 members and the enum
box with 111,848,111 members are below `2 ^ 24 + 1`, and the divider of the
interface box with 83,886,083 members, whose `float64` height is `2 ^ 24 + 1`,
lies inside the box. -/
theorem divider_constants :
    (2 ^ 147 < numer binary32 (toFloat32 (f64 4 10)) ∧
      numer binary32 (toFloat32 (f64 4 10)) < 2 ^ 149 ∧
      numer binary64 (f64 4 10) < 2 ^ 1080 ∧ numer binary64 (f64 2 10) < 2 ^ 1080 ∧
      4 ≤ numer binary64 (f64 4 10) + numer binary64 (f64 2 10) ∧
      5 * (numer binary32 (toFloat32 (f64 4 10)) + 1) * 2 ^ 925
        ≤ 4 * (numer binary64 (f64 4 10) + numer binary64 (f64 2 10)
            - (numer binary64 (f64 4 10) + numer binary64 (f64 2 10)) / 2 ^ 51 - 2) ∧
      numer binary64 (f64 4 10) + 83886082 * numer binary64 (f64 2 10)
          + (numer binary64 (f64 4 10) + 83886082 * numer binary64 (f64 2 10)) / 2 ^ 50 + 2
        < (2 ^ 24 + 1) * 2 ^ 1074) ∧
    (2 ^ 147 < numer binary32 (toFloat32 (f64 3 10)) ∧
      numer binary32 (toFloat32 (f64 3 10)) < 2 ^ 149 ∧
      numer binary64 (f64 3 10) < 2 ^ 1080 ∧ numer binary64 (f64 15 100) < 2 ^ 1080 ∧
      4 ≤ numer binary64 (f64 3 10) + numer binary64 (f64 15 100) ∧
      5 * (numer binary32 (toFloat32 (f64 3 10)) + 1) * 2 ^ 925
        ≤ 4 * (numer binary64 (f64 3 10) + numer binary64 (f64 15 100)
            - (numer binary64 (f64 3 10) + numer binary64 (f64 15 100)) / 2 ^ 51 - 2) ∧
      numer binary64 (f64 3 10) + 111848111 * numer binary64 (f64 15 100)
          + (numer binary64 (f64 3 10) + 111848111 * numer binary64 (f64 15 100)) / 2 ^ 50 + 2
        < (2 ^ 24 + 1) * 2 ^ 1074) ∧
    (add binary64 (f64 4 10) (mul binary64 (ofInt binary64 ((83886083 : Nat) : Int)) (f64 2 10))
        = f64 16777217 1 ∧
      div binary32 (toFloat32 (f64 16777217 1)) (ofRat binary32 2 1) = 1258291200 ∧
      sub binary32 1258291200 (toFloat32 (f64 4 10)) = 1258291199 ∧
      lt binary32 1258291199 1258291200 = true ∧
      lt binary32 (neg binary32 1258291200) 1258291199 = true) := by decide!

/-- The divider of an interface box with `1 <= m <= 83,886,083` members lies
strictly between the bottom face `-h` and the top face `h`. -/
theorem interface_divider (m : Nat) (hm1 : 1 ≤ m) (hm2 : m ≤ 83886083) :
    lt binary32
      (sub binary32
        (div binary32
          (toFloat32 (add binary64 (f64 4 10) (mul binary64 (ofInt binary64 (m : Int)) (f64 2 10))))
          (ofRat binary32 2 1))
        (toFloat32 (f64 4 10)))
      (div binary32
        (toFloat32 (add binary64 (f64 4 10) (mul binary64 (ofInt binary64 (m : Int)) (f64 2 10))))
        (ofRat binary32 2 1)) = true ∧
    lt binary32
      (neg binary32
        (div binary32
          (toFloat32 (add binary64 (f64 4 10) (mul binary64 (ofInt binary64 (m : Int)) (f64 2 10))))
          (ofRat binary32 2 1)))
      (sub binary32
        (div binary32
          (toFloat32 (add binary64 (f64 4 10) (mul binary64 (ofInt binary64 (m : Int)) (f64 2 10))))
          (ofRat binary32 2 1))
        (toFloat32 (f64 4 10))) = true := by
  obtain ⟨⟨a1, a2, a3, a4, a5, a6, -, -, -, -⟩, -⟩ := header_constants
  obtain ⟨⟨u1, u2, u3, -, -⟩, -⟩ := member_constants
  obtain ⟨⟨d1, d2, d3, d4, d5, d6, d7⟩, -, e1, e2, e3, e4, e5⟩ := divider_constants
  rcases Nat.lt_or_ge m 83886083 with hlt | hge
  · obtain ⟨n1, n2, n3, n4, n5⟩ := height_near m 83886082 (f64 4 10) (f64 2 10) _ _ hm1
      (by omega) (by decide) a1 a2 a3 rfl u1 u2 u3 rfl d3 d4 d5
    obtain ⟨-, k2, k3⟩ := divider_of_height _ _ (toFloat32 (f64 4 10)) _ n1 n2 n3 rfl
      a4 a5 a6 rfl d1 d2 (Nat.le_trans d6 (Nat.mul_le_mul_left 4 n4)) (Nat.lt_of_le_of_lt n5 d7)
    exact ⟨k2, k3⟩
  · have hm : m = 83886083 := Nat.le_antisymm hm2 hge
    subst hm
    rw [e1, e2, e3]
    exact ⟨e4, e5⟩

/-- The divider of an enum box with `1 <= m <= 111,848,111` members lies
strictly between the bottom face `-h` and the top face `h`. -/
theorem enum_divider (m : Nat) (hm1 : 1 ≤ m) (hm2 : m ≤ 111848111) :
    lt binary32
      (sub binary32
        (div binary32
          (toFloat32 (add binary64 (f64 3 10) (mul binary64 (ofInt binary64 (m : Int)) (f64 15 100))))
          (ofRat binary32 2 1))
        (toFloat32 (f64 3 10)))
      (div binary32
        (toFloat32 (add binary64 (f64 3 10) (mul binary64 (ofInt binary64 (m : Int)) (f64 15 100))))
        (ofRat binary32 2 1)) = true ∧
    lt binary32
      (neg binary32
        (div binary32
          (toFloat32 (add binary64 (f64 3 10) (mul binary64 (ofInt binary64 (m : Int)) (f64 15 100))))
          (ofRat binary32 2 1)))
      (sub binary32
        (div binary32
          (toFloat32 (add binary64 (f64 3 10) (mul binary64 (ofInt binary64 (m : Int)) (f64 15 100))))
          (ofRat binary32 2 1))
        (toFloat32 (f64 3 10))) = true := by
  obtain ⟨-, ⟨b1, b2, b3, b4, b5, b6, -, -, -, -⟩⟩ := header_constants
  obtain ⟨-, ⟨v1, v2, v3, -, -⟩⟩ := member_constants
  obtain ⟨-, ⟨d1, d2, d3, d4, d5, d6, d7⟩, -⟩ := divider_constants
  obtain ⟨n1, n2, n3, n4, n5⟩ := height_near m 111848111 (f64 3 10) (f64 15 100) _ _ hm1
    hm2 (by decide) b1 b2 b3 rfl v1 v2 v3 rfl d3 d4 d5
  obtain ⟨-, k2, k3⟩ := divider_of_height _ _ (toFloat32 (f64 3 10)) _ n1 n2 n3 rfl
    b4 b5 b6 rfl d1 d2 (Nat.le_trans d6 (Nat.mul_le_mul_left 4 n4)) (Nat.lt_of_le_of_lt n5 d7)
  exact ⟨k2, k3⟩

/-- C34 (as stated, refuted). For the interface with 83,886,084 operations and
for the enum with 111,848,112 literals the half height is `h = 8388609` as a
`float32` (pattern 1258291201), and `h - 0.4`, `h - 0.3` round back to `h`: each
buffer is the packed box whose divider ring lies at `y = h`, on the top face,
not strictly inside the box. -/
theorem divider_ring_on_top_face :
    (bigInterface.Operations.length = 83886084 ∧
      (GenerateInterfaceWireframe bigInterface ⟨0, 0, 0⟩).2.2
        = createBufferData
            (boxCornerVertices 1065353216 1258291201 1048576000
              ++ dividerQuad 1065353216 1048576000 1258291201)
            (boxEdgeIndices ++ dividerRing 8) ∧
      sub binary32 1258291201 (toFloat32 (f64 4 10)) = 1258291201) ∧
    (bigEnum.Literals.length = 111848112 ∧
      (GenerateEnumWireframe bigEnum ⟨0, 0, 0⟩).2.2
        = createBufferData
            (boxCornerVertices 1061158912 1258291201 1045220557
              ++ dividerQuad 1061158912 1045220557 1258291201)
            (boxEdgeIndices ++ dividerRing 8) ∧
      sub binary32 1258291201 (toFloat32 (f64 3 10)) = 1258291201) ∧
    lt binary32 1258291201 1258291201 = false ∧
    numer binary32 1258291201 = 8388609 * 2 ^ 149 := by
  have hlen : bigInterface.Operations.length = 83886084 := List.length_replicate _ _
  have hlen2 : bigEnum.Literals.length = 111848112 := List.length_replicate _ _
  have hw : div binary32 (toFloat32 (f64 2 1)) (ofRat binary32 2 1) = 1065353216 := by decide!
  have hd : div binary32 (toFloat32 (f64 5 10)) (ofRat binary32 2 1) = 1048576000 := by decide!
  have hh : div binary32
      (toFloat32 (add binary64 (f64 4 10)
        (mul binary64 (ofInt binary64 ((max 83886084 1 : Nat) : Int)) (f64 2 10))))
      (ofRat binary32 2 1) = 1258291201 := by decide!
  have hy : sub binary32 1258291201 (toFloat32 (f64 4 10)) = 1258291201 := by decide!
  have hw2 : div binary32 (toFloat32 (f64 15 10)) (ofRat binary32 2 1) = 1061158912 := by
    decide!
  have hd2 : div binary32 (toFloat32 (f64 4 10)) (ofRat binary32 2 1) = 1045220557 := by
    decide!
  have hh2 : div binary32
      (toFloat32 (add binary64 (f64 3 10)
        (mul binary64 (ofInt binary64 ((max 111848112 1 : Nat) : Int)) (f64 15 100))))
      (ofRat binary32 2 1) = 1258291201 := by decide!
  have hy2 : sub binary32 1258291201 (toFloat32 (f64 3 10)) = 1258291201 := by decide!
  refine ⟨⟨hlen, ?_, hy⟩, ⟨hlen2, ?_, hy2⟩, by decide!, by decide!⟩
  · rw [GenerateInterfaceWireframe_box, hlen, hw, hd, hh, hy]
  · rw [GenerateEnumWireframe_box, hlen2, hw2, hd2, hh2, hy2]

/-- C34 (amended). For every interface with at most 83,886,083 operations and
every enum with at most 111,848,111 literals the packed buffer is the box with
corners at `y = -h` (bottom face) and `y = h` (top face) and one divider ring
whose 4 vertices have the common `y = h - header`, for `h` half of the `float32`
box height and the header 0.4 for an interface, 0.3 for an enum; and this `y`
lies strictly between `-h` and `h`. -/
theorem divider_ring_inside (iface : extuml.Interface) (enum : extuml.Enum) (p q : Vec3)
    (hi : iface.Operations.length ≤ 83886083) (he : enum.Literals.length ≤ 111848111) :
    (∃ w h d y : float32,
      (GenerateInterfaceWireframe iface p).2.2
        = createBufferData (boxCornerVertices w h d ++ dividerQuad w d y)
            (boxEdgeIndices ++ dividerRing 8) ∧
      h = div binary32
            (toFloat32 (add binary64 (f64 4 10)
              (mul binary64 (ofInt binary64 ((max iface.Operations.length 1 : Nat) : Int))
                (f64 2 10))))
            (ofRat binary32 2 1) ∧
      y = sub binary32 h (toFloat32 (f64 4 10)) ∧
      lt binary32 (neg binary32 h) y = true ∧ lt binary32 y h = true) ∧
    (∃ w h d y : float32,
      (GenerateEnumWireframe enum q).2.2
        = createBufferData (boxCornerVertices w h d ++ dividerQuad w d y)
            (boxEdgeIndices ++ dividerRing 8) ∧
      h = div binary32
            (toFloat32 (add binary64 (f64 3 10)
              (mul binary64 (ofInt binary64 ((max enum.Literals.length 1 : Nat) : Int))
                (f64 15 100))))
            (ofRat binary32 2 1) ∧
      y = sub binary32 h (toFloat32 (f64 3 10)) ∧
      lt binary32 (neg binary32 h) y = true ∧ lt binary32 y h = true) := by
  constructor
  · obtain ⟨k2, k3⟩ := interface_divider (max iface.Operations.length 1)
      (Nat.le_max_right _ _) (Nat.max_le.2 ⟨hi, by decide⟩)
    exact ⟨_, _, _, _, GenerateInterfaceWireframe_box iface p, rfl, rfl, k3, k2⟩
  · obtain ⟨k2, k3⟩ := enum_divider (max enum.Literals.length 1)
      (Nat.le_max_right _ _) (Nat.max_le.2 ⟨he, by decide⟩)
    exact ⟨_, _, _, _, GenerateEnumWireframe_box enum q, rfl, rfl, k3, k2⟩

theorem divider_ring_inside_witness :
    sampleInterface.Operations.length ≤ 83886083 ∧ sampleEnum.Literals.length ≤ 111848111 ∧
    (∃ w h d y : float32,
      (GenerateInterfaceWireframe sampleInterface ⟨0, 0, 0⟩).2.2
        = createBufferData (boxCornerVertices w h d ++ dividerQuad w d y)
            (boxEdgeIndices ++ dividerRing 8) ∧
      h = div binary32
            (toFloat32 (add binary64 (f64 4 10)
              (mul binary64
                (ofInt binary64 ((max sampleInterface.Operations.length 1 : Nat) : Int))
                (f64 2 10))))
            (ofRat binary32 2 1) ∧
      y = sub binary32 h (toFloat32 (f64 4 10)) ∧
      lt binary32 (neg binary32 h) y = true ∧ lt binary32 y h = true) :=
  ⟨by decide, by decide,
   (divider_ring_inside sampleInterface sampleEnum ⟨0, 0, 0⟩ ⟨0, 0, 0⟩ (by decide)
      (by decide)).1⟩

end

/-! ## Operation lines with typed parameters -/

/-- C35. On the member line `+scale(factor: float): void`, of the form
`name(params): returnType` with the parameter text `factor: float`,
`parseClassMember` appends the operation with Name `scale` and ReturnType
`float): void`, not `void`: it cuts the line at its first colon, which lies
inside the parameter text. On `+area(): float`, without a colon in the
parameter text, the ReturnType is `float`. -/
theorem parseClassMember_typed_parameter :
    (parseClassMember (emptyClass "Shape") "+scale(factor: float): void").Operations
      = [{ Name := "scale", ReturnType := "float): void" }] ∧
    (parseClassMember (emptyClass "Shape") "+scale(factor: float): void").Attributes = [] ∧
    (parseClassMember (emptyClass "Shape") "+area(): float").Operations
      = [{ Name := "area", ReturnType := "float" }] :=
  ⟨rfl, rfl, rfl⟩

/-! ## Operation lines without a colon in the parameter text -/

/-! ## The loader's string functions on lists of characters -/

theorem dropWhile_head_neg (p : Char → Bool) (c : Char) (t : List Char) (h : p c = false) :
    (c :: t).dropWhile p = c :: t := by
  rw [List.dropWhile_cons_of_neg (by simp [h])]

theorem rdropWhile_last_neg (p : Char → Bool) (l : List Char) (z : Char) (h : p z = false) :
    (l ++ [z]).rdropWhile p = l ++ [z] :=
  List.rdropWhile_concat_neg p l z (by simp [h])

/-- Text that starts and ends with a character that is no space is left as it
is by `strings.TrimSpace`. -/
theorem TrimSpace_eq_self (c z : Char) (m : List Char) (hc : unicode.IsSpace c = false)
    (hz : unicode.IsSpace z = false) :
    strings.TrimSpace ⟨c :: (m ++ [z])⟩ = ⟨c :: (m ++ [z])⟩ := by
  unfold strings.TrimSpace
  simp only
  rw [dropWhile_head_neg _ _ _ hc]
  have : c :: (m ++ [z]) = (c :: m) ++ [z] := rfl
  rw [this, rdropWhile_last_neg _ _ _ hz]

theorem indexFrom_single (x : Char) (pre post : List Char) (h : ∀ y ∈ pre, y ≠ x) :
    ∀ i, strings.indexFrom [x] (pre ++ x :: post) i = some (i + pre.length) := by
  induction pre with
  | nil =>
    intro i
    simp [strings.indexFrom, List.isPrefixOf]
  | cons y ys ih =>
    intro i
    have hy : y ≠ x := h y (List.mem_cons_self _ _)
    have hne : (x == y) = false := by simpa using fun e => hy e.symm
    have := ih (fun w hw => h w (List.mem_cons_of_mem _ hw)) (i + 1)
    show strings.indexFrom [x] (y :: (ys ++ x :: post)) i = _
    rw [strings.indexFrom]
    simp only [List.isPrefixOf, hne, Bool.false_and, Bool.false_eq_true, if_false,
      List.length_cons]
    rw [this]
    congr 1
    omega

theorem index_single (x : Char) (pre post : List Char) (h : ∀ y ∈ pre, y ≠ x) :
    strings.Index ⟨pre ++ x :: post⟩ ⟨[x]⟩ = some pre.length := by
  unfold strings.Index
  simp only
  rw [indexFrom_single x pre post h 0, Nat.zero_add]

/-- A line whose text before the first "(" holds no ":" does not start with
"@url:". -/
theorem not_url_line (name rest : List Char) (hn : ∀ x ∈ name, x ≠ ':') :
    strings.HasPrefix ⟨name ++ '(' :: rest⟩ "@url:" = false := by
  unfold strings.HasPrefix
  show List.isPrefixOf ['@', 'u', 'r', 'l', ':'] (name ++ '(' :: rest) = false
  rcases name with _ | ⟨a0, _ | ⟨a1, _ | ⟨a2, _ | ⟨a3, _ | ⟨a4, nm⟩⟩⟩⟩⟩
  · simp [List.isPrefixOf]
  · simp [List.isPrefixOf]
  · simp [List.isPrefixOf]
  · simp [List.isPrefixOf]
  · simp [List.isPrefixOf]
  · have h4 : a4 ≠ ':' := hn a4 (by simp)
    have : (':' == a4) = false := by simpa using fun e => h4 e.symm
    simp [List.isPrefixOf, this]

theorem mk_ne_empty (c : Char) (t : List Char) : ((⟨c :: t⟩ : String) == "") = false := by
  have : (⟨c :: t⟩ : String) ≠ "" := by
    intro h
    have := congrArg String.data h
    simp at this
  simpa using this

/-- The operation that `parseClassMember` appends for a line
`name(params): returnType` without a visibility character, when neither the
name nor the parameter text holds a colon. -/
theorem parseClassMember_plain (cls : extuml.Class) (c : Char) (nm params ret : List Char)
    (hc : unicode.IsSpace c = false) (hv : isVisibility c = false)
    (hn : ∀ x ∈ c :: nm, x ≠ ':' ∧ x ≠ '(') (hp : ∀ x ∈ params, x ≠ ':')
    (hr : ret ≠ []) (hr0 : ∀ x, ret.head? = some x → unicode.IsSpace x = false)
    (hr1 : ∀ x, ret.getLast? = some x → unicode.IsSpace x = false) :
    parseClassMember cls ⟨c :: nm ++ '(' :: params ++ ')' :: ':' :: ' ' :: ret⟩
      = { cls with
          Operations := cls.Operations ++ [{ Name := ⟨c :: nm⟩, ReturnType := ⟨ret⟩ }] } := by
  obtain ⟨r0, rt, hrt⟩ := List.exists_cons_of_ne_nil hr
  obtain ⟨ri, z, hrz⟩ : ∃ ri z, ret = ri ++ [z] :=
    ⟨ret.dropLast, ret.getLast hr, (List.dropLast_append_getLast hr).symm⟩
  have hr0' : unicode.IsSpace r0 = false := hr0 r0 (by rw [hrt]; rfl)
  have hz : unicode.IsSpace z = false := hr1 z (by rw [hrz]; simp)
  have hcore : c :: nm ++ '(' :: params ++ ')' :: ':' :: ' ' :: ret
      = c :: ((nm ++ '(' :: params ++ ')' :: ':' :: ' ' :: ri) ++ [z]) := by
    rw [hrz]; simp
  have hT : strings.TrimSpace ⟨c :: nm ++ '(' :: params ++ ')' :: ':' :: ' ' :: ret⟩
      = ⟨c :: nm ++ '(' :: params ++ ')' :: ':' :: ' ' :: ret⟩ := by
    rw [hcore]; exact TrimSpace_eq_self c z _ hc hz
  have hE : ((⟨c :: nm ++ '(' :: params ++ ')' :: ':' :: ' ' :: ret⟩ : String) == "") = false :=
    mk_ne_empty c _
  have hsplit1 : c :: nm ++ '(' :: params ++ ')' :: ':' :: ' ' :: ret
      = (c :: nm) ++ '(' :: (params ++ ')' :: ':' :: ' ' :: ret) := by simp
  have hU : strings.HasPrefix ⟨c :: nm ++ '(' :: params ++ ')' :: ':' :: ' ' :: ret⟩ "@url:"
      = false := by
    rw [hsplit1]; exact not_url_line _ _ (fun x hx => (hn x hx).1)
  have hV : hasVisibility ⟨c :: nm ++ '(' :: params ++ ')' :: ':' :: ' ' :: ret⟩ = false := hv
  have hC : strings.Contains ⟨c :: nm ++ '(' :: params ++ ')' :: ':' :: ' ' :: ret⟩ "("
      = true := by
    unfold strings.Contains
    rw [hsplit1]
    have := index_single '(' (c :: nm) (params ++ ')' :: ':' :: ' ' :: ret)
      (fun x hx => (hn x hx).2)
    rw [show ("(" : String) = ⟨['(']⟩ from rfl, this]
    rfl
  have hsplit2 : c :: nm ++ '(' :: params ++ ')' :: ':' :: ' ' :: ret
      = (c :: nm ++ '(' :: params ++ [')']) ++ ':' :: (' ' :: ret) := by simp
  have hpre : ∀ x ∈ c :: nm ++ '(' :: params ++ [')'], x ≠ ':' := by
    intro x hx
    simp only [List.cons_append, List.mem_cons, List.mem_append, List.mem_singleton,
      List.not_mem_nil, or_false] at hx
    rcases hx with rfl | (hx | rfl | hx) | rfl
    · exact (hn _ (List.mem_cons_self _ _)).1
    · exact (hn x (List.mem_cons_of_mem _ hx)).1
    · decide
    · exact hp x hx
    · decide
  have hI : strings.Index ⟨c :: nm ++ '(' :: params ++ ')' :: ':' :: ' ' :: ret⟩ ":"
      = some (c :: nm ++ '(' :: params ++ [')']).length := by
    rw [hsplit2, show (":" : String) = ⟨[':']⟩ from rfl]
    exact index_single ':' _ _ hpre
  have hS1 : sliceTo ⟨c :: nm ++ '(' :: params ++ ')' :: ':' :: ' ' :: ret⟩
      (c :: nm ++ '(' :: params ++ [')']).length = ⟨c :: nm ++ '(' :: params ++ [')']⟩ := by
    unfold sliceTo
    simp only
    rw [hsplit2, List.take_left]
  have hS2 : sliceFrom ⟨c :: nm ++ '(' :: params ++ ')' :: ':' :: ' ' :: ret⟩
      ((c :: nm ++ '(' :: params ++ [')']).length + 1) = ⟨' ' :: ret⟩ := by
    unfold sliceFrom
    simp only
    rw [hsplit2, ← List.drop_drop, List.drop_left]
    rfl
  have hT1 : strings.TrimSpace ⟨c :: nm ++ '(' :: params ++ [')']⟩
      = ⟨c :: nm ++ '(' :: params ++ [')']⟩ := by
    have : c :: nm ++ '(' :: params ++ [')'] = c :: ((nm ++ '(' :: params) ++ [')']) := by simp
    rw [this]
    exact TrimSpace_eq_self c ')' _ hc (by decide)
  have hT2 : strings.TrimSpace ⟨' ' :: ret⟩ = ⟨ret⟩ := by
    unfold strings.TrimSpace
    simp only
    rw [List.dropWhile_cons_of_pos (by decide)]
    rw [hrt, dropWhile_head_neg _ _ _ hr0', ← hrt, hrz, rdropWhile_last_neg _ _ _ hz]
  have hsplit3 : c :: nm ++ '(' :: params ++ [')'] = (c :: nm) ++ '(' :: (params ++ [')']) := by
    simp
  have hI2 : strings.Index ⟨c :: nm ++ '(' :: params ++ [')']⟩ "("
      = some (c :: nm).length := by
    rw [hsplit3, show ("(" : String) = ⟨['(']⟩ from rfl]
    exact index_single '(' _ _ (fun x hx => (hn x hx).2)
  have hS3 : sliceTo ⟨c :: nm ++ '(' :: params ++ [')']⟩ (c :: nm).length = ⟨c :: nm⟩ := by
    unfold sliceTo
    simp only
    rw [hsplit3, List.take_left]
  unfold parseClassMember
  simp only [hT, hE, hU, hV, hC, hI, hS1, hS2, hT1, hT2, hI2, hS3, Bool.false_eq_true,
    if_false, if_true]

/-- A leading visibility character is dropped before the member is parsed. -/
theorem parseClassMember_visible (cls : extuml.Class) (v c z : Char) (m : List Char)
    (hv : isVisibility v = true) (hc : unicode.IsSpace c = false)
    (hz : unicode.IsSpace z = false) (hw : isVisibility c = false)
    (hu : strings.HasPrefix ⟨c :: (m ++ [z])⟩ "@url:" = false) :
    parseClassMember cls ⟨v :: c :: (m ++ [z])⟩ = parseClassMember cls ⟨c :: (m ++ [z])⟩ := by
  have hvs : unicode.IsSpace v = false := by
    simp only [isVisibility, Bool.or_eq_true, beq_iff_eq] at hv
    rcases hv with ((rfl | rfl) | rfl) | rfl <;> decide
  have hT : strings.TrimSpace ⟨v :: c :: (m ++ [z])⟩ = ⟨v :: c :: (m ++ [z])⟩ :=
    TrimSpace_eq_self v z (c :: m) hvs hz
  have hT' : strings.TrimSpace ⟨c :: (m ++ [z])⟩ = ⟨c :: (m ++ [z])⟩ :=
    TrimSpace_eq_self c z m hc hz
  have hE : ((⟨v :: c :: (m ++ [z])⟩ : String) == "") = false := mk_ne_empty v _
  have hE' : ((⟨c :: (m ++ [z])⟩ : String) == "") = false := mk_ne_empty c _
  have hU : strings.HasPrefix ⟨v :: c :: (m ++ [z])⟩ "@url:" = false := by
    simp only [isVisibility, Bool.or_eq_true, beq_iff_eq] at hv
    rcases hv with ((rfl | rfl) | rfl) | rfl <;> rfl
  have hV : hasVisibility ⟨v :: c :: (m ++ [z])⟩ = true := hv
  have hV' : hasVisibility ⟨c :: (m ++ [z])⟩ = false := hw
  have hS : sliceFrom ⟨v :: c :: (m ++ [z])⟩ 1 = ⟨c :: (m ++ [z])⟩ := rfl
  rw [parseClassMember, parseClassMember]
  simp only [hT, hT', hE, hE', hU, hV, hV', hS, hu, Bool.false_eq_true, if_false, if_true]
